import Mathlib

/-!
# cachelot: io_buffer and the memcached ASCII protocol handler

A shallow embedding of `src/server/io_buffer.h` and
`src/server/memcached/proto_ascii.cpp`.

* `size_t` is a 64-bit unsigned integer: every `size_t` computation of the
  sources is reduced modulo `2 ^ 64`.
* A byte string (`slice` / `bytes`) is the list of the bytes it views.
* `std::realloc` gives the block it is asked for. Asked for 0 bytes of a buffer
  that has a block, it frees the block and returns the null pointer, and
  `ensure_capacity` throws `std::bad_alloc`; on a well-formed buffer that does
  not happen (`ensure_capacity_error`). Bytes of freshly obtained memory are
  indeterminate in C++ and are NUL here.
* `debug_assert` does not change the state: the functions below are the
  release-build behaviour, and the asserted conditions are collected in
  `io_op.pre`.
-/

namespace cachelot

/-- A byte string: `slice` in io_buffer.h, `bytes` in proto_ascii.cpp. -/
abbrev bytes := List Char

/-- Number of values of a 64-bit `size_t`. -/
def SIZE_RANGE : Nat := 2 ^ 64

/-- Addition of `size_t` values. -/
def size_add (a b : Nat) : Nat := (a + b) % 2 ^ 64

/-- Subtraction of `size_t` values (wraps around below zero). -/
def size_sub (a b : Nat) : Nat := (a + (2 ^ 64 - b % 2 ^ 64)) % 2 ^ 64

/-- Multiplication of `size_t` values. -/
def size_mul (a b : Nat) : Nat := (a * b) % 2 ^ 64

def default_min_buffer_size : Nat := 500

def default_max_buffer_size : Nat := 1024 * 1024 * 30

/-- Exceptions that travel through the modelled code: `system_error` carrying
an error code, and any other `std::exception` carrying its `what()` text. -/
inductive exn (ε : Type) where
  | system_error (code : ε)
  | std_exception (what : bytes)
  deriving DecidableEq, Repr

/-- The text of `std::length_error` thrown by `ensure_capacity`. -/
def length_error_what : bytes := "maximal IO buffer capacity exceeded".toList

/-- The text of `std::bad_alloc` thrown by `ensure_capacity`. -/
def bad_alloc_what : bytes := "std::bad_alloc".toList

/-! ## Byte-string helpers of `slice.h`

`slice.h` is not among the sources; the helpers used by the modelled code
follow the data model of the specification. -/

/-- Modelled from the spec: `slice::search` of slice.h (not in the sources),
"search for a substring (returns empty slice on miss)". The result is the
offset of the first occurrence of `needle`, `none` on a miss. -/
def slice_search : bytes → bytes → Option Nat
  | [], needle => if needle = [] then some 0 else none
  | c :: cs, needle =>
    if needle.isPrefixOf (c :: cs) then some 0
    else (slice_search cs needle).map (· + 1)

/-- Modelled from the spec: `slice::split` of slice.h (not in the sources),
"split at first occurrence of a byte (returns (left, right); if separator
absent, left = whole, right = empty)". -/
def slice_split (s : bytes) (sep : Char) : bytes × bytes :=
  (s.takeWhile (· ≠ sep), (s.dropWhile (· ≠ sep)).drop 1)

/-- Modelled from the spec: `slice::rtrim_n` of slice.h (not in the sources),
"trim by count": drops the last `n` bytes. -/
def rtrim_n (s : bytes) (n : Nat) : bytes := s.take (s.length - n)

/-- Modelled from the spec: `slice::endswith` of slice.h (not in the sources),
the suffix check. -/
def endswith (s suffix : bytes) : Bool := suffix.isSuffixOf s

/-- `std::realloc(data, n)`: the first `min(old, n)` bytes are kept. -/
def realloc (data : bytes) (n : Nat) : bytes :=
  (data ++ List.replicate (n - data.length) '\x00').take n

/-- `std::memcpy(data + pos, v, v.length())`. -/
def memcpy_at (data : bytes) (pos : Nat) (v : bytes) : bytes :=
  data.take pos ++ v ++ data.drop (pos + v.length)

/-! ## io_buffer -/

/-- The members of `class io_buffer`. -/
structure io_buffer where
  m_max_size : Nat
  m_data : bytes
  m_capacity : Nat
  m_read_pos : Nat
  m_write_pos : Nat
  deriving DecidableEq, Repr

namespace io_buffer

def capacity (b : io_buffer) : Nat := b.m_capacity

def size (b : io_buffer) : Nat := b.m_write_pos

def non_read (b : io_buffer) : Nat := size_sub b.m_write_pos b.m_read_pos

def available (b : io_buffer) : Nat := size_sub b.m_capacity b.m_write_pos

/-- The bytes from `begin_read()` up to the write position. -/
def unread (b : io_buffer) : bytes := (b.m_data.drop b.m_read_pos).take b.non_read

/-- The bytes of the buffer from its start up to the write position. -/
def written (b : io_buffer) : bytes := b.m_data.take b.m_write_pos

def confirm_read (b : io_buffer) (num_bytes : Nat) : bytes × io_buffer :=
  ((b.m_data.drop b.m_read_pos).take num_bytes,
   { b with m_read_pos := size_add b.m_read_pos num_bytes })

def read_savepoint (b : io_buffer) : Nat := b.m_read_pos

def rollback_read_transaction (b : io_buffer) (savepoint : Nat) : io_buffer :=
  { b with m_read_pos := savepoint }

def read_all (b : io_buffer) : bytes × io_buffer := b.confirm_read b.non_read

def try_read_until (b : io_buffer) (terminator : bytes) : bytes × io_buffer :=
  let search_range := (b.m_data.drop b.m_read_pos).take b.non_read
  match slice_search search_range terminator with
  | some i =>
    let result := search_range.take (i + terminator.length)
    (result, (b.confirm_read result.length).2)
  | none => ([], b)

def capacity_advice (b : io_buffer) (at_least : Nat) : Nat :=
  let grow_factor :=
    max at_least (max (size_sub (size_mul b.capacity 2) b.available) default_min_buffer_size)
  min (size_add b.capacity grow_factor) b.m_max_size

/-- On `std::length_error` the buffer is left as it was. `std::realloc` gives
the block asked for, except that asked for 0 bytes of a buffer that has a block
it frees the block and returns the null pointer, on which `std::bad_alloc` is
thrown; `after_throw` is the buffer then. A buffer without a block, `m_data`
the null pointer, is one whose `m_data` is empty. -/
def ensure_capacity {ε : Type} (b : io_buffer) (at_least : Nat) : Except (exn ε) io_buffer :=
  if b.available ≥ at_least then .ok b
  else
    let new_capacity := b.capacity_advice at_least
    if size_sub new_capacity b.size ≥ at_least then
      if new_capacity = 0 ∧ b.m_data ≠ [] then .error (.std_exception bad_alloc_what)
      else .ok { b with m_data := realloc b.m_data new_capacity, m_capacity := new_capacity }
    else .error (.std_exception length_error_what)

/-- The buffer after `ensure_capacity` has thrown: `std::bad_alloc` is thrown
after `m_data` was assigned the null pointer, `std::length_error` before any
assignment. -/
def after_throw {ε : Type} (b : io_buffer) : exn ε → io_buffer
  | .std_exception what => if what = bad_alloc_what then { b with m_data := [] } else b
  | .system_error _ => b

/-- The returned pointer is `m_data + m_write_pos` of the resulting buffer. -/
def begin_write {ε : Type} (b : io_buffer) (at_least : Nat) : Except (exn ε) io_buffer :=
  b.ensure_capacity at_least

def confirm_write (b : io_buffer) (num_bytes : Nat) : io_buffer :=
  { b with m_write_pos := size_add b.m_write_pos num_bytes }

def write_savepoint (b : io_buffer) : Nat := b.m_write_pos

def rollback_write_transaction (b : io_buffer) (savepoint : Nat) : io_buffer :=
  { b with m_write_pos := savepoint }

def reset (b : io_buffer) : io_buffer :=
  { b with m_read_pos := 0, m_write_pos := 0 }

def compact (b : io_buffer) : io_buffer :=
  if b.m_read_pos = b.m_write_pos then
    { b with m_read_pos := 0, m_write_pos := 0 }
  else
    let left_unread := size_sub b.m_write_pos b.m_read_pos
    { b with m_data := memcpy_at b.m_data 0 ((b.m_data.drop b.m_read_pos).take left_unread),
             m_read_pos := 0, m_write_pos := left_unread }

/-- The constructor `io_buffer(initial_size, max_size)`; an exception of
`ensure_capacity` leaves no object. -/
def ctor (initial_size max_size : Nat) : Except (exn Unit) io_buffer :=
  let b : io_buffer :=
    { m_max_size := max_size, m_data := [], m_capacity := 0, m_read_pos := 0, m_write_pos := 0 }
  if initial_size > 0 then b.ensure_capacity initial_size else .ok b

/-- The invariant of the data model:
`read_pos ≤ write_pos ≤ capacity ≤ max_size`. -/
def inv (b : io_buffer) : Prop :=
  b.m_read_pos ≤ b.m_write_pos ∧ b.m_write_pos ≤ b.m_capacity ∧ b.m_capacity ≤ b.m_max_size

instance (b : io_buffer) : Decidable b.inv := by unfold inv; infer_instance

end io_buffer

/-- The state-changing public operations of `io_buffer` with their arguments. -/
inductive io_op where
  | ensure_capacity (at_least : Nat)
  | begin_write (at_least : Nat)
  | confirm_write (num_bytes : Nat)
  | confirm_read (num_bytes : Nat)
  | read_all
  | try_read_until (terminator : bytes)
  | read_savepoint
  | write_savepoint
  | rollback_read_transaction (savepoint : Nat)
  | rollback_write_transaction (savepoint : Nat)
  | reset
  | compact
  deriving DecidableEq, Repr

/-- The conditions the operation checks with `debug_assert` (arguments are
`size_t` values). -/
def io_op.pre (b : io_buffer) : io_op → Prop
  | .ensure_capacity n => 0 < n ∧ n < 2 ^ 64
  | .begin_write n => 0 < n ∧ n < 2 ^ 64
  | .confirm_write n => n < 2 ^ 64 ∧ size_add b.m_write_pos n ≤ b.m_capacity
  | .confirm_read n => n < 2 ^ 64 ∧ size_add b.m_read_pos n ≤ b.m_write_pos
  | .read_all => b.m_read_pos ≤ b.m_write_pos
  | .try_read_until t => t ≠ [] ∧ b.m_read_pos ≤ b.m_write_pos
  | .read_savepoint => True
  | .write_savepoint => True
  | .rollback_read_transaction sp => sp ≤ b.m_read_pos ∧ sp ≤ b.m_write_pos
  | .rollback_write_transaction sp => sp ≤ b.m_write_pos ∧ b.m_read_pos ≤ sp
  | .reset => True
  | .compact => b.m_read_pos ≤ b.m_write_pos

instance (b : io_buffer) (o : io_op) : Decidable (o.pre b) := by
  cases o <;> unfold io_op.pre <;> infer_instance

/-- The buffer after the operation, also when the operation throws. -/
def io_op.step (b : io_buffer) : io_op → io_buffer
  | .ensure_capacity n =>
    match (b.ensure_capacity n : Except (exn Unit) io_buffer) with
    | .ok b1 => b1
    | .error e => b.after_throw e
  | .begin_write n =>
    match (b.begin_write n : Except (exn Unit) io_buffer) with
    | .ok b1 => b1
    | .error e => b.after_throw e
  | .confirm_write n => b.confirm_write n
  | .confirm_read n => (b.confirm_read n).2
  | .read_all => b.read_all.2
  | .try_read_until t => (b.try_read_until t).2
  | .read_savepoint => b
  | .write_savepoint => b
  | .rollback_read_transaction sp => b.rollback_read_transaction sp
  | .rollback_write_transaction sp => b.rollback_write_transaction sp
  | .reset => b.reset
  | .compact => b.compact

/-- Runs a sequence of operations; `none` when one of them is called outside
its asserted precondition. -/
def io_run (b : io_buffer) : List io_op → Option io_buffer
  | [] => some b
  | o :: os => if o.pre b then io_run (o.step b) os else none

/-- The bounded growth sequence used to exhibit `size_t` wrap-around in
`ensure_capacity`: fill an 8-byte buffer, then ask for `2 ^ 64 - 7` more. -/
def overflow_ops : List io_op :=
  [.begin_write 8, .confirm_write 8, .ensure_capacity (2 ^ 64 - 7)]

/-- Construct a buffer and drive it with `ops`. -/
def after_ctor (initial_size max_size : Nat) (ops : List io_op) : Option io_buffer :=
  match io_buffer.ctor initial_size max_size with
  | .ok b0 => io_run b0 ops
  | .error _ => none

/-! ## Protocol constants and collaborator types -/

def SPACE : Char := ' '
def CRLF : bytes := "\r\n".toList
def VALUE : bytes := "VALUE".toList
def END : bytes := "END".toList
def NOREPLY : bytes := "noreply".toList
def STAT : bytes := "STAT".toList
def VERSION : bytes := "VERSION".toList
def OK : bytes := "OK".toList
def ERROR : bytes := "ERROR".toList
def CLIENT_ERROR : bytes := "CLIENT_ERROR".toList
def SERVER_ERROR : bytes := "SERVER_ERROR".toList

/-- `cache::Command`: the commands `parse_command_name` returns. -/
inductive Command where
  | ADD | APPEND | CAS | DECR | DELETE | FLUSH_ALL | GET | GETS | INCR
  | PREPEND | QUIT | REPLACE | SET | STATS | TOUCH | VERSION | UNDEFINED
  deriving DecidableEq, Repr

/-- Modelled from the spec: `cache::Response` (`CACHE_RESPONSES_ENUM` is not in
the sources), the response tokens of the specification. -/
inductive Response where
  | STORED | NOT_STORED | EXISTS | NOT_FOUND | DELETED | TOUCHED
  deriving DecidableEq, Repr

/-- The text `operator<<(io_buffer &, cache::Response)` writes: the name of the
enumerator. -/
def Response.token : Response → bytes
  | .STORED => "STORED".toList
  | .NOT_STORED => "NOT_STORED".toList
  | .EXISTS => "EXISTS".toList
  | .NOT_FOUND => "NOT_FOUND".toList
  | .DELETED => "DELETED".toList
  | .TOUCHED => "TOUCHED".toList

/-- `net::ConversationReply`. -/
inductive ConversationReply where
  | READ_MORE | SEND_REPLY_AND_READ | CLOSE_IMMEDIATELY
  deriving DecidableEq, Repr

/-- Modelled from the spec: the error codes (`error.h` is not in the sources).
The codes named in proto_ascii.cpp and in the error table of the
specification. -/
inductive error where
  | incomplete_request | broken_request | numeric_convert | numeric_overflow
  | not_implemented | out_of_memory | unknown_error
  | crlf_expected | value_crlf_expected | value_length | noreply_expected | key_invalid
  deriving DecidableEq, Repr

/-- Modelled from the spec: `code().category() == get_protocol_error_category()`
(`error.h` is not in the sources). The protocol category holds the errors the
specification reports as `CLIENT_ERROR` apart from the numeric ones, which
`handle_received_data` treats in the branch of the other category. -/
def error.is_protocol : error → Bool
  | .crlf_expected | .value_crlf_expected | .value_length
  | .noreply_expected | .key_invalid => true
  | _ => false

/-- An item of the cache as the protocol sees it. -/
structure Item where
  key : bytes
  value : bytes
  opaque_flags : Nat
  expiration : Int
  version : Nat
  deriving DecidableEq, Repr

/-- A call of the cache collaborator with its arguments (the key hash is a
function of the key and is left out). -/
inductive CacheCall where
  | do_get (key : bytes)
  | create_item (key : bytes) (value_length flags : Nat) (keep_alive : Int) (cas_unique : Nat)
  | destroy_item (item : Item)
  | do_storage (cmd : Command) (item : Item)
  | do_delete (key : bytes)
  | do_arithmetic (cmd : Command) (key : bytes) (delta : Nat)
  | do_touch (key : bytes) (keep_alive : Int)
  | do_flush_all
  | publish_stats
  deriving DecidableEq, Repr

/-- The cache collaborator `cache::Cache`, a black box over its own state `σ`:
every operation may change the state and may throw. `stat_get` is `STAT_GET`:
it reads a published counter by its name. -/
structure Cache (σ : Type) where
  do_get : bytes → σ → Except (exn error) (Option Item) × σ
  create_item : bytes → Nat → Nat → Int → Nat → σ → Except (exn error) Item × σ
  destroy_item : Item → σ → σ
  do_storage : Command → Item → σ → Except (exn error) Response × σ
  do_delete : bytes → σ → Except (exn error) Response × σ
  do_arithmetic : Command → bytes → Nat → σ → Except (exn error) (Response × Nat) × σ
  do_touch : bytes → Int → σ → Except (exn error) Response × σ
  do_flush_all : σ → Except (exn error) Unit × σ
  publish_stats : σ → Except (exn error) Unit × σ
  stat_get : σ → bytes → Nat

/-- Constants the handler reads that are declared outside the sources:
`settings.cache.max_value_size`, the message of every error code,
`CACHELOT_VERSION_STRING`, and the counter names that `CACHE_STATS` and
`MEMORY_STATS` list. -/
structure Env where
  max_value_size : Nat
  message : error → bytes
  version_string : bytes
  stat_names : List bytes

/-- What the handlers other than the storage handler can touch: the send buffer
and the cache, with the calls made so far. -/
structure Out (σ : Type) where
  send : io_buffer
  cache : σ
  calls : List CacheCall

/-- Outcome of a piece of code over a state: a value, or a thrown exception;
the state reached is kept in both cases. -/
inductive Res (s α : Type) where
  | ok (a : α) (st : s)
  | throw (e : exn error) (st : s)

/-- Code that runs over a state and may throw. -/
abbrev M (s α : Type) := s → Res s α

def M.pure {s α : Type} (a : α) : M s α := fun st => .ok a st

def M.bind {s α β : Type} (m : M s α) (f : α → M s β) : M s β := fun st =>
  match m st with
  | .ok a st1 => f a st1
  | .throw e st1 => .throw e st1

instance {s : Type} : Monad (M s) where
  pure := M.pure
  bind := M.bind

/-- The statement `throw e`. -/
def raise {s α : Type} (e : exn error) : M s α := fun st => .throw e st

/-- Run code that has no state of its own. -/
def liftE {s α : Type} (x : Except (exn error) α) : M s α := fun st =>
  match x with
  | .ok a => .ok a st
  | .error e => .throw e st

/-- Run code that only touches the send buffer and the cache where the receive
buffer is in scope as well. -/
def liftOut {σ α : Type} (m : M (Out σ) α) : M (io_buffer × Out σ) α := fun st =>
  match m st.2 with
  | .ok a o => .ok a (st.1, o)
  | .throw e o => .throw e (st.1, o)

/-! ## Serialisation into an io_buffer -/

namespace io_buffer

/-- The stream operator `operator<<(io_buffer &, const bytes)`: `begin_write`,
`memcpy` to the returned position `m_data + m_write_pos`, and `complete_write`,
which adds the length to the write position. -/
def write_bytes (b : io_buffer) (value : bytes) : Except (exn error) io_buffer :=
  match b.begin_write value.length with
  | .ok ⟨max_size, data, capacity, read_pos, write_pos⟩ =>
    .ok ⟨max_size, memcpy_at data write_pos value, capacity, read_pos,
      size_add write_pos value.length⟩
  | .error e => .error e

/-- The stream operator `operator<<(io_buffer &, const char)`. -/
def write_char (b : io_buffer) (value : Char) : Except (exn error) io_buffer :=
  match b.begin_write 1 with
  | .ok ⟨max_size, data, capacity, read_pos, write_pos⟩ =>
    .ok ⟨max_size, memcpy_at data write_pos [value], capacity, read_pos, size_add write_pos 1⟩
  | .error e => .error e

/-- Modelled from the spec: `int_to_str` (string_conv.h is not in the sources),
"Integers are decimal ASCII". -/
def int_to_str (x : Nat) : bytes := Nat.toDigits 10 x

/-- The helper `serialize_integer<IntType>`; `max_str_length` is
`internal::numeric<IntType>::max_str_length`. -/
def serialize_integer (b : io_buffer) (max_str_length x : Nat) : Except (exn error) io_buffer :=
  match b.begin_write max_str_length with
  | .ok ⟨max_size, data, capacity, read_pos, write_pos⟩ =>
    .ok ⟨max_size, memcpy_at data write_pos (int_to_str x), capacity, read_pos,
      size_add write_pos (int_to_str x).length⟩
  | .error e => .error e

end io_buffer

/-- Modelled from the spec: `internal::numeric<uint32>::max_str_length`
(string_conv.h is not in the sources), the number of decimal digits of the
largest `uint32`. -/
def max_str_length_uint32 : Nat := 10

/-- Modelled from the spec: `internal::numeric<uint64>::max_str_length`
(string_conv.h is not in the sources), the number of decimal digits of the
largest `uint64`. -/
def max_str_length_uint64 : Nat := 20

/-- Lift a write on the send buffer to the handler state. -/
def on_send {σ : Type} (w : io_buffer → Except (exn error) io_buffer) : M (Out σ) Unit :=
  fun ⟨send, cache, calls⟩ =>
    match w send with
    | .ok b => .ok () ⟨b, cache, calls⟩
    | .error e => .throw e ⟨send, cache, calls⟩

def send_bytes {σ : Type} (v : bytes) : M (Out σ) Unit := on_send (·.write_bytes v)

def send_char {σ : Type} (c : Char) : M (Out σ) Unit := on_send (·.write_char c)

/-- The stream operator for `uint32`; the value written is a `uint32`. -/
def send_uint32 {σ : Type} (x : Nat) : M (Out σ) Unit :=
  on_send (·.serialize_integer max_str_length_uint32 (x % 2 ^ 32))

/-- The stream operator for `uint64`; the value written is a `uint64`. -/
def send_uint64 {σ : Type} (x : Nat) : M (Out σ) Unit :=
  on_send (·.serialize_integer max_str_length_uint64 (x % 2 ^ 64))

/-- Call a cache operation: the call is recorded, the new cache state is kept
and an exception of the cache is thrown on. -/
def call_cache {σ α : Type} (c : CacheCall) (op : σ → Except (exn error) α × σ) : M (Out σ) α :=
  fun ⟨send, cache, calls⟩ =>
    match op cache with
    | (.ok a, st) => .ok a ⟨send, st, calls ++ [c]⟩
    | (.error e, st) => .throw e ⟨send, st, calls ++ [c]⟩

/-! ## Parsing helpers -/

/-- The indexing operator of `bytes`. -/
def byte_at (s : bytes) (i : Nat) : Char := s.getD i '\x00'

def is_3 (literal cmd : bytes) : Bool :=
  byte_at cmd 1 == byte_at literal 1 && byte_at cmd 2 == byte_at literal 2

def is_4 (literal cmd : bytes) : Bool := is_3 literal cmd && byte_at cmd 3 == byte_at literal 3

def is_5 (literal cmd : bytes) : Bool := is_4 literal cmd && byte_at cmd 4 == byte_at literal 4

def is_6 (literal cmd : bytes) : Bool := is_5 literal cmd && byte_at cmd 5 == byte_at literal 5

def is_7 (literal cmd : bytes) : Bool := is_6 literal cmd && byte_at cmd 6 == byte_at literal 6

/-- The test `std::strncmp(literal, cmd.begin(), n) == 0` for a literal without a
NUL among its first `n` bytes: the first `n` bytes are equal. -/
def strncmp_eq (literal cmd : bytes) (n : Nat) : Bool := cmd.take n == literal.take n

/-- The function `parse_command_name`: a switch on the length, then on the
first byte, then the comparison of the remaining bytes. -/
def parse_command_name (command : bytes) : Command :=
  if command ≠ [] then
    let first_char := byte_at command 0
    match command.length with
    | 3 =>
      if first_char = 'a' then (if is_3 "add".toList command then .ADD else .UNDEFINED)
      else if first_char = 'c' then (if is_3 "cas".toList command then .CAS else .UNDEFINED)
      else if first_char = 'g' then (if is_3 "get".toList command then .GET else .UNDEFINED)
      else if first_char = 's' then (if is_3 "set".toList command then .SET else .UNDEFINED)
      else .UNDEFINED
    | 4 =>
      if first_char = 'd' then (if is_4 "decr".toList command then .DECR else .UNDEFINED)
      else if first_char = 'g' then (if is_4 "gets".toList command then .GETS else .UNDEFINED)
      else if first_char = 'i' then (if is_4 "incr".toList command then .INCR else .UNDEFINED)
      else if first_char = 'q' then (if is_4 "quit".toList command then .QUIT else .UNDEFINED)
      else .UNDEFINED
    | 5 =>
      if first_char = 't' then (if is_5 "touch".toList command then .TOUCH else .UNDEFINED)
      else if first_char = 's' then (if is_5 "stats".toList command then .STATS else .UNDEFINED)
      else .UNDEFINED
    | 6 =>
      if first_char = 'a' then (if is_6 "append".toList command then .APPEND else .UNDEFINED)
      else if first_char = 'd' then (if is_6 "delete".toList command then .DELETE else .UNDEFINED)
      else .UNDEFINED
    | 7 =>
      if first_char = 'p' then (if is_7 "prepend".toList command then .PREPEND else .UNDEFINED)
      else if first_char = 'r' then (if is_7 "replace".toList command then .REPLACE else .UNDEFINED)
      else if first_char = 'v' then (if is_7 "version".toList command then .VERSION else .UNDEFINED)
      else .UNDEFINED
    | 9 => if strncmp_eq "flush_all".toList command 9 then .FLUSH_ALL else .UNDEFINED
    | _ => .UNDEFINED
  else .UNDEFINED

/-- The command table of the specification: every name with its command. -/
def command_table : List (bytes × Command) :=
  [("add".toList, .ADD), ("cas".toList, .CAS), ("get".toList, .GET), ("set".toList, .SET),
   ("decr".toList, .DECR), ("gets".toList, .GETS), ("incr".toList, .INCR),
   ("quit".toList, .QUIT), ("touch".toList, .TOUCH), ("stats".toList, .STATS),
   ("append".toList, .APPEND), ("delete".toList, .DELETE), ("prepend".toList, .PREPEND),
   ("replace".toList, .REPLACE), ("version".toList, .VERSION),
   ("flush_all".toList, .FLUSH_ALL)]

/-- The command the table gives for a name, `UNDEFINED` when the name is not in
the table. -/
def table_command (name : bytes) : Command := (command_table.lookup name).getD .UNDEFINED

/-- Modelled from the spec: a control byte for `validate_key` (not in the
sources). -/
def is_control (c : Char) : Bool := c.toNat < 32 || c.toNat == 127

/-- Modelled from the spec: `validate_key` (not in the sources), "A key must be
non-empty, at most 250 bytes, and contain no control bytes or spaces"; the
error is `KeyInvalid`. -/
def validate_key (key : bytes) : Except (exn error) Unit :=
  if key = [] ∨ key.length > 250 ∨ key.any (fun c => is_control c || c == ' ') then
    .error (.system_error .key_invalid)
  else .ok ()

def parse_key (args : bytes) : Except (exn error) (bytes × bytes) :=
  let (key, args) := slice_split args SPACE
  match validate_key key with
  | .ok _ => .ok (key, args)
  | .error e => .error e

def maybe_noreply (args : bytes) : Except (exn error) Bool :=
  if args = [] then .ok false
  else if args = NOREPLY then .ok true
  else .error (.system_error .noreply_expected)

/-- The number a string of decimal digits denotes. -/
def digits_value (s : bytes) : Nat := s.foldl (fun acc c => acc * 10 + (c.toNat - 48)) 0

/-- Modelled from the spec: `str_to_int` for an unsigned type with largest value
`max_value` (string_conv.h is not in the sources), "Integers are decimal
ASCII"; a text that is not a number is `NumericConvert`, a number out of range
is `NumericOverflow`. -/
def str_to_uint (max_value : Nat) (s : bytes) : Except (exn error) Nat :=
  if s = [] ∨ ¬ s.all Char.isDigit then .error (.system_error .numeric_convert)
  else if digits_value s > max_value then .error (.system_error .numeric_overflow)
  else .ok (digits_value s)

/-- Modelled from the spec: `str_to_int` for the signed 64-bit
`cache::seconds::rep` (string_conv.h is not in the sources): an optional minus
sign and decimal digits. -/
def str_to_int64 (s : bytes) : Except (exn error) Int :=
  match s with
  | '-' :: rest =>
    match str_to_uint (2 ^ 63) rest with
    | .ok v => .ok (- (v : Int))
    | .error e => .error e
  | _ =>
    match str_to_uint (2 ^ 63 - 1) s with
    | .ok v => .ok (v : Int)
    | .error e => .error e

def UINT32_MAX : Nat := 2 ^ 32 - 1

def UINT64_MAX : Nat := 2 ^ 64 - 1

/-! ## Command handlers -/

section handlers

variable {σ : Type}

def reply_with_response (response : Response) (noreply : Bool) : M (Out σ) ConversationReply :=
  if ¬ noreply then do
    send_bytes response.token
    send_bytes CRLF
    pure .SEND_REPLY_AND_READ
  else pure .READ_MORE

/-- The `VALUE` block `handle_retrieval_command` writes for an item found. -/
def send_item (cmd : Command) (i : Item) : M (Out σ) Unit := do
  send_bytes VALUE
  send_char SPACE
  send_bytes i.key
  send_char SPACE
  send_uint32 i.opaque_flags
  send_char SPACE
  send_uint32 i.value.length
  (if cmd = .GETS then do
    send_char SPACE
    send_uint64 i.version
  else pure ())
  send_bytes CRLF
  send_bytes i.value
  send_bytes CRLF

/-- The `do ... while (not args.empty())` loop of `handle_retrieval_command`;
every round consumes at least one byte of a non-empty `args`, so
`args.length + 1` rounds are never used up. -/
def retrieval_loop (cache : Cache σ) (cmd : Command) : Nat → bytes → M (Out σ) Unit
  | 0, _ => raise (.std_exception [])
  | fuel + 1, args => do
    let (key, args) ← liftE (parse_key args)
    let i ← call_cache (.do_get key) (cache.do_get key)
    (match i with
    | some item => send_item cmd item
    | none => pure ())
    (if args ≠ [] then retrieval_loop cache cmd fuel args else pure ())

def handle_retrieval_command (cache : Cache σ) (cmd : Command) (args : bytes) :
    M (Out σ) ConversationReply := do
  retrieval_loop cache cmd (args.length + 1) args
  send_bytes END
  send_bytes CRLF
  pure .SEND_REPLY_AND_READ

/-- The arguments of a storage command line. -/
structure StorageHeader where
  key : bytes
  flags : Nat
  keep_alive_duration : Int
  datalen : Nat
  cas_unique : Nat
  noreply : Bool
  deriving DecidableEq, Repr

/-- The first part of `handle_storage_command`, up to `maybe_noreply`: it reads
the argument text only. -/
def parse_storage_header (env : Env) (cmd : Command) (args : bytes) :
    Except (exn error) StorageHeader := do
  let (key, args) ← parse_key args
  let (parsed, args) := slice_split args SPACE
  let flags ← str_to_uint UINT32_MAX parsed
  let (parsed, args) := slice_split args SPACE
  let keep_alive_duration ← str_to_int64 parsed
  let (parsed, args) := slice_split args SPACE
  let datalen ← str_to_uint UINT32_MAX parsed
  if datalen > env.max_value_size then
    throw (.system_error .value_length)
  let (cas_unique, args) ←
    (if cmd = .CAS then
      let (parsed, args) := slice_split args SPACE
      match str_to_uint UINT64_MAX parsed with
      | .ok v => .ok (v, args)
      | .error e => .error e
    else .ok (0, args) : Except (exn error) (Nat × bytes))
  let noreply ← maybe_noreply args
  pure ⟨key, flags, keep_alive_duration, datalen, cas_unique, noreply⟩

/-- The block `try { ... } catch (...) { cleanup; throw; }`. -/
def try_catch_all {s α : Type} (m : M s α) (cleanup : s → s) : M s α := fun st =>
  match m st with
  | .ok a st1 => .ok a st1
  | .throw e st1 => .throw e (cleanup st1)

/-- The second part of `handle_storage_command`, from "read <value>\r\n" on. -/
def store_value (cache : Cache σ) (cmd : Command) (h : StorageHeader) :
    M (io_buffer × Out σ) ConversationReply := fun st =>
  let recv_buf := st.1
  if recv_buf.non_read < h.datalen + CRLF.length then
    match recv_buf.ensure_capacity (size_sub (h.datalen + CRLF.length) recv_buf.non_read) with
    | .ok r1 => .throw (.system_error .incomplete_request) (r1, st.2)
    | .error e => .throw e st
  else
    let value := (recv_buf.m_data.drop recv_buf.m_read_pos).take (h.datalen + CRLF.length)
    if endswith value CRLF then
      let value := rtrim_n value CRLF.length
      let recv1 := (recv_buf.confirm_read (h.datalen + CRLF.length)).2
      liftOut (do
        let new_item ← call_cache
          (.create_item h.key value.length h.flags h.keep_alive_duration h.cas_unique)
          (cache.create_item h.key value.length h.flags h.keep_alive_duration h.cas_unique)
        let new_item := { new_item with value := value }
        try_catch_all (do
            let response ← call_cache (.do_storage cmd new_item) (cache.do_storage cmd new_item)
            reply_with_response response h.noreply)
          (fun o => { o with cache := cache.destroy_item new_item o.cache,
                             calls := o.calls ++ [.destroy_item new_item] })) (recv1, st.2)
    else .throw (.system_error .value_crlf_expected) st

def handle_storage_command (env : Env) (cache : Cache σ) (cmd : Command) (args : bytes) :
    M (io_buffer × Out σ) ConversationReply := do
  let h ← liftE (parse_storage_header env cmd args)
  store_value cache cmd h

def handle_delete_command (cache : Cache σ) (args : bytes) : M (Out σ) ConversationReply := do
  let (key, args) ← liftE (parse_key args)
  let noreply ← liftE (maybe_noreply args)
  let response ← call_cache (.do_delete key) (cache.do_delete key)
  reply_with_response response noreply

def handle_arithmetic_command (cache : Cache σ) (cmd : Command) (args : bytes) :
    M (Out σ) ConversationReply := do
  let (key, args) ← liftE (parse_key args)
  let (parsed, args) := slice_split args SPACE
  let delta ← liftE (str_to_uint UINT64_MAX parsed)
  let noreply ← liftE (maybe_noreply args)
  let (response, new_value) ←
    call_cache (.do_arithmetic cmd key delta) (cache.do_arithmetic cmd key delta)
  if noreply then pure .READ_MORE
  else do
    (if response = .STORED then do
      send_uint64 new_value
      send_bytes CRLF
    else do
      send_bytes response.token
      send_bytes CRLF)
    pure .SEND_REPLY_AND_READ

def handle_touch_command (cache : Cache σ) (args : bytes) : M (Out σ) ConversationReply := do
  let (key, args) ← liftE (parse_key args)
  let (parsed, args) := slice_split args SPACE
  let keep_alive_duration ← liftE (str_to_int64 parsed)
  let noreply ← liftE (maybe_noreply args)
  let response ← call_cache (.do_touch key keep_alive_duration) (cache.do_touch key keep_alive_duration)
  reply_with_response response noreply

/-- The lines `SERIALIZE_STAT` writes, one for every counter of the tables. -/
def send_stats (cache : Cache σ) : List bytes → M (Out σ) Unit
  | [] => pure ()
  | stat_name :: rest => do
    send_bytes STAT
    send_char SPACE
    send_bytes stat_name
    send_char SPACE
    (fun o => send_uint64 (cache.stat_get o.cache stat_name) o)
    send_bytes CRLF
    send_stats cache rest

def handle_statistics_command (env : Env) (cache : Cache σ) (args : bytes) :
    M (Out σ) ConversationReply := do
  if args ≠ [] then
    raise (.system_error .not_implemented)
  else do
    call_cache .publish_stats cache.publish_stats
    send_stats cache env.stat_names
    send_bytes END
    send_bytes CRLF
    pure .SEND_REPLY_AND_READ

def handle_version_command (env : Env) (args : bytes) : M (Out σ) ConversationReply := do
  if args ≠ [] then
    raise (.system_error .crlf_expected)
  else do
    send_bytes VERSION
    send_char ' '
    send_bytes env.version_string
    send_bytes CRLF
    pure .SEND_REPLY_AND_READ

def handle_flush_all_command (cache : Cache σ) (args : bytes) : M (Out σ) ConversationReply := do
  let noreply ← liftE (maybe_noreply args)
  call_cache .do_flush_all cache.do_flush_all
  if noreply then pure .READ_MORE
  else do
    send_bytes OK
    send_bytes CRLF
    pure .SEND_REPLY_AND_READ

/-- The `switch (command)` of `handle_received_data` for the commands that are
handled by a handler; `none` for `QUIT` and for an unknown command. -/
def dispatch (env : Env) (cache : Cache σ) (command : Command) (args : bytes) :
    Option (M (io_buffer × Out σ) ConversationReply) :=
  match command with
  | .GET | .GETS => some (liftOut (handle_retrieval_command cache command args))
  | .ADD | .APPEND | .CAS | .PREPEND | .REPLACE | .SET =>
    some (handle_storage_command env cache command args)
  | .DELETE => some (liftOut (handle_delete_command cache args))
  | .INCR | .DECR => some (liftOut (handle_arithmetic_command cache command args))
  | .TOUCH => some (liftOut (handle_touch_command cache args))
  | .STATS => some (liftOut (handle_statistics_command env cache args))
  | .VERSION => some (liftOut (handle_version_command env args))
  | .FLUSH_ALL => some (liftOut (handle_flush_all_command cache args))
  | .QUIT => none
  | .UNDEFINED => none

/-- The `try` block of `handle_received_data`. `cleanup` of the receive buffer
is `io_buffer::compact` ("discard all data that was read"); it is skipped by
the early `return` of `QUIT`. -/
def handle_body (env : Env) (cache : Cache σ) : M (io_buffer × Out σ) ConversationReply :=
  fun st =>
    let (header, recv1) := st.1.try_read_until CRLF
    if header = [] then .throw (.system_error .incomplete_request) (recv1, st.2)
    else
      let header := rtrim_n header CRLF.length
      let (ascii_cmd, args) := slice_split header SPACE
      let command := parse_command_name ascii_cmd
      match dispatch env cache command args with
      | some handler =>
        match handler (recv1, st.2) with
        | .ok reply st1 => .ok reply (st1.1.compact, st1.2)
        | .throw e st1 => .throw e st1
      | none =>
        if command = .QUIT then .ok .CLOSE_IMMEDIATELY (recv1, st.2)
        else .throw (.system_error .broken_request) (recv1, st.2)

/-- What `handle_received_data` leaves behind when it returns. -/
structure Outcome (σ : Type) where
  reply : ConversationReply
  recv : io_buffer
  send : io_buffer
  cache : σ
  calls : List CacheCall

/-- The reply line `<kind> <message>\r\n` written by a `catch` block. -/
def write_error_line (send_buf : io_buffer) (kind message : bytes) :
    Except (exn error) io_buffer := do
  let b ← send_buf.write_bytes kind
  let b ← b.write_char SPACE
  let b ← b.write_bytes message
  b.write_bytes CRLF

/-- The function `handle_received_data`. It is `noexcept`: an exception thrown
inside a `catch` block leaves the function and ends the process
(`std::terminate`), which is the result `none`. -/
def handle_received_data (env : Env) (cache : Cache σ) (recv_buf send_buf : io_buffer)
    (cache_state : σ) : Option (Outcome σ) :=
  let r_savepoint := recv_buf.read_savepoint
  let w_savepoint := send_buf.write_savepoint
  match handle_body env cache (recv_buf, ⟨send_buf, cache_state, []⟩) with
  | .ok reply st => some ⟨reply, st.1, st.2.send, st.2.cache, st.2.calls⟩
  | .throw (.system_error code) st =>
    let send1 := st.2.send.rollback_write_transaction w_savepoint
    let errmsg := env.message code
    if code.is_protocol then
      match write_error_line send1 CLIENT_ERROR errmsg with
      | .ok send2 => some ⟨.SEND_REPLY_AND_READ, st.1.reset, send2, st.2.cache, st.2.calls⟩
      | .error _ => none
    else
      match code with
      | .incomplete_request =>
        some ⟨.READ_MORE, st.1.rollback_read_transaction r_savepoint, send1, st.2.cache,
          st.2.calls⟩
      | .broken_request =>
        match (do let b ← send1.write_bytes ERROR; b.write_bytes CRLF :
            Except (exn error) io_buffer) with
        | .ok send2 => some ⟨.SEND_REPLY_AND_READ, st.1.reset, send2, st.2.cache, st.2.calls⟩
        | .error _ => none
      | .numeric_convert | .numeric_overflow =>
        match write_error_line send1 CLIENT_ERROR errmsg with
        | .ok send2 => some ⟨.SEND_REPLY_AND_READ, st.1, send2, st.2.cache, st.2.calls⟩
        | .error _ => none
      | _ =>
        match write_error_line send1 SERVER_ERROR errmsg with
        | .ok send2 => some ⟨.SEND_REPLY_AND_READ, st.1, send2, st.2.cache, st.2.calls⟩
        | .error _ => none
  | .throw (.std_exception what) st =>
    let send1 := st.2.send.rollback_write_transaction w_savepoint
    match write_error_line send1 SERVER_ERROR what with
    | .ok send2 => some ⟨.SEND_REPLY_AND_READ, st.1, send2, st.2.cache, st.2.calls⟩
    | .error _ => none

end handlers

/-! ## A concrete collaborator for the worked examples -/

/-- The item stored under `key`, if any. -/
def find_item (key : bytes) : List Item → Option Item
  | [] => none
  | i :: rest => if i.key = key then some i else find_item key rest

/-- A cache without state of its own that holds the given items: lookups find
them, every storage command answers `STORED`, `delete` and `touch` answer by
the presence of the key, arithmetic answers `NOT_FOUND`; nothing throws. -/
def fixed_cache (items : List Item) : Cache Unit where
  do_get := fun key _ => (.ok (find_item key items), ())
  create_item := fun key _ flags keep_alive cas_unique _ =>
    (.ok ⟨key, [], flags, keep_alive, cas_unique⟩, ())
  destroy_item := fun _ _ => ()
  do_storage := fun _ _ _ => (.ok .STORED, ())
  do_delete := fun key _ =>
    match find_item key items with
    | some _ => (.ok .DELETED, ())
    | none => (.ok .NOT_FOUND, ())
  do_arithmetic := fun _ _ _ _ => (.ok (.NOT_FOUND, 0), ())
  do_touch := fun key _ _ =>
    match find_item key items with
    | some _ => (.ok .TOUCHED, ())
    | none => (.ok .NOT_FOUND, ())
  do_flush_all := fun _ => (.ok (), ())
  publish_stats := fun _ => (.ok (), ())
  stat_get := fun _ _ => items.length

/-- Settings for the worked examples: values of at most 1024 bytes. -/
def example_env : Env where
  max_value_size := 1024
  message := fun e =>
    match e with
    | .key_invalid => "Invalid key".toList
    | .noreply_expected => "noreply expected".toList
    | .crlf_expected => "CRLF expected".toList
    | .value_crlf_expected => "CRLF expected after value".toList
    | .value_length => "Value is too long".toList
    | .numeric_convert => "Not a number".toList
    | .numeric_overflow => "Number is too big".toList
    | .not_implemented => "Not implemented".toList
    | _ => "Error".toList
  version_string := "1.0".toList
  stat_names := ["curr_items".toList]

/-- A buffer of the given maximal size that holds exactly `content`, all of it
unread. -/
def buffer_with (max_size : Nat) (content : bytes) : io_buffer :=
  { m_max_size := max_size, m_data := content, m_capacity := content.length,
    m_read_pos := 0, m_write_pos := content.length }

/-- A buffer whose cursors satisfy the invariant, whose memory has exactly
`capacity` bytes and whose maximal size is at most `2 ^ 62`, so that the
`size_t` computations of `ensure_capacity` stay below `2 ^ 64` for requests
below `2 ^ 62`. -/
def io_buffer.sound (b : io_buffer) : Prop :=
  b.inv ∧ b.m_data.length = b.m_capacity ∧ b.m_max_size ≤ 2 ^ 62

instance (b : io_buffer) : Decidable b.sound := by unfold io_buffer.sound; infer_instance

/-- The texts of the environment that reach the send buffer are shorter than
`2 ^ 32` bytes. -/
def Env.small (env : Env) : Prop :=
  env.version_string.length < 2 ^ 32 ∧ ∀ n ∈ env.stat_names, n.length < 2 ^ 32

/-- The items the cache hands out have keys and values shorter than `2 ^ 32`
bytes. -/
def Cache.small {σ : Type} (cache : Cache σ) : Prop :=
  ∀ key st i, (cache.do_get key st).1 = .ok (some i) →
    i.key.length < 2 ^ 32 ∧ i.value.length < 2 ^ 32

/-- The state a piece of code ends in, whether it returns or throws. -/
def Res.state {s α : Type} : Res s α → s
  | .ok _ st => st
  | .throw _ st => st

/-- The send buffer `b1` continues `b`: same limits and read position, and what
was written to `b` is still there, possibly followed by more. -/
def io_buffer.extends_to (b b1 : io_buffer) : Prop :=
  b1.sound ∧ b1.m_max_size = b.m_max_size ∧ b1.m_read_pos = b.m_read_pos ∧
    ∃ v, b1.written = b.written ++ v

/-- The command name of a request line: the bytes before the first space. -/
def command_name (line : bytes) : bytes := (slice_split line SPACE).1

/-- The arguments of a request line: the bytes after the first space. -/
def command_args (line : bytes) : bytes := (slice_split line SPACE).2

/-- The commands handled by `handle_storage_command`. -/
def Command.is_storage : Command → Bool
  | .ADD | .APPEND | .CAS | .PREPEND | .REPLACE | .SET => true
  | _ => false

/-- Number of bytes that follow a request line in its frame: `bytes + 2` (the
payload and its CRLF) for a storage line whose arguments parse, nothing for
every other line. -/
def payload_size (env : Env) (line : bytes) : Nat :=
  if (parse_command_name (command_name line)).is_storage then
    match parse_storage_header env (parse_command_name (command_name line)) (command_args line) with
    | .ok h => h.datalen + CRLF.length
    | .error _ => 0
  else 0

/-- A request frame: a line without CRLF inside, its CRLF, and the payload
bytes the line announces. Every well-formed request is such a frame. -/
def is_frame (env : Env) (frame : bytes) : Prop :=
  ∃ line body, frame = line ++ CRLF ++ body ∧ ¬ CRLF <:+: line ∧
    body.length = payload_size env line

/-- The reply line the `catch` blocks of `handle_received_data` write for an
exception other than `incomplete_request`. -/
def error_line (env : Env) : exn error → bytes
  | .system_error code =>
    if code.is_protocol then CLIENT_ERROR ++ SPACE :: env.message code ++ CRLF
    else
      match code with
      | .broken_request => ERROR ++ CRLF
      | .numeric_convert | .numeric_overflow => CLIENT_ERROR ++ SPACE :: env.message code ++ CRLF
      | _ => SERVER_ERROR ++ SPACE :: env.message code ++ CRLF
  | .std_exception what => SERVER_ERROR ++ SPACE :: what ++ CRLF

/-- The message text of an exception: `code().message()` or `what()`. -/
def exn_text (env : Env) : exn error → bytes
  | .system_error code => env.message code
  | .std_exception what => what

/-- What a call of `handle_received_data` does apart from moving `recv`: the
verdict, the send buffer, the cache state and the cache calls. -/
def Outcome.effect {σ : Type} (o : Outcome σ) :
    ConversationReply × io_buffer × σ × List CacheCall :=
  (o.reply, o.send, o.cache, o.calls)

/-- The pattern shared by the stream operators: `begin_write(reserve)`, copy
`v` to the returned position, `confirm_write(v.length())`. -/
def io_buffer.reserve_and_copy (b : io_buffer) (reserve : Nat) (v : bytes) :
    Except (exn error) io_buffer :=
  match b.begin_write reserve with
  | .ok ⟨max_size, data, capacity, read_pos, write_pos⟩ =>
    .ok ⟨max_size, memcpy_at data write_pos v, capacity, read_pos, size_add write_pos v.length⟩
  | .error e => .error e

/-- Every outcome of `m` is related to the state it started in by `R`, and a
returned value satisfies `P`. -/
def M.keeps {s α : Type} (R : s → s → Prop) (P : α → Prop) (m : M s α) : Prop :=
  ∀ st, match m st with
    | .ok a st1 => R st st1 ∧ P a
    | .throw _ st1 => R st st1

/-- A relation between send buffers, read on handler states. -/
def on_out {σ : Type} (S : io_buffer → io_buffer → Prop) (o o1 : Out σ) : Prop :=
  S o.send o1.send

/-- A relation between send buffers, read on the states of the whole handler. -/
def on_pair {σ : Type} (S : io_buffer → io_buffer → Prop)
    (st st1 : io_buffer × Out σ) : Prop :=
  S st.2.send st1.2.send

/-- A sound send buffer is continued by the later one. -/
def grows (b b1 : io_buffer) : Prop := b.sound → b.extends_to b1

/-- The send buffer is untouched. -/
def same_buffer (b b1 : io_buffer) : Prop := b1 = b

/-- A handler that either writes a reply and says so, or says `READ_MORE` and
leaves the send buffer alone; `send_of` picks the send buffer of the state. -/
def quiet_or_reply {s : Type} (send_of : s → io_buffer) (m : M s ConversationReply) : Prop :=
  ∀ st, match m st with
    | .ok r st1 => r = .SEND_REPLY_AND_READ ∨ (r = .READ_MORE ∧ send_of st1 = send_of st)
    | .throw _ _ => True

/-- A handler that says `SEND_REPLY_AND_READ` whenever it returns. -/
def always_replies {s : Type} (m : M s ConversationReply) : Prop :=
  ∀ st, match m st with
    | .ok r _ => r = .SEND_REPLY_AND_READ
    | .throw _ _ => True

/-- What `handle_received_data` does with a header line once it is read and
its CRLF is stripped: the `switch` and, unless the command is `quit`, the
`cleanup` of the receive buffer. -/
def run_command {σ : Type} (env : Env) (cache : Cache σ) (line : bytes) :
    M (io_buffer × Out σ) ConversationReply := fun st =>
  match dispatch env cache (parse_command_name (command_name line)) (command_args line) with
  | some handler =>
    match handler st with
    | .ok reply st1 => .ok reply (st1.1.compact, st1.2)
    | .throw e st1 => .throw e st1
  | none =>
    if parse_command_name (command_name line) = .QUIT then .ok .CLOSE_IMMEDIATELY st
    else .throw (.system_error .broken_request) st

/-- The writes of the `catch` blocks of `handle_received_data` for an exception
other than `incomplete_request`, on the send buffer already rolled back. -/
def write_error_reply (env : Env) (x : exn error) (send1 : io_buffer) :
    Except (exn error) io_buffer :=
  match x with
  | .system_error code =>
    if code.is_protocol then write_error_line send1 CLIENT_ERROR (env.message code)
    else
      match code with
      | .broken_request => do
        let b ← send1.write_bytes ERROR
        b.write_bytes CRLF
      | .numeric_convert | .numeric_overflow =>
        write_error_line send1 CLIENT_ERROR (env.message code)
      | _ => write_error_line send1 SERVER_ERROR (env.message code)
  | .std_exception what => write_error_line send1 SERVER_ERROR what

/-- The receive buffer the `catch` blocks leave for an exception other than
`incomplete_request`: reset for a protocol error and for a broken request,
untouched otherwise. -/
def recv_after_error (x : exn error) (recv1 : io_buffer) : io_buffer :=
  match x with
  | .system_error code =>
    if code.is_protocol then recv1.reset
    else
      match code with
      | .broken_request => recv1.reset
      | _ => recv1
  | .std_exception _ => recv1

/-- The outcome of `handle_received_data` in terms of the outcome of its `try`
block. -/
def outcome_of_body {σ : Type} (env : Env) (recv_buf send_buf : io_buffer)
    (body : Res (io_buffer × Out σ) ConversationReply) (out : Outcome σ) : Prop :=
  match body with
  | .ok reply st =>
    out.reply = reply ∧ out.recv = st.1 ∧ out.send = st.2.send ∧ out.cache = st.2.cache ∧
      out.calls = st.2.calls
  | .throw x st =>
    out.cache = st.2.cache ∧ out.calls = st.2.calls ∧
    if x = .system_error .incomplete_request then
      out.reply = .READ_MORE ∧
        out.recv = st.1.rollback_read_transaction recv_buf.m_read_pos ∧
        out.send = st.2.send.rollback_write_transaction send_buf.m_write_pos
    else
      out.reply = .SEND_REPLY_AND_READ ∧ out.recv = recv_after_error x st.1 ∧
        write_error_reply env x (st.2.send.rollback_write_transaction send_buf.m_write_pos) =
          .ok out.send

/-- The receive buffer once a header line of `n` bytes and its CRLF are read. -/
def io_buffer.after_line (b : io_buffer) (n : Nat) : io_buffer :=
  { b with m_read_pos := size_add b.m_read_pos (n + CRLF.length) }

/-- The unread bytes start with a complete line: `line`, CRLF, then `rest`,
and `line` is what comes before the first CRLF. -/
def holds_line (recv_buf : io_buffer) (line rest : bytes) : Prop :=
  recv_buf.unread = line ++ CRLF ++ rest ∧ ¬ CRLF <:+: line

/-- The outcome of `delete k noreply\r\n` in the worked examples: the command is
consumed, the cache is asked to delete `k`, nothing is written. -/
def delete_noreply_outcome : Outcome Unit :=
  ⟨.READ_MORE, ⟨64, "delete k noreply\r\n".toList, 18, 0, 0⟩, buffer_with 64 "abc".toList, (),
    [.do_delete "k".toList]⟩

/-- A receive buffer whose first two bytes were read before the call and that
holds `delete k noreply\r\n` unread. -/
def recv_past_two : io_buffer :=
  ⟨64, "__delete k noreply\r\n".toList, 20, 2, 20⟩

/-- The outcome of a call on a receive buffer that holds the incomplete line
`get k`: everything is as at entry. -/
def incomplete_outcome : Outcome Unit :=
  ⟨.READ_MORE, buffer_with 64 "get k".toList, buffer_with 64 "abc".toList, (), []⟩

/-- The item of the worked examples: key `foo`, value `hello`, flags 3, cas 7. -/
def foo_item : Item := ⟨"foo".toList, "hello".toList, 3, 0, 7⟩

/-- A request whose first key hits and whose second key is a control byte. -/
def get_hit_then_bad_key : bytes := "get foo \x01\r\n".toList

/-- The outcome of a piece of the handler without the receive buffer. -/
def Res.forget {σ α : Type} : Res (io_buffer × Out σ) α → Res (Out σ) α
  | .ok a st => .ok a st.2
  | .throw e st => .throw e st.2

/-- The size argument of an operation is at most `2 ^ 62`, far below the values
at which a `size_t` sum wraps around. -/
def io_op.small : io_op → Prop
  | .ensure_capacity n => n ≤ 2 ^ 62
  | .begin_write n => n ≤ 2 ^ 62
  | .confirm_write n => n ≤ 2 ^ 62
  | .confirm_read n => n ≤ 2 ^ 62
  | _ => True

/-! ## Vocabulary of the statements about single commands

The definitions below describe inputs and outputs in the words of the protocol
description (fields of a line, keys, reply blocks); they are what the code above
is compared with. -/

/-- The needle `t` occurs in `u` at offset `i` and at no smaller offset. -/
def first_occurrence (u t : bytes) (i : Nat) : Prop :=
  t <+: u.drop i ∧ ∀ j, j < i → ¬ t <+: u.drop j

/-- The reply line of a client fault: `CLIENT_ERROR`, a space, the message of
the error code, CRLF. -/
def client_error_line (env : Env) (code : error) : bytes :=
  CLIENT_ERROR ++ SPACE :: env.message code ++ CRLF

/-- The error codes the protocol description counts as faults of the client. -/
def error.is_client_fault : error → Bool
  | .noreply_expected | .crlf_expected | .key_invalid | .value_length | .value_crlf_expected
  | .numeric_convert | .numeric_overflow => true
  | _ => false

/-- The commands that take a key. -/
def Command.takes_key : Command → Bool
  | .GET | .GETS | .ADD | .APPEND | .CAS | .PREPEND | .REPLACE | .SET | .DELETE | .INCR | .DECR
  | .TOUCH => true
  | _ => false

/-- A key as the protocol description wants it: 1 to 250 bytes, none of them a
control byte or a space. -/
def valid_key (k : bytes) : Prop :=
  1 ≤ k.length ∧ k.length ≤ 250 ∧ ∀ c ∈ k, is_control c = false ∧ c ≠ ' '

/-- The first `n` space-separated fields of an argument text, and what is left
after them. -/
def split_fields : Nat → bytes → List bytes × bytes
  | 0, s => ([], s)
  | n + 1, s => ((slice_split s SPACE).1 :: (split_fields n (slice_split s SPACE).2).1,
      (split_fields n (slice_split s SPACE).2).2)

/-- The fields `key flags exptime bytes [cas_unique]` of a storage line that is
well-formed up to its `noreply` clause, and the text left for that clause; the
`cas_unique` field is read for `cas` only and is 0 otherwise. -/
def storage_fields (env : Env) (cmd : Command) (args : bytes) : Option (StorageHeader × bytes) :=
  match split_fields 4 args with
  | ([k, f, e, n], rest) =>
    match validate_key k, str_to_uint UINT32_MAX f, str_to_int64 e, str_to_uint UINT32_MAX n with
    | .ok _, .ok flags, .ok exptime, .ok datalen =>
      if datalen > env.max_value_size then none
      else if cmd = .CAS then
        match str_to_uint UINT64_MAX (slice_split rest SPACE).1 with
        | .ok cas_unique =>
          some (⟨k, flags, exptime, datalen, cas_unique, false⟩, (slice_split rest SPACE).2)
        | .error _ => none
      else some (⟨k, flags, exptime, datalen, 0, false⟩, rest)
    | _, _, _, _ => none
  | _ => none

/-- The text a command line leaves for its `noreply` clause when the fields
before it are well-formed: everything for `flush_all`, what follows the key for
`delete`, what follows key and number for `touch`, `incr` and `decr`, what
follows the storage fields for a storage command. -/
def noreply_clause (env : Env) (cmd : Command) (args : bytes) : Option bytes :=
  match cmd with
  | .FLUSH_ALL => some args
  | .DELETE =>
    match split_fields 1 args with
    | ([k], t) =>
      match validate_key k with
      | .ok _ => some t
      | .error _ => none
    | _ => none
  | .TOUCH =>
    match split_fields 2 args with
    | ([k, e], t) =>
      match validate_key k, str_to_int64 e with
      | .ok _, .ok _ => some t
      | _, _ => none
    | _ => none
  | .INCR | .DECR =>
    match split_fields 2 args with
    | ([k, d], t) =>
      match validate_key k, str_to_uint UINT64_MAX d with
      | .ok _, .ok _ => some t
      | _, _ => none
    | _ => none
  | .ADD | .APPEND | .CAS | .PREPEND | .REPLACE | .SET =>
    (storage_fields env cmd args).map (·.2)
  | _ => none

/-- The send buffer of `o1` is the one of `o` with `v` appended. -/
def Out.reaches {σ : Type} (o o1 : Out σ) (v : bytes) : Prop :=
  o1.send.sound ∧ o1.send.m_max_size = o.send.m_max_size ∧
    o1.send.m_read_pos = o.send.m_read_pos ∧
    o1.send.m_write_pos = o.send.m_write_pos + v.length ∧
    o1.send.written = o.send.written ++ v

/-- Whenever the send buffer is well-formed and may grow by `n` bytes, `m`
returns `a`, appends exactly `v` to the send buffer and leaves the cache
alone. -/
def M.emits {σ α : Type} (m : M (Out σ) α) (a : α) (v : bytes) (n : Nat) : Prop :=
  ∀ o, o.send.sound → o.send.m_write_pos + n ≤ o.send.m_max_size →
    ∃ o1, m o = .ok a o1 ∧ o.reaches o1 v ∧ o1.cache = o.cache ∧ o1.calls = o.calls

/-- The fields of an item fit the types they are sent with: `uint32` flags, a
value length that survives the cast to `uint32`, a `uint64` version. -/
def Item.typed (i : Item) : Prop :=
  i.opaque_flags < 2 ^ 32 ∧ i.value.length < 2 ^ 32 ∧ i.version < 2 ^ 64

instance (i : Item) : Decidable i.typed := by unfold Item.typed; infer_instance

/-- The block of a retrieval reply for one item:
`VALUE <key> <flags> <value_len>[ <cas>]\r\n<value>\r\n`, with `<cas>` for
`gets` only. -/
def value_block (cmd : Command) (i : Item) : bytes :=
  "VALUE ".toList ++ i.key ++ " ".toList ++ io_buffer.int_to_str i.opaque_flags ++ " ".toList ++
    io_buffer.int_to_str i.value.length ++
    (if cmd = .GETS then " ".toList ++ io_buffer.int_to_str i.version else []) ++
    "\r\n".toList ++ i.value ++ "\r\n".toList

/-- The blocks of the items found, in the order of the lookups. -/
def value_blocks (cmd : Command) : List (Option Item) → bytes
  | [] => []
  | none :: rest => value_blocks cmd rest
  | some i :: rest => value_block cmd i ++ value_blocks cmd rest

/-- The lookups of the keys in their order, each on the cache state the one
before left: the results and the final cache state, if no lookup throws. -/
def get_all {σ : Type} (cache : Cache σ) : List bytes → σ → Option (List (Option Item) × σ)
  | [], st => some ([], st)
  | k :: ks, st =>
    match cache.do_get k st with
    | (.ok i, st1) =>
      match get_all cache ks st1 with
      | some (r, st2) => some (i :: r, st2)
      | none => none
    | (.error _, _) => none

/-- The keys separated by single spaces. -/
def keys_text : List bytes → bytes
  | [] => []
  | [k] => k
  | k :: k2 :: ks => k ++ SPACE :: keys_text (k2 :: ks)

/-- The keys, each followed by a space, and then `more`. -/
def keys_then : List bytes → bytes → bytes
  | [], more => more
  | k :: ks, more => k ++ SPACE :: keys_then ks more

/-- The items the cache hands out have fields that fit the types they are sent
with. -/
def Cache.typed {σ : Type} (cache : Cache σ) : Prop :=
  ∀ key st i, (cache.do_get key st).1 = .ok (some i) → i.typed

/-- The line `get <args>` or `gets <args>`. -/
def retrieval_line (cmd : Command) (args : bytes) : bytes :=
  (if cmd = .GETS then "gets ".toList else "get ".toList) ++ args

instance (k : bytes) : Decidable (valid_key k) := by unfold valid_key; infer_instance

/-! ## Vocabulary of the statements about growth and rollback -/

/-- The buffer `io_buffer(8, 8)` after `begin_write(8)`, the bytes `abcdefgh`
copied to the returned position, and `confirm_write(8)`. -/
def full8 : io_buffer := ⟨8, "abcdefgh".toList, 8, 0, 8⟩

/-- One write as the callers do it: `begin_write(at_least)`, bytes `v` stored at
the returned position, `confirm_write(num_bytes)`. -/
def write_step (b : io_buffer) (at_least : Nat) (v : bytes) (num_bytes : Nat) :
    Except (exn Unit) io_buffer :=
  match (b.begin_write at_least : Except (exn Unit) io_buffer) with
  | .ok ⟨max_size, data, capacity, read_pos, write_pos⟩ =>
    .ok (io_buffer.confirm_write ⟨max_size, memcpy_at data write_pos v, capacity, read_pos,
      write_pos⟩ num_bytes)
  | .error e => .error e

/-- A sequence of writes; it ends at the first `begin_write` that throws, with
the buffer the throw leaves. -/
def write_run (b : io_buffer) : List (Nat × bytes × Nat) → io_buffer
  | [] => b
  | (n, v, k) :: rest =>
    match write_step b n v k with
    | .ok b1 => write_run b1 rest
    | .error e => b.after_throw e

/-- A cache that cannot store: `do_storage` throws `out_of_memory`, the case
the `catch (...)` block of `handle_storage_command` is there for; the other
operations are those of `fixed_cache []`. -/
def exhausted_cache : Cache Unit where
  do_get := (fixed_cache []).do_get
  create_item := (fixed_cache []).create_item
  destroy_item := (fixed_cache []).destroy_item
  do_storage := fun _ _ _ => (.error (.system_error .out_of_memory), ())
  do_delete := (fixed_cache []).do_delete
  do_arithmetic := (fixed_cache []).do_arithmetic
  do_touch := (fixed_cache []).do_touch
  do_flush_all := (fixed_cache []).do_flush_all
  publish_stats := (fixed_cache []).publish_stats
  stat_get := (fixed_cache []).stat_get

/-- The errors after which `handle_received_data` calls `recv_buf.reset()`:
those of the protocol category and `broken_request`. -/
def resets_recv : exn error → Bool
  | .system_error code => code.is_protocol || code == .broken_request
  | .std_exception _ => false

/-- A cache that stores and returns items: its state is the list of the items
stored, newest first; every storage command stores the item and answers
`STORED`, lookups find the newest item with the key; nothing throws. -/
def storing_cache : Cache (List Item) where
  do_get := fun key items => (.ok (find_item key items), items)
  create_item := fun key _ flags keep_alive cas_unique items =>
    (.ok ⟨key, [], flags, keep_alive, cas_unique⟩, items)
  destroy_item := fun _ items => items
  do_storage := fun _ item items => (.ok .STORED, item :: items)
  do_delete := fun key items =>
    match find_item key items with
    | some _ => (.ok .DELETED, items.filter (fun i => i.key ≠ key))
    | none => (.ok .NOT_FOUND, items)
  do_arithmetic := fun _ _ _ items => (.ok (.NOT_FOUND, 0), items)
  do_touch := fun key _ items =>
    match find_item key items with
    | some _ => (.ok .TOUCHED, items)
    | none => (.ok .NOT_FOUND, items)
  do_flush_all := fun _ => (.ok (), [])
  publish_stats := fun items => (.ok (), items)
  stat_get := fun items _ => items.length

/-- Two calls of `handle_received_data` in a row: the second one works on the
buffers and the cache state the first one left. -/
def handle_twice {σ : Type} (env : Env) (cache : Cache σ) (recv_buf send_buf : io_buffer)
    (cache_state : σ) : Option (Outcome σ) :=
  match handle_received_data env cache recv_buf send_buf cache_state with
  | some out => handle_received_data env cache out.recv out.send out.cache
  | none => none

/-- Modelled from the spec: the link a block carries for "a single intrusive
doubly-linked list" (`memalloc::block` of memalloc.h is not in the sources):
the addresses of the previous and the next link. -/
structure link where
  prev : Nat
  next : Nat
  deriving DecidableEq, Repr

/-- Modelled from the spec: the memory the links live in, the link stored at
every address ("prev/next in LRU", kept "via `arena_offset` indices"). -/
abbrev link_memory := Nat → link

/-- Modelled from the spec: a write of the link at address `i` (memalloc.h is
not in the sources). -/
def set_link (m : link_memory) (i : Nat) (v : link) : link_memory :=
  fun j => if j = i then v else m j

/-- Modelled from the spec: the write `i->next = v` (memalloc.h is not in the
sources). -/
def set_next (m : link_memory) (i v : Nat) : link_memory := set_link m i ⟨(m i).prev, v⟩

/-- Modelled from the spec: the write `i->prev = v` (memalloc.h is not in the
sources). -/
def set_prev (m : link_memory) (i v : Nat) : link_memory := set_link m i ⟨v, (m i).next⟩

namespace block_list

/-- Modelled from the spec: the constructor of `memalloc::block_list`
(memalloc.h is not in the sources). The list is a ring through the link
`anchor` the list object owns, which is what lets the static `unlink` of the
test work on the block alone; an empty list is the anchor linked to itself. -/
def init (m : link_memory) (anchor : Nat) : link_memory := set_link m anchor ⟨anchor, anchor⟩

/-- Modelled from the spec: `block_list::empty` (memalloc.h is not in the
sources). -/
def empty (m : link_memory) (anchor : Nat) : Bool := (m anchor).next == anchor

/-- Modelled from the spec: `block_list::front` (memalloc.h is not in the
sources), the block after the anchor. -/
def front (m : link_memory) (anchor : Nat) : Nat := (m anchor).next

/-- Modelled from the spec: `block_list::back` (memalloc.h is not in the
sources), the block before the anchor. -/
def back (m : link_memory) (anchor : Nat) : Nat := (m anchor).prev

/-- Modelled from the spec: `block_list::is_head` (memalloc.h is not in the
sources). -/
def is_head (m : link_memory) (anchor b : Nat) : Bool := (m anchor).next == b

/-- Modelled from the spec: `block_list::is_tail` (memalloc.h is not in the
sources). -/
def is_tail (m : link_memory) (anchor b : Nat) : Bool := (m anchor).prev == b

/-- Modelled from the spec: `block_list::push_front` (memalloc.h is not in the
sources), "re-inserts at the head": the four pointer writes that put the link
of `b` between the anchor and the old first link. -/
def push_front (m : link_memory) (anchor b : Nat) : link_memory :=
  let m1 := set_next m b (m anchor).next
  let m2 := set_prev m1 (m1 b).next b
  let m3 := set_prev m2 b anchor
  set_next m3 anchor b

/-- Modelled from the spec: `block_list::push_back` (memalloc.h is not in the
sources): the four pointer writes that put the link of `b` between the old last
link and the anchor. -/
def push_back (m : link_memory) (anchor b : Nat) : link_memory :=
  let m1 := set_prev m b (m anchor).prev
  let m2 := set_next m1 (m1 b).prev b
  let m3 := set_next m2 b anchor
  set_prev m3 anchor b

/-- Modelled from the spec: the static `block_list::unlink` (memalloc.h is not
in the sources), "`touch` unlinks": the neighbours of `b` are linked to each
other, and `b` is left linked to itself. -/
def unlink (m : link_memory) (b : Nat) : link_memory :=
  let m1 := set_next m (m b).prev (m b).next
  let m2 := set_prev m1 (m1 b).next (m1 b).prev
  set_link m2 b ⟨b, b⟩

/-- Modelled from the spec: `block_list::pop_front` (memalloc.h is not in the
sources): unlink the first block and return it. -/
def pop_front (m : link_memory) (anchor : Nat) : Nat × link_memory :=
  (front m anchor, unlink m (front m anchor))

/-- Modelled from the spec: `block_list::pop_back` (memalloc.h is not in the
sources), "the eviction path walks from the tail": unlink the last block and
return it. -/
def pop_back (m : link_memory) (anchor : Nat) : Nat × link_memory :=
  (back m anchor, unlink m (back m anchor))

end block_list

/-- The link at `x` points forward to `y` and the link at `y` points back to
`x`. -/
def linked (m : link_memory) (x y : Nat) : Prop := (m x).next = y ∧ (m y).prev = x

instance (m : link_memory) (x y : Nat) : Decidable (linked m x y) := by
  unfold linked; infer_instance

/-- The links lead from `x` through the blocks of `l`, in their order, to `z`,
and back. -/
def chain (m : link_memory) : Nat → List Nat → Nat → Prop
  | x, [], z => linked m x z
  | x, y :: l, z => linked m x y ∧ chain m y l z

instance chain_decidable (m : link_memory) : ∀ (l : List Nat) (x z : Nat),
    Decidable (chain m x l z)
  | [], x, z => by unfold chain; infer_instance
  | y :: l, x, z => by
    unfold chain
    have := chain_decidable m l y z
    infer_instance

/-- The list with anchor `anchor` holds exactly the blocks of `l`, front
first: the links form a ring from the anchor through `l` back to the anchor,
and no block is in it twice. -/
def block_list.holds (m : link_memory) (anchor : Nat) (l : List Nat) : Prop :=
  (anchor :: l).Nodup ∧ chain m anchor l anchor

instance (m : link_memory) (anchor : Nat) (l : List Nat) :
    Decidable (block_list.holds m anchor l) := by
  unfold block_list.holds; infer_instance

/-- The calls of `test_block_list` on blocks 1, 2, 3 with the anchor at 0: the
truth values the test checks, each written so that the test expects `true`, and
the blocks it compares with `front()`, `back()` and the popped block. -/
def test_block_list : List Bool × List Nat :=
  let m0 := block_list.init (fun _ => ⟨0, 0⟩) 0
  let m1 := block_list.push_front m0 0 1
  let p1 := block_list.pop_back m1 0
  let m2 := block_list.push_back p1.2 0 1
  let p2 := block_list.pop_front m2 0
  let m3 := block_list.push_back (block_list.push_front (block_list.push_front p2.2 0 1) 0 2) 0 3
  let m4 := block_list.unlink m3 1
  let p3 := block_list.pop_front m4 0
  let m5 := block_list.unlink p3.2 3
  ([block_list.empty m0 0, !block_list.empty m1 0, block_list.is_head m1 0 1,
    block_list.is_tail m1 0 1, block_list.empty p1.2 0, block_list.is_head m2 0 1,
    block_list.is_tail m2 0 1, block_list.empty p2.2 0, !block_list.empty m3 0,
    block_list.is_head m3 0 2, block_list.is_tail m3 0 3, !block_list.empty m4 0,
    block_list.is_head m4 0 2, block_list.is_tail m4 0 3, !block_list.empty p3.2 0,
    block_list.is_head p3.2 0 3, block_list.is_tail p3.2 0 3, block_list.empty m5 0],
   [block_list.front m1 0, block_list.back m1 0, p1.1, block_list.back m2 0,
    block_list.front m2 0, p2.1, block_list.front m3 0, block_list.back m3 0,
    block_list.front m4 0, block_list.back m4 0, p3.1, block_list.front p3.2 0,
    block_list.back p3.2 0])

/-! ## memalloc

`memalloc.h` is not among the sources; `memalloc_stress_test` in
`test_memalloc.cpp` shows the interface: the constructor over an arena,
`alloc_or_evict(size, true, on_evict)`, `free(ptr)` and
`realloc_inplace(ptr, size)`. A pointer is written as the arena offset of its
block. -/

/-- Modelled from the spec: a block of the arena (`memalloc::block` of
memalloc.h is not in the sources), "a boundary-tagged span within the arena,
either free or used": `size` "is the payload size", and the block at offset
`addr` spans `size + META_SIZE` bytes. -/
structure memalloc.block where
  addr : Nat
  size : Nat
  used : Bool
  deriving DecidableEq, Repr

/-- Modelled from the spec: the constants of memalloc (memalloc.h is not in
the sources), whose values the spec leaves open: `ALIGNMENT`, `META_SIZE`,
`MIN_BLOCK_SIZE`, the "coarse-grained bucket mapping" from a size to its size
class, and which used blocks eviction takes: the spec has both "for each
victim" of the LRU index and "a victim ... whose payload is large enough", so
the test on the victim (the needed size, the victim between its two
neighbours) is left open as well. -/
structure memalloc.settings where
  ALIGNMENT : Nat
  META_SIZE : Nat
  MIN_BLOCK_SIZE : Nat
  size_class : Nat → Nat
  victim : Nat → memalloc.block → memalloc.block → memalloc.block → Bool

/-- Modelled from the spec: the state of a memalloc (memalloc.h is not in the
sources). `arena` is "a doubly-linked list of boundary-tagged blocks" in
address order, the two sentinels included; `free_list` is the "segregated
free-list table" written as the offsets of the free blocks, the one pushed last
first, so that the list of one size class is the blocks of that class in this
order; `lru` is the "single intrusive doubly-linked list over used blocks", the
most recently used first. -/
structure memalloc where
  arena : List memalloc.block
  free_list : List Nat
  lru : List Nat
  deriving DecidableEq, Repr

namespace memalloc

/-- Modelled from the spec: the construction of a memalloc (memalloc.h is not
in the sources): it "writes two sentinel blocks at the two ends and initializes
the interior as a single free block covering the whole interior"; "sentinels
have size = 0 and are always marked used". -/
def create (c : settings) (arena_size : Nat) : memalloc :=
  { arena := [⟨0, 0, true⟩, ⟨c.META_SIZE, arena_size - 3 * c.META_SIZE, false⟩,
      ⟨arena_size - c.META_SIZE, 0, true⟩],
    free_list := [c.META_SIZE],
    lru := [] }

/-- Modelled from the spec: step 1 of the allocation algorithm (memalloc.h is
not in the sources): "round size up to ALIGNMENT, clamp to ≥ MIN_BLOCK_SIZE". -/
def round_size (c : settings) (size : Nat) : Nat :=
  max ((size + c.ALIGNMENT - 1) / c.ALIGNMENT * c.ALIGNMENT) c.MIN_BLOCK_SIZE

/-- Modelled from the spec: the boundary tags (memalloc.h is not in the
sources): the block at offset `p` with its left and its right neighbour. The
sentinels have no two neighbours and are not found. -/
def neighbours (p : Nat) : List block → Option (block × block × block)
  | a :: b :: d :: rest =>
    if b.addr = p then some (a, b, d) else neighbours p (b :: d :: rest)
  | _ => none

/-- Modelled from the spec: the update of the boundary tags (memalloc.h is not
in the sources): the arena with the block at offset `p` and its two neighbours
replaced by the blocks `w`. -/
def splice (p : Nat) (w : List block) : List block → List block
  | a :: b :: d :: rest =>
    if b.addr = p then w ++ rest else a :: splice p w (b :: d :: rest)
  | l => l

/-- Modelled from the spec: the size class of the block at offset `p`
(memalloc.h is not in the sources), "derived from a block's size". -/
def class_at (c : settings) (arena : List block) (p : Nat) : Option Nat :=
  (arena.find? (fun b => b.addr == p)).map (fun b => c.size_class b.size)

/-- Modelled from the spec: step 2 of the allocation algorithm (memalloc.h is
not in the sources): "compute the size class for the requested size. Consult
the bitmap to find the lowest non-empty class ≥ the requested class; if found,
pop its head block". -/
def find_free (c : settings) (arena : List block) (free_list : List Nat) (need : Nat) :
    Option Nat :=
  match free_list.filter (fun p =>
      match class_at c arena p with
      | some k => decide (c.size_class need ≤ k)
      | none => false) with
  | [] => none
  | p :: ps =>
    let lowest := ps.foldl (fun k q => min k ((class_at c arena q).getD 0))
      ((class_at c arena p).getD 0)
    (p :: ps).find? (fun q => (class_at c arena q).getD 0 == lowest)

/-- Modelled from the spec: step 3 and 4 of the allocation algorithm on the
arena (memalloc.h is not in the sources): "if the popped block is too large
(leftover ≥ MIN_BLOCK_SIZE + META_SIZE), split it: take a prefix of exactly the
needed size, make the remainder a new free block"; "mark the block used". -/
def alloc_window (c : settings) (need : Nat) (a b d : block) : List block :=
  if need + (c.MIN_BLOCK_SIZE + c.META_SIZE) ≤ b.size then
    [a, ⟨b.addr, need, true⟩, ⟨b.addr + c.META_SIZE + need, b.size - need - c.META_SIZE, false⟩, d]
  else [a, ⟨b.addr, b.size, true⟩, d]

/-- Modelled from the spec: `memalloc::alloc` (memalloc.h is not in the
sources), the allocation algorithm: the block found is taken from the free
list, the remainder of a split is pushed "into its size class", and the block
is threaded "into the LRU index"; "on failure, returns null without
evicting". -/
def alloc (c : settings) (m : memalloc) (size : Nat) : Option Nat × memalloc :=
  match find_free c m.arena m.free_list (round_size c size) with
  | none => (none, m)
  | some p =>
    match neighbours p m.arena with
    | none => (none, m)
    | some (a, b, d) =>
      (some p,
       { arena := splice p (alloc_window c (round_size c size) a b d) m.arena,
         free_list :=
           if round_size c size + (c.MIN_BLOCK_SIZE + c.META_SIZE) ≤ b.size then
             (b.addr + c.META_SIZE + round_size c size) :: m.free_list.erase p
           else m.free_list.erase p,
         lru := p :: m.lru })

/-- Modelled from the spec: coalescing on the arena (memalloc.h is not in the
sources): "inspect the left and right neighbor blocks via boundary tags. For
each neighbor that is free, ... absorb its span". -/
def free_window (c : settings) (a b d : block) : List block :=
  match a.used, d.used with
  | true, true => [a, ⟨b.addr, b.size, false⟩, d]
  | true, false => [a, ⟨b.addr, b.size + c.META_SIZE + d.size, false⟩]
  | false, true => [⟨a.addr, a.size + c.META_SIZE + b.size, false⟩, d]
  | false, false => [⟨a.addr, a.size + c.META_SIZE + b.size + c.META_SIZE + d.size, false⟩]

/-- Modelled from the spec: the free index on coalescing (memalloc.h is not in
the sources): "for each neighbor that is free, unlink it from its size-class
list". -/
def unlink_free (free_list : List Nat) (x : block) : List Nat :=
  if x.used then free_list else free_list.erase x.addr

/-- Modelled from the spec: `memalloc::free` (memalloc.h is not in the
sources): "return payload's block to the free pool. Must coalesce with
immediate free neighbors (left and/or right ...), producing a single merged
block, updating the segregated index accordingly": each free neighbour is
unlinked "from its size-class list" and the resulting block is pushed. -/
def free (c : settings) (m : memalloc) (p : Nat) : memalloc :=
  match neighbours p m.arena with
  | none => m
  | some (a, b, d) =>
    { arena := splice p (free_window c a b d) m.arena,
      free_list :=
        (if a.used then b.addr else a.addr) :: unlink_free (unlink_free m.free_list a) d,
      lru := m.lru.erase p }

/-- Modelled from the spec: `memalloc::realloc_inplace` (memalloc.h is not in
the sources): "either shrink (possibly splitting off a trailing free block that
is merged with its right free neighbor if any) or grow by consuming an adjacent
free right neighbor. Returns true on success, false if in-place resize is not
possible. Never moves the block." -/
def realloc_inplace (c : settings) (m : memalloc) (p : Nat) (new_size : Nat) :
    Bool × memalloc :=
  match neighbours p m.arena with
  | none => (false, m)
  | some (a, b, d) =>
    if round_size c new_size ≤ b.size then
      if round_size c new_size + (c.MIN_BLOCK_SIZE + c.META_SIZE) ≤ b.size then
        (true,
         { arena := splice p
             (if d.used then
                [a, ⟨b.addr, round_size c new_size, true⟩,
                 ⟨b.addr + c.META_SIZE + round_size c new_size,
                  b.size - round_size c new_size - c.META_SIZE, false⟩, d]
              else
                [a, ⟨b.addr, round_size c new_size, true⟩,
                 ⟨b.addr + c.META_SIZE + round_size c new_size,
                  b.size - round_size c new_size - c.META_SIZE + c.META_SIZE + d.size, false⟩])
             m.arena,
           free_list := (b.addr + c.META_SIZE + round_size c new_size) ::
             unlink_free m.free_list d,
           lru := m.lru })
      else (true, m)
    else if !d.used && decide (round_size c new_size ≤ b.size + c.META_SIZE + d.size) then
      (true,
       { arena := splice p [a, ⟨b.addr, b.size + c.META_SIZE + d.size, true⟩] m.arena,
         free_list := m.free_list.erase d.addr,
         lru := m.lru })
    else (false, m)

/-- Modelled from the spec: the eviction algorithm (memalloc.h is not in the
sources) over the victims, the oldest first: "call on_evict(victim_payload_ptr)
..., free the victim (with coalescing), retry the normal allocation path. If it
succeeds, return the new pointer. Otherwise, continue to the next victim. If
the LRU index is exhausted without success, return null." The pointers given to
`on_evict` are returned in the order of the calls. -/
def evict (c : settings) (size : Nat) : List Nat → memalloc → Option Nat × List Nat × memalloc
  | [], m => (none, [], m)
  | v :: vs, m =>
    match neighbours v m.arena with
    | none => evict c size vs m
    | some (a, b, d) =>
      if c.victim (round_size c size) a b d then
        match alloc c (free c m v) size with
        | (some p, m2) => (some p, [v], m2)
        | (none, _) =>
          ((evict c size vs (free c m v)).1, v :: (evict c size vs (free c m v)).2.1,
           (evict c size vs (free c m v)).2.2)
      else evict c size vs m

/-- Modelled from the spec: `memalloc::alloc_or_evict` (memalloc.h is not in
the sources): "same as alloc, but when no suitable free block exists and
may_evict == true" the eviction algorithm walks "the LRU index from oldest
forward". -/
def alloc_or_evict (c : settings) (m : memalloc) (size : Nat) (may_evict : Bool) :
    Option Nat × List Nat × memalloc :=
  match alloc c m size with
  | (some p, m2) => (some p, [], m2)
  | (none, _) => if may_evict then evict c size m.lru.reverse m else (none, [], m)

end memalloc

/-- One step of the loop of `memalloc_stress_test`, with the random choice
made: an `alloc_or_evict` of a size, the `free` of a pointer, or the
`realloc_inplace` of a pointer to a size. -/
inductive stress_op where
  | alloc (size : Nat)
  | free (ptr : Nat)
  | realloc (ptr : Nat) (size : Nat)
  deriving DecidableEq, Repr

/-- The removal of a pointer from the vector `allocations` in
`memalloc_stress_test`: the last pointer is moved to its place and the vector
loses its last element; a pointer that is not in it leaves it as it is. -/
def swap_remove (allocations : List Nat) (mem : Nat) : List Nat :=
  if mem ∈ allocations then
    (allocations.set (allocations.indexOf mem) (allocations.getLastD 0)).dropLast
  else allocations

/-- The steps of `memalloc_stress_test` on the allocator and the vector
`allocations`: the callback of `alloc_or_evict` removes every evicted pointer
from the vector and a new pointer is pushed back; `free` and `realloc_inplace`
are called on a pointer of the vector only, and the freed one is removed. -/
def stress_step (c : memalloc.settings) (s : memalloc × List Nat) :
    stress_op → memalloc × List Nat
  | .alloc size =>
    ((memalloc.alloc_or_evict c s.1 size true).2.2,
     (memalloc.alloc_or_evict c s.1 size true).2.1.foldl swap_remove s.2 ++
       (memalloc.alloc_or_evict c s.1 size true).1.toList)
  | .free p => if p ∈ s.2 then (memalloc.free c s.1 p, swap_remove s.2 p) else s
  | .realloc p size =>
    if p ∈ s.2 then ((memalloc.realloc_inplace c s.1 p size).2, s.2) else s

/-- The inner loop of `memalloc_stress_test`: the steps one after the other. -/
def stress_run (c : memalloc.settings) (s : memalloc × List Nat) (ops : List stress_op) :
    memalloc × List Nat :=
  ops.foldl (stress_step c) s

/-- The end of a round of `memalloc_stress_test`: "free all previously
allocated memory", the back of the vector first. -/
def free_all (c : memalloc.settings) (s : memalloc × List Nat) : memalloc :=
  s.2.foldr (fun p m => memalloc.free c m p) s.1

/-- Constants for the examples: 8-byte alignment, 16 bytes of metadata, blocks
of 16 bytes at least, one size class per 32 bytes, and every block of the LRU
index a victim. -/
def example_settings : memalloc.settings :=
  ⟨8, 16, 16, fun n => n / 32, fun _ _ _ _ => true⟩

/-- A run on an arena of 256 bytes: three allocations of which the third
evicts the first, a shrink, a growth, an allocation that evicts again, and a
free. -/
def example_stress : List stress_op :=
  [.alloc 90, .alloc 60, .alloc 90, .realloc 128 20, .realloc 128 40, .alloc 10, .free 16]

namespace memalloc

/-- The block `y` starts where the span of `x` ends. -/
def adjacent (c : settings) (x y : block) : Prop := y.addr = x.addr + c.META_SIZE + x.size

/-- "No two adjacent blocks are both free". -/
def not_both_free (x y : block) : Prop := x.used = true ∨ y.used = true

/-- The offsets of the blocks of `l` that satisfy `f`. -/
def addrs_where (f : block → Bool) (l : List block) : List Nat := (l.filter f).map (fun b => b.addr)

/-- The arena is well-formed: it starts and ends with the sentinels, every
block starts where the one before it ends, and no two adjacent blocks are both
free. -/
structure arena_sound (c : settings) (arena_size : Nat) (l : List block) : Prop where
  first : l.head? = some ⟨0, 0, true⟩
  last : l.getLast? = some ⟨arena_size - c.META_SIZE, 0, true⟩
  cont : l.Chain' (adjacent c)
  coalesced : l.Chain' not_both_free

/-- The allocator is well-formed and `live` are the pointers it has given out
and not taken back: the arena is well-formed, the free list holds the free
blocks, each once, the used blocks between the sentinels are the live
pointers, and the LRU index holds the live pointers, each once. -/
structure sound (c : settings) (arena_size : Nat) (m : memalloc) (live : List Nat) : Prop where
  arena : arena_sound c arena_size m.arena
  free_nodup : m.free_list.Nodup
  free_mem : ∀ p, p ∈ m.free_list ↔ p ∈ addrs_where (fun b => !b.used) m.arena ∧ True
  live_nodup : live.Nodup
  live_mem : ∀ p, p ∈ live ↔
    p ∈ addrs_where (fun b => b.used) m.arena ∧ (p ≠ 0 ∧ p ≠ arena_size - c.META_SIZE)
  lru_nodup : m.lru.Nodup
  lru_mem : ∀ p, p ∈ m.lru ↔ p ∈ live

/-- What replacing the window `a, b, d` of an arena by the blocks `w` has to
respect: `w` is well-formed in itself, it starts where `a` starts and ends
where `d` ends, and a used `a` or `d` is kept as it is. -/
structure window_ok (c : settings) (a d : block) (w : List block) : Prop where
  ne_nil : w ≠ []
  cont : w.Chain' (adjacent c)
  coalesced : w.Chain' not_both_free
  head_addr : ∀ x ∈ w.head?, x.addr = a.addr ∧ (a.used = true → x = a)
  last_end : ∀ z ∈ w.getLast?,
    z.addr + c.META_SIZE + z.size = d.addr + c.META_SIZE + d.size ∧ (d.used = true → z = d)

end memalloc

namespace memalloc

/-- What a well-formed allocator knows about a block and its two
neighbours. -/
structure window_facts (c : settings) (n : Nat) (m : memalloc) (live : List Nat)
    (a b d : block) : Prop where
  ab : adjacent c a b
  bd : adjacent c b d
  fab : not_both_free a b
  fbd : not_both_free b d
  b0 : b.addr ≠ 0
  bn : b.addr ≠ n - c.META_SIZE
  an : a.addr ≠ n - c.META_SIZE
  d0 : d.addr ≠ 0
  between : ∀ q, q ∈ m.free_list → q ≤ b.addr ∨ d.addr ≤ q
  free_a : a.addr ∈ m.free_list ↔ a.used = false
  free_b : b.addr ∈ m.free_list ↔ b.used = false
  free_d : d.addr ∈ m.free_list ↔ d.used = false
  live_a : a.addr ∈ live ↔ a.used = true ∧ a.addr ≠ 0
  live_b : b.addr ∈ live ↔ b.used = true
  live_d : d.addr ∈ live ↔ d.used = true ∧ d.addr ≠ n - c.META_SIZE

end memalloc

/-- An `io_buffer(64, 64)` into which 33 bytes were received, all of them
unread: an `incr` with a delta that is no number, and the first 19 bytes of a
`set` frame of 58 bytes. -/
def pipelined_recv : io_buffer :=
  ⟨64, "incr foo abc\r\nset foo 0 0 40\r\nhel".toList ++ List.replicate 31 '\x00', 64, 0, 33⟩

/-- A `set` frame of 58 bytes: the header line, its CRLF, a value of 40 bytes
and its CRLF. -/
def long_set_frame : bytes :=
  "set foo 0 0 40\r\nhel".toList ++ List.replicate 37 'l' ++ "\r\n".toList

/-! # Theorems -/

/-! ## Arithmetic of `size_t` -/

theorem size_sub_of_le {a b : Nat} (h : b ≤ a) (ha : a < 2 ^ 64) : size_sub a b = a - b := by
  unfold size_sub
  omega

theorem size_add_of_lt {a b : Nat} (h : a + b < 2 ^ 64) : size_add a b = a + b := by
  unfold size_add
  omega

theorem size_mul_two_of_lt {a : Nat} (h : a < 2 ^ 63) : size_mul a 2 = a * 2 := by
  unfold size_mul
  omega

/-! ## io_buffer: growth and writes -/

namespace io_buffer

theorem sound_non_read {b : io_buffer} (hb : b.sound) :
    b.non_read = b.m_write_pos - b.m_read_pos := by
  obtain ⟨⟨h1, h2, h3⟩, h4, h5⟩ := hb
  unfold non_read
  exact size_sub_of_le h1 (by omega)

theorem sound_available {b : io_buffer} (hb : b.sound) :
    b.available = b.m_capacity - b.m_write_pos := by
  obtain ⟨⟨h1, h2, h3⟩, h4, h5⟩ := hb
  unfold available
  exact size_sub_of_le h2 (by omega)

theorem capacity_advice_eq {b : io_buffer} (hb : b.sound) {a : Nat} (ha : a ≤ 2 ^ 62) :
    b.capacity_advice a =
      min (b.m_capacity + max a (max (b.m_capacity + b.m_write_pos) 500)) b.m_max_size := by
  have hav := sound_available hb
  obtain ⟨⟨h1, h2, h3⟩, h4, h5⟩ := hb
  have e1 : size_sub (size_mul b.m_capacity 2) (b.m_capacity - b.m_write_pos) =
      b.m_capacity + b.m_write_pos := by
    rw [size_mul_two_of_lt (by omega), size_sub_of_le (by omega) (by omega)]
    omega
  simp only [capacity_advice, capacity, default_min_buffer_size, hav, e1]
  rw [size_add_of_lt (by omega)]

theorem realloc_of_le {data : bytes} {n : Nat} (h : data.length ≤ n) :
    realloc data n = data ++ List.replicate (n - data.length) '\x00' := by
  unfold realloc
  rw [List.take_of_length_le]
  simp
  omega

theorem ensure_capacity_ok {ε : Type} {b b1 : io_buffer} {a : Nat} (hb : b.sound)
    (ha : a ≤ 2 ^ 62) (h : (b.ensure_capacity a : Except (exn ε) io_buffer) = .ok b1) :
    b1.sound ∧ b1.m_max_size = b.m_max_size ∧ b1.m_read_pos = b.m_read_pos ∧
      b1.m_write_pos = b.m_write_pos ∧ (∃ pad, b1.m_data = b.m_data ++ pad) ∧
      b1.m_write_pos + a ≤ b1.m_capacity := by
  have hav := sound_available hb
  have hadv := capacity_advice_eq hb ha
  have hb0 := hb
  obtain ⟨⟨h1, h2, h3⟩, h4, h5⟩ := hb
  simp only [ensure_capacity] at h
  split_ifs at h with c1 c2
  · cases h
    refine ⟨hb0, rfl, rfl, rfl, ⟨[], by simp⟩, ?_⟩
    omega
  · cases h
    simp only [size] at c2
    have hge : b.m_capacity ≤ b.capacity_advice a := by rw [hadv]; omega
    have hle : b.capacity_advice a ≤ b.m_max_size := by rw [hadv]; omega
    rw [size_sub_of_le (by omega) (by omega)] at c2
    refine ⟨⟨⟨h1, by simp only; omega, hle⟩, ?_, h5⟩, rfl, rfl, rfl, ?_, by simp only; omega⟩
    · simp only [realloc_of_le (h4 ▸ hge), List.length_append, List.length_replicate]
      omega
    · exact ⟨_, realloc_of_le (h4 ▸ hge)⟩

theorem ensure_capacity_succeeds {ε : Type} {b : io_buffer} {a : Nat} (hb : b.sound)
    (hroom : b.m_write_pos + a ≤ b.m_max_size) :
    ∃ b1, (b.ensure_capacity a : Except (exn ε) io_buffer) = .ok b1 := by
  have hav := sound_available hb
  have hadv := capacity_advice_eq hb (a := a) (by have := hb.2.2; omega)
  obtain ⟨⟨h1, h2, h3⟩, h4, h5⟩ := hb
  have hge : b.m_write_pos + a ≤ b.capacity_advice a := by rw [hadv]; omega
  have hle : b.capacity_advice a ≤ b.m_max_size := by rw [hadv]; omega
  simp only [ensure_capacity]
  split_ifs with c1 c2 c3
  · exact ⟨_, rfl⟩
  · exfalso
    rw [sound_available ⟨⟨h1, h2, h3⟩, h4, h5⟩] at c1
    omega
  · exact ⟨_, rfl⟩
  · exfalso
    apply c2
    simp only [size]
    rw [size_sub_of_le (by omega) (by omega)]
    omega

/-- On a well-formed buffer `ensure_capacity` throws nothing but
`std::length_error`: a capacity of 0 is never asked of `std::realloc`. -/
theorem ensure_capacity_error {ε : Type} {b : io_buffer} {a : Nat} (hb : b.sound)
    (ha : a ≤ 2 ^ 62) (e : exn ε)
    (h : (b.ensure_capacity a : Except (exn ε) io_buffer) = .error e) :
    e = .std_exception length_error_what := by
  have hav := sound_available hb
  have hadv := capacity_advice_eq hb ha
  obtain ⟨⟨h1, h2, h3⟩, h4, h5⟩ := hb
  simp only [ensure_capacity] at h
  split_ifs at h with c1 c2 c3
  · exfalso
    simp only [size] at c2
    rw [c3.1] at hadv c2
    have hm : b.m_max_size = 0 := by omega
    have hw : b.m_write_pos = 0 := by omega
    rw [hw] at c2
    simp only [size_sub] at c2
    rw [hav] at c1
    norm_num at c2
    omega
  · simp only [Except.error.injEq] at h
    exact h.symm

theorem reserve_and_copy_ok {b b1 : io_buffer} {n : Nat} {v : bytes} (hb : b.sound)
    (hn : n ≤ 2 ^ 62) (hv : v.length ≤ n) (h : b.reserve_and_copy n v = .ok b1) :
    b1.sound ∧ b1.m_max_size = b.m_max_size ∧ b1.m_read_pos = b.m_read_pos ∧
      b1.m_write_pos = b.m_write_pos + v.length ∧ b1.written = b.written ++ v := by
  unfold reserve_and_copy begin_write at h
  cases hE : (b.ensure_capacity n : Except (exn error) io_buffer) with
  | error e => rw [hE] at h; cases h
  | ok b0 =>
    rw [hE] at h
    obtain ⟨hs0, hm0, hr0, hw0, ⟨pad, hd0⟩, hc0⟩ := ensure_capacity_ok hb hn hE
    obtain ⟨⟨h1, h2, h3⟩, h4, h5⟩ := hb
    obtain ⟨⟨g1, g2, g3⟩, g4, g5⟩ := hs0
    have hcw : b1 = { b0 with m_data := memcpy_at b0.m_data b0.m_write_pos v }.confirm_write
        v.length := by
      cases b0
      simp only [Except.ok.injEq] at h
      exact h.symm
    subst hcw
    have hadd : size_add b0.m_write_pos v.length = b0.m_write_pos + v.length :=
      size_add_of_lt (by omega)
    have hlen : (memcpy_at b0.m_data b0.m_write_pos v).length = b0.m_capacity := by
      simp only [memcpy_at, List.length_append, List.length_take, List.length_drop]
      omega
    refine ⟨⟨⟨?_, ?_, ?_⟩, ?_, ?_⟩, ?_, ?_, ?_, ?_⟩
    · simp only [confirm_write, hadd]; omega
    · simp only [confirm_write, hadd]; omega
    · simpa only [confirm_write] using g3
    · simpa only [confirm_write] using hlen
    · simpa only [confirm_write, hm0] using h5
    · simpa only [confirm_write] using hm0
    · simpa only [confirm_write] using hr0
    · simp only [confirm_write, hadd]; omega
    · simp only [written, confirm_write, hadd, memcpy_at]
      rw [hw0, List.append_assoc, List.take_append_eq_append_take]
      have e1 : (List.take b.m_write_pos b0.m_data).length = b.m_write_pos := by
        simp only [List.length_take]; omega
      rw [List.take_of_length_le (by omega), e1]
      have e2 : b.m_write_pos + v.length - b.m_write_pos = v.length := by omega
      rw [e2, List.take_append_eq_append_take, List.take_of_length_le (le_refl _)]
      simp only [Nat.sub_self, List.take_zero, List.append_nil]
      rw [hd0, List.take_append_of_le_length (by omega)]

theorem reserve_and_copy_succeeds {b : io_buffer} {n : Nat} {v : bytes} (hb : b.sound)
    (hroom : b.m_write_pos + n ≤ b.m_max_size) : ∃ b1, b.reserve_and_copy n v = .ok b1 := by
  have h1 : ∃ b0, (b.ensure_capacity n : Except (exn error) io_buffer) = .ok b0 :=
    ensure_capacity_succeeds hb hroom
  obtain ⟨b0, h0⟩ := h1
  simp only [reserve_and_copy, begin_write, h0]
  cases b0
  exact ⟨_, rfl⟩

theorem write_bytes_eq (b : io_buffer) (v : bytes) :
    b.write_bytes v = b.reserve_and_copy v.length v := rfl

theorem write_char_eq (b : io_buffer) (c : Char) :
    b.write_char c = b.reserve_and_copy 1 [c] := rfl

theorem serialize_integer_eq (b : io_buffer) (n x : Nat) :
    b.serialize_integer n x = b.reserve_and_copy n (int_to_str x) := rfl

end io_buffer

/-! ## The command table -/

theorem parse_command_name_table (s : bytes) : parse_command_name s = table_command s := by
  rcases s with _|⟨a,_|⟨b,_|⟨c,_|⟨d,_|⟨e,_|⟨f,_|⟨g,_|⟨h,_|⟨i,_|⟨j,t⟩⟩⟩⟩⟩⟩⟩⟩⟩⟩
  all_goals simp [parse_command_name, table_command, command_table, List.lookup, byte_at,
    is_3, is_4, is_5, is_6, is_7, strncmp_eq]
  all_goals (split_ifs <;> (try simp_all) <;> (repeat' split) <;> simp_all)

theorem table_command_of_mem (s : bytes) (c : Command) (h : (s, c) ∈ command_table) :
    table_command s = c := by
  simp only [command_table, List.mem_cons, Prod.mk.injEq, List.mem_singleton,
    List.not_mem_nil, or_false] at h
  rcases h with h|h|h|h|h|h|h|h|h|h|h|h|h|h|h|h <;> (obtain ⟨rfl, rfl⟩ := h; decide)

theorem table_command_undefined (s : bytes) (h : s ∉ command_table.map Prod.fst) :
    table_command s = .UNDEFINED := by
  have : command_table.lookup s = none := by
    rw [List.lookup_eq_none_iff]
    intro p hp
    simp only [bne_iff_ne, ne_eq]
    intro hs
    exact h (hs ▸ List.mem_map_of_mem Prod.fst hp)
  simp [table_command, this]

theorem table_command_mem (s : bytes) (c : Command) (h : table_command s = c)
    (hc : c ≠ .UNDEFINED) : (s, c) ∈ command_table := by
  by_cases hs : s ∈ command_table.map Prod.fst
  · simp only [List.mem_map] at hs
    obtain ⟨⟨s1, c1⟩, hp, rfl⟩ := hs
    have := table_command_of_mem s1 c1 hp
    simp only at this h
    rw [← h, this]
    exact hp
  · exact absurd ((table_command_undefined s hs).symm.trans h).symm hc

theorem parse_command_name_quit (s : bytes) :
    parse_command_name s = .QUIT ↔ s = "quit".toList := by
  constructor
  · intro h
    have hm := table_command_mem s .QUIT ((parse_command_name_table s).symm.trans h) (by decide)
    simp only [command_table, List.mem_cons, Prod.mk.injEq, List.mem_singleton,
      List.not_mem_nil, or_false] at hm
    rcases hm with h|h|h|h|h|h|h|h|h|h|h|h|h|h|h|h <;> first | exact h.1 | exact absurd h.2 (by decide)
  · rintro rfl
    decide

theorem parse_command_name_unknown (s : bytes) (h : s ∉ command_table.map Prod.fst) :
    parse_command_name s = .UNDEFINED :=
  (parse_command_name_table s).trans (table_command_undefined s h)

/-- C7: for every byte string `s`, `parse_command_name s` is the command the
table gives for a name equal to `s` byte for byte (each of the sixteen names
yields its command), and `UNDEFINED` for every `s` that is not one of the
names. -/
theorem parse_command_name_spec (s : bytes) :
    parse_command_name s = table_command s ∧
      (∀ c, (s, c) ∈ command_table → parse_command_name s = c) ∧
      (s ∉ command_table.map Prod.fst → parse_command_name s = .UNDEFINED) :=
  ⟨parse_command_name_table s,
   fun c hc => (parse_command_name_table s).trans (table_command_of_mem s c hc),
   parse_command_name_unknown s⟩

/-- C7 at concrete inputs: a name of the table, a name in another letter case,
the empty string, and a string that shares only length and first letter with a
name. -/
theorem parse_command_name_spec_witness :
    parse_command_name "flush_all".toList = .FLUSH_ALL ∧
      parse_command_name "GET".toList = .UNDEFINED ∧
      parse_command_name [] = .UNDEFINED ∧
      parse_command_name "sat".toList = .UNDEFINED :=
  ⟨(parse_command_name_spec "flush_all".toList).2.1 .FLUSH_ALL (by decide),
   (parse_command_name_spec "GET".toList).2.2 (by decide),
   (parse_command_name_spec []).2.2 (by decide),
   (parse_command_name_spec "sat".toList).2.2 (by decide)⟩

/-! ## io_buffer: the invariant under `size_t` wrap-around -/

/-- C1: the invariant `read_pos ≤ write_pos ≤ capacity ≤ max_size` does not
survive every sequence of operations called within their asserted
preconditions: on `io_buffer(8, 8)`, after `begin_write(8)`,
`confirm_write(8)` and `ensure_capacity(2 ^ 64 - 7)` the sum
`capacity + grow_factor` wraps around to 1, the test
`new_capacity - size() >= at_least` wraps around as well and passes, and the
buffer is left with `capacity = 1 < write_pos = 8`. -/
theorem ensure_capacity_wraps_below_write_pos :
    after_ctor 8 8 overflow_ops = some ⟨8, ['\x00'], 1, 0, 8⟩ ∧
      ¬ io_buffer.inv ⟨8, ['\x00'], 1, 0, 8⟩ := by
  decide

/-- C6: `handle_received_data` does not return for every state: with
`wibble\r\n` in `recv` and a send buffer of maximal size 4, the `catch` block
for `broken_request` throws `std::length_error` while writing `ERROR`, and the
exception leaves the `noexcept` function. -/
theorem handle_received_data_terminates_on_full_send :
    (handle_received_data example_env (fixed_cache []) (buffer_with 64 "wibble\r\n".toList)
      (buffer_with 4 []) ()).isNone = true := by
  decide

/-! ## Searching for the line terminator -/

theorem slice_search_line (line rest : bytes) (h : ¬ CRLF <:+: line) :
    slice_search (line ++ CRLF ++ rest) CRLF = some line.length := by
  induction line with
  | nil => simp [slice_search, CRLF]
  | cons c l ih =>
    have hl : ¬ CRLF <:+: l := fun hh => h (hh.trans (List.suffix_cons c l).isInfix)
    have hp : ¬ CRLF <+: (c :: l ++ CRLF ++ rest) := by
      intro hpre
      rcases l with _ | ⟨d, l1⟩
      · simp [CRLF] at hpre
      · apply h
        have h2 : CRLF <+: c :: d :: l1 := by
          simp only [CRLF, String.toList, List.cons_append, List.append_assoc] at hpre ⊢
          rw [List.cons_prefix_cons, List.cons_prefix_cons] at hpre
          rw [List.cons_prefix_cons, List.cons_prefix_cons]
          exact ⟨hpre.1, hpre.2.1, List.nil_prefix⟩
        exact h2.isInfix
    have e : c :: l ++ CRLF ++ rest = c :: (l ++ (CRLF ++ rest)) := by simp
    have hp1 : CRLF.isPrefixOf (c :: (l ++ (CRLF ++ rest))) = false := by
      rw [Bool.eq_false_iff]
      intro hh
      apply hp
      have := List.isPrefixOf_iff_prefix.mp hh
      simpa [List.append_assoc] using this
    have ih1 := ih hl
    rw [List.append_assoc] at ih1
    rw [e, slice_search, hp1, ih1]
    simp

theorem slice_search_some (u : bytes) (i : Nat) (h : slice_search u CRLF = some i) :
    ∃ line rest, u = line ++ CRLF ++ rest ∧ ¬ CRLF <:+: line ∧ line.length = i := by
  induction u generalizing i with
  | nil => simp [slice_search, CRLF] at h
  | cons c cs ih =>
    simp only [slice_search] at h
    split_ifs at h with hp
    · cases h
      have := List.isPrefixOf_iff_prefix.mp hp
      obtain ⟨rest, hrest⟩ := this
      exact ⟨[], rest, by simpa using hrest.symm, by simp [CRLF], rfl⟩
    · cases hs : slice_search cs CRLF with
      | none => rw [hs] at h; simp at h
      | some j =>
        rw [hs] at h
        simp only [Option.map_some', Option.some.injEq] at h
        obtain ⟨line, rest, hu, hno, hlen⟩ := ih j hs
        refine ⟨c :: line, rest, by simp [hu], ?_, by simp [hlen, h]⟩
        intro hinf
        rcases List.infix_cons_iff.mp hinf with hpre | hin
        · apply hp
          rw [List.isPrefixOf_iff_prefix]
          rw [hu]
          exact hpre.trans ⟨CRLF ++ rest, by simp⟩
        · exact hno hin

theorem slice_search_none (u : bytes) (h : slice_search u CRLF = none) : ¬ CRLF <:+: u := by
  induction u with
  | nil => simp [CRLF]
  | cons c cs ih =>
    simp only [slice_search] at h
    split_ifs at h with hp
    cases hs : slice_search cs CRLF with
    | some j => rw [hs] at h; simp at h
    | none =>
      intro hinf
      rcases List.infix_cons_iff.mp hinf with hpre | hin
      · exact hp (List.isPrefixOf_iff_prefix.mpr hpre)
      · exact ih hs hin

theorem slice_search_of_not_infix (u : bytes) (h : ¬ CRLF <:+: u) :
    slice_search u CRLF = none := by
  cases hs : slice_search u CRLF with
  | none => rfl
  | some i =>
    obtain ⟨line, rest, hu, _, _⟩ := slice_search_some u i hs
    exact absurd ⟨line, rest, hu.symm⟩ h

/-! ## Reasoning about code over a state -/

section framework

variable {s α β : Type} {R : s → s → Prop}

theorem M.bind_apply (m : M s α) (f : α → M s β) (st : s) :
    (m >>= f) st = match m st with
      | .ok a st1 => f a st1
      | .throw e st1 => .throw e st1 := rfl

theorem M.pure_apply (a : α) (st : s) : (pure a : M s α) st = .ok a st := rfl

theorem keeps_bind {P : α → Prop} {Q : β → Prop} {m : M s α} {f : α → M s β}
    (ht : ∀ x y z, R x y → R y z → R x z) (hm : M.keeps R P m)
    (hf : ∀ a, P a → M.keeps R Q (f a)) : M.keeps R Q (m >>= f) := by
  intro st
  have h1 := hm st
  rw [M.bind_apply]
  cases hms : m st with
  | ok a st1 =>
    rw [hms] at h1
    have h2 := hf a h1.2 st1
    simp only
    cases hfs : f a st1 with
    | ok b st2 => rw [hfs] at h2; exact ⟨ht _ _ _ h1.1 h2.1, h2.2⟩
    | throw e st2 => rw [hfs] at h2; exact ht _ _ _ h1.1 h2
  | throw e st1 =>
    rw [hms] at h1
    exact h1

theorem keeps_pure {P : α → Prop} {a : α} (hr : ∀ x, R x x) (hp : P a) :
    M.keeps R P (pure a : M s α) := fun st => ⟨hr st, hp⟩

theorem keeps_raise {P : α → Prop} {e : exn error} (hr : ∀ x, R x x) :
    M.keeps R P (raise e : M s α) := fun st => hr st

theorem keeps_liftE {P : α → Prop} {x : Except (exn error) α} (hr : ∀ x, R x x)
    (hp : ∀ a, x = .ok a → P a) : M.keeps R P (liftE x : M s α) := by
  intro st
  cases x with
  | ok a => exact ⟨hr st, hp a rfl⟩
  | error e => exact hr st

theorem keeps_weaken {P Q : α → Prop} {m : M s α} (hm : M.keeps R P m)
    (h : ∀ a, P a → Q a) : M.keeps R Q m := by
  intro st
  have h1 := hm st
  cases hms : m st with
  | ok a st1 => rw [hms] at h1; exact ⟨h1.1, h _ h1.2⟩
  | throw e st1 => rw [hms] at h1; exact h1

theorem keeps_state {P : α → Prop} {m : M s α} (hm : M.keeps R P m) (st : s) :
    R st (m st).state := by
  have h1 := hm st
  cases hms : m st with
  | ok a st1 => rw [hms] at h1; exact h1.1
  | throw e st1 => rw [hms] at h1; exact h1

end framework

section out_rules

variable {σ α : Type} {S : io_buffer → io_buffer → Prop}

theorem keeps_call_cache {P : α → Prop} {c : CacheCall}
    {op : σ → Except (exn error) α × σ} (hr : ∀ b, S b b)
    (hp : ∀ st a, (op st).1 = .ok a → P a) :
    M.keeps (on_out S) P (call_cache c op : M (Out σ) α) := by
  intro o
  obtain ⟨send, cache, calls⟩ := o
  simp only [call_cache]
  cases hop : op cache with
  | mk x st1 =>
    cases x with
    | ok a => exact ⟨hr _, hp cache a (by rw [hop])⟩
    | error e => exact hr _

theorem keeps_on_send {w : io_buffer → Except (exn error) io_buffer} (hr : ∀ b, S b b)
    (hw : ∀ b b1, w b = .ok b1 → S b b1) :
    M.keeps (on_out S) (fun _ => True) (on_send w : M (Out σ) Unit) := by
  intro o
  obtain ⟨send, cache, calls⟩ := o
  simp only [on_send]
  cases hwo : w send with
  | ok b1 => exact ⟨hw _ _ hwo, trivial⟩
  | error e => exact hr _

theorem keeps_liftOut {P : α → Prop} {m : M (Out σ) α} (hm : M.keeps (on_out S) P m) :
    M.keeps (on_pair S) P (liftOut m) := by
  intro st
  have h1 := hm st.2
  unfold liftOut
  cases hms : m st.2 with
  | ok a o1 => rw [hms] at h1; exact h1
  | throw e o1 => rw [hms] at h1; exact h1

end out_rules

/-! ## The send buffer only grows -/

theorem grows_refl (b : io_buffer) : grows b b :=
  fun hb => ⟨hb, rfl, rfl, [], by simp⟩

theorem grows_trans (a b c : io_buffer) (h1 : grows a b) (h2 : grows b c) : grows a c := by
  intro ha
  obtain ⟨hb, hm1, hr1, v1, hv1⟩ := h1 ha
  obtain ⟨hc, hm2, hr2, v2, hv2⟩ := h2 hb
  exact ⟨hc, hm2.trans hm1, hr2.trans hr1, v1 ++ v2, by rw [hv2, hv1, List.append_assoc]⟩

theorem grows_reserve_and_copy {n : Nat} {v : bytes} (hn : n ≤ 2 ^ 62) (hv : v.length ≤ n)
    (b b1 : io_buffer) (h : b.reserve_and_copy n v = .ok b1) : grows b b1 := by
  intro hb
  obtain ⟨h1, h2, h3, _, h5⟩ := io_buffer.reserve_and_copy_ok hb hn hv h
  exact ⟨h1, h2, h3, v, h5⟩

section grows_rules

variable {σ : Type}

theorem on_out_grows_refl (o : Out σ) : on_out grows o o := grows_refl _

theorem on_out_grows_trans (x y z : Out σ) (h1 : on_out grows x y) (h2 : on_out grows y z) :
    on_out grows x z := grows_trans _ _ _ h1 h2

theorem keeps_send_bytes {v : bytes} (hv : v.length ≤ 2 ^ 62) :
    M.keeps (on_out grows) (fun _ => True) (send_bytes v : M (Out σ) Unit) :=
  keeps_on_send grows_refl (fun b b1 h => grows_reserve_and_copy hv (le_refl _) b b1 h)

theorem keeps_send_char (c : Char) :
    M.keeps (on_out grows) (fun _ => True) (send_char c : M (Out σ) Unit) :=
  keeps_on_send grows_refl
    (fun b b1 h => grows_reserve_and_copy (n := 1) (v := [c]) (by norm_num) (le_refl _) b b1 h)

theorem int_to_str_length_le (x e : Nat) (hx : x < 10 ^ e) (he : 0 < e) :
    (io_buffer.int_to_str x).length ≤ e :=
  Nat.toDigitsCore_length 10 (by decide) (x + 1) x e hx he

theorem keeps_send_uint32 (x : Nat) :
    M.keeps (on_out grows) (fun _ => True) (send_uint32 x : M (Out σ) Unit) :=
  keeps_on_send grows_refl (fun b b1 h => by
    refine grows_reserve_and_copy (n := 10) (by norm_num) ?_ b b1 h
    exact int_to_str_length_le _ 10 (by have := Nat.mod_lt x (show 0 < 2 ^ 32 by norm_num); omega)
      (by norm_num))

theorem keeps_send_uint64 (x : Nat) :
    M.keeps (on_out grows) (fun _ => True) (send_uint64 x : M (Out σ) Unit) :=
  keeps_on_send grows_refl (fun b b1 h => by
    refine grows_reserve_and_copy (n := 20) (by norm_num) ?_ b b1 h
    exact int_to_str_length_le _ 20 (by have := Nat.mod_lt x (show 0 < 2 ^ 64 by norm_num); omega)
      (by norm_num))

end grows_rules

section handlers_grow

variable {σ : Type}

theorem Response.token_length (r : Response) : r.token.length ≤ 2 ^ 62 := by
  cases r <;> decide

theorem keeps_reply_with_response (response : Response) (noreply : Bool) :
    M.keeps (on_out grows) (fun _ => True)
      (reply_with_response response noreply : M (Out σ) ConversationReply) := by
  unfold reply_with_response
  split
  · refine keeps_bind on_out_grows_trans (keeps_send_bytes (Response.token_length _)) (fun _ _ => ?_)
    refine keeps_bind on_out_grows_trans (keeps_send_bytes (by decide)) (fun _ _ => ?_)
    exact keeps_pure on_out_grows_refl trivial
  · exact keeps_pure on_out_grows_refl trivial

theorem keeps_send_item (cmd : Command) (i : Item) (hk : i.key.length < 2 ^ 32)
    (hv : i.value.length < 2 ^ 32) :
    M.keeps (on_out grows) (fun _ => True) (send_item cmd i : M (Out σ) Unit) := by
  unfold send_item
  repeat (first
    | exact keeps_pure on_out_grows_refl trivial
    | exact keeps_send_char _
    | exact keeps_send_uint32 _
    | exact keeps_send_uint64 _
    | exact keeps_send_bytes (by decide)
    | exact keeps_send_bytes (by omega)
    | refine keeps_bind (P := fun _ => True) on_out_grows_trans ?_ (fun _ _ => ?_)
    | split)

theorem keeps_retrieval_loop (cache : Cache σ) (hc : cache.small) (cmd : Command) (fuel : Nat) :
    ∀ args, M.keeps (on_out grows) (fun _ => True)
      (retrieval_loop cache cmd fuel args : M (Out σ) Unit) := by
  induction fuel with
  | zero => intro args; exact keeps_raise on_out_grows_refl
  | succ n ih =>
    intro args
    unfold retrieval_loop
    refine keeps_bind on_out_grows_trans (keeps_liftE on_out_grows_refl (fun _ _ => trivial))
      (fun p _ => ?_)
    refine keeps_bind on_out_grows_trans
      (keeps_call_cache grows_refl (fun st a h => (show (∀ i, a = some i →
        i.key.length < 2 ^ 32 ∧ i.value.length < 2 ^ 32) from
          fun i hi => hc p.1 st i (hi ▸ h)))) (fun a ha => ?_)
    refine keeps_bind (P := fun _ => True) on_out_grows_trans ?_ (fun _ _ => ?_)
    · split
      · exact keeps_send_item cmd _ (ha _ rfl).1 (ha _ rfl).2
      · exact keeps_pure on_out_grows_refl trivial
    · split
      · exact ih _
      · exact keeps_pure on_out_grows_refl trivial

theorem keeps_handle_retrieval_command (cache : Cache σ) (hc : cache.small) (cmd : Command)
    (args : bytes) : M.keeps (on_out grows) (fun _ => True)
      (handle_retrieval_command cache cmd args : M (Out σ) ConversationReply) := by
  unfold handle_retrieval_command
  refine keeps_bind on_out_grows_trans (keeps_retrieval_loop cache hc cmd _ _) (fun _ _ => ?_)
  refine keeps_bind on_out_grows_trans (keeps_send_bytes (by decide)) (fun _ _ => ?_)
  refine keeps_bind on_out_grows_trans (keeps_send_bytes (by decide)) (fun _ _ => ?_)
  exact keeps_pure on_out_grows_refl trivial

theorem keeps_handle_delete_command (cache : Cache σ) (args : bytes) :
    M.keeps (on_out grows) (fun _ => True)
      (handle_delete_command cache args : M (Out σ) ConversationReply) := by
  unfold handle_delete_command
  repeat (first
    | exact keeps_liftE on_out_grows_refl (fun _ _ => trivial)
    | exact keeps_call_cache grows_refl (fun _ _ _ => trivial)
    | exact keeps_reply_with_response _ _
    | refine keeps_bind (P := fun _ => True) on_out_grows_trans ?_ (fun _ _ => ?_)
    | split)

theorem keeps_handle_touch_command (cache : Cache σ) (args : bytes) :
    M.keeps (on_out grows) (fun _ => True)
      (handle_touch_command cache args : M (Out σ) ConversationReply) := by
  unfold handle_touch_command
  repeat (first
    | exact keeps_liftE on_out_grows_refl (fun _ _ => trivial)
    | exact keeps_call_cache grows_refl (fun _ _ _ => trivial)
    | exact keeps_reply_with_response _ _
    | refine keeps_bind (P := fun _ => True) on_out_grows_trans ?_ (fun _ _ => ?_)
    | split)

theorem keeps_handle_arithmetic_command (cache : Cache σ) (cmd : Command) (args : bytes) :
    M.keeps (on_out grows) (fun _ => True)
      (handle_arithmetic_command cache cmd args : M (Out σ) ConversationReply) := by
  unfold handle_arithmetic_command
  repeat (first
    | exact keeps_pure on_out_grows_refl trivial
    | exact keeps_send_uint64 _
    | exact keeps_send_bytes (by decide)
    | exact keeps_send_bytes (Response.token_length _)
    | exact keeps_liftE on_out_grows_refl (fun _ _ => trivial)
    | exact keeps_call_cache grows_refl (fun _ _ _ => trivial)
    | refine keeps_bind (P := fun _ => True) on_out_grows_trans ?_ (fun _ _ => ?_)
    | split)

theorem keeps_send_stats (cache : Cache σ) (names : List bytes)
    (h : ∀ n ∈ names, n.length < 2 ^ 32) :
    M.keeps (on_out grows) (fun _ => True) (send_stats cache names : M (Out σ) Unit) := by
  induction names with
  | nil => exact keeps_pure on_out_grows_refl trivial
  | cons n rest ih =>
    have hn : n.length < 2 ^ 32 := h n (List.mem_cons_self _ _)
    have hrest := ih (fun m hm => h m (List.mem_cons_of_mem _ hm))
    unfold send_stats
    repeat (first
      | exact hrest
      | exact keeps_send_char _
      | exact (fun o => keeps_send_uint64 _ o)
      | exact keeps_send_bytes (by decide)
      | exact keeps_send_bytes (by omega)
      | refine keeps_bind (P := fun _ => True) on_out_grows_trans ?_ (fun _ _ => ?_))

theorem keeps_handle_statistics_command (env : Env) (he : env.small) (cache : Cache σ)
    (args : bytes) : M.keeps (on_out grows) (fun _ => True)
      (handle_statistics_command env cache args : M (Out σ) ConversationReply) := by
  unfold handle_statistics_command
  repeat (first
    | exact keeps_pure on_out_grows_refl trivial
    | exact keeps_raise on_out_grows_refl
    | exact keeps_send_stats cache _ he.2
    | exact keeps_send_bytes (by decide)
    | exact keeps_call_cache grows_refl (fun _ _ _ => trivial)
    | refine keeps_bind (P := fun _ => True) on_out_grows_trans ?_ (fun _ _ => ?_)
    | split)

theorem keeps_handle_version_command (env : Env) (he : env.small) (args : bytes) :
    M.keeps (on_out grows) (fun _ => True)
      (handle_version_command env args : M (Out σ) ConversationReply) := by
  have hv := he.1
  unfold handle_version_command
  repeat (first
    | exact keeps_pure on_out_grows_refl trivial
    | exact keeps_raise on_out_grows_refl
    | exact keeps_send_char _
    | exact keeps_send_bytes (by decide)
    | exact keeps_send_bytes (by omega)
    | refine keeps_bind (P := fun _ => True) on_out_grows_trans ?_ (fun _ _ => ?_)
    | split)

theorem keeps_handle_flush_all_command (cache : Cache σ) (args : bytes) :
    M.keeps (on_out grows) (fun _ => True)
      (handle_flush_all_command cache args : M (Out σ) ConversationReply) := by
  unfold handle_flush_all_command
  repeat (first
    | exact keeps_pure on_out_grows_refl trivial
    | exact keeps_send_bytes (by decide)
    | exact keeps_liftE on_out_grows_refl (fun _ _ => trivial)
    | exact keeps_call_cache grows_refl (fun _ _ _ => trivial)
    | refine keeps_bind (P := fun _ => True) on_out_grows_trans ?_ (fun _ _ => ?_)
    | split)

theorem keeps_try_catch_all {s α : Type} {R : s → s → Prop} {P : α → Prop} {m : M s α}
    {cleanup : s → s} (hm : M.keeps R P m) (hc : ∀ x y, R x y → R x (cleanup y)) :
    M.keeps R P (try_catch_all m cleanup) := by
  intro st
  have h1 := hm st
  unfold try_catch_all
  cases hms : m st with
  | ok a st1 => rw [hms] at h1; exact h1
  | throw e st1 => rw [hms] at h1; exact hc _ _ h1

theorem on_pair_grows_refl (st : io_buffer × Out σ) : on_pair grows st st := grows_refl _

theorem on_pair_grows_trans (x y z : io_buffer × Out σ) (h1 : on_pair grows x y)
    (h2 : on_pair grows y z) : on_pair grows x z := grows_trans _ _ _ h1 h2

theorem keeps_store_value (cache : Cache σ) (cmd : Command) (h : StorageHeader) :
    M.keeps (on_pair grows) (fun _ => True) (store_value cache cmd h) := by
  intro st
  simp only [store_value]
  split_ifs with c1 c2
  · cases hE : (st.1.ensure_capacity (size_sub (h.datalen + CRLF.length) st.1.non_read) :
        Except (exn error) io_buffer) with
    | ok r1 => exact grows_refl _
    | error e => exact grows_refl _
  · refine keeps_liftOut (S := grows) (P := fun _ => True) ?_ _
    refine keeps_bind (P := fun _ => True) on_out_grows_trans
      (keeps_call_cache grows_refl (fun _ _ _ => trivial)) (fun _ _ => ?_)
    refine keeps_try_catch_all ?_ (fun x y hxy => hxy)
    refine keeps_bind (P := fun _ => True) on_out_grows_trans
      (keeps_call_cache grows_refl (fun _ _ _ => trivial)) (fun _ _ => ?_)
    exact keeps_reply_with_response _ _
  · exact grows_refl _

theorem keeps_handle_storage_command (env : Env) (cache : Cache σ) (cmd : Command)
    (args : bytes) :
    M.keeps (on_pair grows) (fun _ => True) (handle_storage_command env cache cmd args) := by
  unfold handle_storage_command
  exact keeps_bind (P := fun _ => True) on_pair_grows_trans
    (keeps_liftE on_pair_grows_refl (fun _ _ => trivial)) (fun _ _ => keeps_store_value _ _ _)

theorem keeps_dispatch (env : Env) (he : env.small) (cache : Cache σ) (hc : cache.small)
    (cmd : Command) (args : bytes) (handler : M (io_buffer × Out σ) ConversationReply)
    (h : dispatch env cache cmd args = some handler) :
    M.keeps (on_pair grows) (fun _ => True) handler := by
  cases cmd <;> simp only [dispatch] at h <;> cases h
  all_goals first
    | exact keeps_handle_storage_command _ _ _ _
    | exact keeps_liftOut (keeps_handle_retrieval_command _ hc _ _)
    | exact keeps_liftOut (keeps_handle_delete_command _ _)
    | exact keeps_liftOut (keeps_handle_arithmetic_command _ _ _)
    | exact keeps_liftOut (keeps_handle_touch_command _ _)
    | exact keeps_liftOut (keeps_handle_statistics_command _ he _ _)
    | exact keeps_liftOut (keeps_handle_version_command _ he _)
    | exact keeps_liftOut (keeps_handle_flush_all_command _ _)

theorem handle_body_eq (env : Env) (cache : Cache σ) (st : io_buffer × Out σ) :
    handle_body env cache st =
      if (st.1.try_read_until CRLF).1 = [] then
        .throw (.system_error .incomplete_request) ((st.1.try_read_until CRLF).2, st.2)
      else
        run_command env cache (rtrim_n (st.1.try_read_until CRLF).1 CRLF.length)
          ((st.1.try_read_until CRLF).2, st.2) := rfl

theorem keeps_run_command (env : Env) (he : env.small) (cache : Cache σ) (hc : cache.small)
    (line : bytes) : M.keeps (on_pair grows) (fun _ => True) (run_command env cache line) := by
  intro st
  unfold run_command
  cases hd : dispatch env cache (parse_command_name (command_name line)) (command_args line) with
  | none =>
    simp only
    by_cases c2 : parse_command_name (command_name line) = .QUIT
    · rw [if_pos c2]
      exact ⟨grows_refl _, trivial⟩
    · rw [if_neg c2]
      exact grows_refl _
  | some handler =>
    simp only
    have hk := keeps_dispatch env he cache hc _ _ handler hd st
    cases hh : handler st with
    | ok reply st1 => rw [hh] at hk; exact ⟨hk.1, trivial⟩
    | throw e st1 => rw [hh] at hk; exact hk

theorem keeps_handle_body (env : Env) (he : env.small) (cache : Cache σ) (hc : cache.small) :
    M.keeps (on_pair grows) (fun _ => True) (handle_body env cache) := by
  intro st
  rw [handle_body_eq]
  by_cases c1 : (st.1.try_read_until CRLF).1 = []
  · rw [if_pos c1]
    exact grows_refl _
  · rw [if_neg c1]
    exact keeps_run_command env he cache hc _ ((st.1.try_read_until CRLF).2, st.2)

end handlers_grow

/-! ## `READ_MORE` from a handler means that nothing was written -/

section quiet

variable {s α : Type} {send_of : s → io_buffer}

theorem always_replies_bind {m : M s α} {f : α → M s ConversationReply}
    (hf : ∀ a, always_replies (f a)) : always_replies (m >>= f) := by
  intro st
  rw [M.bind_apply]
  cases hms : m st with
  | ok a st1 => exact hf a st1
  | throw e st1 => trivial

theorem always_replies_pure : always_replies (pure .SEND_REPLY_AND_READ : M s ConversationReply) :=
  fun _ => rfl

theorem always_replies_raise (e : exn error) :
    always_replies (raise e : M s ConversationReply) := fun _ => trivial

theorem quiet_of_always_replies {m : M s ConversationReply} (h : always_replies m) :
    quiet_or_reply send_of m := by
  intro st
  have h1 := h st
  cases hms : m st with
  | ok r st1 => rw [hms] at h1; exact Or.inl h1
  | throw e st1 => trivial

theorem quiet_pure_read_more :
    quiet_or_reply send_of (pure .READ_MORE : M s ConversationReply) :=
  fun _ => Or.inr ⟨rfl, rfl⟩

theorem quiet_bind {P : α → Prop} {m : M s α} {f : α → M s ConversationReply}
    (hm : M.keeps (fun st st1 => send_of st1 = send_of st) P m)
    (hf : ∀ a, quiet_or_reply send_of (f a)) : quiet_or_reply send_of (m >>= f) := by
  intro st
  have h1 := hm st
  rw [M.bind_apply]
  cases hms : m st with
  | ok a st1 =>
    rw [hms] at h1
    have h2 := hf a st1
    simp only
    cases hfs : f a st1 with
    | ok r st2 =>
      rw [hfs] at h2
      rcases h2 with h2 | ⟨h2, h3⟩
      · exact Or.inl h2
      · exact Or.inr ⟨h2, h3.trans h1.1⟩
    | throw e st2 => trivial
  | throw e st1 => trivial

end quiet

section quiet_handlers

variable {σ : Type}

theorem keeps_send_liftE {s α : Type} (send_of : s → io_buffer) (x : Except (exn error) α) :
    M.keeps (fun st st1 => send_of st1 = send_of st) (fun _ => True) (liftE x : M s α) :=
  keeps_liftE (fun _ => rfl) (fun _ _ => trivial)

theorem keeps_send_call_cache {α : Type} (c : CacheCall) (op : σ → Except (exn error) α × σ) :
    M.keeps (fun (o o1 : Out σ) => o1.send = o.send) (fun _ => True) (call_cache c op) :=
  keeps_call_cache (S := same_buffer) (fun _ => rfl) (fun _ _ _ => trivial)

theorem quiet_reply_with_response (response : Response) (noreply : Bool) :
    quiet_or_reply (fun (o : Out σ) => o.send) (reply_with_response response noreply) := by
  unfold reply_with_response
  split
  · exact quiet_of_always_replies
      (always_replies_bind (fun _ => always_replies_bind (fun _ => always_replies_pure)))
  · exact quiet_pure_read_more

theorem quiet_handle_delete_command (cache : Cache σ) (args : bytes) :
    quiet_or_reply (fun (o : Out σ) => o.send) (handle_delete_command cache args) := by
  unfold handle_delete_command
  refine quiet_bind (keeps_send_liftE _ _) (fun p => ?_)
  refine quiet_bind (keeps_send_liftE _ _) (fun _ => ?_)
  refine quiet_bind (keeps_send_call_cache _ _) (fun _ => ?_)
  exact quiet_reply_with_response _ _

theorem quiet_handle_touch_command (cache : Cache σ) (args : bytes) :
    quiet_or_reply (fun (o : Out σ) => o.send) (handle_touch_command cache args) := by
  unfold handle_touch_command
  refine quiet_bind (keeps_send_liftE _ _) (fun p => ?_)
  refine quiet_bind (keeps_send_liftE _ _) (fun _ => ?_)
  refine quiet_bind (keeps_send_liftE _ _) (fun _ => ?_)
  refine quiet_bind (keeps_send_call_cache _ _) (fun _ => ?_)
  exact quiet_reply_with_response _ _

theorem quiet_handle_arithmetic_command (cache : Cache σ) (cmd : Command) (args : bytes) :
    quiet_or_reply (fun (o : Out σ) => o.send) (handle_arithmetic_command cache cmd args) := by
  unfold handle_arithmetic_command
  refine quiet_bind (keeps_send_liftE _ _) (fun p => ?_)
  refine quiet_bind (keeps_send_liftE _ _) (fun _ => ?_)
  refine quiet_bind (keeps_send_liftE _ _) (fun _ => ?_)
  refine quiet_bind (keeps_send_call_cache _ _) (fun q => ?_)
  obtain ⟨response, new_value⟩ := q
  simp only
  split
  · exact quiet_pure_read_more
  · exact quiet_of_always_replies (always_replies_bind (fun _ => always_replies_pure))

theorem quiet_handle_flush_all_command (cache : Cache σ) (args : bytes) :
    quiet_or_reply (fun (o : Out σ) => o.send) (handle_flush_all_command cache args) := by
  unfold handle_flush_all_command
  refine quiet_bind (keeps_send_liftE _ _) (fun _ => ?_)
  refine quiet_bind (keeps_send_call_cache _ _) (fun _ => ?_)
  split
  · exact quiet_pure_read_more
  · exact quiet_of_always_replies
      (always_replies_bind (fun _ => always_replies_bind (fun _ => always_replies_pure)))

theorem replies_handle_retrieval_command (cache : Cache σ) (cmd : Command) (args : bytes) :
    always_replies (handle_retrieval_command cache cmd args) := by
  unfold handle_retrieval_command
  exact always_replies_bind (fun _ => always_replies_bind (fun _ =>
    always_replies_bind (fun _ => always_replies_pure)))

theorem replies_handle_statistics_command (env : Env) (cache : Cache σ) (args : bytes) :
    always_replies (handle_statistics_command env cache args) := by
  unfold handle_statistics_command
  split
  · exact always_replies_raise _
  · exact always_replies_bind (fun _ => always_replies_bind (fun _ => always_replies_bind (fun _ =>
      always_replies_bind (fun _ => always_replies_pure))))

theorem replies_handle_version_command (env : Env) (args : bytes) :
    always_replies (handle_version_command env args : M (Out σ) ConversationReply) := by
  unfold handle_version_command
  split
  · exact always_replies_raise _
  · exact always_replies_bind (fun _ => always_replies_bind (fun _ => always_replies_bind (fun _ =>
      always_replies_bind (fun _ => always_replies_pure))))

theorem quiet_liftOut {m : M (Out σ) ConversationReply}
    (h : quiet_or_reply (fun (o : Out σ) => o.send) m) :
    quiet_or_reply (fun (st : io_buffer × Out σ) => st.2.send) (liftOut m) := by
  intro st
  have h1 := h st.2
  unfold liftOut
  cases hms : m st.2 with
  | ok a o1 => rw [hms] at h1; exact h1
  | throw e o1 => trivial

theorem quiet_store_value (cache : Cache σ) (cmd : Command) (h : StorageHeader) :
    quiet_or_reply (fun (st : io_buffer × Out σ) => st.2.send) (store_value cache cmd h) := by
  intro st
  simp only [store_value]
  split_ifs with c1 c2
  · cases hE : (st.1.ensure_capacity (size_sub (h.datalen + CRLF.length) st.1.non_read) :
        Except (exn error) io_buffer) with
    | ok r1 => trivial
    | error e => trivial
  · refine quiet_liftOut ?_ _
    refine quiet_bind (keeps_send_call_cache _ _) (fun item => ?_)
    intro o
    have h1 : quiet_or_reply (fun (o : Out σ) => o.send)
        (call_cache (.do_storage cmd
            { item with value := rtrim_n (List.take (h.datalen + CRLF.length)
              (List.drop st.1.m_read_pos st.1.m_data)) CRLF.length })
          (cache.do_storage cmd
            { item with value := rtrim_n (List.take (h.datalen + CRLF.length)
              (List.drop st.1.m_read_pos st.1.m_data)) CRLF.length }) >>=
          fun response => reply_with_response response h.noreply) :=
      quiet_bind (keeps_send_call_cache _ _) (fun _ => quiet_reply_with_response _ _)
    have h2 := h1 o
    unfold try_catch_all
    revert h2
    cases hm : (call_cache (.do_storage cmd
            { item with value := rtrim_n (List.take (h.datalen + CRLF.length)
              (List.drop st.1.m_read_pos st.1.m_data)) CRLF.length })
          (cache.do_storage cmd
            { item with value := rtrim_n (List.take (h.datalen + CRLF.length)
              (List.drop st.1.m_read_pos st.1.m_data)) CRLF.length }) >>=
          fun response => reply_with_response response h.noreply) o with
    | ok r o1 => intro h2; exact h2
    | throw e o1 => intro _; trivial
  · trivial

theorem quiet_handle_storage_command (env : Env) (cache : Cache σ) (cmd : Command)
    (args : bytes) :
    quiet_or_reply (fun (st : io_buffer × Out σ) => st.2.send)
      (handle_storage_command env cache cmd args) := by
  unfold handle_storage_command
  exact quiet_bind (keeps_send_liftE _ _) (fun _ => quiet_store_value _ _ _)

theorem quiet_dispatch (env : Env) (cache : Cache σ) (cmd : Command) (args : bytes)
    (handler : M (io_buffer × Out σ) ConversationReply)
    (h : dispatch env cache cmd args = some handler) :
    quiet_or_reply (fun (st : io_buffer × Out σ) => st.2.send) handler := by
  cases cmd <;> simp only [dispatch] at h <;> cases h
  all_goals first
    | exact quiet_handle_storage_command _ _ _ _
    | exact quiet_liftOut (quiet_of_always_replies (replies_handle_retrieval_command _ _ _))
    | exact quiet_liftOut (quiet_handle_delete_command _ _)
    | exact quiet_liftOut (quiet_handle_arithmetic_command _ _ _)
    | exact quiet_liftOut (quiet_handle_touch_command _ _)
    | exact quiet_liftOut (quiet_of_always_replies (replies_handle_statistics_command _ _ _))
    | exact quiet_liftOut (quiet_of_always_replies (replies_handle_version_command _ _))
    | exact quiet_liftOut (quiet_handle_flush_all_command _ _)

end quiet_handlers

/-! ## The outcome of `handle_received_data` from the outcome of its body -/

section top

variable {σ : Type}

theorem some_of_write {x : Except (exn error) io_buffer} {f : io_buffer → Outcome σ}
    {out : Outcome σ}
    (h : (match x with
      | .ok b => some (f b)
      | .error _ => none) = some out) : ∃ b, x = .ok b ∧ out = f b := by
  cases x with
  | ok b => exact ⟨b, rfl, by simpa using h.symm⟩
  | error e => cases h

theorem handle_received_data_inv (env : Env) (cache : Cache σ) (recv_buf send_buf : io_buffer)
    (cache_state : σ) (out : Outcome σ)
    (h : handle_received_data env cache recv_buf send_buf cache_state = some out) :
    outcome_of_body env recv_buf send_buf
      (handle_body env cache (recv_buf, ⟨send_buf, cache_state, []⟩)) out := by
  unfold handle_received_data at h
  simp only [io_buffer.read_savepoint, io_buffer.write_savepoint] at h
  cases hb : handle_body env cache (recv_buf, ⟨send_buf, cache_state, []⟩) with
  | ok reply st1 =>
    rw [hb] at h
    simp only [Option.some.injEq] at h
    subst h
    exact ⟨rfl, rfl, rfl, rfl, rfl⟩
  | throw x st1 =>
    rw [hb] at h
    cases x with
    | std_exception what =>
      simp only at h
      cases hw : write_error_line (st1.2.send.rollback_write_transaction send_buf.m_write_pos)
          SERVER_ERROR what with
      | error e => rw [hw] at h; cases h
      | ok b =>
        rw [hw] at h
        simp only [Option.some.injEq] at h
        subst h
        simp [outcome_of_body, recv_after_error, write_error_reply, hw]
    | system_error code =>
      cases code <;> simp only [error.is_protocol, if_true, if_false] at h <;>
        simp only [outcome_of_body, recv_after_error, write_error_reply, error.is_protocol]
      case incomplete_request =>
        simp only [Bool.false_eq_true, if_false, Option.some.injEq] at h
        subst h
        simp
      all_goals
        try simp only [Bool.false_eq_true, if_false] at h
        obtain ⟨b, hx, rfl⟩ := some_of_write h
        simp [hx]

end top

/-! ## Reading the header line -/

section header

variable {σ : Type}

theorem try_read_until_none (b : io_buffer) (h : ¬ CRLF <:+: b.unread) :
    b.try_read_until CRLF = ([], b) := by
  have hs := slice_search_of_not_infix _ h
  simp only [io_buffer.unread] at hs
  simp only [io_buffer.try_read_until, hs]

theorem try_read_until_line (b : io_buffer) (line rest : bytes) (h : holds_line b line rest) :
    b.try_read_until CRLF = (line ++ CRLF, b.after_line line.length) := by
  obtain ⟨hu, hno⟩ := h
  have hs := slice_search_line line rest hno
  simp only [io_buffer.unread] at hu
  simp only [io_buffer.try_read_until, hu, hs, io_buffer.confirm_read, io_buffer.after_line]
  have e : List.take (line.length + CRLF.length) (line ++ CRLF ++ rest) = line ++ CRLF := by
    rw [List.take_append_of_le_length (by simp)]
    rw [List.take_of_length_le (by simp)]
  rw [e]
  simp

theorem holds_line_or_not (b : io_buffer) :
    ¬ CRLF <:+: b.unread ∨ ∃ line rest, holds_line b line rest := by
  cases hs : slice_search b.unread CRLF with
  | none => exact Or.inl (slice_search_none _ hs)
  | some i =>
    obtain ⟨line, rest, hu, hno, _⟩ := slice_search_some _ i hs
    exact Or.inr ⟨line, rest, hu, hno⟩

theorem rtrim_n_line (line : bytes) : rtrim_n (line ++ CRLF) CRLF.length = line := by
  simp [rtrim_n]

theorem handle_body_incomplete (env : Env) (cache : Cache σ) (recv_buf : io_buffer)
    (o : Out σ) (h : ¬ CRLF <:+: recv_buf.unread) :
    handle_body env cache (recv_buf, o) =
      .throw (.system_error .incomplete_request) (recv_buf, o) := by
  rw [handle_body_eq]
  simp only [try_read_until_none recv_buf h, if_true]

theorem handle_body_line (env : Env) (cache : Cache σ) (recv_buf : io_buffer) (o : Out σ)
    (line rest : bytes) (h : holds_line recv_buf line rest) :
    handle_body env cache (recv_buf, o) =
      run_command env cache line (recv_buf.after_line line.length, o) := by
  rw [handle_body_eq]
  simp only [try_read_until_line recv_buf line rest h, rtrim_n_line]
  rw [if_neg (by simp [CRLF])]

end header

/-! ## `quit` -/

section quit

variable {σ : Type}

theorem run_command_quit (env : Env) (cache : Cache σ) (line : bytes)
    (st : io_buffer × Out σ) (h : parse_command_name (command_name line) = .QUIT) :
    run_command env cache line st = .ok .CLOSE_IMMEDIATELY st := by
  simp only [run_command, h, dispatch, if_true]

theorem run_command_close (env : Env) (cache : Cache σ) (line : bytes)
    (st st1 : io_buffer × Out σ)
    (h : run_command env cache line st = .ok .CLOSE_IMMEDIATELY st1) :
    parse_command_name (command_name line) = .QUIT ∧ st1 = st := by
  unfold run_command at h
  cases hd : dispatch env cache (parse_command_name (command_name line)) (command_args line) with
  | some handler =>
    rw [hd] at h
    simp only at h
    have hq := quiet_dispatch env cache _ _ handler hd st
    cases hh : handler st with
    | ok r st2 =>
      rw [hh] at h hq
      simp only [Res.ok.injEq] at h
      rcases hq with hq | ⟨hq, _⟩ <;> rw [hq] at h <;> exact absurd h.1 (by decide)
    | throw e st2 => rw [hh] at h; cases h
  | none =>
    rw [hd] at h
    simp only at h
    by_cases c : parse_command_name (command_name line) = .QUIT
    · rw [if_pos c] at h
      simp only [Res.ok.injEq, true_and] at h
      exact ⟨c, h.symm⟩
    · rw [if_neg c] at h
      cases h

theorem handle_received_data_quit (env : Env) (cache : Cache σ) (recv_buf send_buf : io_buffer)
    (cache_state : σ) (line rest : bytes) (hl : holds_line recv_buf line rest)
    (hq : command_name line = "quit".toList) :
    handle_received_data env cache recv_buf send_buf cache_state =
      some ⟨.CLOSE_IMMEDIATELY, recv_buf.after_line line.length, send_buf, cache_state, []⟩ := by
  have hb := handle_body_line env cache recv_buf ⟨send_buf, cache_state, []⟩ line rest hl
  rw [run_command_quit env cache line _ ((parse_command_name_quit _).mpr hq)] at hb
  simp only [handle_received_data, hb]

theorem handle_received_data_close (env : Env) (cache : Cache σ)
    (recv_buf send_buf : io_buffer) (cache_state : σ) (out : Outcome σ)
    (h : handle_received_data env cache recv_buf send_buf cache_state = some out)
    (hr : out.reply = .CLOSE_IMMEDIATELY) :
    ∃ line rest, holds_line recv_buf line rest ∧ command_name line = "quit".toList := by
  have hinv := handle_received_data_inv env cache recv_buf send_buf cache_state out h
  rcases holds_line_or_not recv_buf with hno | ⟨line, rest, hl⟩
  · rw [handle_body_incomplete env cache recv_buf _ hno] at hinv
    simp only [outcome_of_body, if_true] at hinv
    rw [hinv.2.2.1] at hr
    cases hr
  · refine ⟨line, rest, hl, ?_⟩
    rw [handle_body_line env cache recv_buf _ line rest hl] at hinv
    cases hrc : run_command env cache line
        (recv_buf.after_line line.length, ⟨send_buf, cache_state, []⟩) with
    | ok reply st1 =>
      rw [hrc] at hinv
      simp only [outcome_of_body] at hinv
      rw [hinv.1] at hr
      subst hr
      exact (parse_command_name_quit _).mp (run_command_close env cache line _ _ hrc).1
    | throw x st1 =>
      rw [hrc] at hinv
      simp only [outcome_of_body] at hinv
      obtain ⟨_, _, hif⟩ := hinv
      split_ifs at hif
      · rw [hif.1] at hr; cases hr
      · rw [hif.1] at hr; cases hr

end quit

/-- C4: `handle_received_data` returns `CLOSE_IMMEDIATELY` if and only if the
unread bytes of `recv` start with a complete line whose command name (the bytes
before the first space, CRLF stripped) is exactly `quit`; in that case the send
buffer is untouched and the cache collaborator is not called. -/
theorem close_immediately_iff_quit {σ : Type} (env : Env) (cache : Cache σ)
    (recv_buf send_buf : io_buffer) (cache_state : σ) :
    ((∃ out, handle_received_data env cache recv_buf send_buf cache_state = some out ∧
        out.reply = .CLOSE_IMMEDIATELY) ↔
      ∃ line rest, holds_line recv_buf line rest ∧ command_name line = "quit".toList) ∧
    ∀ out, handle_received_data env cache recv_buf send_buf cache_state = some out →
      out.reply = .CLOSE_IMMEDIATELY →
        out.send = send_buf ∧ out.cache = cache_state ∧ out.calls = [] := by
  refine ⟨⟨?_, ?_⟩, ?_⟩
  · rintro ⟨out, h, hr⟩
    exact handle_received_data_close env cache recv_buf send_buf cache_state out h hr
  · rintro ⟨line, rest, hl, hq⟩
    exact ⟨_, handle_received_data_quit env cache recv_buf send_buf cache_state line rest hl hq,
      rfl⟩
  · intro out h hr
    obtain ⟨line, rest, hl, hq⟩ :=
      handle_received_data_close env cache recv_buf send_buf cache_state out h hr
    rw [handle_received_data_quit env cache recv_buf send_buf cache_state line rest hl hq] at h
    simp only [Option.some.injEq] at h
    subst h
    exact ⟨rfl, rfl, rfl⟩

/-- C4 at a concrete input: `quit now\r\n` closes, with an untouched send
buffer and no cache call. -/
theorem close_immediately_iff_quit_witness :
    (∃ out, handle_received_data example_env (fixed_cache [])
        (buffer_with 64 "quit now\r\n".toList) (buffer_with 64 "abc".toList) () = some out ∧
      out.reply = .CLOSE_IMMEDIATELY) ∧
    ∀ out, handle_received_data example_env (fixed_cache [])
        (buffer_with 64 "quit now\r\n".toList) (buffer_with 64 "abc".toList) () = some out →
      out.reply = .CLOSE_IMMEDIATELY →
        out.send = buffer_with 64 "abc".toList ∧ out.cache = () ∧ out.calls = [] :=
  ⟨(close_immediately_iff_quit example_env (fixed_cache [])
      (buffer_with 64 "quit now\r\n".toList) (buffer_with 64 "abc".toList) ()).1.mpr
      ⟨"quit now".toList, [], ⟨by decide, by decide⟩, by decide⟩,
   (close_immediately_iff_quit example_env (fixed_cache [])
      (buffer_with 64 "quit now\r\n".toList) (buffer_with 64 "abc".toList) ()).2⟩

/-! ## `READ_MORE` -/

section read_more

variable {σ : Type}

theorem run_command_ok (env : Env) (cache : Cache σ) (line : bytes)
    (st st1 : io_buffer × Out σ) (r : ConversationReply)
    (h : run_command env cache line st = .ok r st1) :
    (r = .CLOSE_IMMEDIATELY ∧ st1 = st) ∨
    (r = .SEND_REPLY_AND_READ ∧ st1.1.m_read_pos = 0) ∨
    (r = .READ_MORE ∧ st1.1.m_read_pos = 0 ∧ st1.2.send = st.2.send) := by
  unfold run_command at h
  cases hd : dispatch env cache (parse_command_name (command_name line)) (command_args line) with
  | some handler =>
    rw [hd] at h
    simp only at h
    have hq := quiet_dispatch env cache _ _ handler hd st
    cases hh : handler st with
    | ok r2 st2 =>
      rw [hh] at h hq
      simp only [Res.ok.injEq] at h
      obtain ⟨rfl, rfl⟩ := h
      have hc : st2.1.compact.m_read_pos = 0 := by
        unfold io_buffer.compact
        split <;> rfl
      rcases hq with hq | ⟨hq, hs⟩
      · exact Or.inr (Or.inl ⟨hq, hc⟩)
      · exact Or.inr (Or.inr ⟨hq, hc, hs⟩)
    | throw e st2 => rw [hh] at h; cases h
  | none =>
    rw [hd] at h
    simp only at h
    by_cases c : parse_command_name (command_name line) = .QUIT
    · rw [if_pos c] at h
      simp only [Res.ok.injEq] at h
      exact Or.inl ⟨h.1.symm, h.2.symm⟩
    · rw [if_neg c] at h
      cases h

theorem handle_body_ok (env : Env) (cache : Cache σ) (recv_buf : io_buffer) (o : Out σ)
    (st1 : io_buffer × Out σ) (r : ConversationReply)
    (h : handle_body env cache (recv_buf, o) = .ok r st1) :
    (r = .CLOSE_IMMEDIATELY ∧ st1.2 = o) ∨
    (r = .SEND_REPLY_AND_READ ∧ st1.1.m_read_pos = 0) ∨
    (r = .READ_MORE ∧ st1.1.m_read_pos = 0 ∧ st1.2.send = o.send) := by
  rcases holds_line_or_not recv_buf with hno | ⟨line, rest, hl⟩
  · rw [handle_body_incomplete env cache recv_buf o hno] at h
    cases h
  · rw [handle_body_line env cache recv_buf o line rest hl] at h
    rcases run_command_ok env cache line _ st1 r h with ⟨h1, h2⟩ | h1 | h1
    · exact Or.inl ⟨h1, by rw [h2]⟩
    · exact Or.inr (Or.inl h1)
    · exact Or.inr (Or.inr h1)

theorem rollback_after_grows {b b1 : io_buffer} (hb : b.sound) (hg : b.extends_to b1) :
    (b1.rollback_write_transaction b.m_write_pos).sound ∧
      (b1.rollback_write_transaction b.m_write_pos).written = b.written ∧
      (b1.rollback_write_transaction b.m_write_pos).m_max_size = b.m_max_size := by
  obtain ⟨⟨⟨g1, g2, g3⟩, g4, g5⟩, hm, hr, v, hv⟩ := hg
  obtain ⟨⟨h1, h2, h3⟩, h4, h5⟩ := hb
  have hlen : b.written.length = b.m_write_pos := by
    simp only [io_buffer.written, List.length_take]; omega
  have hlen1 : b1.written.length = b1.m_write_pos := by
    simp only [io_buffer.written, List.length_take]; omega
  have hle : b.m_write_pos ≤ b1.m_write_pos := by
    rw [← hlen, ← hlen1, hv, List.length_append]; omega
  refine ⟨⟨⟨?_, ?_, g3⟩, g4, g5⟩, ?_, hm⟩
  · simp only [io_buffer.rollback_write_transaction]; omega
  · simp only [io_buffer.rollback_write_transaction]; omega
  · simp only [io_buffer.rollback_write_transaction, io_buffer.written]
    have e : List.take b.m_write_pos b1.m_data =
        List.take b.m_write_pos (List.take b1.m_write_pos b1.m_data) := by
      rw [List.take_take, Nat.min_eq_left hle]
    have hv1 : List.take b1.m_write_pos b1.m_data = b.written ++ v := hv
    rw [e, hv1, List.take_append_of_le_length (by omega), List.take_of_length_le (by omega)]
    rfl

end read_more

/-- C2: if `handle_received_data` returns `READ_MORE`, the write position of
`send` is the same as at entry, and so are the bytes before it when `send` is a
well-formed buffer and the texts handed to it are of ordinary size. This covers
the incomplete request and every noreply path. -/
theorem read_more_leaves_send {σ : Type} (env : Env) (cache : Cache σ)
    (recv_buf send_buf : io_buffer) (cache_state : σ) (out : Outcome σ)
    (h : handle_received_data env cache recv_buf send_buf cache_state = some out)
    (hr : out.reply = .READ_MORE) :
    out.send.m_write_pos = send_buf.m_write_pos ∧
      (send_buf.sound → env.small → cache.small → out.send.written = send_buf.written) := by
  have hinv := handle_received_data_inv env cache recv_buf send_buf cache_state out h
  cases hb : handle_body env cache (recv_buf, ⟨send_buf, cache_state, []⟩) with
  | ok reply st1 =>
    rw [hb] at hinv
    simp only [outcome_of_body] at hinv
    obtain ⟨h1, _, h3, _, _⟩ := hinv
    rw [h1] at hr
    subst hr
    rcases handle_body_ok env cache recv_buf _ st1 _ hb with ⟨hc, _⟩ | ⟨hc, _⟩ | ⟨_, _, hs⟩
    · cases hc
    · cases hc
    · simp only at hs
      rw [h3, hs]
      exact ⟨rfl, fun _ _ _ => rfl⟩
  | throw x st1 =>
    rw [hb] at hinv
    simp only [outcome_of_body] at hinv
    obtain ⟨_, _, hif⟩ := hinv
    split_ifs at hif with hx
    · obtain ⟨_, _, hsend⟩ := hif
      rw [hsend]
      refine ⟨rfl, fun hs he hc => ?_⟩
      have hk := keeps_state (keeps_handle_body env he cache hc) (recv_buf, ⟨send_buf, cache_state, []⟩)
      rw [hb] at hk
      exact (rollback_after_grows hs (hk hs)).2.1
    · rw [hif.1] at hr
      cases hr

theorem find_item_mem (key : bytes) (items : List Item) (i : Item)
    (h : find_item key items = some i) : i ∈ items := by
  induction items with
  | nil => cases h
  | cons j rest ih =>
    simp only [find_item] at h
    split_ifs at h
    · simp only [Option.some.injEq] at h
      exact h ▸ List.mem_cons_self _ _
    · exact List.mem_cons_of_mem _ (ih h)

theorem fixed_cache_small (items : List Item)
    (h : ∀ i ∈ items, i.key.length < 2 ^ 32 ∧ i.value.length < 2 ^ 32) :
    (fixed_cache items).small := by
  intro key st i hi
  simp only [fixed_cache, Except.ok.injEq] at hi
  exact h i (find_item_mem key items i hi)

theorem example_env_small : example_env.small := ⟨by decide, by decide⟩

/-- C2 at a concrete input: `delete k noreply\r\n` returns `READ_MORE` and the
send buffer still holds `abc` and nothing else. -/
theorem read_more_leaves_send_witness :
    handle_received_data example_env (fixed_cache [])
        (buffer_with 64 "delete k noreply\r\n".toList) (buffer_with 64 "abc".toList) () =
      some delete_noreply_outcome ∧
    delete_noreply_outcome.send.m_write_pos = (buffer_with 64 "abc".toList).m_write_pos ∧
    delete_noreply_outcome.send.written = (buffer_with 64 "abc".toList).written :=
  ⟨rfl,
   (read_more_leaves_send example_env (fixed_cache [])
      (buffer_with 64 "delete k noreply\r\n".toList) (buffer_with 64 "abc".toList) ()
      delete_noreply_outcome rfl rfl).1,
   (read_more_leaves_send example_env (fixed_cache [])
      (buffer_with 64 "delete k noreply\r\n".toList) (buffer_with 64 "abc".toList) ()
      delete_noreply_outcome rfl rfl).2 (by decide) example_env_small
      (fixed_cache_small [] (by simp))⟩

/-- C3, counterexample: on a receive buffer with read position 2 that holds
`delete k noreply\r\n` unread, `handle_received_data` returns `READ_MORE` and
leaves the read position at 0, not at 2. -/
theorem read_more_moves_read_pos :
    (handle_received_data example_env (fixed_cache []) recv_past_two
        (buffer_with 64 "abc".toList) ()).map (fun out => (out.reply, out.recv.m_read_pos)) =
      some (.READ_MORE, 0) ∧ recv_past_two.m_read_pos = 2 := by
  decide

/-- C3, amended: if `handle_received_data` returns `READ_MORE`, then either its
`try` block raised `incomplete_request` and the read position of `recv` is the
same as at entry, or a command with `noreply` was carried out, `recv` was
compacted and its read position is 0. -/
theorem read_more_read_pos {σ : Type} (env : Env) (cache : Cache σ)
    (recv_buf send_buf : io_buffer) (cache_state : σ) (out : Outcome σ)
    (h : handle_received_data env cache recv_buf send_buf cache_state = some out)
    (hr : out.reply = .READ_MORE) :
    (∃ st1, handle_body env cache (recv_buf, ⟨send_buf, cache_state, []⟩) =
        .throw (.system_error .incomplete_request) st1 ∧
      out.recv.m_read_pos = recv_buf.m_read_pos) ∨
    (∃ st1, handle_body env cache (recv_buf, ⟨send_buf, cache_state, []⟩) =
        .ok .READ_MORE st1 ∧
      out.recv.m_read_pos = 0) := by
  have hinv := handle_received_data_inv env cache recv_buf send_buf cache_state out h
  cases hb : handle_body env cache (recv_buf, ⟨send_buf, cache_state, []⟩) with
  | ok reply st1 =>
    rw [hb] at hinv
    simp only [outcome_of_body] at hinv
    obtain ⟨h1, h2, _, _, _⟩ := hinv
    rw [h1] at hr
    subst hr
    refine Or.inr ⟨st1, rfl, ?_⟩
    rcases handle_body_ok env cache recv_buf _ st1 _ hb with ⟨hc, _⟩ | ⟨hc, _⟩ | ⟨_, hp, _⟩
    · cases hc
    · cases hc
    · rw [h2, hp]
  | throw x st1 =>
    rw [hb] at hinv
    simp only [outcome_of_body] at hinv
    obtain ⟨_, _, hif⟩ := hinv
    split_ifs at hif with hx
    · subst hx
      refine Or.inl ⟨st1, rfl, ?_⟩
      rw [hif.2.1]
      rfl
    · rw [hif.1] at hr
      cases hr

/-- C3, amended, at a concrete input: the incomplete line `get k` gives
`READ_MORE` through `incomplete_request`, with the read position where it was. -/
theorem read_more_read_pos_witness :
    handle_received_data example_env (fixed_cache []) (buffer_with 64 "get k".toList)
        (buffer_with 64 "abc".toList) () = some incomplete_outcome ∧
    incomplete_outcome.reply = .READ_MORE ∧
    ((∃ st1, handle_body example_env (fixed_cache [])
          (buffer_with 64 "get k".toList, ⟨buffer_with 64 "abc".toList, (), []⟩) =
          .throw (.system_error .incomplete_request) st1 ∧
        incomplete_outcome.recv.m_read_pos = (buffer_with 64 "get k".toList).m_read_pos) ∨
      (∃ st1, handle_body example_env (fixed_cache [])
          (buffer_with 64 "get k".toList, ⟨buffer_with 64 "abc".toList, (), []⟩) =
          .ok .READ_MORE st1 ∧
        incomplete_outcome.recv.m_read_pos = 0)) :=
  ⟨rfl, rfl,
   read_more_read_pos example_env (fixed_cache []) (buffer_with 64 "get k".toList)
     (buffer_with 64 "abc".toList) () incomplete_outcome rfl rfl⟩

/-! ## The reply to a failed command -/

theorem except_bind_ok {α β : Type} {x : Except (exn error) α} {f : α → Except (exn error) β}
    {b : β} (h : (x >>= f) = .ok b) : ∃ a, x = .ok a ∧ f a = .ok b := by
  cases x with
  | ok a => exact ⟨a, rfl, h⟩
  | error e => cases h

theorem write_bytes_ok {b b1 : io_buffer} {v : bytes} (hb : b.sound) (hv : v.length ≤ 2 ^ 62)
    (h : b.write_bytes v = .ok b1) :
    b1.sound ∧ b1.m_max_size = b.m_max_size ∧ b1.written = b.written ++ v := by
  obtain ⟨h1, h2, _, _, h5⟩ := io_buffer.reserve_and_copy_ok hb hv (le_refl _) h
  exact ⟨h1, h2, h5⟩

theorem write_char_ok {b b1 : io_buffer} {c : Char} (hb : b.sound)
    (h : b.write_char c = .ok b1) :
    b1.sound ∧ b1.m_max_size = b.m_max_size ∧ b1.written = b.written ++ [c] := by
  obtain ⟨h1, h2, _, _, h5⟩ :=
    io_buffer.reserve_and_copy_ok (n := 1) (v := [c]) hb (by norm_num) (le_refl _) h
  exact ⟨h1, h2, h5⟩

theorem write_error_line_ok {b b1 : io_buffer} {kind message : bytes} (hb : b.sound)
    (hk : kind.length ≤ 2 ^ 62) (hm : message.length ≤ 2 ^ 62)
    (h : write_error_line b kind message = .ok b1) :
    b1.sound ∧ b1.m_max_size = b.m_max_size ∧
      b1.written = b.written ++ (kind ++ SPACE :: message ++ CRLF) := by
  unfold write_error_line at h
  obtain ⟨a1, e1, h⟩ := except_bind_ok h
  obtain ⟨a2, e2, h⟩ := except_bind_ok h
  obtain ⟨a3, e3, h⟩ := except_bind_ok h
  obtain ⟨s1, m1, w1⟩ := write_bytes_ok hb hk e1
  obtain ⟨s2, m2, w2⟩ := write_char_ok s1 e2
  obtain ⟨s3, m3, w3⟩ := write_bytes_ok s2 hm e3
  obtain ⟨s4, m4, w4⟩ := write_bytes_ok s3 (by decide) h
  refine ⟨s4, by rw [m4, m3, m2, m1], ?_⟩
  rw [w4, w3, w2, w1]
  simp

theorem write_error_reply_ok (env : Env) {b b1 : io_buffer} {x : exn error} (hb : b.sound)
    (hx : x ≠ .system_error .incomplete_request) (hlen : (exn_text env x).length < 2 ^ 32)
    (h : write_error_reply env x b = .ok b1) :
    b1.sound ∧ b1.m_max_size = b.m_max_size ∧ b1.written = b.written ++ error_line env x := by
  have hm : (exn_text env x).length ≤ 2 ^ 62 := by omega
  cases x with
  | std_exception what =>
    exact write_error_line_ok hb (by decide) hm h
  | system_error code =>
    simp only [exn_text] at hm
    cases code <;> simp only [write_error_reply, error_line, error.is_protocol, if_true,
      Bool.false_eq_true, if_false] at h ⊢
    case incomplete_request => exact absurd rfl hx
    case broken_request =>
      obtain ⟨a1, e1, h⟩ := except_bind_ok h
      obtain ⟨s1, m1, w1⟩ := write_bytes_ok hb (by decide) e1
      obtain ⟨s2, m2, w2⟩ := write_bytes_ok s1 (by decide) h
      refine ⟨s2, by rw [m2, m1], ?_⟩
      rw [w2, w1]
      simp
    all_goals exact write_error_line_ok hb (by decide) hm h

/-- C5: when handling a command raises an error other than `incomplete_request`
(also after reply bytes were written), then on return the send buffer holds what
it held at entry followed by exactly one error line, `ERROR\r\n`,
`CLIENT_ERROR <message>\r\n` or `SERVER_ERROR <message>\r\n`, and the verdict is
`SEND_REPLY_AND_READ`. The send buffer is a well-formed buffer and the texts
handed to it are of ordinary size. -/
theorem failed_command_leaves_one_error_line {σ : Type} (env : Env) (cache : Cache σ)
    (recv_buf send_buf : io_buffer) (cache_state : σ) (x : exn error)
    (st1 : io_buffer × Out σ) (out : Outcome σ)
    (hs : send_buf.sound) (he : env.small) (hc : cache.small)
    (hbody : handle_body env cache (recv_buf, ⟨send_buf, cache_state, []⟩) = .throw x st1)
    (hx : x ≠ .system_error .incomplete_request)
    (hlen : (exn_text env x).length < 2 ^ 32)
    (hret : handle_received_data env cache recv_buf send_buf cache_state = some out) :
    out.reply = .SEND_REPLY_AND_READ ∧
      out.send.written = send_buf.written ++ error_line env x ∧
      out.send.m_write_pos = send_buf.m_write_pos + (error_line env x).length ∧
      (error_line env x = ERROR ++ CRLF ∨
        error_line env x = CLIENT_ERROR ++ SPACE :: exn_text env x ++ CRLF ∨
        error_line env x = SERVER_ERROR ++ SPACE :: exn_text env x ++ CRLF) := by
  have hinv := handle_received_data_inv env cache recv_buf send_buf cache_state out hret
  rw [hbody] at hinv
  simp only [outcome_of_body, if_neg hx] at hinv
  obtain ⟨_, _, hreply, _, hw⟩ := hinv
  have hk := keeps_state (keeps_handle_body env he cache hc) (recv_buf, ⟨send_buf, cache_state, []⟩)
  rw [hbody] at hk
  obtain ⟨r1, r2, r3⟩ := rollback_after_grows hs (hk hs)
  obtain ⟨w1, w2, w3⟩ := write_error_reply_ok env r1 hx hlen hw
  have hwritten : out.send.written = send_buf.written ++ error_line env x := by rw [w3, r2]
  refine ⟨hreply, hwritten, ?_, ?_⟩
  · have l1 : out.send.written.length = out.send.m_write_pos := by
      obtain ⟨⟨_, g2, _⟩, g4, _⟩ := w1
      simp only [io_buffer.written, List.length_take]; omega
    have l2 : send_buf.written.length = send_buf.m_write_pos := by
      obtain ⟨⟨_, g2, _⟩, g4, _⟩ := hs
      simp only [io_buffer.written, List.length_take]; omega
    rw [← l1, hwritten, List.length_append, l2]
  · cases x with
    | std_exception what => exact Or.inr (Or.inr rfl)
    | system_error code =>
      cases code <;> simp [error_line, error.is_protocol, exn_text]

/-- C5 at a concrete input: `get foo <control byte>` writes the `VALUE` block of
`foo`, then fails on the second key; on return `send` holds its old content
`abc` followed by the one line `CLIENT_ERROR Invalid key\r\n`. -/
theorem failed_command_leaves_one_error_line_witness :
    ∃ out, handle_received_data example_env (fixed_cache [foo_item])
        (buffer_with 64 get_hit_then_bad_key) (buffer_with 64 "abc".toList) () = some out ∧
      out.reply = .SEND_REPLY_AND_READ ∧
      out.send.written = "abcCLIENT_ERROR Invalid key\r\n".toList ∧
      (handle_body example_env (fixed_cache [foo_item])
        (buffer_with 64 get_hit_then_bad_key,
          ⟨buffer_with 64 "abc".toList, (), []⟩)).state.2.send.written =
        "abcVALUE foo 3 5\r\nhello\r\n".toList := by
  have h0 : (handle_received_data example_env (fixed_cache [foo_item])
      (buffer_with 64 get_hit_then_bad_key) (buffer_with 64 "abc".toList) ()).isSome = true := by
    decide
  have hbody : handle_body example_env (fixed_cache [foo_item])
      (buffer_with 64 get_hit_then_bad_key, ⟨buffer_with 64 "abc".toList, (), []⟩) =
      .throw (.system_error .key_invalid)
        (handle_body example_env (fixed_cache [foo_item])
          (buffer_with 64 get_hit_then_bad_key, ⟨buffer_with 64 "abc".toList, (), []⟩)).state := by
    rfl
  have h := failed_command_leaves_one_error_line example_env (fixed_cache [foo_item])
    (buffer_with 64 get_hit_then_bad_key) (buffer_with 64 "abc".toList) ()
    (.system_error .key_invalid) _ _ (by decide) example_env_small
    (fixed_cache_small [foo_item] (by decide)) hbody (by decide) (by decide)
    (Option.some_get h0).symm
  exact ⟨_, (Option.some_get h0).symm, h.1, h.2.1.trans (by decide), by decide⟩

/-! ## Unknown commands -/

theorem write_bytes_room {b : io_buffer} {v : bytes} (hb : b.sound)
    (hroom : b.m_write_pos + v.length ≤ b.m_max_size) :
    ∃ b1, b.write_bytes v = .ok b1 ∧ b1.sound ∧ b1.m_max_size = b.m_max_size ∧
      b1.m_read_pos = b.m_read_pos ∧ b1.m_write_pos = b.m_write_pos + v.length ∧
      b1.written = b.written ++ v := by
  obtain ⟨b1, h1⟩ := io_buffer.reserve_and_copy_succeeds (v := v) hb hroom
  have hv : v.length ≤ 2 ^ 62 := by have := hb.2.2; omega
  exact ⟨b1, h1, io_buffer.reserve_and_copy_ok hb hv (le_refl _) h1⟩

theorem rollback_write_self (b : io_buffer) :
    b.rollback_write_transaction b.m_write_pos = b := rfl

theorem rollback_read_self (b : io_buffer) :
    b.rollback_read_transaction b.m_read_pos = b := rfl

theorem unread_reset (b : io_buffer) : b.reset.unread = [] := by
  simp [io_buffer.unread, io_buffer.reset, io_buffer.non_read, size_sub]

section unknown

variable {σ : Type}

theorem run_command_unknown (env : Env) (cache : Cache σ) (line : bytes)
    (st : io_buffer × Out σ) (h : command_name line ∉ command_table.map Prod.fst) :
    run_command env cache line st = .throw (.system_error .broken_request) st := by
  have hu := parse_command_name_unknown _ h
  simp only [run_command, hu, dispatch]
  rfl

end unknown

/-- C8: for every complete line in `recv` whose command name is not one of the
sixteen known names (an empty name included), `handle_received_data` appends
exactly `ERROR\r\n` to `send`, resets `recv` so that nothing is unread, does not
call the cache collaborator and returns `SEND_REPLY_AND_READ`; `send` is a
well-formed buffer that may grow by the seven bytes of the reply. -/
theorem unknown_command_replies_error {σ : Type} (env : Env) (cache : Cache σ)
    (recv_buf send_buf : io_buffer) (cache_state : σ) (line rest : bytes)
    (hl : holds_line recv_buf line rest)
    (hname : command_name line ∉ command_table.map Prod.fst)
    (hs : send_buf.sound) (hroom : send_buf.m_write_pos + 7 ≤ send_buf.m_max_size) :
    ∃ out, handle_received_data env cache recv_buf send_buf cache_state = some out ∧
      out.reply = .SEND_REPLY_AND_READ ∧
      out.send.written = send_buf.written ++ "ERROR\r\n".toList ∧
      out.send.m_write_pos = send_buf.m_write_pos + 7 ∧
      out.recv.unread = [] ∧ out.recv.non_read = 0 ∧
      out.calls = [] ∧ out.cache = cache_state := by
  have hb := handle_body_line env cache recv_buf ⟨send_buf, cache_state, []⟩ line rest hl
  rw [run_command_unknown env cache line _ hname] at hb
  obtain ⟨b1, e1, s1, m1, _, p1, w1⟩ := write_bytes_room (v := ERROR) hs
    (by simp only [ERROR, String.toList, List.length_cons, List.length_nil]; omega)
  obtain ⟨b2, e2, s2, m2, _, p2, w2⟩ := write_bytes_room (v := CRLF) s1
    (by rw [p1, m1]; simp only [ERROR, CRLF, String.toList, List.length_cons, List.length_nil]; omega)
  refine ⟨⟨.SEND_REPLY_AND_READ, (recv_buf.after_line line.length).reset, b2, cache_state, []⟩,
    ?_, rfl, ?_, ?_, unread_reset _, ?_, rfl, rfl⟩
  · simp only [handle_received_data, hb, io_buffer.write_savepoint, rollback_write_self,
      error.is_protocol, Bool.false_eq_true, if_false]
    have e3 : (do let b ← send_buf.write_bytes ERROR; b.write_bytes CRLF :
        Except (exn error) io_buffer) = .ok b2 := by
      rw [e1]
      exact e2
    rw [e3]
  · rw [w2, w1, List.append_assoc]
    rfl
  · rw [p2, p1]
    simp [ERROR, CRLF]
  · simp [io_buffer.reset, io_buffer.non_read, size_sub]

/-- C8 at a concrete input: the bare line `\r\n` (an empty command name) with
two more bytes behind it. -/
theorem unknown_command_replies_error_witness :
    ∃ out, handle_received_data example_env (fixed_cache []) (buffer_with 64 "\r\nab".toList)
        (buffer_with 64 "abc".toList) () = some out ∧
      out.reply = .SEND_REPLY_AND_READ ∧
      out.send.written = (buffer_with 64 "abc".toList).written ++ "ERROR\r\n".toList ∧
      out.send.m_write_pos = (buffer_with 64 "abc".toList).m_write_pos + 7 ∧
      out.recv.unread = [] ∧ out.recv.non_read = 0 ∧
      out.calls = [] ∧ out.cache = () :=
  unknown_command_replies_error example_env (fixed_cache []) (buffer_with 64 "\r\nab".toList)
    (buffer_with 64 "abc".toList) () [] "ab".toList ⟨by decide, by decide⟩ (by decide)
    (by decide) (by decide)

/-! ## Incomplete requests -/

theorem sound_unread_length {b : io_buffer} (hb : b.sound) :
    b.unread.length = b.m_write_pos - b.m_read_pos := by
  have hn := io_buffer.sound_non_read hb
  obtain ⟨⟨h1, h2, h3⟩, h4, h5⟩ := hb
  simp only [io_buffer.unread, hn, List.length_take, List.length_drop]
  omega

theorem after_line_sound {b : io_buffer} {line rest : bytes} (hb : b.sound)
    (hl : holds_line b line rest) :
    (b.after_line line.length).sound ∧ (b.after_line line.length).unread = rest ∧
      (b.after_line line.length).non_read = rest.length ∧
      (b.after_line line.length).m_read_pos = b.m_read_pos + (line.length + CRLF.length) := by
  have hlen := sound_unread_length hb
  have hn := io_buffer.sound_non_read hb
  obtain ⟨hu, _⟩ := hl
  have hb0 := hb
  obtain ⟨⟨h1, h2, h3⟩, h4, h5⟩ := hb
  rw [hu] at hlen
  simp only [List.length_append] at hlen
  have hadd : size_add b.m_read_pos (line.length + CRLF.length) =
      b.m_read_pos + (line.length + CRLF.length) := size_add_of_lt (by omega)
  have hs : (b.after_line line.length).sound := by
    refine ⟨⟨?_, h2, h3⟩, h4, h5⟩
    simp only [io_buffer.after_line, hadd]
    omega
  have hn1 : (b.after_line line.length).non_read =
      b.m_write_pos - (b.m_read_pos + (line.length + CRLF.length)) := by
    rw [io_buffer.sound_non_read hs]
    simp only [io_buffer.after_line, hadd]
  have hr1 : (b.after_line line.length).m_read_pos =
      b.m_read_pos + (line.length + CRLF.length) := by
    simp only [io_buffer.after_line, hadd]
  have hd1 : (b.after_line line.length).m_data = b.m_data := rfl
  refine ⟨hs, ?_, ?_, hr1⟩
  · simp only [io_buffer.unread, hn] at hu
    simp only [io_buffer.unread, hn1, hr1, hd1]
    have e : List.drop (b.m_read_pos + (line.length + CRLF.length)) b.m_data =
        List.drop (line.length + CRLF.length) (List.drop b.m_read_pos b.m_data) := by
      rw [List.drop_drop, Nat.add_comm]
    rw [e]
    have e2 : List.take (b.m_write_pos - (b.m_read_pos + (line.length + CRLF.length)))
        (List.drop (line.length + CRLF.length) (List.drop b.m_read_pos b.m_data)) =
        List.drop (line.length + CRLF.length)
          (List.take (b.m_write_pos - b.m_read_pos) (List.drop b.m_read_pos b.m_data)) := by
      rw [List.drop_take]
      congr 1
      omega
    rw [e2, hu]
    have e3 : line.length + CRLF.length = (line ++ CRLF).length := by simp
    rw [e3, List.drop_left]
  · rw [hn1]
    omega

theorem proper_prefix_has_no_crlf (line chunk : bytes) (hno : ¬ CRLF <:+: line)
    (hp : chunk <+: line ++ CRLF) (hne : chunk ≠ line ++ CRLF) : ¬ CRLF <:+: chunk := by
  intro hin
  obtain ⟨t, ht⟩ := hp
  have htne : t ≠ [] := by
    intro h0
    rw [h0, List.append_nil] at ht
    exact hne ht
  have hlen : chunk.length + t.length = line.length + 2 := by
    have := congrArg List.length ht
    simpa [CRLF] using this
  have ht1 : 1 ≤ t.length := List.length_pos.mpr htne
  -- chunk is a prefix of line ++ [CR]
  have hpre : chunk <+: line ++ ['\r'] := by
    have h1 : chunk <+: line ++ CRLF := ⟨t, ht⟩
    have h2 : line ++ ['\r'] <+: line ++ CRLF := by
      refine ⟨['\n'], ?_⟩
      simp [CRLF]
    exact List.prefix_of_prefix_length_le h1 h2 (by simp; omega)
  have hin2 : CRLF <:+: line ++ ['\r'] := hin.trans hpre.isInfix
  obtain ⟨p, q, hpq⟩ := hin2
  -- the occurrence cannot end at the final CR
  rcases List.eq_nil_or_concat q with hq | ⟨q1, c, hq⟩
  · rw [hq, List.append_nil] at hpq
    have : (p ++ CRLF).getLast? = (line ++ ['\r']).getLast? := by rw [hpq]
    simp [CRLF] at this
  · rw [hq, List.concat_eq_append] at hpq
    have e : p ++ CRLF ++ (q1 ++ [c]) = (p ++ CRLF ++ q1) ++ [c] := by simp
    rw [e] at hpq
    have := List.append_inj_left' hpq rfl
    exact hno ⟨p, q1, this⟩

theorem chunk_with_line (line body chunk : bytes) (hno : ¬ CRLF <:+: line)
    (hp : chunk <+: line ++ CRLF ++ body) (hin : CRLF <:+: chunk) :
    ∃ part, chunk = line ++ CRLF ++ part ∧ part <+: body := by
  have h2 : line ++ CRLF <+: line ++ CRLF ++ body := List.prefix_append _ _
  rcases Nat.lt_or_ge chunk.length (line ++ CRLF).length with hlt | hge
  · have h3 : chunk <+: line ++ CRLF := List.prefix_of_prefix_length_le hp h2 (le_of_lt hlt)
    have hne : chunk ≠ line ++ CRLF := fun h => by rw [h] at hlt; exact lt_irrefl _ hlt
    exact absurd hin (proper_prefix_has_no_crlf line chunk hno h3 hne)
  · have h3 : line ++ CRLF <+: chunk := List.prefix_of_prefix_length_le h2 hp hge
    obtain ⟨part, hpart⟩ := h3
    refine ⟨part, hpart.symm, ?_⟩
    rw [← hpart] at hp
    exact (List.prefix_append_right_inj _).mp hp

section storage_incomplete

variable {σ : Type}

theorem store_value_incomplete (cache : Cache σ) (cmd : Command) (h : StorageHeader)
    (r : io_buffer) (o : Out σ) (hs : r.sound)
    (hlt : r.non_read < h.datalen + CRLF.length)
    (hroom : r.m_write_pos + (h.datalen + CRLF.length - r.non_read) ≤ r.m_max_size) :
    ∃ r1, store_value cache cmd h (r, o) = .throw (.system_error .incomplete_request) (r1, o) ∧
      r1.sound ∧ r1.m_max_size = r.m_max_size ∧ r1.m_read_pos = r.m_read_pos ∧
      r1.m_write_pos = r.m_write_pos ∧ (∃ pad, r1.m_data = r.m_data ++ pad) ∧
      r1.m_write_pos + (h.datalen + CRLF.length - r.non_read) ≤ r1.m_capacity := by
  have hn := io_buffer.sound_non_read hs
  have hs0 := hs
  obtain ⟨⟨h1, h2, h3⟩, h4, h5⟩ := hs
  have hsub : size_sub (h.datalen + CRLF.length) r.non_read =
      h.datalen + CRLF.length - r.non_read := size_sub_of_le (le_of_lt hlt) (by omega)
  have hex : ∃ r1, (r.ensure_capacity (h.datalen + CRLF.length - r.non_read) :
      Except (exn error) io_buffer) = .ok r1 := io_buffer.ensure_capacity_succeeds hs0 hroom
  obtain ⟨r1, hr1⟩ := hex
  have hok := io_buffer.ensure_capacity_ok hs0 (by omega) hr1
  refine ⟨r1, ?_, hok.1, hok.2.1, hok.2.2.1, hok.2.2.2.1, hok.2.2.2.2.1, hok.2.2.2.2.2⟩
  simp only [store_value, if_pos hlt, hsub, hr1]

theorem payload_size_pos (env : Env) (line : bytes) (hp : 0 < payload_size env line) :
    (parse_command_name (command_name line)).is_storage = true ∧
    ∃ h, parse_storage_header env (parse_command_name (command_name line)) (command_args line) =
        .ok h ∧ payload_size env line = h.datalen + CRLF.length := by
  unfold payload_size at hp ⊢
  by_cases hc : (parse_command_name (command_name line)).is_storage = true
  · rw [if_pos hc] at hp ⊢
    refine ⟨hc, ?_⟩
    cases hh : parse_storage_header env (parse_command_name (command_name line))
        (command_args line) with
    | ok h => exact ⟨h, rfl, rfl⟩
    | error e => rw [hh] at hp; exact absurd hp (lt_irrefl 0)
  · rw [if_neg hc] at hp
    exact absurd hp (lt_irrefl 0)

theorem dispatch_storage (env : Env) (cache : Cache σ) (cmd : Command) (args : bytes)
    (hc : cmd.is_storage = true) :
    dispatch env cache cmd args = some (handle_storage_command env cache cmd args) := by
  cases cmd <;> first | rfl | exact absurd hc (by decide)

theorem run_command_storage (env : Env) (cache : Cache σ) (line : bytes) (h : StorageHeader)
    (st : io_buffer × Out σ)
    (hc : (parse_command_name (command_name line)).is_storage = true)
    (hh : parse_storage_header env (parse_command_name (command_name line)) (command_args line) =
      .ok h) :
    run_command env cache line st =
      match store_value cache (parse_command_name (command_name line)) h st with
      | .ok reply st1 => .ok reply (st1.1.compact, st1.2)
      | .throw e st1 => .throw e st1 := by
  simp only [run_command, dispatch_storage env cache _ _ hc, handle_storage_command, hh,
    M.bind_apply, liftE]
  try rfl

end storage_incomplete

theorem incomplete_frame_outcome {σ : Type} (env : Env) (cache : Cache σ)
    (recv_buf send_buf : io_buffer) (cache_state : σ) (frame chunk : bytes)
    (hf : is_frame env frame) (hp : chunk <+: frame) (hne : chunk ≠ frame)
    (hu : recv_buf.unread = chunk) (hs : recv_buf.sound)
    (hroom : recv_buf.m_write_pos + (frame.length - chunk.length) ≤ recv_buf.m_max_size) :
    ∃ out, handle_received_data env cache recv_buf send_buf cache_state = some out ∧
      out.reply = .READ_MORE ∧ out.send = send_buf ∧ out.cache = cache_state ∧
      out.calls = [] ∧ out.recv.m_read_pos = recv_buf.m_read_pos ∧
      out.recv.unread = recv_buf.unread ∧
      (CRLF <:+: chunk → frame.length - chunk.length ≤ out.recv.available) ∧
      out.recv.sound ∧ out.recv.m_max_size = recv_buf.m_max_size ∧
      out.recv.m_write_pos = recv_buf.m_write_pos := by
  obtain ⟨line, body, hframe, hno, hbody⟩ := hf
  by_cases hin : CRLF <:+: chunk
  · rw [hframe] at hp
    obtain ⟨part, hchunk, hpart⟩ := chunk_with_line line body chunk hno hp hin
    have hl : holds_line recv_buf line part := ⟨by rw [hu, hchunk], hno⟩
    have hplen : part.length < body.length := by
      rcases Nat.lt_or_ge part.length body.length with h | h
      · exact h
      · exfalso
        apply hne
        rw [hframe, hchunk, List.IsPrefix.eq_of_length_le hpart h]
    obtain ⟨hst, h, hh, hps⟩ := payload_size_pos env line (by omega)
    obtain ⟨s1, u1, n1, p1⟩ := after_line_sound hs hl
    have hmiss : frame.length - chunk.length = h.datalen + CRLF.length - part.length := by
      rw [hframe, hchunk]
      simp only [List.length_append]
      omega
    have hr := store_value_incomplete cache (parse_command_name (command_name line)) h
      (recv_buf.after_line line.length) ⟨send_buf, cache_state, []⟩ s1 (by rw [n1]; omega)
      (by rw [n1, ← hmiss]; exact hroom)
    obtain ⟨r1, hsv, q1, q2, q3, q4, ⟨pad, q5⟩, q6⟩ := hr
    have hb := handle_body_line env cache recv_buf ⟨send_buf, cache_state, []⟩ line part hl
    rw [run_command_storage env cache line h _ hst hh, hsv] at hb
    refine ⟨⟨.READ_MORE, r1.rollback_read_transaction recv_buf.m_read_pos, send_buf,
      cache_state, []⟩, ?_, rfl, rfl, rfl, rfl, rfl, ?_, ?_, ?_, q2, q4⟩
    · simp only [handle_received_data, hb, io_buffer.read_savepoint, io_buffer.write_savepoint,
        error.is_protocol, Bool.false_eq_true, if_false, rollback_write_self]
    · have hn := io_buffer.sound_non_read hs
      obtain ⟨⟨h1, h2, h3⟩, h4, h5⟩ := hs
      have hd : (recv_buf.after_line line.length).m_data = recv_buf.m_data := rfl
      have hw : (recv_buf.after_line line.length).m_write_pos = recv_buf.m_write_pos := rfl
      rw [hd] at q5
      rw [hw] at q4
      simp only [io_buffer.unread, io_buffer.non_read, io_buffer.rollback_read_transaction, q4, q5]
      simp only [io_buffer.non_read] at hn
      rw [hn, List.drop_append_of_le_length (by omega), List.take_append_of_le_length]
      simp only [List.length_drop]
      omega
    · intro _
      have hav : (r1.rollback_read_transaction recv_buf.m_read_pos).available =
          r1.m_capacity - r1.m_write_pos := by
        have := io_buffer.sound_available q1
        simpa [io_buffer.available, io_buffer.rollback_read_transaction] using this
      rw [hav, hmiss]
      rw [n1] at q6
      omega
    · obtain ⟨⟨g1, g2, g3⟩, g4, g5⟩ := q1
      have hw : (recv_buf.after_line line.length).m_write_pos = recv_buf.m_write_pos := rfl
      rw [hw] at q4
      refine ⟨⟨?_, g2, g3⟩, g4, g5⟩
      simp only [io_buffer.rollback_read_transaction]
      rw [q4]
      exact hs.1.1
  · have hb := handle_body_incomplete env cache recv_buf ⟨send_buf, cache_state, []⟩
      (by rw [hu]; exact hin)
    refine ⟨⟨.READ_MORE, recv_buf, send_buf, cache_state, []⟩, ?_, rfl, rfl, rfl, rfl, rfl, rfl,
      fun h => absurd h hin, hs, rfl, rfl⟩
    simp only [handle_received_data, hb, io_buffer.read_savepoint, io_buffer.write_savepoint,
      error.is_protocol, Bool.false_eq_true, if_false, rollback_write_self, rollback_read_self]

/-! ## Delivery in chunks -/

section chunks

variable {σ : Type}

theorem forget_liftOut {α : Type} (m : M (Out σ) α) (st1 st2 : io_buffer × Out σ)
    (h : st1.2 = st2.2) : (liftOut m st1).forget = (liftOut m st2).forget := by
  unfold liftOut
  rw [h]
  cases m st2.2 <;> rfl

theorem store_value_forget (cache : Cache σ) (cmd : Command) (h : StorageHeader)
    (r1 r2 : io_buffer) (o : Out σ) (hu : r1.unread = r2.unread)
    (h1 : r1.non_read = h.datalen + CRLF.length) (h2 : r2.non_read = h.datalen + CRLF.length) :
    (store_value cache cmd h (r1, o)).forget = (store_value cache cmd h (r2, o)).forget := by
  have e1 : List.take (h.datalen + CRLF.length) (List.drop r1.m_read_pos r1.m_data) =
      List.take (h.datalen + CRLF.length) (List.drop r2.m_read_pos r2.m_data) := by
    simp only [io_buffer.unread, h1, h2] at hu
    exact hu
  simp only [store_value, h1, h2, lt_irrefl, if_false, e1]
  split_ifs
  · exact forget_liftOut _ _ _ rfl
  · rfl

theorem payload_size_storage (env : Env) (line : bytes) (h : StorageHeader)
    (hc : (parse_command_name (command_name line)).is_storage = true)
    (hh : parse_storage_header env (parse_command_name (command_name line)) (command_args line) =
      .ok h) : payload_size env line = h.datalen + CRLF.length := by
  simp only [payload_size, if_pos hc, hh]

theorem run_command_forget (env : Env) (cache : Cache σ) (line : bytes) (r1 r2 : io_buffer)
    (o : Out σ) (hu : r1.unread = r2.unread)
    (h1 : r1.non_read = payload_size env line) (h2 : r2.non_read = payload_size env line) :
    (run_command env cache line (r1, o)).forget = (run_command env cache line (r2, o)).forget := by
  by_cases hc : (parse_command_name (command_name line)).is_storage = true
  · cases hh : parse_storage_header env (parse_command_name (command_name line))
        (command_args line) with
    | ok h =>
      rw [run_command_storage env cache line h _ hc hh,
        run_command_storage env cache line h _ hc hh]
      rw [payload_size_storage env line h hc hh] at h1 h2
      have hsv := store_value_forget cache (parse_command_name (command_name line)) h r1 r2 o hu
        h1 h2
      revert hsv
      cases store_value cache (parse_command_name (command_name line)) h (r1, o) <;>
        cases store_value cache (parse_command_name (command_name line)) h (r2, o) <;>
        simp only [Res.forget, Res.ok.injEq, Res.throw.injEq, imp_self, reduceCtorEq,
          false_implies]
    | error e =>
      simp only [run_command, dispatch_storage env cache _ _ hc, handle_storage_command, hh,
        M.bind_apply, liftE]
      try rfl
  · unfold run_command
    cases hd : dispatch env cache (parse_command_name (command_name line)) (command_args line) with
    | none =>
      simp only
      split_ifs <;> rfl
    | some handler =>
      simp only
      have hl : ∃ m : M (Out σ) ConversationReply, handler = liftOut m := by
        revert hd hc
        cases parse_command_name (command_name line) <;>
          simp only [dispatch, Option.some.injEq, Command.is_storage, not_true_eq_false,
            reduceCtorEq, false_implies, implies_true, not_false_eq_true, true_implies] <;>
          exact fun h => ⟨_, h.symm⟩
      obtain ⟨m, rfl⟩ := hl
      have hf := forget_liftOut m (r1, o) (r2, o) rfl
      revert hf
      cases liftOut m (r1, o) <;> cases liftOut m (r2, o) <;>
        simp only [Res.forget, Res.ok.injEq, Res.throw.injEq, imp_self, reduceCtorEq,
          false_implies]

theorem effect_of_forget (env : Env) (cache : Cache σ) (r1 r2 send_buf : io_buffer)
    (cache_state : σ)
    (h : (handle_body env cache (r1, ⟨send_buf, cache_state, []⟩)).forget =
      (handle_body env cache (r2, ⟨send_buf, cache_state, []⟩)).forget) :
    (handle_received_data env cache r1 send_buf cache_state).map Outcome.effect =
      (handle_received_data env cache r2 send_buf cache_state).map Outcome.effect := by
  unfold handle_received_data
  simp only [io_buffer.write_savepoint]
  revert h
  cases handle_body env cache (r1, ⟨send_buf, cache_state, []⟩) with
  | ok a1 s1 =>
    cases handle_body env cache (r2, ⟨send_buf, cache_state, []⟩) with
    | ok a2 s2 =>
      simp only [Res.forget, Res.ok.injEq]
      rintro ⟨rfl, hs⟩
      simp only [Option.map_some', Outcome.effect, hs]
    | throw e2 s2 => intro h; cases h
  | throw e1 s1 =>
    cases handle_body env cache (r2, ⟨send_buf, cache_state, []⟩) with
    | ok a2 s2 => intro h; cases h
    | throw e2 s2 =>
      simp only [Res.forget, Res.throw.injEq]
      rintro ⟨rfl, hs⟩
      cases e1 with
      | std_exception what =>
        simp only [hs]
        cases write_error_line (s2.2.send.rollback_write_transaction send_buf.m_write_pos)
          SERVER_ERROR what <;> rfl
      | system_error code =>
        cases code <;> simp only [error.is_protocol, if_true, Bool.false_eq_true, if_false, hs] <;>
          first
            | rfl
            | (cases write_error_line (s2.2.send.rollback_write_transaction send_buf.m_write_pos)
                CLIENT_ERROR (env.message _) <;> rfl)
            | (cases write_error_line (s2.2.send.rollback_write_transaction send_buf.m_write_pos)
                SERVER_ERROR (env.message _) <;> rfl)
            | (cases (do
                  let b ← (s2.2.send.rollback_write_transaction send_buf.m_write_pos).write_bytes
                    ERROR
                  b.write_bytes CRLF : Except (exn error) io_buffer) <;> rfl)

theorem handle_frame_congr (env : Env) (cache : Cache σ) (r1 r2 send_buf : io_buffer)
    (cache_state : σ) (frame : bytes) (hf : is_frame env frame)
    (s1 : r1.sound) (s2 : r2.sound) (u1 : r1.unread = frame) (u2 : r2.unread = frame) :
    (handle_received_data env cache r1 send_buf cache_state).map Outcome.effect =
      (handle_received_data env cache r2 send_buf cache_state).map Outcome.effect := by
  obtain ⟨line, body, hframe, hno, hbody⟩ := hf
  have l1 : holds_line r1 line body := ⟨by rw [u1, hframe], hno⟩
  have l2 : holds_line r2 line body := ⟨by rw [u2, hframe], hno⟩
  obtain ⟨_, a2, a3, _⟩ := after_line_sound s1 l1
  obtain ⟨_, b2, b3, _⟩ := after_line_sound s2 l2
  apply effect_of_forget
  rw [handle_body_line env cache r1 _ line body l1, handle_body_line env cache r2 _ line body l2]
  exact run_command_forget env cache line _ _ _ (a2.trans b2.symm) (a3.trans hbody)
    (b3.trans hbody)

theorem sound_unread_eq {b : io_buffer} (hb : b.sound) :
    b.unread = b.written.drop b.m_read_pos := by
  have hn := io_buffer.sound_non_read hb
  simp only [io_buffer.unread, io_buffer.written, hn, List.drop_take]

end chunks

/-- C10: chunked delivery is equivalent to one-shot delivery. For every request
frame split into a first chunk and a non-empty second chunk: the call on a
well-formed `recv` holding the first chunk returns `READ_MORE` without touching
`send` or the cache; after the second chunk is appended to `recv`, the next call
gives the same verdict, the same send buffer, the same cache state and the same
cache calls as a single call on a buffer that holds the whole frame. -/
theorem chunked_delivery_equivalent {σ : Type} (env : Env) (cache : Cache σ)
    (recv_a recv_c send_buf : io_buffer) (cache_state : σ) (frame c1 c2 : bytes)
    (hf : is_frame env frame) (hsplit : frame = c1 ++ c2) (hc2 : c2 ≠ [])
    (ha : recv_a.sound) (hua : recv_a.unread = c1)
    (hroom : recv_a.m_write_pos + c2.length ≤ recv_a.m_max_size)
    (hc : recv_c.sound) (huc : recv_c.unread = frame) :
    ∃ out1 recv_b,
      handle_received_data env cache recv_a send_buf cache_state = some out1 ∧
      out1.reply = .READ_MORE ∧ out1.send = send_buf ∧ out1.cache = cache_state ∧
      out1.calls = [] ∧
      out1.recv.write_bytes c2 = .ok recv_b ∧ recv_b.unread = frame ∧
      (handle_received_data env cache recv_b out1.send out1.cache).map Outcome.effect =
        (handle_received_data env cache recv_c send_buf cache_state).map Outcome.effect := by
  have hlen : frame.length - c1.length = c2.length := by
    rw [hsplit, List.length_append]
    omega
  have hne : c1 ≠ frame := by
    intro h
    have := congrArg List.length h
    rw [hsplit, List.length_append] at this
    have : c2.length = 0 := by omega
    exact hc2 (List.length_eq_zero.mp this)
  obtain ⟨out1, h1, h2, h3, h4, h5, h6, h7, _, h9, h10, h11⟩ :=
    incomplete_frame_outcome env cache recv_a send_buf cache_state frame c1 hf
      ⟨c2, hsplit.symm⟩ hne hua ha (by rw [hlen]; exact hroom)
  obtain ⟨recv_b, w1, w2, w3, w4, w5, w6⟩ := write_bytes_room (v := c2) h9
    (by rw [h11, h10]; exact hroom)
  have hub : recv_b.unread = frame := by
    rw [sound_unread_eq w2, w6, w4, List.drop_append_of_le_length, ← sound_unread_eq h9, h7, hua,
      hsplit]
    obtain ⟨⟨g1, g2, g3⟩, g4, g5⟩ := h9
    simp only [io_buffer.written, List.length_take]
    omega
  refine ⟨out1, recv_b, h1, h2, h3, h4, h5, w1, hub, ?_⟩
  rw [h3, h4]
  exact handle_frame_congr env cache recv_b recv_c send_buf cache_state frame hf w2 hc hub huc

/-- C10 at a concrete input: `set foo 0 0 5\r\nhel` followed by `lo\r\n` ends
like the whole frame in one piece, with `SEND_REPLY_AND_READ`, `STORED\r\n` in
`send`, and one item created and stored. -/
theorem chunked_delivery_equivalent_witness :
    (∃ out1 recv_b,
      handle_received_data example_env (fixed_cache [])
        (buffer_with 64 "set foo 0 0 5\r\nhel".toList) (buffer_with 64 []) () = some out1 ∧
      out1.reply = .READ_MORE ∧ out1.send = buffer_with 64 [] ∧ out1.cache = () ∧
      out1.calls = [] ∧
      out1.recv.write_bytes "lo\r\n".toList = .ok recv_b ∧
      recv_b.unread = "set foo 0 0 5\r\nhello\r\n".toList ∧
      (handle_received_data example_env (fixed_cache []) recv_b out1.send out1.cache).map
          Outcome.effect =
        (handle_received_data example_env (fixed_cache [])
          (buffer_with 64 "set foo 0 0 5\r\nhello\r\n".toList) (buffer_with 64 []) ()).map
          Outcome.effect) ∧
    (handle_received_data example_env (fixed_cache [])
        (buffer_with 64 "set foo 0 0 5\r\nhello\r\n".toList) (buffer_with 64 []) ()).map
        (fun out => (out.reply, out.send.written, out.calls)) =
      some (.SEND_REPLY_AND_READ, "STORED\r\n".toList,
        [.create_item "foo".toList 5 0 0 0,
         .do_storage .SET ⟨"foo".toList, "hello".toList, 0, 0, 0⟩]) :=
  ⟨chunked_delivery_equivalent example_env (fixed_cache [])
      (buffer_with 64 "set foo 0 0 5\r\nhel".toList)
      (buffer_with 64 "set foo 0 0 5\r\nhello\r\n".toList) (buffer_with 64 []) ()
      "set foo 0 0 5\r\nhello\r\n".toList "set foo 0 0 5\r\nhel".toList "lo\r\n".toList
      ⟨"set foo 0 0 5".toList, "hello\r\n".toList, by decide, by decide, by decide⟩
      (by decide) (by decide) (by decide) (by decide) (by decide) (by decide) (by decide),
   by decide⟩

/-! ## io_buffer: the invariant away from `size_t` wrap-around -/

theorem memcpy_at_zero_length (data v : bytes) (h : v.length ≤ data.length) :
    (memcpy_at data 0 v).length = data.length := by
  simp only [memcpy_at, List.take_zero, List.nil_append, List.length_append, List.length_drop,
    Nat.zero_add]
  omega

theorem io_op.step_sound (b : io_buffer) (o : io_op) (hb : b.sound) (hp : o.pre b)
    (hsm : o.small) : (o.step b).sound := by
  have hn := io_buffer.sound_non_read hb
  have hb0 := hb
  obtain ⟨⟨h1, h2, h3⟩, h4, h5⟩ := hb
  cases o with
  | ensure_capacity n =>
    simp only [io_op.step]
    cases hE : (b.ensure_capacity n : Except (exn Unit) io_buffer) with
    | ok b1 => exact (io_buffer.ensure_capacity_ok hb0 hsm hE).1
    | error e =>
      rw [io_buffer.ensure_capacity_error hb0 hsm e hE]
      exact hb0
  | begin_write n =>
    simp only [io_op.step, io_buffer.begin_write]
    cases hE : (b.ensure_capacity n : Except (exn Unit) io_buffer) with
    | ok b1 => exact (io_buffer.ensure_capacity_ok hb0 hsm hE).1
    | error e =>
      rw [io_buffer.ensure_capacity_error hb0 hsm e hE]
      exact hb0
  | confirm_write n =>
    simp only [io_op.pre] at hp
    simp only [io_op.small] at hsm
    have e : size_add b.m_write_pos n = b.m_write_pos + n := size_add_of_lt (by omega)
    rw [e] at hp
    refine ⟨⟨?_, ?_, h3⟩, h4, h5⟩
    · simp only [io_op.step, io_buffer.confirm_write, e]; omega
    · simp only [io_op.step, io_buffer.confirm_write, e]; omega
  | confirm_read n =>
    simp only [io_op.pre] at hp
    exact ⟨⟨hp.2, h2, h3⟩, h4, h5⟩
  | read_all =>
    have e : size_add b.m_read_pos (b.m_write_pos - b.m_read_pos) = b.m_write_pos := by
      rw [size_add_of_lt (by omega)]
      omega
    refine ⟨⟨?_, h2, h3⟩, h4, h5⟩
    simp only [io_op.step, io_buffer.read_all, io_buffer.confirm_read, hn, e]
    exact le_refl _
  | try_read_until t =>
    simp only [io_op.step, io_buffer.try_read_until]
    split
    · rename_i i hi
      refine ⟨⟨?_, h2, h3⟩, h4, h5⟩
      simp only [io_buffer.confirm_read, hn]
      have hl : (List.take (i + t.length)
          (List.take (b.m_write_pos - b.m_read_pos) (List.drop b.m_read_pos b.m_data))).length ≤
          b.m_write_pos - b.m_read_pos := by
        simp only [List.length_take, List.length_drop]
        omega
      rw [size_add_of_lt (by omega)]
      omega
    · exact hb0
  | read_savepoint => exact hb0
  | write_savepoint => exact hb0
  | rollback_read_transaction sp =>
    simp only [io_op.pre] at hp
    exact ⟨⟨hp.2, h2, h3⟩, h4, h5⟩
  | rollback_write_transaction sp =>
    simp only [io_op.pre] at hp
    refine ⟨⟨hp.2, ?_, h3⟩, h4, h5⟩
    simp only [io_op.step, io_buffer.rollback_write_transaction]
    omega
  | reset =>
    exact ⟨⟨le_refl _, Nat.zero_le _, h3⟩, h4, h5⟩
  | compact =>
    simp only [io_op.step, io_buffer.compact]
    split
    · exact ⟨⟨le_refl _, Nat.zero_le _, h3⟩, h4, h5⟩
    · have e : size_sub b.m_write_pos b.m_read_pos = b.m_write_pos - b.m_read_pos :=
        size_sub_of_le h1 (by omega)
      refine ⟨⟨Nat.zero_le _, ?_, h3⟩, ?_, h5⟩
      · simp only [e]; omega
      · simp only [e]
        rw [memcpy_at_zero_length]
        · exact h4
        · simp only [List.length_take, List.length_drop]
          omega

theorem io_run_sound (ops : List io_op) :
    ∀ b b1 : io_buffer, b.sound → (∀ o ∈ ops, o.small) → io_run b ops = some b1 → b1.sound := by
  induction ops with
  | nil =>
    intro b b1 hb _ h
    simp only [io_run, Option.some.injEq] at h
    exact h ▸ hb
  | cons o os ih =>
    intro b b1 hb hsm h
    simp only [io_run] at h
    split_ifs at h with hp
    exact ih _ _ (io_op.step_sound b o hb hp (hsm o (List.mem_cons_self _ _)))
      (fun o1 ho1 => hsm o1 (List.mem_cons_of_mem _ ho1)) h

theorem ctor_sound (initial_size max_size : Nat) (b : io_buffer) (hi : initial_size ≤ 2 ^ 62)
    (hm : max_size ≤ 2 ^ 62) (h : io_buffer.ctor initial_size max_size = .ok b) : b.sound := by
  have h0 : (⟨max_size, [], 0, 0, 0⟩ : io_buffer).sound :=
    ⟨⟨le_refl _, le_refl _, Nat.zero_le _⟩, rfl, hm⟩
  simp only [io_buffer.ctor] at h
  split_ifs at h
  · exact (io_buffer.ensure_capacity_ok h0 hi h).1
  · simp only [Except.ok.injEq] at h
    exact h ▸ h0

/-- Away from `size_t` wrap-around the invariant holds: a buffer constructed
with sizes of at most `2 ^ 62` and driven by operations within their asserted
preconditions, with size arguments of at most `2 ^ 62`, satisfies
`read_pos ≤ write_pos ≤ capacity ≤ max_size` after every operation. -/
theorem invariant_without_wrap (initial_size max_size : Nat) (ops : List io_op)
    (b : io_buffer) (hi : initial_size ≤ 2 ^ 62) (hm : max_size ≤ 2 ^ 62)
    (hsm : ∀ o ∈ ops, o.small) (h : after_ctor initial_size max_size ops = some b) : b.inv := by
  unfold after_ctor at h
  cases hc : io_buffer.ctor initial_size max_size with
  | error e => rw [hc] at h; cases h
  | ok b0 =>
    rw [hc] at h
    exact (io_run_sound ops b0 b (ctor_sound initial_size max_size b0 hi hm hc) hsm h).1

/-! ## try_read_until and compact -/

theorem slice_search_first (t : bytes) :
    ∀ (u : bytes) (i : Nat), slice_search u t = some i → first_occurrence u t i := by
  intro u
  induction u with
  | nil =>
    intro i h
    simp only [slice_search] at h
    split_ifs at h with ht
    simp only [Option.some.injEq] at h
    subst h
    exact ⟨by simp [ht], fun j hj => absurd hj (Nat.not_lt_zero j)⟩
  | cons c cs ih =>
    intro i h
    simp only [slice_search] at h
    split_ifs at h with hp
    · simp only [Option.some.injEq] at h
      subst h
      exact ⟨by simpa using List.isPrefixOf_iff_prefix.mp hp,
        fun j hj => absurd hj (Nat.not_lt_zero j)⟩
    · cases hs : slice_search cs t with
      | none => rw [hs] at h; simp at h
      | some k =>
        rw [hs] at h
        simp only [Option.map_some', Option.some.injEq] at h
        subst h
        obtain ⟨h1, h2⟩ := ih k hs
        refine ⟨by simpa using h1, ?_⟩
        intro j hj
        cases j with
        | zero =>
          intro hpre
          exact hp (List.isPrefixOf_iff_prefix.mpr (by simpa using hpre))
        | succ j1 =>
          have := h2 j1 (by omega)
          simpa using this

theorem slice_search_none_general (t : bytes) :
    ∀ u : bytes, slice_search u t = none → ¬ t <:+: u := by
  intro u
  induction u with
  | nil =>
    intro h
    simp only [slice_search] at h
    split_ifs at h with ht
    intro hin
    exact ht (List.eq_nil_of_infix_nil hin)
  | cons c cs ih =>
    intro h
    simp only [slice_search] at h
    split_ifs at h with hp
    cases hs : slice_search cs t with
    | some j => rw [hs] at h; simp at h
    | none =>
      intro hinf
      rcases List.infix_cons_iff.mp hinf with hpre | hin
      · exact hp (List.isPrefixOf_iff_prefix.mpr hpre)
      · exact ih hs hin

theorem first_occurrence_take (u t : bytes) (i : Nat) (ht : t ≠ [])
    (h : first_occurrence u t i) :
    t <:+: u ∧ u.take (i + t.length) = u.take i ++ t ∧ i + t.length ≤ u.length := by
  obtain ⟨⟨rest, hrest⟩, _⟩ := h
  have hu : u = u.take i ++ (t ++ rest) := by
    rw [hrest, List.take_append_drop]
  have hlen : (u.drop i).length = t.length + rest.length := by
    rw [← hrest, List.length_append]
  have htl : 0 < t.length := List.length_pos.mpr ht
  rw [List.length_drop] at hlen
  have hle : i + t.length ≤ u.length := by omega
  have hti : (u.take i).length = i := by
    rw [List.length_take]; omega
  refine ⟨⟨u.take i, rest, ?_⟩, ?_, hle⟩
  · rw [List.append_assoc]; exact hu.symm
  · have h1 : u.take (i + t.length) = (u.take i ++ (t ++ rest)).take (i + t.length) := by
      rw [← hu]
    rw [h1, List.take_append_eq_append_take, hti, List.take_of_length_le (by omega)]
    have h2 : i + t.length - i = t.length := by omega
    rw [h2, List.take_left']
    rfl

/-- C19: for a non-empty terminator, `try_read_until` returns the unread bytes
from the old read position through the last byte of the first occurrence of
the terminator and advances `read_pos` by the length of that slice; when the
terminator does not occur it returns the empty slice and leaves the buffer as
it was.  In both cases only `read_pos` can differ. -/
theorem try_read_until_spec (b : io_buffer) (t : bytes) (ht : t ≠ [])
    (hmem : b.m_data.length < SIZE_RANGE) :
    (t <:+: b.unread →
      ∃ i, first_occurrence b.unread t i ∧
        (b.try_read_until t).1 = (b.m_data.drop b.m_read_pos).take (i + t.length) ∧
        (b.try_read_until t).1 = b.unread.take i ++ t ∧
        (b.try_read_until t).2 =
          { b with m_read_pos := b.m_read_pos + ((b.try_read_until t).1).length }) ∧
    (¬ t <:+: b.unread → b.try_read_until t = ([], b)) := by
  have hu : b.unread = (b.m_data.drop b.m_read_pos).take b.non_read := rfl
  constructor
  · intro hin
    cases hs : slice_search b.unread t with
    | none => exact absurd hin (slice_search_none_general t _ hs)
    | some i =>
      have hf := slice_search_first t _ i hs
      have htl : 0 < t.length := List.length_pos.mpr ht
      have h64 : b.m_data.length < 18446744073709551616 := hmem
      obtain ⟨_, htake, hle⟩ := first_occurrence_take _ t i ht hf
      have hres : (b.try_read_until t).1 = b.unread.take (i + t.length) := by
        simp only [io_buffer.try_read_until, ← hu, hs]
      have hlen : (b.unread.take (i + t.length)).length = i + t.length := by
        rw [List.length_take]; omega
      have hul : b.unread.length ≤ b.m_data.length - b.m_read_pos := by
        rw [hu, List.length_take, List.length_drop]; omega
      have hnr : i + t.length ≤ b.non_read := by
        have : b.unread.length ≤ b.non_read := by
          rw [hu, List.length_take]; omega
        omega
      refine ⟨i, hf, ?_, ?_, ?_⟩
      · rw [hres, hu, List.take_take, Nat.min_eq_left hnr]
      · rw [hres, htake]
      · rw [hres, hlen]
        simp only [io_buffer.try_read_until, ← hu, hs, io_buffer.confirm_read, hlen]
        have : size_add b.m_read_pos (i + t.length) = b.m_read_pos + (i + t.length) := by
          unfold size_add
          exact Nat.mod_eq_of_lt (by omega)
        rw [this]
  · intro hnot
    cases hs : slice_search b.unread t with
    | some i =>
      have hf := slice_search_first t _ i hs
      exact absurd (first_occurrence_take _ t i ht hf).1 hnot
    | none =>
      simp only [io_buffer.try_read_until, ← hu, hs]

theorem try_read_until_spec_witness :
    ("\r\n".toList <:+: (buffer_with 64 "ab\r\ncd\r\n".toList).unread →
      ∃ i, first_occurrence (buffer_with 64 "ab\r\ncd\r\n".toList).unread "\r\n".toList i ∧
        ((buffer_with 64 "ab\r\ncd\r\n".toList).try_read_until "\r\n".toList).1 =
          ((buffer_with 64 "ab\r\ncd\r\n".toList).m_data.drop
            (buffer_with 64 "ab\r\ncd\r\n".toList).m_read_pos).take (i + "\r\n".toList.length) ∧
        ((buffer_with 64 "ab\r\ncd\r\n".toList).try_read_until "\r\n".toList).1 =
          (buffer_with 64 "ab\r\ncd\r\n".toList).unread.take i ++ "\r\n".toList ∧
        ((buffer_with 64 "ab\r\ncd\r\n".toList).try_read_until "\r\n".toList).2 =
          { buffer_with 64 "ab\r\ncd\r\n".toList with
            m_read_pos := (buffer_with 64 "ab\r\ncd\r\n".toList).m_read_pos +
              (((buffer_with 64 "ab\r\ncd\r\n".toList).try_read_until "\r\n".toList).1).length }) ∧
    (¬ "\r\n".toList <:+: (buffer_with 64 "ab\r\ncd\r\n".toList).unread →
      (buffer_with 64 "ab\r\ncd\r\n".toList).try_read_until "\r\n".toList =
        ([], buffer_with 64 "ab\r\ncd\r\n".toList)) :=
  try_read_until_spec (buffer_with 64 "ab\r\ncd\r\n".toList) "\r\n".toList (by decide)
    (by decide)

/-- C20: on a buffer that satisfies the invariant (and owns `capacity` bytes,
`capacity` being a `size_t`), `compact` sets `read_pos` to zero and `write_pos`
to the old unread count `write_pos - read_pos`, the bytes before the new write
position are the old unread bytes in their order, so the unread bytes are the
same as before, and the capacity and the size limit are unchanged; when
`read_pos = write_pos` both positions become zero. -/
theorem compact_spec (b : io_buffer) (hb : b.inv) (hd : b.m_data.length = b.m_capacity)
    (hc : b.m_capacity < SIZE_RANGE) :
    b.compact.m_read_pos = 0 ∧
    b.compact.m_write_pos = b.m_write_pos - b.m_read_pos ∧
    b.compact.written = b.unread ∧
    b.compact.unread = b.unread ∧
    b.unread.length = b.m_write_pos - b.m_read_pos ∧
    b.compact.m_capacity = b.m_capacity ∧
    b.compact.m_max_size = b.m_max_size ∧
    b.compact.inv ∧ b.compact.m_data.length = b.compact.m_capacity ∧
    (b.m_read_pos = b.m_write_pos → b.compact.m_read_pos = 0 ∧ b.compact.m_write_pos = 0) := by
  obtain ⟨h1, h2, h3⟩ := hb
  have h64 : b.m_capacity < 2 ^ 64 := hc
  have hn : b.non_read = b.m_write_pos - b.m_read_pos := size_sub_of_le h1 (by omega)
  have hlen : b.unread.length = b.m_write_pos - b.m_read_pos := by
    simp only [io_buffer.unread, hn, List.length_take, List.length_drop]
    omega
  by_cases he : b.m_read_pos = b.m_write_pos
  · have hc : b.compact = { b with m_read_pos := 0, m_write_pos := 0 } := by
      simp only [io_buffer.compact, he, if_true]
    have hu : b.unread = [] := List.eq_nil_of_length_eq_zero (by rw [hlen]; omega)
    rw [hc, hu]
    refine ⟨rfl, by simp only; omega, ?_, ?_, by simp only [List.length_nil]; omega, rfl, rfl,
      ?_, hd, fun _ => ⟨rfl, rfl⟩⟩
    · simp only [io_buffer.written, List.take_zero]
    · simp only [io_buffer.unread, io_buffer.non_read, size_sub]
      simp
    · exact ⟨le_refl _, Nat.zero_le _, h3⟩
  · have hu : (b.m_data.drop b.m_read_pos).take (b.m_write_pos - b.m_read_pos) = b.unread := by
      simp only [io_buffer.unread, hn]
    have hsub : size_sub b.m_write_pos b.m_read_pos = b.m_write_pos - b.m_read_pos := hn
    have hc : b.compact = ⟨b.m_max_size, memcpy_at b.m_data 0 b.unread, b.m_capacity, 0,
        b.m_write_pos - b.m_read_pos⟩ := by
      simp only [io_buffer.compact, he, if_false, hsub, hu]
    have hdd : memcpy_at b.m_data 0 b.unread = b.unread ++ b.m_data.drop b.unread.length := by
      simp only [memcpy_at, List.take_zero, List.nil_append, Nat.zero_add]
    have hw : (b.unread ++ b.m_data.drop b.unread.length).take (b.m_write_pos - b.m_read_pos)
        = b.unread := by
      rw [← hlen, List.take_left']
      rfl
    rw [hc]
    refine ⟨rfl, rfl, ?_, ?_, hlen, rfl, rfl, ?_, ?_, fun h => absurd h he⟩
    · simp only [io_buffer.written, hdd, hw]
    · have h0 : size_sub (b.m_write_pos - b.m_read_pos) 0 = b.m_write_pos - b.m_read_pos - 0 :=
        size_sub_of_le (Nat.zero_le _) (by omega)
      show ((memcpy_at b.m_data 0 b.unread).drop 0).take
        (size_sub (b.m_write_pos - b.m_read_pos) 0) = b.unread
      rw [h0, hdd, List.drop_zero, Nat.sub_zero, hw]
    · refine ⟨Nat.zero_le _, ?_, h3⟩
      show b.m_write_pos - b.m_read_pos ≤ b.m_capacity
      omega
    · show (memcpy_at b.m_data 0 b.unread).length = b.m_capacity
      rw [memcpy_at_zero_length _ _ (by rw [hlen]; omega), hd]

theorem compact_spec_witness :
    io_buffer.inv ⟨64, "xxabcd__".toList, 8, 2, 6⟩ ∧
    (io_buffer.compact ⟨64, "xxabcd__".toList, 8, 2, 6⟩).written = "abcd".toList ∧
    (io_buffer.compact ⟨64, "xxabcd__".toList, 8, 2, 6⟩).m_write_pos = 4 :=
  ⟨by decide,
   (compact_spec ⟨64, "xxabcd__".toList, 8, 2, 6⟩ (by decide) (by decide) (by decide)).2.2.1,
   (compact_spec ⟨64, "xxabcd__".toList, 8, 2, 6⟩ (by decide) (by decide) (by decide)).2.1⟩

/-! ## Replies to errors, with room in the send buffer -/

theorem write_char_room {b : io_buffer} {c : Char} (hb : b.sound)
    (hroom : b.m_write_pos + 1 ≤ b.m_max_size) :
    ∃ b1, b.write_char c = .ok b1 ∧ b1.sound ∧ b1.m_max_size = b.m_max_size ∧
      b1.m_read_pos = b.m_read_pos ∧ b1.m_write_pos = b.m_write_pos + 1 ∧
      b1.written = b.written ++ [c] := by
  obtain ⟨b1, h1⟩ := io_buffer.reserve_and_copy_succeeds (n := 1) (v := [c]) hb hroom
  exact ⟨b1, h1, io_buffer.reserve_and_copy_ok (n := 1) (v := [c]) hb (by norm_num)
    (le_refl _) h1⟩

theorem serialize_integer_room {b : io_buffer} {n x : Nat} (hb : b.sound)
    (hx : (io_buffer.int_to_str x).length ≤ n)
    (hroom : b.m_write_pos + n ≤ b.m_max_size) :
    ∃ b1, b.serialize_integer n x = .ok b1 ∧ b1.sound ∧ b1.m_max_size = b.m_max_size ∧
      b1.m_read_pos = b.m_read_pos ∧
      b1.m_write_pos = b.m_write_pos + (io_buffer.int_to_str x).length ∧
      b1.written = b.written ++ io_buffer.int_to_str x := by
  obtain ⟨b1, h1⟩ :=
    io_buffer.reserve_and_copy_succeeds (n := n) (v := io_buffer.int_to_str x) hb hroom
  have hn : n ≤ 2 ^ 62 := by have := hb.2.2; omega
  exact ⟨b1, h1, io_buffer.reserve_and_copy_ok hb hn hx h1⟩

theorem write_error_line_room {b : io_buffer} {kind message : bytes} (hb : b.sound)
    (hroom : b.m_write_pos + (kind ++ SPACE :: message ++ CRLF).length ≤ b.m_max_size) :
    ∃ b1, write_error_line b kind message = .ok b1 ∧ b1.sound ∧
      b1.m_max_size = b.m_max_size ∧ b1.m_read_pos = b.m_read_pos ∧
      b1.m_write_pos = b.m_write_pos + (kind ++ SPACE :: message ++ CRLF).length ∧
      b1.written = b.written ++ (kind ++ SPACE :: message ++ CRLF) := by
  simp only [List.length_append, List.length_cons] at hroom
  obtain ⟨a1, e1, s1, m1, r1, p1, w1⟩ := write_bytes_room (v := kind) hb (by omega)
  obtain ⟨a2, e2, s2, m2, r2, p2, w2⟩ := write_char_room (c := SPACE) s1 (by omega)
  obtain ⟨a3, e3, s3, m3, r3, p3, w3⟩ := write_bytes_room (v := message) s2 (by omega)
  obtain ⟨a4, e4, s4, m4, r4, p4, w4⟩ := write_bytes_room (v := CRLF) s3 (by omega)
  refine ⟨a4, ?_, s4, by omega, by omega, ?_, ?_⟩
  · simp only [write_error_line, bind, Except.bind, e1, e2, e3, e4]
  · simp only [List.length_append, List.length_cons]; omega
  · rw [w4, w3, w2, w1]; simp

theorem write_error_reply_room (env : Env) {b : io_buffer} {x : exn error} (hb : b.sound)
    (hx : x ≠ .system_error .incomplete_request)
    (hroom : b.m_write_pos + (error_line env x).length ≤ b.m_max_size) :
    ∃ b1, write_error_reply env x b = .ok b1 ∧ b1.sound ∧ b1.m_max_size = b.m_max_size ∧
      b1.m_read_pos = b.m_read_pos ∧
      b1.m_write_pos = b.m_write_pos + (error_line env x).length ∧
      b1.written = b.written ++ error_line env x := by
  cases x with
  | std_exception what => exact write_error_line_room hb hroom
  | system_error code =>
    cases code <;> simp only [write_error_reply, error_line, error.is_protocol, if_true,
      Bool.false_eq_true, if_false] at hroom ⊢
    case incomplete_request => exact absurd rfl hx
    case broken_request =>
      simp only [List.length_append] at hroom
      obtain ⟨a1, e1, s1, m1, r1, p1, w1⟩ := write_bytes_room (v := ERROR) hb (by omega)
      obtain ⟨a2, e2, s2, m2, r2, p2, w2⟩ := write_bytes_room (v := CRLF) s1 (by omega)
      refine ⟨a2, ?_, s2, by omega, by omega, ?_, ?_⟩
      · simp only [bind, Except.bind, e1, e2]
      · simp only [List.length_append]; omega
      · rw [w2, w1]; simp
    all_goals exact write_error_line_room hb hroom

theorem handle_received_data_throw {σ : Type} (env : Env) (cache : Cache σ)
    (recv_buf send_buf : io_buffer) (cache_state : σ) (x : exn error)
    (st1 : io_buffer × Out σ) (b : io_buffer)
    (hbody : handle_body env cache (recv_buf, ⟨send_buf, cache_state, []⟩) = .throw x st1)
    (hx : x ≠ .system_error .incomplete_request)
    (hw : write_error_reply env x
      (st1.2.send.rollback_write_transaction send_buf.m_write_pos) = .ok b) :
    handle_received_data env cache recv_buf send_buf cache_state =
      some ⟨.SEND_REPLY_AND_READ, recv_after_error x st1.1, b, st1.2.cache, st1.2.calls⟩ := by
  unfold handle_received_data
  simp only [io_buffer.read_savepoint, io_buffer.write_savepoint, hbody]
  cases x with
  | std_exception what =>
    simp only [write_error_reply] at hw
    simp only [hw, recv_after_error]
  | system_error code =>
    cases code <;> simp only [write_error_reply, recv_after_error, error.is_protocol, if_true,
      Bool.false_eq_true, if_false] at hw ⊢
    case incomplete_request => exact absurd rfl hx
    all_goals simp only [hw]

/-- The reply to a failed command when the send buffer has room for the error
line. -/
theorem error_reply {σ : Type} (env : Env) (cache : Cache σ)
    (recv_buf send_buf : io_buffer) (cache_state : σ) (x : exn error)
    (st1 : io_buffer × Out σ)
    (hbody : handle_body env cache (recv_buf, ⟨send_buf, cache_state, []⟩) = .throw x st1)
    (hx : x ≠ .system_error .incomplete_request)
    (hs : send_buf.sound) (hg : send_buf.extends_to st1.2.send)
    (hroom : send_buf.m_write_pos + (error_line env x).length ≤ send_buf.m_max_size) :
    ∃ out, handle_received_data env cache recv_buf send_buf cache_state = some out ∧
      out.reply = .SEND_REPLY_AND_READ ∧ out.recv = recv_after_error x st1.1 ∧
      out.send.written = send_buf.written ++ error_line env x ∧
      out.send.sound ∧ out.send.m_max_size = send_buf.m_max_size ∧
      out.cache = st1.2.cache ∧ out.calls = st1.2.calls := by
  obtain ⟨r1, r2, r3⟩ := rollback_after_grows hs hg
  have r4 : (st1.2.send.rollback_write_transaction send_buf.m_write_pos).m_write_pos =
      send_buf.m_write_pos := rfl
  obtain ⟨b, e, s, m, _, _, w⟩ := write_error_reply_room env r1 hx (by rw [r4, r3]; exact hroom)
  exact ⟨_, handle_received_data_throw env cache recv_buf send_buf cache_state x st1 b hbody hx e,
    rfl, rfl, by rw [w, r2], s, by rw [m, r3], rfl, rfl⟩

theorem extends_to_refl {b : io_buffer} (hb : b.sound) : b.extends_to b := grows_refl b hb

theorem error_line_client_fault (env : Env) (code : error) (h : code.is_client_fault = true) :
    error_line env (.system_error code) = client_error_line env code := by
  cases code <;> first | rfl | exact absurd h (by decide)

theorem recv_after_protocol_error (code : error) (r : io_buffer) (h : code.is_protocol = true) :
    recv_after_error (.system_error code) r = r.reset := by
  simp only [recv_after_error, h, if_true]

/-- C17: when handling a request raises one of the client-fault errors (noreply
expected, CRLF expected, invalid key, value length, value CRLF expected, numeric
convert, numeric overflow) and the send buffer has room for the line,
`handle_received_data` returns `SEND_REPLY_AND_READ` and what it appends to
`send` is exactly `CLIENT_ERROR `, the message of the error, and CRLF. -/
theorem client_fault_replies_client_error {σ : Type} (env : Env) (cache : Cache σ)
    (recv_buf send_buf : io_buffer) (cache_state : σ) (code : error)
    (st1 : io_buffer × Out σ)
    (hs : send_buf.sound) (he : env.small) (hc : cache.small)
    (hbody : handle_body env cache (recv_buf, ⟨send_buf, cache_state, []⟩) =
      .throw (.system_error code) st1)
    (hcode : code.is_client_fault = true)
    (hroom : send_buf.m_write_pos + ("CLIENT_ERROR ".toList ++ env.message code ++
      "\r\n".toList).length ≤ send_buf.m_max_size) :
    ∃ out, handle_received_data env cache recv_buf send_buf cache_state = some out ∧
      out.reply = .SEND_REPLY_AND_READ ∧
      out.send.written =
        send_buf.written ++ ("CLIENT_ERROR ".toList ++ env.message code ++ "\r\n".toList) ∧
      out.cache = st1.2.cache ∧ out.calls = st1.2.calls := by
  have hline : error_line env (.system_error code) =
      "CLIENT_ERROR ".toList ++ env.message code ++ "\r\n".toList := by
    rw [error_line_client_fault env code hcode]
    simp [client_error_line, CLIENT_ERROR, SPACE, CRLF]
  have hk := keeps_state (keeps_handle_body env he cache hc) (recv_buf, ⟨send_buf, cache_state, []⟩)
  rw [hbody] at hk
  have hx : (exn.system_error code : exn error) ≠ .system_error .incomplete_request := by
    intro h
    injection h with h
    subst h
    exact absurd hcode (by decide)
  obtain ⟨out, h1, h2, _, h4, _, _, h7, h8⟩ :=
    error_reply env cache recv_buf send_buf cache_state _ st1 hbody hx hs (hk hs)
      (by rw [hline]; exact hroom)
  exact ⟨out, h1, h2, by rw [h4, hline], h7, h8⟩

theorem client_fault_replies_client_error_witness :
    ∃ out, handle_received_data example_env (fixed_cache [])
        (buffer_with 64 "incr foo abc\r\n".toList) (buffer_with 64 "abc".toList) () = some out ∧
      out.reply = .SEND_REPLY_AND_READ ∧
      out.send.written = (buffer_with 64 "abc".toList).written ++
        ("CLIENT_ERROR ".toList ++ example_env.message .numeric_convert ++ "\r\n".toList) ∧
      out.cache = () ∧ out.calls = [] :=
  client_fault_replies_client_error example_env (fixed_cache [])
    (buffer_with 64 "incr foo abc\r\n".toList) (buffer_with 64 "abc".toList) ()
    .numeric_convert (⟨64, "incr foo abc\r\n".toList, 14, 14, 14⟩, ⟨buffer_with 64 "abc".toList, (), []⟩)
    (by decide) example_env_small (fixed_cache_small [] (by simp)) (by rfl) (by decide)
    (by decide)

/-! ## The fields of a command line -/

theorem parse_key_ok (args : bytes) (h : validate_key (slice_split args SPACE).1 = .ok ()) :
    parse_key args = .ok ((slice_split args SPACE).1, (slice_split args SPACE).2) := by
  simp only [parse_key, h]

theorem parse_key_error (args : bytes) (e : exn error)
    (h : validate_key (slice_split args SPACE).1 = .error e) :
    parse_key args = .error e := by
  simp only [parse_key, h]

theorem validate_key_cases (k : bytes) :
    validate_key k = .ok () ∨ validate_key k = .error (.system_error .key_invalid) := by
  unfold validate_key
  split_ifs
  · exact Or.inr rfl
  · exact Or.inl rfl

theorem parse_storage_header_fields (env : Env) (cmd : Command) (args : bytes)
    (h : StorageHeader) (t : bytes) (hf : storage_fields env cmd args = some (h, t)) :
    parse_storage_header env cmd args =
      match maybe_noreply t with
      | .ok noreply => .ok { h with noreply := noreply }
      | .error e => .error e := by
  simp only [storage_fields, split_fields] at hf
  revert hf
  rcases validate_key_cases (slice_split args SPACE).1 with hk | hk
  · cases hfl : str_to_uint UINT32_MAX (slice_split (slice_split args SPACE).2 SPACE).1 with
    | error e => simp [hk, hfl]
    | ok flags =>
      cases hex : str_to_int64
          (slice_split (slice_split (slice_split args SPACE).2 SPACE).2 SPACE).1 with
      | error e => simp [hk, hfl, hex]
      | ok exptime =>
        cases hn : str_to_uint UINT32_MAX (slice_split (slice_split (slice_split
            (slice_split args SPACE).2 SPACE).2 SPACE).2 SPACE).1 with
        | error e => simp [hk, hfl, hex, hn]
        | ok datalen =>
          simp only [hk, hfl, hex, hn]
          by_cases hd : datalen > env.max_value_size
          · simp [hd]
          · by_cases hc : cmd = .CAS
            · cases hcas : str_to_uint UINT64_MAX (slice_split (slice_split (slice_split
                (slice_split (slice_split args SPACE).2 SPACE).2 SPACE).2 SPACE).2 SPACE).1 with
              | error e => simp [hd, hc, hcas]
              | ok cas =>
                simp only [hd, hc, hcas, if_false, if_true, Option.some.injEq, Prod.mk.injEq]
                rintro ⟨rfl, rfl⟩
                simp only [parse_storage_header, parse_key_ok _ hk, hfl, hex, hn, hcas, hd,
                  if_false, if_true, bind, Except.bind, pure, Except.pure]
                cases maybe_noreply _ <;> rfl
            · simp only [hd, hc, if_false, Option.some.injEq, Prod.mk.injEq]
              rintro ⟨rfl, rfl⟩
              simp only [parse_storage_header, parse_key_ok _ hk, hfl, hex, hn, hd, hc,
                if_false, bind, Except.bind, pure, Except.pure]
              cases maybe_noreply _ <;> rfl
  · simp [hk]

theorem maybe_noreply_error (t : bytes) (h1 : t ≠ []) (h2 : t ≠ NOREPLY) :
    maybe_noreply t = .error (.system_error .noreply_expected) := by
  simp only [maybe_noreply, if_neg h1, if_neg h2]

theorem split_fields_two (args k e t : bytes) (h : split_fields 2 args = ([k, e], t)) :
    (slice_split args SPACE).1 = k ∧ (slice_split (slice_split args SPACE).2 SPACE).1 = e ∧
      (slice_split (slice_split args SPACE).2 SPACE).2 = t := by
  simpa [split_fields, and_assoc] using h

section noreply

variable {σ : Type}

theorem run_command_noreply_error (env : Env) (cache : Cache σ) (line t : bytes)
    (st : io_buffer × Out σ)
    (hc : noreply_clause env (parse_command_name (command_name line)) (command_args line) =
      some t)
    (h1 : t ≠ []) (h2 : t ≠ NOREPLY) :
    run_command env cache line st = .throw (.system_error .noreply_expected) st := by
  have hn := maybe_noreply_error t h1 h2
  unfold run_command
  generalize parse_command_name (command_name line) = cmd at hc ⊢
  generalize command_args line = args at hc ⊢
  cases cmd <;> simp only [noreply_clause] at hc
  case FLUSH_ALL =>
    simp only [Option.some.injEq] at hc
    subst hc
    simp only [dispatch, liftOut, handle_flush_all_command, M.bind_apply, liftE, hn]
  case DELETE =>
    simp only [split_fields] at hc
    rcases validate_key_cases (slice_split args SPACE).1 with hk | hk
    · simp only [hk, Option.some.injEq] at hc
      subst hc
      simp only [dispatch, liftOut, handle_delete_command, M.bind_apply, liftE,
        parse_key_ok _ hk, hn]
    · simp [hk] at hc
  case TOUCH =>
    simp only [split_fields] at hc
    rcases validate_key_cases (slice_split args SPACE).1 with hk | hk
    · cases he : str_to_int64 (slice_split (slice_split args SPACE).2 SPACE).1 with
      | error e => simp [hk, he] at hc
      | ok v =>
        simp only [hk, he, Option.some.injEq] at hc
        subst hc
        simp only [dispatch, liftOut, handle_touch_command, M.bind_apply, liftE,
          parse_key_ok _ hk, he, hn]
    · simp [hk] at hc
  case INCR =>
    simp only [split_fields] at hc
    rcases validate_key_cases (slice_split args SPACE).1 with hk | hk
    · cases he : str_to_uint UINT64_MAX (slice_split (slice_split args SPACE).2 SPACE).1 with
      | error e => simp [hk, he] at hc
      | ok v =>
        simp only [hk, he, Option.some.injEq] at hc
        subst hc
        simp only [dispatch, liftOut, handle_arithmetic_command, M.bind_apply, liftE,
          parse_key_ok _ hk, he, hn]
    · simp [hk] at hc
  case DECR =>
    simp only [split_fields] at hc
    rcases validate_key_cases (slice_split args SPACE).1 with hk | hk
    · cases he : str_to_uint UINT64_MAX (slice_split (slice_split args SPACE).2 SPACE).1 with
      | error e => simp [hk, he] at hc
      | ok v =>
        simp only [hk, he, Option.some.injEq] at hc
        subst hc
        simp only [dispatch, liftOut, handle_arithmetic_command, M.bind_apply, liftE,
          parse_key_ok _ hk, he, hn]
    · simp [hk] at hc
  all_goals first | cases hc | skip
  all_goals
    obtain ⟨⟨h, t1⟩, hf, ht⟩ := Option.map_eq_some'.mp hc
    simp only at ht
    subst ht
    simp only [dispatch, handle_storage_command, M.bind_apply, liftE,
      parse_storage_header_fields env _ args h t1 hf, hn]

end noreply

/-- A line the command rejects before it writes or calls the cache: the reply is
the error line, nothing else has happened. -/
theorem rejected_line {σ : Type} (env : Env) (cache : Cache σ)
    (recv_buf send_buf : io_buffer) (cache_state : σ) (line rest : bytes) (x : exn error)
    (hl : holds_line recv_buf line rest)
    (hrun : run_command env cache line
        (recv_buf.after_line line.length, ⟨send_buf, cache_state, []⟩) =
      .throw x (recv_buf.after_line line.length, ⟨send_buf, cache_state, []⟩))
    (hx : x ≠ .system_error .incomplete_request)
    (hs : send_buf.sound)
    (hroom : send_buf.m_write_pos + (error_line env x).length ≤ send_buf.m_max_size) :
    ∃ out, handle_received_data env cache recv_buf send_buf cache_state = some out ∧
      out.reply = .SEND_REPLY_AND_READ ∧
      out.recv = recv_after_error x (recv_buf.after_line line.length) ∧
      out.send.written = send_buf.written ++ error_line env x ∧
      out.send.sound ∧ out.send.m_max_size = send_buf.m_max_size ∧
      out.cache = cache_state ∧ out.calls = [] := by
  have hb := handle_body_line env cache recv_buf ⟨send_buf, cache_state, []⟩ line rest hl
  rw [hrun] at hb
  exact error_reply env cache recv_buf send_buf cache_state x _ hb hx hs (extends_to_refl hs) hroom

theorem client_error_line_text (env : Env) (code : error) :
    client_error_line env code =
      "CLIENT_ERROR ".toList ++ env.message code ++ "\r\n".toList := by
  simp [client_error_line, CLIENT_ERROR, SPACE, CRLF]

/-- C16: `maybe_noreply` returns false for the empty remainder, true for the
bytes `noreply` and raises `noreply_expected` for every other byte string; so a
`flush_all`, storage, `delete`, `touch`, `incr` or `decr` line whose fields are
well-formed and whose remainder is neither empty nor `noreply` is rejected: the
cache is not called, `send` receives the `CLIENT_ERROR` line of
`noreply_expected` and nothing of `recv` is left unread. -/
theorem trailing_token_rejected {σ : Type} (env : Env) (cache : Cache σ)
    (recv_buf send_buf : io_buffer) (cache_state : σ) (line rest t : bytes) :
    (∀ args, maybe_noreply args =
      if args = [] then .ok false
      else if args = "noreply".toList then .ok true
      else .error (.system_error .noreply_expected)) ∧
    (holds_line recv_buf line rest →
      noreply_clause env (parse_command_name (command_name line)) (command_args line) = some t →
      t ≠ [] → t ≠ "noreply".toList →
      send_buf.sound →
      send_buf.m_write_pos + ("CLIENT_ERROR ".toList ++ env.message .noreply_expected ++
        "\r\n".toList).length ≤ send_buf.m_max_size →
      ∃ out, handle_received_data env cache recv_buf send_buf cache_state = some out ∧
        out.reply = .SEND_REPLY_AND_READ ∧ out.calls = [] ∧ out.cache = cache_state ∧
        out.send.written = send_buf.written ++
          ("CLIENT_ERROR ".toList ++ env.message .noreply_expected ++ "\r\n".toList) ∧
        out.recv.unread = []) := by
  refine ⟨fun args => rfl, ?_⟩
  intro hl hc h1 h2 hs hroom
  have hline : error_line env (.system_error .noreply_expected) =
      "CLIENT_ERROR ".toList ++ env.message .noreply_expected ++ "\r\n".toList := by
    rw [error_line_client_fault env .noreply_expected rfl, client_error_line_text]
  obtain ⟨out, e1, e2, e3, e4, _, _, e7, e8⟩ :=
    rejected_line env cache recv_buf send_buf cache_state line rest _ hl
      (run_command_noreply_error env cache line t _ hc h1 h2) (by decide) hs
      (by rw [hline]; exact hroom)
  refine ⟨out, e1, e2, e8, e7, by rw [e4, hline], ?_⟩
  rw [e3, recv_after_protocol_error .noreply_expected _ rfl]
  exact unread_reset _

theorem trailing_token_rejected_witness :
    (∀ args, maybe_noreply args =
      if args = [] then .ok false
      else if args = "noreply".toList then .ok true
      else .error (.system_error .noreply_expected)) ∧
    ∃ out, handle_received_data example_env (fixed_cache [])
        (buffer_with 64 "flush_all 10\r\n".toList) (buffer_with 64 "abc".toList) () = some out ∧
      out.reply = .SEND_REPLY_AND_READ ∧ out.calls = [] ∧ out.cache = () ∧
      out.send.written = (buffer_with 64 "abc".toList).written ++
        ("CLIENT_ERROR ".toList ++ example_env.message .noreply_expected ++ "\r\n".toList) ∧
      out.recv.unread = [] :=
  ⟨(trailing_token_rejected example_env (fixed_cache [])
      (buffer_with 64 "flush_all 10\r\n".toList) (buffer_with 64 "abc".toList) ()
      "flush_all 10".toList [] "10".toList).1,
   (trailing_token_rejected example_env (fixed_cache [])
      (buffer_with 64 "flush_all 10\r\n".toList) (buffer_with 64 "abc".toList) ()
      "flush_all 10".toList [] "10".toList).2 ⟨by decide, by decide⟩ (by decide) (by decide)
      (by decide) (by decide) (by decide)⟩

/-! ## Storage lines that are rejected -/

theorem split_fields_four (args k f e n rest : bytes)
    (h : split_fields 4 args = ([k, f, e, n], rest)) :
    (slice_split args SPACE).1 = k ∧
    (slice_split (slice_split args SPACE).2 SPACE).1 = f ∧
    (slice_split (slice_split (slice_split args SPACE).2 SPACE).2 SPACE).1 = e ∧
    (slice_split (slice_split (slice_split (slice_split args SPACE).2 SPACE).2 SPACE).2 SPACE).1
      = n ∧
    (slice_split (slice_split (slice_split (slice_split args SPACE).2 SPACE).2 SPACE).2 SPACE).2
      = rest := by
  simpa [split_fields, and_assoc] using h

theorem parse_storage_header_value_length (env : Env) (cmd : Command)
    (args k f e n rest : bytes) (flags datalen : Nat) (exptime : Int)
    (hsp : split_fields 4 args = ([k, f, e, n], rest))
    (hk : validate_key k = .ok ()) (hf : str_to_uint UINT32_MAX f = .ok flags)
    (he : str_to_int64 e = .ok exptime) (hn : str_to_uint UINT32_MAX n = .ok datalen)
    (hd : datalen > env.max_value_size) :
    parse_storage_header env cmd args = .error (.system_error .value_length) := by
  obtain ⟨h1, h2, h3, h4, _⟩ := split_fields_four args k f e n rest hsp
  subst h1 h2 h3 h4
  simp only [parse_storage_header, parse_key_ok _ hk, hf, he, hn, hd, bind, Except.bind,
    if_true]
  try rfl

section storage_errors

variable {σ : Type}

theorem run_command_storage_error (env : Env) (cache : Cache σ) (line : bytes) (x : exn error)
    (st : io_buffer × Out σ)
    (hc : (parse_command_name (command_name line)).is_storage = true)
    (hh : parse_storage_header env (parse_command_name (command_name line)) (command_args line) =
      .error x) :
    run_command env cache line st = .throw x st := by
  simp only [run_command, dispatch_storage env cache _ _ hc, handle_storage_command, hh,
    M.bind_apply, liftE]

end storage_errors

/-- C13: a storage line whose key, flags and exptime are valid and whose declared
length exceeds `max_value_size` raises `value_length`, whatever follows the line
in `recv`: the cache is not called (no item is created, nothing is stored),
`recv` keeps its capacity and memory, `send` receives exactly the `CLIENT_ERROR`
line of `value_length`, and the verdict is `SEND_REPLY_AND_READ`. -/
theorem oversized_value_rejected {σ : Type} (env : Env) (cache : Cache σ)
    (recv_buf send_buf : io_buffer) (cache_state : σ) (line rest k f e n t : bytes)
    (flags datalen : Nat) (exptime : Int)
    (hl : holds_line recv_buf line rest)
    (hc : (parse_command_name (command_name line)).is_storage = true)
    (hsp : split_fields 4 (command_args line) = ([k, f, e, n], t))
    (hk : validate_key k = .ok ()) (hf : str_to_uint UINT32_MAX f = .ok flags)
    (he : str_to_int64 e = .ok exptime) (hn : str_to_uint UINT32_MAX n = .ok datalen)
    (hd : datalen > env.max_value_size)
    (hs : send_buf.sound)
    (hroom : send_buf.m_write_pos + ("CLIENT_ERROR ".toList ++ env.message .value_length ++
      "\r\n".toList).length ≤ send_buf.m_max_size) :
    ∃ out, handle_received_data env cache recv_buf send_buf cache_state = some out ∧
      out.reply = .SEND_REPLY_AND_READ ∧ out.calls = [] ∧ out.cache = cache_state ∧
      out.recv.m_capacity = recv_buf.m_capacity ∧ out.recv.m_data = recv_buf.m_data ∧
      out.send.written = send_buf.written ++
        ("CLIENT_ERROR ".toList ++ env.message .value_length ++ "\r\n".toList) := by
  have hline : error_line env (.system_error .value_length) =
      "CLIENT_ERROR ".toList ++ env.message .value_length ++ "\r\n".toList := by
    rw [error_line_client_fault env .value_length rfl, client_error_line_text]
  have hh := parse_storage_header_value_length env (parse_command_name (command_name line))
    (command_args line) k f e n t flags datalen exptime hsp hk hf he hn hd
  obtain ⟨out, e1, e2, e3, e4, _, _, e7, e8⟩ :=
    rejected_line env cache recv_buf send_buf cache_state line rest _ hl
      (run_command_storage_error env cache line _ _ hc hh) (by decide) hs
      (by rw [hline]; exact hroom)
  refine ⟨out, e1, e2, e8, e7, ?_, ?_, by rw [e4, hline]⟩
  · rw [e3, recv_after_protocol_error .value_length _ rfl]; rfl
  · rw [e3, recv_after_protocol_error .value_length _ rfl]; rfl

theorem oversized_value_rejected_witness :
    ∃ out, handle_received_data example_env (fixed_cache [])
        (buffer_with 64 "cas foo 1 0 2000 x\r\nab".toList) (buffer_with 64 "abc".toList) () =
        some out ∧
      out.reply = .SEND_REPLY_AND_READ ∧ out.calls = [] ∧ out.cache = () ∧
      out.recv.m_capacity = (buffer_with 64 "cas foo 1 0 2000 x\r\nab".toList).m_capacity ∧
      out.recv.m_data = (buffer_with 64 "cas foo 1 0 2000 x\r\nab".toList).m_data ∧
      out.send.written = (buffer_with 64 "abc".toList).written ++
        ("CLIENT_ERROR ".toList ++ example_env.message .value_length ++ "\r\n".toList) :=
  oversized_value_rejected example_env (fixed_cache [])
    (buffer_with 64 "cas foo 1 0 2000 x\r\nab".toList) (buffer_with 64 "abc".toList) ()
    "cas foo 1 0 2000 x".toList "ab".toList "foo".toList "1".toList "0".toList "2000".toList
    "x".toList 1 2000 0 ⟨by decide, by decide⟩ (by decide) (by decide) (by rfl) (by rfl)
    (by rfl) (by rfl) (by decide) (by decide) (by decide)

theorem parse_storage_header_of_fields (env : Env) (cmd : Command) (args : bytes)
    (h : StorageHeader) (t : bytes) (noreply : Bool)
    (hf : storage_fields env cmd args = some (h, t)) (hn : maybe_noreply t = .ok noreply) :
    parse_storage_header env cmd args = .ok { h with noreply := noreply } := by
  rw [parse_storage_header_fields env cmd args h t hf, hn]

section storage_errors

variable {σ : Type}

theorem store_value_no_crlf (cache : Cache σ) (cmd : Command) (h : StorageHeader)
    (r : io_buffer) (o : Out σ) (hs : r.sound)
    (hge : h.datalen + CRLF.length ≤ r.non_read)
    (hno : (r.unread.drop h.datalen).take 2 ≠ CRLF) :
    store_value cache cmd h (r, o) = .throw (.system_error .value_crlf_expected) (r, o) := by
  have hn := io_buffer.sound_non_read hs
  have hul := sound_unread_length hs
  have hlt : ¬ r.non_read < h.datalen + CRLF.length := by omega
  have hv : (r.m_data.drop r.m_read_pos).take (h.datalen + CRLF.length) =
      r.unread.take (h.datalen + CRLF.length) := by
    simp only [io_buffer.unread, List.take_take, Nat.min_eq_left hge]
  have hend : endswith ((r.m_data.drop r.m_read_pos).take (h.datalen + CRLF.length)) CRLF =
      false := by
    rw [hv]
    by_contra hc
    simp only [Bool.not_eq_false] at hc
    have hsuf : CRLF <:+ r.unread.take (h.datalen + CRLF.length) :=
      List.isSuffixOf_iff_suffix.mp hc
    obtain ⟨pre, hpre⟩ := hsuf
    have hlen : (r.unread.take (h.datalen + CRLF.length)).length = h.datalen + CRLF.length := by
      rw [List.length_take]; omega
    have hpl : pre.length = h.datalen := by
      rw [← hpre, List.length_append] at hlen
      omega
    apply hno
    have h2 : CRLF.length = 2 := rfl
    have : (r.unread.take (h.datalen + CRLF.length)).drop h.datalen = CRLF := by
      rw [← hpre, ← hpl, List.drop_left]
    rw [List.drop_take] at this
    rw [← this, h2]
    congr 1
    omega
  simp only [store_value, if_neg hlt, hend]
  try rfl

end storage_errors

/-- C14: a well-formed storage line that is followed by at least `bytes + 2`
unread bytes of which the two at offsets `bytes` and `bytes + 1` are not CRLF
raises `value_crlf_expected`: the cache is not called (no item is created,
nothing is stored), `send` receives exactly the `CLIENT_ERROR` line of
`value_crlf_expected`, and the verdict is `SEND_REPLY_AND_READ`. -/
theorem unterminated_value_rejected {σ : Type} (env : Env) (cache : Cache σ)
    (recv_buf send_buf : io_buffer) (cache_state : σ) (line rest t : bytes)
    (h : StorageHeader) (noreply : Bool)
    (hl : holds_line recv_buf line rest) (hr : recv_buf.sound)
    (hc : (parse_command_name (command_name line)).is_storage = true)
    (hf : storage_fields env (parse_command_name (command_name line)) (command_args line) =
      some (h, t))
    (hn : maybe_noreply t = .ok noreply)
    (hlen : h.datalen + 2 ≤ rest.length)
    (hno : (rest.drop h.datalen).take 2 ≠ "\r\n".toList)
    (hs : send_buf.sound)
    (hroom : send_buf.m_write_pos + ("CLIENT_ERROR ".toList ++
      env.message .value_crlf_expected ++ "\r\n".toList).length ≤ send_buf.m_max_size) :
    ∃ out, handle_received_data env cache recv_buf send_buf cache_state = some out ∧
      out.reply = .SEND_REPLY_AND_READ ∧ out.calls = [] ∧ out.cache = cache_state ∧
      out.send.written = send_buf.written ++
        ("CLIENT_ERROR ".toList ++ env.message .value_crlf_expected ++ "\r\n".toList) := by
  have hline : error_line env (.system_error .value_crlf_expected) =
      "CLIENT_ERROR ".toList ++ env.message .value_crlf_expected ++ "\r\n".toList := by
    rw [error_line_client_fault env .value_crlf_expected rfl, client_error_line_text]
  obtain ⟨a1, a2, a3, _⟩ := after_line_sound hr hl
  have hh := parse_storage_header_of_fields env _ _ h t noreply hf hn
  have hrun := run_command_storage env cache line _
    (recv_buf.after_line line.length, ⟨send_buf, cache_state, []⟩) hc hh
  rw [store_value_no_crlf cache _ _ _ _ a1 (by rw [a3]; exact hlen) (by rw [a2]; exact hno)]
    at hrun
  obtain ⟨out, e1, e2, _, e4, _, _, e7, e8⟩ :=
    rejected_line env cache recv_buf send_buf cache_state line rest _ hl hrun (by decide) hs
      (by rw [hline]; exact hroom)
  exact ⟨out, e1, e2, e8, e7, by rw [e4, hline]⟩

theorem unterminated_value_rejected_witness :
    ∃ out, handle_received_data example_env (fixed_cache [])
        (buffer_with 64 "set foo 1 0 2\r\nabcd".toList) (buffer_with 64 "abc".toList) () =
        some out ∧
      out.reply = .SEND_REPLY_AND_READ ∧ out.calls = [] ∧ out.cache = () ∧
      out.send.written = (buffer_with 64 "abc".toList).written ++
        ("CLIENT_ERROR ".toList ++ example_env.message .value_crlf_expected ++ "\r\n".toList) :=
  unterminated_value_rejected example_env (fixed_cache [])
    (buffer_with 64 "set foo 1 0 2\r\nabcd".toList) (buffer_with 64 "abc".toList) ()
    "set foo 1 0 2".toList "abcd".toList [] ⟨"foo".toList, 1, 0, 2, 0, false⟩ false
    ⟨by decide, by decide⟩ (by decide) (by decide) (by rfl) (by rfl) (by decide) (by decide)
    (by decide) (by decide)

/-! ## Writes that succeed when the send buffer has room -/

section emits

variable {σ α β : Type}

theorem reaches_refl (o : Out σ) (hs : o.send.sound) : o.reaches o [] :=
  ⟨hs, rfl, rfl, rfl, by simp⟩

theorem reaches_trans {o o1 o2 : Out σ} {v1 v2 : bytes} (h1 : o.reaches o1 v1)
    (h2 : o1.reaches o2 v2) : o.reaches o2 (v1 ++ v2) := by
  obtain ⟨a1, a2, a3, a4, a5⟩ := h1
  obtain ⟨b1, b2, b3, b4, b5⟩ := h2
  refine ⟨b1, by rw [b2, a2], by rw [b3, a3], ?_, ?_⟩
  · rw [b4, a4, List.length_append]; omega
  · rw [b5, a5, List.append_assoc]

theorem emits_on_send {w : io_buffer → Except (exn error) io_buffer} {v : bytes} {n : Nat}
    (h : ∀ b : io_buffer, b.sound → b.m_write_pos + n ≤ b.m_max_size →
      ∃ b1, w b = .ok b1 ∧ b1.sound ∧ b1.m_max_size = b.m_max_size ∧
        b1.m_read_pos = b.m_read_pos ∧ b1.m_write_pos = b.m_write_pos + v.length ∧
        b1.written = b.written ++ v) :
    M.emits (on_send w : M (Out σ) Unit) () v n := by
  intro o hs hroom
  obtain ⟨send, cache, calls⟩ := o
  obtain ⟨b1, e1, h1⟩ := h send hs hroom
  refine ⟨⟨b1, cache, calls⟩, ?_, h1, rfl, rfl⟩
  simp only [on_send, e1]

theorem emits_send_bytes (v : bytes) : M.emits (send_bytes v : M (Out σ) Unit) () v v.length :=
  emits_on_send (fun _ hb hroom => write_bytes_room hb hroom)

theorem emits_send_char (c : Char) : M.emits (send_char c : M (Out σ) Unit) () [c] 1 :=
  emits_on_send (fun _ hb hroom => write_char_room hb hroom)

theorem emits_send_uint32 (x : Nat) (hx : x < 2 ^ 32) :
    M.emits (send_uint32 x : M (Out σ) Unit) () (io_buffer.int_to_str x) 10 := by
  have hm : x % 2 ^ 32 = x := Nat.mod_eq_of_lt hx
  unfold send_uint32
  rw [hm]
  exact emits_on_send (fun _ hb hroom => serialize_integer_room hb
    (int_to_str_length_le x 10 (by omega) (by norm_num)) hroom)

theorem emits_send_uint64 (x : Nat) (hx : x < 2 ^ 64) :
    M.emits (send_uint64 x : M (Out σ) Unit) () (io_buffer.int_to_str x) 20 := by
  have hm : x % 2 ^ 64 = x := Nat.mod_eq_of_lt hx
  unfold send_uint64
  rw [hm]
  exact emits_on_send (fun _ hb hroom => serialize_integer_room hb
    (int_to_str_length_le x 20 (by omega) (by norm_num)) hroom)

theorem emits_pure (a : α) : M.emits (pure a : M (Out σ) α) a [] 0 :=
  fun o hs _ => ⟨o, rfl, reaches_refl o hs, rfl, rfl⟩

theorem emits_bind {m : M (Out σ) α} {f : α → M (Out σ) β} {a : α} {b : β} {v1 v2 : bytes}
    {n1 n : Nat} (hm : M.emits m a v1 n1) (h1 : n1 ≤ n)
    (hf : M.emits (f a) b v2 (n - v1.length)) (h2 : v1.length ≤ n) :
    M.emits (m >>= f) b (v1 ++ v2) n := by
  intro o hs hroom
  obtain ⟨o1, e1, r1, c1, l1⟩ := hm o hs (by omega)
  obtain ⟨o2, e2, r2, c2, l2⟩ := hf o1 r1.1 (by rw [r1.2.2.2.1, r1.2.1]; omega)
  refine ⟨o2, ?_, reaches_trans r1 r2, by rw [c2, c1], by rw [l2, l1]⟩
  rw [M.bind_apply, e1]
  exact e2

theorem emits_mono {m : M (Out σ) α} {a : α} {v : bytes} {n1 n : Nat}
    (hm : M.emits m a v n1) (h : n1 ≤ n) : M.emits m a v n :=
  fun o hs hroom => hm o hs (by omega)

theorem emits_congr {m : M (Out σ) α} {a : α} {v v1 : bytes} {n : Nat}
    (hm : M.emits m a v n) (h : v = v1) : M.emits m a v1 n := h ▸ hm

end emits

section emits_handlers

variable {σ : Type}

theorem emits_reply_with_response (r : Response) :
    M.emits (reply_with_response r false : M (Out σ) ConversationReply) .SEND_REPLY_AND_READ
      (r.token ++ CRLF) (r.token ++ CRLF).length := by
  have h : (reply_with_response r false : M (Out σ) ConversationReply) =
      (send_bytes r.token >>= fun _ => send_bytes CRLF >>= fun _ =>
        pure .SEND_REPLY_AND_READ) := rfl
  rw [h]
  simp only [List.length_append]
  refine emits_congr (emits_bind (emits_send_bytes _) (by omega)
    (emits_bind (emits_send_bytes _) (by omega) (emits_mono (emits_pure _) (Nat.zero_le _))
      (by omega)) (by omega)) (by simp)

theorem emits_reply_with_response_noreply (r : Response) :
    M.emits (reply_with_response r true : M (Out σ) ConversationReply) .READ_MORE [] 0 :=
  emits_pure _

theorem value_block_length (cmd : Command) (i : Item) :
    (value_block cmd i).length =
      6 + i.key.length + 1 + (io_buffer.int_to_str i.opaque_flags).length + 1 +
        (io_buffer.int_to_str i.value.length).length +
        (if cmd = .GETS then 1 + (io_buffer.int_to_str i.version).length else 0) + 2 +
        i.value.length + 2 := by
  unfold value_block
  by_cases hc : cmd = .GETS
  · simp only [hc, if_true, List.length_append, String.toList, List.length_cons,
      List.length_nil]
  · simp only [hc, if_false, List.length_append, String.toList, List.length_cons,
      List.length_nil, List.append_nil]

theorem emits_send_item (cmd : Command) (i : Item) (ht : i.typed) (n : Nat)
    (hn : (value_block cmd i).length + 20 ≤ n) :
    M.emits (send_item cmd i : M (Out σ) Unit) () (value_block cmd i) n := by
  obtain ⟨t1, t2, t3⟩ := ht
  rw [value_block_length] at hn
  have hV : VALUE.length = 5 := rfl
  have hC : CRLF.length = 2 := rfl
  have h : (send_item cmd i : M (Out σ) Unit) =
      (send_bytes VALUE >>= fun _ => send_char SPACE >>= fun _ => send_bytes i.key >>= fun _ =>
        send_char SPACE >>= fun _ => send_uint32 i.opaque_flags >>= fun _ =>
        send_char SPACE >>= fun _ => send_uint32 i.value.length >>= fun _ =>
        (if cmd = .GETS then send_char SPACE >>= fun _ => send_uint64 i.version else pure ())
          >>= fun _ =>
        send_bytes CRLF >>= fun _ => send_bytes i.value >>= fun _ => send_bytes CRLF) := rfl
  rw [h]
  have hcas : M.emits (if cmd = .GETS then send_char SPACE >>= fun _ => send_uint64 i.version
      else pure () : M (Out σ) Unit) ()
      (if cmd = .GETS then [SPACE] ++ io_buffer.int_to_str i.version else [])
      (if cmd = .GETS then 21 else 0) := by
    by_cases hc : cmd = .GETS
    · simp only [hc, if_true]
      exact emits_bind (emits_send_char _) (by omega)
        (emits_mono (emits_send_uint64 _ t3) (by simp)) (by simp)
    · simp only [hc, if_false]
      exact emits_pure _
  have hcl : (if cmd = .GETS then [SPACE] ++ io_buffer.int_to_str i.version else []).length =
      if cmd = .GETS then 1 + (io_buffer.int_to_str i.version).length else 0 := by
    by_cases hc : cmd = .GETS <;> simp [hc]; omega
  have hcn : (if cmd = .GETS then 21 else 0) ≤
      (if cmd = .GETS then 1 + (io_buffer.int_to_str i.version).length else 0) + 20 := by
    by_cases hc : cmd = .GETS <;> simp [hc]
  refine emits_congr
    (emits_bind (emits_send_bytes VALUE) (by omega)
    (emits_bind (emits_send_char SPACE) (by rw [hV]; omega)
    (emits_bind (emits_send_bytes i.key) (by simp only [hV, List.length_singleton]; omega)
    (emits_bind (emits_send_char SPACE) (by simp only [hV, List.length_singleton]; omega)
    (emits_bind (emits_send_uint32 i.opaque_flags t1)
      (by simp only [hV, List.length_singleton]; omega)
    (emits_bind (emits_send_char SPACE) (by simp only [hV, List.length_singleton]; omega)
    (emits_bind (emits_send_uint32 i.value.length t2)
      (by simp only [hV, List.length_singleton]; omega)
    (emits_bind hcas (by simp only [hV, List.length_singleton]; omega)
    (emits_bind (emits_send_bytes CRLF) (by simp only [hV, hC, hcl, List.length_singleton]; omega)
    (emits_bind (emits_send_bytes i.value)
      (by simp only [hV, hC, hcl, List.length_singleton]; omega)
    (emits_mono (emits_send_bytes CRLF)
      (by simp only [hV, hC, hcl, List.length_singleton]; omega))
    (by simp only [hV, hC, hcl, List.length_singleton]; omega))
    (by simp only [hV, hC, hcl, List.length_singleton]; omega))
    (by simp only [hV, hC, hcl, List.length_singleton]; omega))
    (by simp only [hV, List.length_singleton]; omega))
    (by simp only [hV, List.length_singleton]; omega))
    (by simp only [hV, List.length_singleton]; omega))
    (by simp only [hV, List.length_singleton]; omega))
    (by simp only [hV, List.length_singleton]; omega))
    (by simp only [hV, List.length_singleton]; omega))
    (by rw [hV]; omega)) ?_
  simp [value_block, VALUE, SPACE, CRLF]

end emits_handlers

/-! ## Keys -/

theorem validate_key_iff (k : bytes) : validate_key k = .ok () ↔ valid_key k := by
  unfold validate_key valid_key
  constructor
  · intro h
    split_ifs at h with hc
    simp only [not_or, List.any_eq_true, not_exists, not_and, Bool.or_eq_true,
      beq_iff_eq] at hc
    obtain ⟨h1, h2, h3⟩ := hc
    refine ⟨?_, by omega, ?_⟩
    · cases k with
      | nil => exact absurd rfl h1
      | cons a t => simp
    · intro c hcm
      have := h3 c hcm
      simp only [not_or, Bool.not_eq_true] at this
      exact this
  · rintro ⟨h1, h2, h3⟩
    rw [if_neg]
    simp only [not_or, List.any_eq_true, not_exists, not_and, Bool.or_eq_true, beq_iff_eq]
    refine ⟨?_, by omega, ?_⟩
    · intro h
      rw [h] at h1
      simp at h1
    · intro c hcm
      have := h3 c hcm
      simp only [not_or, Bool.not_eq_true]
      exact this

theorem validate_key_invalid (k : bytes) (h : ¬ valid_key k) :
    validate_key k = .error (.system_error .key_invalid) := by
  rcases validate_key_cases k with h1 | h1
  · exact absurd ((validate_key_iff k).mp h1) h
  · exact h1

theorem valid_key_no_space (k : bytes) (h : validate_key k = .ok ()) :
    ∀ c ∈ k, (decide (c ≠ SPACE)) = true := by
  intro c hc
  have := ((validate_key_iff k).mp h).2.2 c hc
  simpa [SPACE] using this.2

theorem valid_key_ne_nil (k : bytes) (h : validate_key k = .ok ()) : k ≠ [] := by
  intro hk
  have := ((validate_key_iff k).mp h).1
  rw [hk] at this
  simp at this

theorem slice_split_token (k more : bytes) (h : ∀ c ∈ k, (decide (c ≠ SPACE)) = true) :
    slice_split (k ++ SPACE :: more) SPACE = (k, more) := by
  unfold slice_split
  have h1 : (k ++ SPACE :: more).takeWhile (fun x => decide (x ≠ SPACE)) = k := by
    rw [List.takeWhile_append_of_pos h]
    simp
  have h2 : (k ++ SPACE :: more).dropWhile (fun x => decide (x ≠ SPACE)) = SPACE :: more := by
    rw [List.dropWhile_append_of_pos h]
    simp
  rw [h1, h2]
  rfl

theorem slice_split_last (k : bytes) (h : ∀ c ∈ k, (decide (c ≠ SPACE)) = true) :
    slice_split k SPACE = (k, []) := by
  unfold slice_split
  have h1 : k.takeWhile (fun x => decide (x ≠ SPACE)) = k := List.takeWhile_eq_self_iff.mpr h
  have h2 : k.dropWhile (fun x => decide (x ≠ SPACE)) = [] := List.dropWhile_eq_nil_iff.mpr h
  rw [h1, h2]
  rfl

theorem keys_text_ne_nil (k : bytes) (ks : List bytes) (h : k ≠ []) :
    keys_text (k :: ks) ≠ [] := by
  cases ks with
  | nil => exact h
  | cons k2 t =>
    simp only [keys_text]
    intro hc
    exact h (List.append_eq_nil.mp hc).1

theorem keys_text_length (ks : List bytes) (k : bytes) :
    ks.length ≤ (keys_text (k :: ks)).length := by
  induction ks generalizing k with
  | nil => simp
  | cons k2 t ih =>
    have := ih k2
    simp only [keys_text, List.length_append, List.length_cons] at this ⊢
    omega

theorem value_blocks_cons (cmd : Command) (i : Option Item) (rest : List (Option Item)) :
    value_blocks cmd (i :: rest) = value_blocks cmd [i] ++ value_blocks cmd rest := by
  cases i with
  | none => simp [value_blocks]
  | some it => simp [value_blocks]

/-! ## The retrieval loop -/

section retrieval

variable {σ : Type}

theorem emits_found (cmd : Command) (i : Option Item) (n : Nat) :
    (∀ it, i = some it → it.typed) → (value_blocks cmd [i]).length + 20 ≤ n →
    M.emits (match i with
      | some item => send_item cmd item
      | none => pure () : M (Out σ) Unit) () (value_blocks cmd [i]) n := by
  intro ht hn
  cases i with
  | none => exact emits_mono (emits_pure _) (Nat.zero_le _)
  | some it =>
    simp only [value_blocks, List.append_nil] at hn ⊢
    exact emits_send_item cmd it (ht it rfl) n hn

/-- One round of the loop: the key is looked up and the block of a hit is
written; the loop goes on with what follows the key. -/
theorem retrieval_round (cache : Cache σ) (cmd : Command) (fuel : Nat) (k more : bytes)
    (o : Out σ) (i : Option Item) (c1 : σ)
    (hk : validate_key k = .ok ()) (hget : cache.do_get k o.cache = (.ok i, c1))
    (ht : ∀ it, i = some it → it.typed) (hs : o.send.sound)
    (hroom : o.send.m_write_pos + ((value_blocks cmd [i]).length + 20) ≤ o.send.m_max_size) :
    ∃ o1, o.reaches o1 (value_blocks cmd [i]) ∧ o1.cache = c1 ∧
      o1.calls = o.calls ++ [.do_get k] ∧
      retrieval_loop cache cmd (fuel + 1) (k ++ SPACE :: more) o =
        (if more ≠ [] then retrieval_loop cache cmd fuel more else pure ()) o1 ∧
      retrieval_loop cache cmd (fuel + 1) k o = .ok () o1 := by
  have hsp := valid_key_no_space k hk
  obtain ⟨send, cache_state, calls⟩ := o
  simp only at hget hs hroom
  obtain ⟨o1, e1, r1, c1', l1⟩ := emits_found cmd i _ ht (le_refl _)
    (⟨send, c1, calls ++ [.do_get k]⟩ : Out σ) hs hroom
  refine ⟨o1, r1, c1', l1, ?_, ?_⟩
  · have hpk : parse_key (k ++ SPACE :: more) = .ok (k, more) := by
      rw [parse_key_ok _ (by rw [slice_split_token k more hsp]; exact hk),
        slice_split_token k more hsp]
    simp only [retrieval_loop, M.bind_apply, liftE, hpk, call_cache, hget]
    cases i <;> simp only at e1 ⊢ <;> rw [e1]
  · have hpk : parse_key k = .ok (k, []) := by
      rw [parse_key_ok _ (by rw [slice_split_last k hsp]; exact hk), slice_split_last k hsp]
    simp only [retrieval_loop, M.bind_apply, liftE, hpk, call_cache, hget]
    cases i <;> simp only at e1 ⊢ <;> rw [e1] <;> rfl

theorem retrieval_loop_keys (cache : Cache σ) (cmd : Command) (hty : cache.typed) :
    ∀ (ks : List bytes) (k : bytes) (fuel : Nat) (o : Out σ) (results : List (Option Item))
      (c1 : σ),
      (∀ x ∈ k :: ks, validate_key x = .ok ()) →
      get_all cache (k :: ks) o.cache = some (results, c1) →
      o.send.sound →
      o.send.m_write_pos + ((value_blocks cmd results).length + 20) ≤ o.send.m_max_size →
      ks.length < fuel →
      ∃ o1, retrieval_loop cache cmd fuel (keys_text (k :: ks)) o = .ok () o1 ∧
        o.reaches o1 (value_blocks cmd results) ∧ o1.cache = c1 ∧
        o1.calls = o.calls ++ (k :: ks).map .do_get := by
  intro ks
  induction ks with
  | nil =>
    intro k fuel o results c1 hv hget hs hroom hfuel
    obtain ⟨f, rfl⟩ : ∃ f, fuel = f + 1 := ⟨fuel - 1, by omega⟩
    cases hg : cache.do_get k o.cache with
    | mk r c2 =>
      cases r with
      | error e => simp [get_all, hg] at hget
      | ok i =>
        simp only [get_all, hg, Option.some.injEq, Prod.mk.injEq] at hget
        obtain ⟨rfl, rfl⟩ := hget
        have hti : ∀ it, i = some it → it.typed := fun it hit =>
          hty k o.cache it (by rw [hg, hit])
        obtain ⟨o1, r1, e1, l1, _, h2⟩ := retrieval_round cache cmd f k [] o i c2
          (hv k (List.mem_cons_self _ _)) hg hti hs hroom
        exact ⟨o1, h2, r1, e1, by simpa using l1⟩
  | cons k2 t ih =>
    intro k fuel o results c1 hv hget hs hroom hfuel
    obtain ⟨f, rfl⟩ : ∃ f, fuel = f + 1 := ⟨fuel - 1, by simp at hfuel; omega⟩
    cases hg : cache.do_get k o.cache with
    | mk r c2 =>
      cases r with
      | error e => simp [get_all, hg] at hget
      | ok i =>
        cases hrest : get_all cache (k2 :: t) c2 with
        | none =>
          rw [get_all] at hget
          simp [hg, hrest] at hget
        | some p =>
          obtain ⟨results1, c3⟩ := p
          rw [get_all] at hget
          simp only [hg, hrest, Option.some.injEq, Prod.mk.injEq] at hget
          obtain ⟨rfl, rfl⟩ := hget
          rw [value_blocks_cons, List.length_append] at hroom
          have hti : ∀ it, i = some it → it.typed := fun it hit =>
            hty k o.cache it (by rw [hg, hit])
          obtain ⟨o1, r1, e1, l1, h1, _⟩ := retrieval_round cache cmd f k
            (keys_text (k2 :: t)) o i c2 (hv k (List.mem_cons_self _ _)) hg hti hs
            (by omega)
          have hk2 := hv k2 (List.mem_cons_of_mem _ (List.mem_cons_self _ _))
          have hne : keys_text (k2 :: t) ≠ [] := keys_text_ne_nil k2 t (valid_key_ne_nil k2 hk2)
          obtain ⟨o2, e2, r2, c2', l2⟩ := ih k2 f o1 results1 c3
            (fun x hx => hv x (List.mem_cons_of_mem _ hx)) (by rw [e1]; exact hrest) r1.1
            (by rw [r1.2.2.2.1, r1.2.1]; omega) (by simp at hfuel; omega)
          refine ⟨o2, ?_, ?_, c2', ?_⟩
          · have : keys_text (k :: k2 :: t) = k ++ SPACE :: keys_text (k2 :: t) := rfl
            rw [this, h1, if_pos hne]
            exact e2
          · rw [value_blocks_cons]
            exact reaches_trans r1 r2
          · rw [l2, l1]
            simp

end retrieval

section retrieval_top

variable {σ : Type}

theorem handle_received_data_ok (env : Env) (cache : Cache σ) (recv_buf send_buf : io_buffer)
    (cache_state : σ) (reply : ConversationReply) (st1 : io_buffer × Out σ)
    (h : handle_body env cache (recv_buf, ⟨send_buf, cache_state, []⟩) = .ok reply st1) :
    handle_received_data env cache recv_buf send_buf cache_state =
      some ⟨reply, st1.1, st1.2.send, st1.2.cache, st1.2.calls⟩ := by
  simp only [handle_received_data, h]

theorem retrieval_line_parts (cmd : Command) (args : bytes)
    (hc : cmd = .GET ∨ cmd = .GETS) :
    parse_command_name (command_name (retrieval_line cmd args)) = cmd ∧
      command_args (retrieval_line cmd args) = args := by
  rcases hc with rfl | rfl
  · have h : retrieval_line .GET args = "get".toList ++ SPACE :: args := rfl
    simp only [command_name, command_args, h, slice_split_token "get".toList _ (by decide)]
    exact ⟨by decide, trivial⟩
  · have h : retrieval_line .GETS args = "gets".toList ++ SPACE :: args := rfl
    simp only [command_name, command_args, h, slice_split_token "gets".toList _ (by decide)]
    exact ⟨by decide, trivial⟩

theorem run_command_retrieval (env : Env) (cache : Cache σ) (line : bytes)
    (r : io_buffer) (o : Out σ)
    (hc : parse_command_name (command_name line) = .GET ∨
      parse_command_name (command_name line) = .GETS) :
    run_command env cache line (r, o) =
      match handle_retrieval_command cache (parse_command_name (command_name line))
          (command_args line) o with
      | .ok reply o1 => .ok reply (r.compact, o1)
      | .throw e o1 => .throw e (r, o1) := by
  rcases hc with hc | hc <;> simp only [run_command, hc, dispatch, liftOut] <;>
    cases handle_retrieval_command cache _ (command_args line) o <;> rfl

theorem handle_retrieval_command_keys (cache : Cache σ) (cmd : Command) (hty : cache.typed)
    (k : bytes) (ks : List bytes) (o : Out σ) (results : List (Option Item)) (c1 : σ)
    (hv : ∀ x ∈ k :: ks, validate_key x = .ok ())
    (hget : get_all cache (k :: ks) o.cache = some (results, c1))
    (hs : o.send.sound)
    (hroom : o.send.m_write_pos + ((value_blocks cmd results ++ "END\r\n".toList).length + 20) ≤
      o.send.m_max_size) :
    ∃ o1, handle_retrieval_command cache cmd (keys_text (k :: ks)) o =
        .ok .SEND_REPLY_AND_READ o1 ∧
      o.reaches o1 (value_blocks cmd results ++ "END\r\n".toList) ∧ o1.cache = c1 ∧
      o1.calls = o.calls ++ (k :: ks).map .do_get := by
  have h5 : "END\r\n".toList.length = 5 := rfl
  rw [List.length_append, h5] at hroom
  obtain ⟨o1, e1, r1, c1', l1⟩ := retrieval_loop_keys cache cmd hty ks k
    ((keys_text (k :: ks)).length + 1) o results c1 hv hget hs (by omega)
    (by have := keys_text_length ks k; omega)
  have hend : M.emits (send_bytes END >>= fun _ => send_bytes CRLF >>= fun _ =>
      (pure .SEND_REPLY_AND_READ : M (Out σ) ConversationReply)) .SEND_REPLY_AND_READ
      "END\r\n".toList 5 :=
    emits_congr (emits_bind (emits_send_bytes END) (by decide)
      (emits_bind (emits_send_bytes CRLF) (by decide)
        (emits_mono (emits_pure _) (Nat.zero_le _)) (by decide)) (by decide)) (by decide)
  obtain ⟨o2, e2, r2, c2, l2⟩ := hend o1 r1.1 (by rw [r1.2.2.2.1, r1.2.1]; omega)
  refine ⟨o2, ?_, reaches_trans r1 r2, by rw [c2, c1'], by rw [l2, l1]⟩
  have hdef : handle_retrieval_command cache cmd (keys_text (k :: ks)) =
      (retrieval_loop cache cmd ((keys_text (k :: ks)).length + 1) (keys_text (k :: ks)) >>=
        fun _ => send_bytes END >>= fun _ => send_bytes CRLF >>= fun _ =>
          (pure .SEND_REPLY_AND_READ : M (Out σ) ConversationReply)) := rfl
  rw [hdef, M.bind_apply, e1]
  exact e2

end retrieval_top

/-- C11: for a `get` or `gets` line with valid keys `k1 .. kn`, `n ≥ 1`,
separated by single spaces, `handle_received_data` looks up every key once and
in order, appends to `send` the block
`VALUE <key> <flags> <value_len>[ <cas>]\r\n<value>\r\n` of every hit in key
order (`<cas>` for `gets` only) and then `END\r\n`, and returns
`SEND_REPLY_AND_READ`; when no key hits what it appends is `END\r\n`. -/
theorem get_gets_reply_spec {σ : Type} (env : Env) (cache : Cache σ)
    (recv_buf send_buf : io_buffer) (cache_state : σ) (cmd : Command) (keys : List bytes)
    (rest : bytes) (results : List (Option Item)) (c1 : σ)
    (hcmd : cmd = .GET ∨ cmd = .GETS) (hne : keys ≠ [])
    (hvalid : ∀ k ∈ keys, valid_key k)
    (hl : holds_line recv_buf (retrieval_line cmd (keys_text keys)) rest)
    (hget : get_all cache keys cache_state = some (results, c1))
    (hty : cache.typed) (hs : send_buf.sound)
    (hroom : send_buf.m_write_pos + ((value_blocks cmd results ++ "END\r\n".toList).length + 20) ≤
      send_buf.m_max_size) :
    ∃ out, handle_received_data env cache recv_buf send_buf cache_state = some out ∧
      out.reply = .SEND_REPLY_AND_READ ∧
      out.calls = keys.map .do_get ∧ out.cache = c1 ∧
      out.send.written = send_buf.written ++ (value_blocks cmd results ++ "END\r\n".toList) ∧
      ((∀ r ∈ results, r = none) →
        out.send.written = send_buf.written ++ "END\r\n".toList) := by
  obtain ⟨p1, p2⟩ := retrieval_line_parts cmd (keys_text keys) hcmd
  cases keys with
  | nil => exact absurd rfl hne
  | cons k ks =>
    obtain ⟨o1, e1, r1, c1', l1⟩ := handle_retrieval_command_keys cache cmd hty k ks
      ⟨send_buf, cache_state, []⟩ results c1
      (fun x hx => (validate_key_iff x).mpr (hvalid x hx)) hget hs hroom
    have hb := handle_body_line env cache recv_buf ⟨send_buf, cache_state, []⟩ _ rest hl
    rw [run_command_retrieval env cache _ _ _ (by rw [p1]; exact hcmd), p1, p2, e1] at hb
    refine ⟨_, handle_received_data_ok env cache recv_buf send_buf cache_state _ _ hb, rfl,
      by simpa using l1, c1', r1.2.2.2.2, ?_⟩
    intro hnone
    have hvb : value_blocks cmd results = [] := by
      clear hget hroom r1
      induction results with
      | nil => rfl
      | cons r t ih =>
        have hr := hnone r (List.mem_cons_self _ _)
        subst hr
        simp only [value_blocks]
        exact ih (fun x hx => hnone x (List.mem_cons_of_mem _ hx))
    have := r1.2.2.2.2
    rw [hvb] at this
    simpa using this

theorem fixed_cache_typed (items : List Item) (h : ∀ i ∈ items, i.typed) :
    (fixed_cache items).typed := by
  intro key st i hi
  simp only [fixed_cache, Except.ok.injEq] at hi
  exact h i (find_item_mem key items i hi)

theorem get_gets_reply_spec_witness :
    ∃ out, handle_received_data example_env (fixed_cache [foo_item])
        (buffer_with 64 "gets foo bar\r\n".toList) (buffer_with 64 "abc".toList) () = some out ∧
      out.reply = .SEND_REPLY_AND_READ ∧
      out.calls = ["foo".toList, "bar".toList].map .do_get ∧ out.cache = () ∧
      out.send.written = (buffer_with 64 "abc".toList).written ++
        ("VALUE foo 3 5 7\r\nhello\r\n".toList ++ "END\r\n".toList) ∧
      ((∀ r ∈ [some foo_item, none], r = none) →
        out.send.written = (buffer_with 64 "abc".toList).written ++ "END\r\n".toList) :=
  get_gets_reply_spec example_env (fixed_cache [foo_item])
    (buffer_with 64 "gets foo bar\r\n".toList) (buffer_with 64 "abc".toList) () .GETS
    ["foo".toList, "bar".toList] [] [some foo_item, none] () (Or.inr rfl) (by decide)
    (by decide) ⟨by decide, by decide⟩ rfl (fixed_cache_typed [foo_item] (by decide))
    (by decide) (by decide)

/-! ## Invalid keys -/

section bad_key

variable {σ : Type}

theorem parse_key_invalid (args : bytes) (h : ¬ valid_key (slice_split args SPACE).1) :
    parse_key args = .error (.system_error .key_invalid) :=
  parse_key_error args _ (validate_key_invalid _ h)

theorem retrieval_loop_first_key (cache : Cache σ) (cmd : Command) (fuel : Nat) (args : bytes)
    (o : Out σ) (h : ¬ valid_key (slice_split args SPACE).1) :
    retrieval_loop cache cmd (fuel + 1) args o = .throw (.system_error .key_invalid) o := by
  simp only [retrieval_loop, M.bind_apply, liftE, parse_key_invalid args h]

theorem run_command_bad_key (env : Env) (cache : Cache σ) (line : bytes)
    (st : io_buffer × Out σ)
    (hc : (parse_command_name (command_name line)).takes_key = true)
    (h : ¬ valid_key (slice_split (command_args line) SPACE).1) :
    run_command env cache line st = .throw (.system_error .key_invalid) st := by
  have hp := parse_key_invalid _ h
  unfold run_command
  generalize parse_command_name (command_name line) = cmd at hc ⊢
  generalize command_args line = args at h hp ⊢
  have hh : parse_storage_header env cmd args = .error (.system_error .key_invalid) := by
    simp only [parse_storage_header, hp, bind, Except.bind]
  cases cmd <;> first
    | exact absurd hc (by decide)
    | simp only [dispatch, liftOut, handle_retrieval_command, retrieval_loop,
        handle_delete_command, handle_arithmetic_command, handle_touch_command,
        handle_storage_command, hh, M.bind_apply, liftE, hp]

theorem keys_then_length (ks : List bytes) (more : bytes) :
    ks.length ≤ (keys_then ks more).length := by
  induction ks with
  | nil => simp
  | cons k t ih =>
    simp only [keys_then, List.length_append, List.length_cons]
    omega

theorem keys_then_ne_nil (ks : List bytes) (more : bytes) (h : more ≠ []) :
    keys_then ks more ≠ [] := by
  cases ks with
  | nil => exact h
  | cons k t =>
    simp only [keys_then]
    intro hc
    have := (List.append_eq_nil.mp hc).2
    cases this

theorem retrieval_loop_bad_key (cache : Cache σ) (cmd : Command) (hty : cache.typed)
    (more : bytes) (hbad : ¬ valid_key (slice_split more SPACE).1) :
    ∀ (ks : List bytes) (fuel : Nat) (o : Out σ) (results : List (Option Item)) (c1 : σ),
      (∀ x ∈ ks, validate_key x = .ok ()) →
      get_all cache ks o.cache = some (results, c1) →
      (ks ≠ [] → more ≠ []) →
      o.send.sound →
      o.send.m_write_pos + ((value_blocks cmd results).length + 20) ≤ o.send.m_max_size →
      ks.length < fuel →
      ∃ o1, retrieval_loop cache cmd fuel (keys_then ks more) o =
          .throw (.system_error .key_invalid) o1 ∧
        o.reaches o1 (value_blocks cmd results) ∧ o1.cache = c1 ∧
        o1.calls = o.calls ++ ks.map .do_get := by
  intro ks
  induction ks with
  | nil =>
    intro fuel o results c1 _ hget _ hs _ hfuel
    obtain ⟨f, rfl⟩ : ∃ f, fuel = f + 1 := ⟨fuel - 1, by simp at hfuel; omega⟩
    simp only [get_all, Option.some.injEq, Prod.mk.injEq] at hget
    obtain ⟨rfl, rfl⟩ := hget
    exact ⟨o, retrieval_loop_first_key cache cmd f more o hbad, reaches_refl o hs, rfl,
      by simp⟩
  | cons k t ih =>
    intro fuel o results c1 hv hget hmore hs hroom hfuel
    obtain ⟨f, rfl⟩ : ∃ f, fuel = f + 1 := ⟨fuel - 1, by simp at hfuel; omega⟩
    have hm : more ≠ [] := hmore (List.cons_ne_nil _ _)
    cases hg : cache.do_get k o.cache with
    | mk r c2 =>
      cases r with
      | error e => simp [get_all, hg] at hget
      | ok i =>
        cases hrest : get_all cache t c2 with
        | none =>
          rw [get_all] at hget
          simp [hg, hrest] at hget
        | some p =>
          obtain ⟨results1, c3⟩ := p
          rw [get_all] at hget
          simp only [hg, hrest, Option.some.injEq, Prod.mk.injEq] at hget
          obtain ⟨rfl, rfl⟩ := hget
          rw [value_blocks_cons, List.length_append] at hroom
          have hti : ∀ it, i = some it → it.typed := fun it hit =>
            hty k o.cache it (by rw [hg, hit])
          obtain ⟨o1, r1, e1, l1, h1, _⟩ := retrieval_round cache cmd f k
            (keys_then t more) o i c2 (hv k (List.mem_cons_self _ _)) hg hti hs (by omega)
          obtain ⟨o2, e2, r2, c2', l2⟩ := ih f o1 results1 c3
            (fun x hx => hv x (List.mem_cons_of_mem _ hx)) (by rw [e1]; exact hrest)
            (fun _ => hm) r1.1
            (by rw [r1.2.2.2.1, r1.2.1]; omega) (by simp at hfuel; omega)
          refine ⟨o2, ?_, ?_, c2', ?_⟩
          · have : keys_then (k :: t) more = k ++ SPACE :: keys_then t more := rfl
            rw [this, h1, if_pos (keys_then_ne_nil t more hm)]
            exact e2
          · rw [value_blocks_cons]
            exact reaches_trans r1 r2
          · rw [l2, l1]
            simp

theorem handle_retrieval_command_bad_key (cache : Cache σ) (cmd : Command) (hty : cache.typed)
    (ks : List bytes) (more : bytes) (o : Out σ) (results : List (Option Item)) (c1 : σ)
    (hbad : ¬ valid_key (slice_split more SPACE).1)
    (hv : ∀ x ∈ ks, validate_key x = .ok ())
    (hget : get_all cache ks o.cache = some (results, c1))
    (hmore : ks ≠ [] → more ≠ [])
    (hs : o.send.sound)
    (hroom : o.send.m_write_pos + ((value_blocks cmd results).length + 20) ≤
      o.send.m_max_size) :
    ∃ o1, handle_retrieval_command cache cmd (keys_then ks more) o =
        .throw (.system_error .key_invalid) o1 ∧
      o.reaches o1 (value_blocks cmd results) ∧ o1.cache = c1 ∧
      o1.calls = o.calls ++ ks.map .do_get := by
  obtain ⟨o1, e1, r1, c1', l1⟩ := retrieval_loop_bad_key cache cmd hty more hbad ks
    ((keys_then ks more).length + 1) o results c1 hv hget hmore hs hroom
    (by have := keys_then_length ks more; omega)
  refine ⟨o1, ?_, r1, c1', l1⟩
  have hdef : handle_retrieval_command cache cmd (keys_then ks more) =
      (retrieval_loop cache cmd ((keys_then ks more).length + 1) (keys_then ks more) >>=
        fun _ => send_bytes END >>= fun _ => send_bytes CRLF >>= fun _ =>
          (pure .SEND_REPLY_AND_READ : M (Out σ) ConversationReply)) := rfl
  rw [hdef, M.bind_apply, e1]

end bad_key

/-- C18: `validate_key` accepts exactly the keys of 1 to 250 bytes without
control bytes or spaces and raises `key_invalid` for every other one.  For a
command that takes a key, a line whose first key token is not valid is answered
with the `CLIENT_ERROR` line of `key_invalid` and the cache is not called; for
`get` and `gets`, when valid keys are followed by a token that is not valid
(an empty token after two consecutive spaces included), the cache is asked for
the valid keys before it only, and the reply is that `CLIENT_ERROR` line
alone. -/
theorem invalid_key_rejected {σ : Type} (env : Env) (cache : Cache σ)
    (recv_buf send_buf : io_buffer) (cache_state : σ) (line rest : bytes)
    (cmd : Command) (ks : List bytes) (more : bytes) (results : List (Option Item)) (c1 : σ) :
    (∀ k, (validate_key k = .ok () ↔ valid_key k) ∧
      (¬ valid_key k → validate_key k = .error (.system_error .key_invalid))) ∧
    (holds_line recv_buf line rest →
      (parse_command_name (command_name line)).takes_key = true →
      ¬ valid_key (slice_split (command_args line) SPACE).1 →
      send_buf.sound →
      send_buf.m_write_pos + ("CLIENT_ERROR ".toList ++ env.message .key_invalid ++
        "\r\n".toList).length ≤ send_buf.m_max_size →
      ∃ out, handle_received_data env cache recv_buf send_buf cache_state = some out ∧
        out.reply = .SEND_REPLY_AND_READ ∧ out.calls = [] ∧ out.cache = cache_state ∧
        out.send.written = send_buf.written ++
          ("CLIENT_ERROR ".toList ++ env.message .key_invalid ++ "\r\n".toList)) ∧
    ((cmd = .GET ∨ cmd = .GETS) →
      holds_line recv_buf (retrieval_line cmd (keys_then ks more)) rest →
      (∀ k ∈ ks, valid_key k) → (ks ≠ [] → more ≠ []) →
      ¬ valid_key (slice_split more SPACE).1 →
      get_all cache ks cache_state = some (results, c1) →
      cache.typed → send_buf.sound →
      send_buf.m_write_pos + ((value_blocks cmd results).length + 20) ≤ send_buf.m_max_size →
      send_buf.m_write_pos + ("CLIENT_ERROR ".toList ++ env.message .key_invalid ++
        "\r\n".toList).length ≤ send_buf.m_max_size →
      ∃ out, handle_received_data env cache recv_buf send_buf cache_state = some out ∧
        out.reply = .SEND_REPLY_AND_READ ∧ out.calls = ks.map .do_get ∧ out.cache = c1 ∧
        out.send.written = send_buf.written ++
          ("CLIENT_ERROR ".toList ++ env.message .key_invalid ++ "\r\n".toList)) := by
  have hline : error_line env (.system_error .key_invalid) =
      "CLIENT_ERROR ".toList ++ env.message .key_invalid ++ "\r\n".toList := by
    rw [error_line_client_fault env .key_invalid rfl, client_error_line_text]
  refine ⟨fun k => ⟨validate_key_iff k, validate_key_invalid k⟩, ?_, ?_⟩
  · intro hl hc hbad hs hroom
    obtain ⟨out, e1, e2, _, e4, _, _, e7, e8⟩ :=
      rejected_line env cache recv_buf send_buf cache_state line rest _ hl
        (run_command_bad_key env cache line _ hc hbad) (by decide) hs
        (by rw [hline]; exact hroom)
    exact ⟨out, e1, e2, e8, e7, by rw [e4, hline]⟩
  · intro hcmd hl hv hmore hbad hget hty hs hroom1 hroom2
    obtain ⟨p1, p2⟩ := retrieval_line_parts cmd (keys_then ks more) hcmd
    obtain ⟨o1, e1, r1, c1', l1⟩ := handle_retrieval_command_bad_key cache cmd hty ks more
      ⟨send_buf, cache_state, []⟩ results c1 hbad
      (fun x hx => (validate_key_iff x).mpr (hv x hx)) hget hmore hs hroom1
    have hb := handle_body_line env cache recv_buf ⟨send_buf, cache_state, []⟩ _ rest hl
    rw [run_command_retrieval env cache _ _ _ (by rw [p1]; exact hcmd), p1, p2, e1] at hb
    obtain ⟨out, f1, f2, _, f4, _, _, f7, f8⟩ :=
      error_reply env cache recv_buf send_buf cache_state _ _ hb (by decide) hs
        ⟨r1.1, r1.2.1, r1.2.2.1, _, r1.2.2.2.2⟩ (by rw [hline]; exact hroom2)
    exact ⟨out, f1, f2, by rw [f8]; simpa using l1, by rw [f7]; exact c1',
      by rw [f4, hline]⟩

theorem invalid_key_rejected_witness :
    (∀ k, (validate_key k = .ok () ↔ valid_key k) ∧
      (¬ valid_key k → validate_key k = .error (.system_error .key_invalid))) ∧
    (∃ out, handle_received_data example_env (fixed_cache [foo_item])
        (buffer_with 64 "touch  10\r\n".toList) (buffer_with 64 "abc".toList) () = some out ∧
      out.reply = .SEND_REPLY_AND_READ ∧ out.calls = [] ∧ out.cache = () ∧
      out.send.written = (buffer_with 64 "abc".toList).written ++
        ("CLIENT_ERROR ".toList ++ example_env.message .key_invalid ++ "\r\n".toList)) ∧
    (∃ out, handle_received_data example_env (fixed_cache [foo_item])
        (buffer_with 64 "get foo  bar\r\n".toList) (buffer_with 64 "abc".toList) () = some out ∧
      out.reply = .SEND_REPLY_AND_READ ∧ out.calls = ["foo".toList].map .do_get ∧
      out.cache = () ∧
      out.send.written = (buffer_with 64 "abc".toList).written ++
        ("CLIENT_ERROR ".toList ++ example_env.message .key_invalid ++ "\r\n".toList)) :=
  ⟨(invalid_key_rejected example_env (fixed_cache [foo_item])
      (buffer_with 64 "touch  10\r\n".toList) (buffer_with 64 "abc".toList) ()
      "touch  10".toList [] .GET [] [] [] ()).1,
   (invalid_key_rejected example_env (fixed_cache [foo_item])
      (buffer_with 64 "touch  10\r\n".toList) (buffer_with 64 "abc".toList) ()
      "touch  10".toList [] .GET [] [] [] ()).2.1 ⟨by decide, by decide⟩ (by decide)
      (by decide) (by decide) (by decide),
   (invalid_key_rejected example_env (fixed_cache [foo_item])
      (buffer_with 64 "get foo  bar\r\n".toList) (buffer_with 64 "abc".toList) ()
      [] [] .GET ["foo".toList] " bar".toList [some foo_item] ()).2.2 (Or.inl rfl)
      ⟨by decide, by decide⟩ (by decide) (by decide) (by decide) rfl
      (fixed_cache_typed [foo_item] (by decide)) (by decide) (by decide) (by decide)⟩

/-! ## Arithmetic commands -/

section arithmetic

variable {σ : Type}

theorem token_length_le (r : Response) : r.token.length ≤ 10 := by
  cases r <;> decide

theorem emits_arithmetic_reply (response : Response) (new_value : Nat)
    (hv : new_value < 2 ^ 64) :
    M.emits ((if response = .STORED then send_uint64 new_value >>= fun _ => send_bytes CRLF
        else send_bytes response.token >>= fun _ => send_bytes CRLF) >>= fun _ =>
        (pure .SEND_REPLY_AND_READ : M (Out σ) ConversationReply)) .SEND_REPLY_AND_READ
      ((if response = .STORED then io_buffer.int_to_str new_value else response.token) ++
        "\r\n".toList) 22 := by
  have hC : CRLF.length = 2 := rfl
  have hd : (io_buffer.int_to_str new_value).length ≤ 20 :=
    int_to_str_length_le new_value 20 (by omega) (by norm_num)
  have ht := token_length_le response
  by_cases hs : response = .STORED
  · simp only [hs, if_true]
    exact emits_congr (emits_bind (emits_bind (n := 22) (emits_send_uint64 _ hv) (by omega)
      (emits_mono (emits_send_bytes CRLF) (by omega)) (by omega)) (by omega)
      (emits_mono (emits_pure _) (Nat.zero_le _)) (by simp only [List.length_append]; omega))
      (by simp [CRLF])
  · simp only [hs, if_false]
    exact emits_congr (emits_bind (emits_bind (n := 22) (emits_send_bytes _) (by omega)
      (emits_mono (emits_send_bytes CRLF) (by omega)) (by omega)) (by omega)
      (emits_mono (emits_pure _) (Nat.zero_le _)) (by simp only [List.length_append]; omega))
      (by simp [CRLF])

theorem handle_arithmetic_command_ok (cache : Cache σ) (cmd : Command) (args k d t : bytes)
    (delta new_value : Nat) (response : Response) (noreply : Bool) (o : Out σ) (c1 : σ)
    (hsp : split_fields 2 args = ([k, d], t))
    (hk : validate_key k = .ok ()) (hd : str_to_uint UINT64_MAX d = .ok delta)
    (hn : maybe_noreply t = .ok noreply)
    (hop : cache.do_arithmetic cmd k delta o.cache = (.ok (response, new_value), c1))
    (hv : new_value < 2 ^ 64) (hs : o.send.sound)
    (hroom : o.send.m_write_pos + 22 ≤ o.send.m_max_size) :
    ∃ o1, handle_arithmetic_command cache cmd args o =
        .ok (if noreply then .READ_MORE else .SEND_REPLY_AND_READ) o1 ∧
      o.reaches o1 (if noreply then []
        else (if response = .STORED then io_buffer.int_to_str new_value else response.token) ++
          "\r\n".toList) ∧
      (noreply = true → o1.send = o.send) ∧
      o1.cache = c1 ∧ o1.calls = o.calls ++ [.do_arithmetic cmd k delta] := by
  obtain ⟨h1, h2, h3⟩ := split_fields_two args k d t hsp
  subst h1 h2 h3
  obtain ⟨send, cache_state, calls⟩ := o
  simp only at hop hs hroom
  cases noreply with
  | true =>
    refine ⟨⟨send, c1, calls ++ [.do_arithmetic cmd _ delta]⟩, ?_, reaches_refl _ hs,
      fun _ => rfl, rfl, rfl⟩
    simp only [handle_arithmetic_command, M.bind_apply, liftE, parse_key_ok _ hk, hd, hn,
      call_cache, hop]
    rfl
  | false =>
    obtain ⟨o1, e1, r1, c1', l1⟩ := emits_arithmetic_reply response new_value hv
      (⟨send, c1, calls ++ [.do_arithmetic cmd _ delta]⟩ : Out σ) hs hroom
    refine ⟨o1, ?_, r1, fun h => absurd h (by decide), c1', l1⟩
    simp only [handle_arithmetic_command, M.bind_apply, liftE, parse_key_ok _ hk, hd, hn,
      call_cache, hop]
    exact e1

end arithmetic

section arithmetic_top

variable {σ : Type}

theorem run_command_arithmetic (env : Env) (cache : Cache σ) (line : bytes)
    (r : io_buffer) (o : Out σ)
    (hc : parse_command_name (command_name line) = .INCR ∨
      parse_command_name (command_name line) = .DECR) :
    run_command env cache line (r, o) =
      match handle_arithmetic_command cache (parse_command_name (command_name line))
          (command_args line) o with
      | .ok reply o1 => .ok reply (r.compact, o1)
      | .throw e o1 => .throw e (r, o1) := by
  rcases hc with hc | hc <;> simp only [run_command, hc, dispatch, liftOut] <;>
    cases handle_arithmetic_command cache _ (command_args line) o <;> rfl

theorem maybe_noreply_of_clause (t : bytes) (ht : t = [] ∨ t = "noreply".toList) :
    maybe_noreply t = .ok (decide (t = "noreply".toList)) := by
  rcases ht with rfl | rfl <;> rfl

end arithmetic_top

/-- C15: for a well-formed `incr` or `decr` line `key delta [noreply]`,
`handle_received_data` calls the arithmetic operation of the cache once, with
the command, the key and the delta.  Without `noreply` it appends to `send` the
decimal text of `new_value` and CRLF when the response is `STORED`, and the
response token and CRLF otherwise, and returns `SEND_REPLY_AND_READ`; with
`noreply` it leaves `send` as it was and returns `READ_MORE`. -/
theorem incr_decr_reply_spec {σ : Type} (env : Env) (cache : Cache σ)
    (recv_buf send_buf : io_buffer) (cache_state : σ) (line rest k d t : bytes)
    (delta new_value : Nat) (response : Response) (c1 : σ)
    (hl : holds_line recv_buf line rest)
    (hc : parse_command_name (command_name line) = .INCR ∨
      parse_command_name (command_name line) = .DECR)
    (hsp : split_fields 2 (command_args line) = ([k, d], t))
    (hk : valid_key k) (hd : str_to_uint UINT64_MAX d = .ok delta)
    (ht : t = [] ∨ t = "noreply".toList)
    (hop : cache.do_arithmetic (parse_command_name (command_name line)) k delta cache_state =
      (.ok (response, new_value), c1))
    (hv : new_value < 2 ^ 64) (hs : send_buf.sound)
    (hroom : send_buf.m_write_pos + 22 ≤ send_buf.m_max_size) :
    ∃ out, handle_received_data env cache recv_buf send_buf cache_state = some out ∧
      out.calls = [.do_arithmetic (parse_command_name (command_name line)) k delta] ∧
      out.cache = c1 ∧
      (t = [] → out.reply = .SEND_REPLY_AND_READ ∧
        out.send.written = send_buf.written ++
          ((if response = .STORED then io_buffer.int_to_str new_value else response.token) ++
            "\r\n".toList)) ∧
      (t = "noreply".toList → out.reply = .READ_MORE ∧ out.send = send_buf) := by
  obtain ⟨o1, e1, r1, q1, c1', l1⟩ := handle_arithmetic_command_ok cache
    (parse_command_name (command_name line)) (command_args line) k d t delta new_value response
    (decide (t = "noreply".toList)) ⟨send_buf, cache_state, []⟩ c1 hsp
    ((validate_key_iff k).mpr hk) hd (maybe_noreply_of_clause t ht) hop hv hs hroom
  have hb := handle_body_line env cache recv_buf ⟨send_buf, cache_state, []⟩ _ rest hl
  rw [run_command_arithmetic env cache _ _ _ hc, e1] at hb
  refine ⟨_, handle_received_data_ok env cache recv_buf send_buf cache_state _ _ hb,
    by simpa using l1, c1', ?_, ?_⟩
  · intro h0
    have hdec : decide (t = "noreply".toList) = false := by rw [h0]; rfl
    rw [hdec] at r1
    exact ⟨by simp only [hdec]; rfl, r1.2.2.2.2⟩
  · intro h1
    have hdec : decide (t = "noreply".toList) = true := by rw [h1]; rfl
    exact ⟨by simp only [hdec]; rfl, q1 hdec⟩

theorem incr_decr_reply_spec_witness :
    ∃ out, handle_received_data example_env (fixed_cache [])
        (buffer_with 64 "incr missing 1\r\n".toList) (buffer_with 64 "abc".toList) () =
        some out ∧
      out.calls = [.do_arithmetic .INCR "missing".toList 1] ∧ out.cache = () ∧
      out.reply = .SEND_REPLY_AND_READ ∧
      out.send.written = "abcNOT_FOUND\r\n".toList :=
  Exists.imp (fun _ h => ⟨h.1, h.2.1, h.2.2.1, (h.2.2.2.1 rfl).1, (h.2.2.2.1 rfl).2⟩)
    (incr_decr_reply_spec example_env (fixed_cache [])
      (buffer_with 64 "incr missing 1\r\n".toList) (buffer_with 64 "abc".toList) ()
      "incr missing 1".toList [] "missing".toList "1".toList [] 1 0 .NOT_FOUND ()
      ⟨by decide, by decide⟩ (Or.inl (by decide)) (by decide) (by decide) (by rfl)
      (Or.inl rfl) rfl (by decide) (by decide) (by decide))

/-! ## Storage commands that succeed -/

section storage_ok

variable {σ : Type}

theorem storage_fields_facts (env : Env) (cmd : Command) (args : bytes) (h : StorageHeader)
    (t : bytes) (hf : storage_fields env cmd args = some (h, t)) :
    h.key = (slice_split args SPACE).1 ∧ valid_key h.key ∧ h.flags ≤ UINT32_MAX ∧
      h.datalen ≤ env.max_value_size ∧ (cmd ≠ .CAS → h.cas_unique = 0) := by
  simp only [storage_fields, split_fields] at hf
  revert hf
  rcases validate_key_cases (slice_split args SPACE).1 with hk | hk
  · cases hfl : str_to_uint UINT32_MAX (slice_split (slice_split args SPACE).2 SPACE).1 with
    | error e => simp [hk, hfl]
    | ok flags =>
      cases hex : str_to_int64
          (slice_split (slice_split (slice_split args SPACE).2 SPACE).2 SPACE).1 with
      | error e => simp [hk, hfl, hex]
      | ok exptime =>
        cases hn : str_to_uint UINT32_MAX (slice_split (slice_split (slice_split
            (slice_split args SPACE).2 SPACE).2 SPACE).2 SPACE).1 with
        | error e => simp [hk, hfl, hex, hn]
        | ok datalen =>
          have hflags : flags ≤ UINT32_MAX := by
            unfold str_to_uint at hfl
            split_ifs at hfl with c1 c2
            simp only [Except.ok.injEq] at hfl
            omega
          simp only [hk, hfl, hex, hn]
          by_cases hd : datalen > env.max_value_size
          · simp [hd]
          · by_cases hc : cmd = .CAS
            · cases hcas : str_to_uint UINT64_MAX (slice_split (slice_split (slice_split
                (slice_split (slice_split args SPACE).2 SPACE).2 SPACE).2 SPACE).2 SPACE).1 with
              | error e => simp [hd, hc, hcas]
              | ok cas =>
                simp only [hd, hc, hcas, if_false, if_true, Option.some.injEq, Prod.mk.injEq]
                rintro ⟨rfl, rfl⟩
                exact ⟨rfl, (validate_key_iff _).mp hk, hflags, by simp only; omega,
                  fun h => absurd rfl h⟩
            · simp only [hd, hc, if_false, Option.some.injEq, Prod.mk.injEq]
              rintro ⟨rfl, rfl⟩
              exact ⟨rfl, (validate_key_iff _).mp hk, hflags, by simp only; omega, fun _ => rfl⟩
  · simp [hk]

theorem store_value_ok (cache : Cache σ) (cmd : Command) (h : StorageHeader) (r : io_buffer)
    (o : Out σ) (payload more : bytes) (item : Item) (response : Response) (c1 c2 : σ)
    (hr : r.sound) (hu : r.unread = payload ++ CRLF ++ more)
    (hp : payload.length = h.datalen)
    (hcreate : cache.create_item h.key h.datalen h.flags h.keep_alive_duration h.cas_unique
      o.cache = (.ok item, c1))
    (hstore : cache.do_storage cmd { item with value := payload } c1 = (.ok response, c2))
    (hs : o.send.sound) (hroom : o.send.m_write_pos + 12 ≤ o.send.m_max_size) :
    ∃ o1, store_value cache cmd h (r, o) =
        .ok (if h.noreply then .READ_MORE else .SEND_REPLY_AND_READ)
          ((r.confirm_read (h.datalen + CRLF.length)).2, o1) ∧
      o.reaches o1 (if h.noreply then [] else response.token ++ CRLF) ∧
      (h.noreply = true → o1.send = o.send) ∧ o1.cache = c2 ∧
      o1.calls = o.calls ++
        [.create_item h.key h.datalen h.flags h.keep_alive_duration h.cas_unique,
         .do_storage cmd { item with value := payload }] := by
  have hul := sound_unread_length hr
  have hn := io_buffer.sound_non_read hr
  have hC : CRLF.length = 2 := rfl
  have hlen : r.unread.length = h.datalen + 2 + more.length := by
    rw [hu, List.length_append, List.length_append, hp, hC]
  have hge : ¬ r.non_read < h.datalen + CRLF.length := by omega
  have hv : (r.m_data.drop r.m_read_pos).take (h.datalen + CRLF.length) = payload ++ CRLF := by
    have h1 : (r.m_data.drop r.m_read_pos).take (h.datalen + CRLF.length) =
        r.unread.take (h.datalen + CRLF.length) := by
      simp only [io_buffer.unread, List.take_take, Nat.min_eq_left (by omega : h.datalen +
        CRLF.length ≤ r.non_read)]
    rw [h1, hu, ← hp]
    have h2 : payload.length + CRLF.length = (payload ++ CRLF).length := by
      rw [List.length_append]
    rw [h2, List.take_left']
    rfl
  have hend : endswith (payload ++ CRLF) CRLF = true :=
    List.isSuffixOf_iff_suffix.mpr ⟨payload, rfl⟩
  have htrim : rtrim_n (payload ++ CRLF) CRLF.length = payload := by
    simp only [rtrim_n, List.length_append, Nat.add_sub_cancel]
    exact List.take_left' rfl
  obtain ⟨send, cache_state, calls⟩ := o
  simp only at hcreate hs hroom
  have hht := token_length_le response
  cases hnr : h.noreply with
  | true =>
    refine ⟨⟨send, c2, calls ++
      [.create_item h.key h.datalen h.flags h.keep_alive_duration h.cas_unique,
       .do_storage cmd { item with value := payload }]⟩, ?_, reaches_refl _ hs,
      fun _ => rfl, rfl, rfl⟩
    simp only [store_value, if_neg hge, hv, hend, htrim, hp, if_true, liftOut, M.bind_apply,
      call_cache, hcreate, try_catch_all, hstore, hnr, reply_with_response, M.pure_apply,
      List.append_assoc, List.singleton_append]
    rfl
  | false =>
    obtain ⟨o1, e1, r1, c1', l1⟩ := emits_reply_with_response response
      (⟨send, c2, calls ++
        [.create_item h.key h.datalen h.flags h.keep_alive_duration h.cas_unique,
         .do_storage cmd { item with value := payload }]⟩ : Out σ) hs
      (by simp only [List.length_append, hC]; omega)
    refine ⟨o1, ?_, r1, fun hh => absurd hh (by decide), c1', l1⟩
    simp only [store_value, if_neg hge, hv, hend, htrim, hp, if_true, liftOut, M.bind_apply,
      call_cache, hcreate, try_catch_all, hstore, hnr, List.append_assoc,
      List.singleton_append, e1]
    rfl

end storage_ok

/-- C12: a well-formed storage line `key flags exptime bytes [cas_unique]
[noreply]` with `bytes ≤ max_value_size` that is followed by `bytes` payload
bytes, whatever they are, and CRLF makes `handle_received_data` ask the cache
for one item with that key, length, flags, exptime and `cas_unique` (0 unless
the command is `cas`), give it the payload as its value and store it once with
the command.  Without `noreply` the response token and CRLF are appended to
`send` and the verdict is `SEND_REPLY_AND_READ`; with `noreply` `send` is left
as it was and the verdict is `READ_MORE`. -/
theorem storage_success_spec {σ : Type} (env : Env) (cache : Cache σ)
    (recv_buf send_buf : io_buffer) (cache_state : σ) (line payload more t : bytes)
    (h : StorageHeader) (item : Item) (response : Response) (c1 c2 : σ)
    (hl : holds_line recv_buf line (payload ++ "\r\n".toList ++ more))
    (hr : recv_buf.sound)
    (hc : (parse_command_name (command_name line)).is_storage = true)
    (hf : storage_fields env (parse_command_name (command_name line)) (command_args line) =
      some (h, t))
    (ht : t = [] ∨ t = "noreply".toList)
    (hp : payload.length = h.datalen)
    (hcreate : cache.create_item h.key h.datalen h.flags h.keep_alive_duration h.cas_unique
      cache_state = (.ok item, c1))
    (hstore : cache.do_storage (parse_command_name (command_name line))
      { item with value := payload } c1 = (.ok response, c2))
    (hs : send_buf.sound) (hroom : send_buf.m_write_pos + 12 ≤ send_buf.m_max_size) :
    ∃ out, handle_received_data env cache recv_buf send_buf cache_state = some out ∧
      out.calls =
        [.create_item h.key h.datalen h.flags h.keep_alive_duration h.cas_unique,
         .do_storage (parse_command_name (command_name line)) { item with value := payload }] ∧
      out.cache = c2 ∧
      h.key = (slice_split (command_args line) SPACE).1 ∧ valid_key h.key ∧
      h.datalen ≤ env.max_value_size ∧
      (parse_command_name (command_name line) ≠ .CAS → h.cas_unique = 0) ∧
      (t = [] → out.reply = .SEND_REPLY_AND_READ ∧
        out.send.written = send_buf.written ++ (response.token ++ "\r\n".toList)) ∧
      (t = "noreply".toList → out.reply = .READ_MORE ∧ out.send = send_buf) := by
  obtain ⟨f1, f2, _, f4, f5⟩ := storage_fields_facts env _ _ h t hf
  obtain ⟨a1, a2, _, _⟩ := after_line_sound hr hl
  have hh := parse_storage_header_of_fields env _ _ h t _ hf (maybe_noreply_of_clause t ht)
  have hrun := run_command_storage env cache line _
    (recv_buf.after_line line.length, ⟨send_buf, cache_state, []⟩) hc hh
  obtain ⟨o1, e1, r1, q1, c1', l1⟩ := store_value_ok cache
    (parse_command_name (command_name line))
    { h with noreply := decide (t = "noreply".toList) } (recv_buf.after_line line.length)
    ⟨send_buf, cache_state, []⟩ payload more item response c1 c2 a1 a2 hp hcreate hstore hs
    hroom
  rw [e1] at hrun
  have hb := handle_body_line env cache recv_buf ⟨send_buf, cache_state, []⟩ _ _ hl
  rw [hrun] at hb
  refine ⟨_, handle_received_data_ok env cache recv_buf send_buf cache_state _ _ hb,
    by simpa using l1, c1', f1, f2, f4, f5, ?_, ?_⟩
  · intro h0
    have hdec : decide (t = "noreply".toList) = false := by rw [h0]; rfl
    simp only [hdec] at r1
    exact ⟨by simp only [hdec]; rfl, r1.2.2.2.2⟩
  · intro h1
    have hdec : decide (t = "noreply".toList) = true := by rw [h1]; rfl
    exact ⟨by simp only [hdec]; rfl, q1 hdec⟩

theorem storage_success_spec_witness :
    ∃ out, handle_received_data example_env (fixed_cache [])
        (buffer_with 64 "set foo 3 0 5\r\nhe\r\nl\r\nget".toList) (buffer_with 64 "abc".toList)
        () = some out ∧
      out.calls =
        [.create_item "foo".toList 5 3 0 0,
         .do_storage .SET ⟨"foo".toList, "he\r\nl".toList, 3, 0, 0⟩] ∧
      out.cache = () ∧ out.reply = .SEND_REPLY_AND_READ ∧
      out.send.written = "abcSTORED\r\n".toList :=
  Exists.imp (fun _ h => ⟨h.1, h.2.1, h.2.2.1, (h.2.2.2.2.2.2.2.1 rfl).1,
      (h.2.2.2.2.2.2.2.1 rfl).2⟩)
    (storage_success_spec example_env (fixed_cache [])
      (buffer_with 64 "set foo 3 0 5\r\nhe\r\nl\r\nget".toList) (buffer_with 64 "abc".toList) ()
      "set foo 3 0 5".toList "he\r\nl".toList "get".toList [] ⟨"foo".toList, 3, 0, 5, 0, false⟩
      ⟨"foo".toList, [], 3, 0, 0⟩ .STORED () () ⟨by decide, by decide⟩ (by decide) (by decide)
      (by rfl) (Or.inl rfl) (by decide) rfl rfl (by decide) (by decide))

/-! ## ensure_capacity: the contract away from `size_t` wrap-around -/

theorem ensure_capacity_contract {ε : Type} {b b1 : io_buffer} {a : Nat} (hb : b.sound)
    (ha : a ≤ 2 ^ 62) (h : (b.ensure_capacity a : Except (exn ε) io_buffer) = .ok b1) :
    a ≤ b1.available ∧ b.m_capacity ≤ b1.m_capacity ∧ b1.m_read_pos = b.m_read_pos ∧
      b1.m_write_pos = b.m_write_pos ∧ b1.written = b.written ∧
      (a ≤ b.available → b1 = b) := by
  obtain ⟨s1, m1, r1, w1, ⟨pad, hp⟩, c1⟩ := io_buffer.ensure_capacity_ok hb ha h
  have hav0 := io_buffer.sound_available hb
  have hav1 := io_buffer.sound_available s1
  obtain ⟨⟨h1, h2, h3⟩, h4, h5⟩ := hb
  obtain ⟨⟨g1, g2, g3⟩, g4, g5⟩ := s1
  have hlen : b1.m_data.length = b.m_data.length + pad.length := by
    rw [hp, List.length_append]
  refine ⟨by rw [hav1]; omega, by omega, r1, w1, ?_, ?_⟩
  · simp only [io_buffer.written, w1, hp]
    rw [List.take_append_of_le_length (by omega)]
  · intro hle
    simp only [io_buffer.ensure_capacity, if_pos hle, Except.ok.injEq] at h
    exact h.symm

theorem ensure_capacity_growth {ε : Type} {b b1 : io_buffer} {a : Nat} (hb : b.sound)
    (ha : a ≤ 2 ^ 62) (hlt : b.available < a)
    (h : (b.ensure_capacity a : Except (exn ε) io_buffer) = .ok b1) :
    b1.m_capacity =
      min b.m_max_size (b.m_capacity + max a (max (2 * b.m_capacity - b.available) 500)) ∧
    2 * b.m_capacity - b.available = b.m_capacity + b.m_write_pos ∧
    b.available ≤ 2 * b.m_capacity := by
  have hav := io_buffer.sound_available hb
  have hadv := io_buffer.capacity_advice_eq hb ha
  obtain ⟨⟨h1, h2, h3⟩, h4, h5⟩ := hb
  have e : 2 * b.m_capacity - b.available = b.m_capacity + b.m_write_pos := by
    rw [hav]; omega
  refine ⟨?_, e, by rw [hav]; omega⟩
  simp only [io_buffer.ensure_capacity, if_neg (not_le.mpr hlt)] at h
  split_ifs at h with c
  simp only [Except.ok.injEq] at h
  rw [← h, e]
  simp only
  rw [hadv, Nat.min_comm]

theorem ensure_capacity_fails_iff {ε : Type} {b : io_buffer} {a : Nat} (hb : b.sound)
    (ha : a ≤ 2 ^ 62) :
    ((b.ensure_capacity a : Except (exn ε) io_buffer) = .error (.std_exception length_error_what)
      ↔ b.m_max_size < b.m_write_pos + a) ∧
    (∀ e, (b.ensure_capacity a : Except (exn ε) io_buffer) = .error e →
      e = .std_exception length_error_what) := by
  have hav := io_buffer.sound_available hb
  have hadv := io_buffer.capacity_advice_eq hb ha
  have hb0 := hb
  obtain ⟨⟨h1, h2, h3⟩, h4, h5⟩ := hb
  constructor
  · constructor
    · intro h
      by_contra hc
      obtain ⟨b1, e1⟩ := io_buffer.ensure_capacity_succeeds (ε := ε) hb0 (a := a) (by omega)
      rw [e1] at h
      cases h
    · intro hgt
      cases hr : (b.ensure_capacity a : Except (exn ε) io_buffer) with
      | ok b1 =>
        obtain ⟨s1, m1, _, w1, _, c1⟩ := io_buffer.ensure_capacity_ok hb0 ha hr
        have := s1.1.2.2
        have := s1.1.2.1
        omega
      | error e => rw [io_buffer.ensure_capacity_error hb0 ha e hr]
  · intro e hr
    exact io_buffer.ensure_capacity_error hb0 ha e hr

/-- C22: `ensure_capacity` does not keep its contract for every state and every
`at_least > 0`: on the full buffer `io_buffer(8, 8)` holding `abcdefgh`,
`ensure_capacity(2 ^ 64 - 7)` returns without error although the sums wrap
around, and leaves a capacity of 1, smaller than the 8 before, with only the
first of the 8 written bytes kept. -/
theorem ensure_capacity_shrinks_on_wrap :
    full8.sound ∧ 0 < 2 ^ 64 - 7 ∧ 2 ^ 64 - 7 < SIZE_RANGE ∧
    (full8.ensure_capacity (2 ^ 64 - 7) : Except (exn Unit) io_buffer) =
      .ok ⟨8, "a".toList, 1, 0, 8⟩ ∧
    (1 < full8.m_capacity) ∧
    (io_buffer.written ⟨8, "a".toList, 1, 0, 8⟩ ≠ full8.written) :=
  ⟨by decide, by decide, by decide, rfl, by decide, by decide⟩

/-- C23: the capacity after a successful growing `ensure_capacity` is not the
value of the growth formula for every state: on the full buffer
`io_buffer(8, 8)`, `available() = 0 < 2 ^ 64 - 7`, the call succeeds and the new
capacity is 1, while `min(max_size, capacity + max(at_least, max(2 * capacity -
available(), 500)))` is 8. -/
theorem capacity_after_wrap_differs_from_formula :
    full8.available < 2 ^ 64 - 7 ∧
    (full8.ensure_capacity (2 ^ 64 - 7) : Except (exn Unit) io_buffer) =
      .ok ⟨8, "a".toList, 1, 0, 8⟩ ∧
    min full8.m_max_size (full8.m_capacity +
      max (2 ^ 64 - 7) (max (2 * full8.m_capacity - full8.available) 500)) = 8 :=
  ⟨by decide, rfl, by decide⟩

/-- C24: `ensure_capacity` does not fail whenever
`write_pos + at_least > max_size`: on the full buffer `io_buffer(8, 8)`,
`write_pos + at_least = 8 + (2 ^ 64 - 7)` exceeds `max_size = 8`, and
`ensure_capacity(2 ^ 64 - 7)` returns without the length error. -/
theorem ensure_capacity_succeeds_beyond_max_size :
    full8.m_max_size < full8.m_write_pos + (2 ^ 64 - 7) ∧
    (full8.ensure_capacity (2 ^ 64 - 7) : Except (exn Unit) io_buffer) =
      .ok ⟨8, "a".toList, 1, 0, 8⟩ :=
  ⟨by decide, rfl⟩

/-! ## Rolling back writes -/

theorem write_step_extends {b b1 : io_buffer} {n k : Nat} {v : bytes} (hb : b.sound)
    (hn : n ≤ 2 ^ 62) (hv : v.length ≤ n) (hk : k ≤ n)
    (h : write_step b n v k = .ok b1) : b.extends_to b1 := by
  unfold write_step io_buffer.begin_write at h
  cases hE : (b.ensure_capacity n : Except (exn Unit) io_buffer) with
  | error e => rw [hE] at h; cases h
  | ok b0 =>
    rw [hE] at h
    obtain ⟨hs0, hm0, hr0, hw0, ⟨pad, hd0⟩, hc0⟩ := io_buffer.ensure_capacity_ok hb hn hE
    obtain ⟨⟨h1, h2, h3⟩, h4, h5⟩ := hb
    obtain ⟨⟨g1, g2, g3⟩, g4, g5⟩ := hs0
    obtain ⟨m0, d0, c0, r0, w0⟩ := b0
    simp only at hm0 hr0 hw0 hd0 hc0 g1 g2 g3 g4 g5
    simp only [Except.ok.injEq] at h
    subst h
    have hadd : size_add w0 k = w0 + k := size_add_of_lt (by omega)
    have hlen : (memcpy_at d0 w0 v).length = c0 := by
      simp only [memcpy_at, List.length_append, List.length_take, List.length_drop]
      omega
    have htake : d0.take w0 = b.written := by
      simp only [io_buffer.written, hd0, hw0]
      rw [List.take_append_of_le_length (by omega)]
    refine ⟨⟨⟨?_, ?_, g3⟩, ?_, g5⟩, hm0, hr0, (v ++ d0.drop (w0 + v.length)).take k, ?_⟩
    · show r0 ≤ size_add w0 k
      rw [hadd]; omega
    · show size_add w0 k ≤ c0
      rw [hadd]; omega
    · exact hlen
    · show (memcpy_at d0 w0 v).take (size_add w0 k) = b.written ++ _
      have hl : (d0.take w0).length = w0 := by rw [List.length_take]; omega
      rw [hadd, memcpy_at, List.append_assoc, List.take_append_eq_append_take, hl,
        List.take_of_length_le (by omega), htake]
      congr 2
      omega

theorem write_run_extends :
    ∀ (steps : List (Nat × bytes × Nat)) (b : io_buffer), b.sound →
      (∀ s ∈ steps, s.1 ≤ 2 ^ 62 ∧ s.2.1.length ≤ s.1 ∧ s.2.2 ≤ s.1) →
      b.extends_to (write_run b steps) := by
  intro steps
  induction steps with
  | nil => intro b hb _; exact extends_to_refl hb
  | cons s rest ih =>
    intro b hb hs
    obtain ⟨n, v, k⟩ := s
    obtain ⟨a1, a2, a3⟩ := hs (n, v, k) (List.mem_cons_self _ _)
    simp only [write_run]
    cases hw : write_step b n v k with
    | error e =>
      have he : e = .std_exception length_error_what := by
        unfold write_step io_buffer.begin_write at hw
        cases hE : (b.ensure_capacity n : Except (exn Unit) io_buffer) with
        | ok b1 => rw [hE] at hw; cases hw
        | error e1 =>
          rw [hE] at hw
          simp only [Except.error.injEq] at hw
          rw [← hw]
          exact io_buffer.ensure_capacity_error hb a1 e1 hE
      rw [he]
      exact extends_to_refl hb
    | ok b1 =>
      have e1 := write_step_extends hb a1 a2 a3 hw
      have e2 := ih b1 e1.1 (fun s hs1 => hs s (List.mem_cons_of_mem _ hs1))
      exact grows_trans _ _ _ (fun _ => e1) (fun _ => e2) hb

/-- Away from `size_t` wrap-around the rollback restores the buffer: after any
sequence of writes of at most `2 ^ 62` bytes each on a well-formed buffer,
`rollback_write_transaction(sp)` gives back the write position, the read
position and the bytes before the write position. -/
theorem rollback_restores_written (b : io_buffer) (steps : List (Nat × bytes × Nat))
    (hb : b.sound)
    (hs : ∀ s ∈ steps, s.1 ≤ 2 ^ 62 ∧ s.2.1.length ≤ s.1 ∧ s.2.2 ≤ s.1) :
    ((write_run b steps).rollback_write_transaction b.write_savepoint).m_write_pos =
      b.m_write_pos ∧
    ((write_run b steps).rollback_write_transaction b.write_savepoint).m_read_pos =
      b.m_read_pos ∧
    ((write_run b steps).rollback_write_transaction b.write_savepoint).written = b.written := by
  have he := write_run_extends steps b hb hs
  obtain ⟨_, r2, _⟩ := rollback_after_grows hb he
  exact ⟨rfl, he.2.2.1, r2⟩

/-- C21: rolling back to a write savepoint does not restore the bytes of the
buffer after every sequence of `begin_write` / `confirm_write` calls: on the
full buffer `io_buffer(8, 8)` holding `abcdefgh`, after `sp = write_savepoint()`
the call `begin_write(2 ^ 64 - 7)` returns without error and shrinks the buffer
to one byte, so after `rollback_write_transaction(sp)` the write position is 8
again but only the byte `a` is left of the eight bytes. -/
theorem rollback_after_wrapping_growth_loses_bytes :
    (full8.begin_write (2 ^ 64 - 7) : Except (exn Unit) io_buffer) =
      .ok ⟨8, "a".toList, 1, 0, 8⟩ ∧
    (io_buffer.rollback_write_transaction ⟨8, "a".toList, 1, 0, 8⟩
      full8.write_savepoint).m_write_pos = full8.m_write_pos ∧
    (io_buffer.rollback_write_transaction ⟨8, "a".toList, 1, 0, 8⟩
      full8.write_savepoint).written = "a".toList ∧
    full8.written = "abcdefgh".toList :=
  ⟨rfl, rfl, by decide, by decide⟩

/-! ## Where the handlers leave the receive buffer -/

theorem unread_compact {b : io_buffer} (hb : b.sound) :
    b.compact.unread = b.unread ∧ b.compact.sound ∧ b.compact.m_read_pos = 0 := by
  have hlen := sound_unread_length hb
  have hn := io_buffer.sound_non_read hb
  obtain ⟨⟨h1, h2, h3⟩, h4, h5⟩ := hb
  by_cases he : b.m_read_pos = b.m_write_pos
  · have hc : b.compact = { b with m_read_pos := 0, m_write_pos := 0 } := by
      simp only [io_buffer.compact, he, if_true]
    have hu : b.unread = [] := List.eq_nil_of_length_eq_zero (by rw [hlen]; omega)
    rw [hc, hu]
    refine ⟨?_, ⟨⟨le_refl _, Nat.zero_le _, h3⟩, h4, h5⟩, rfl⟩
    simp only [io_buffer.unread, io_buffer.non_read, size_sub]
    simp
  · have hu : (b.m_data.drop b.m_read_pos).take (b.m_write_pos - b.m_read_pos) = b.unread := by
      simp only [io_buffer.unread, hn]
    have hsub : size_sub b.m_write_pos b.m_read_pos = b.m_write_pos - b.m_read_pos := hn
    have hc : b.compact = ⟨b.m_max_size, memcpy_at b.m_data 0 b.unread, b.m_capacity, 0,
        b.m_write_pos - b.m_read_pos⟩ := by
      simp only [io_buffer.compact, he, if_false, hsub, hu]
    have hdd : memcpy_at b.m_data 0 b.unread = b.unread ++ b.m_data.drop b.unread.length := by
      simp only [memcpy_at, List.take_zero, List.nil_append, Nat.zero_add]
    have hw : (b.unread ++ b.m_data.drop b.unread.length).take (b.m_write_pos - b.m_read_pos)
        = b.unread := by
      rw [← hlen, List.take_left']
      rfl
    rw [hc]
    refine ⟨?_, ⟨⟨Nat.zero_le _, ?_, h3⟩, ?_, h5⟩, rfl⟩
    · have h0 : size_sub (b.m_write_pos - b.m_read_pos) 0 = b.m_write_pos - b.m_read_pos - 0 :=
        size_sub_of_le (Nat.zero_le _) (by omega)
      show ((memcpy_at b.m_data 0 b.unread).drop 0).take
        (size_sub (b.m_write_pos - b.m_read_pos) 0) = b.unread
      rw [h0, hdd, List.drop_zero, Nat.sub_zero, hw]
    · show b.m_write_pos - b.m_read_pos ≤ b.m_capacity
      omega
    · show (memcpy_at b.m_data 0 b.unread).length = b.m_capacity
      rw [memcpy_at_zero_length _ _ (by rw [hlen]; omega), h4]

theorem unread_confirm_read {b : io_buffer} {n : Nat} (hb : b.sound) (hn : n ≤ b.non_read) :
    (b.confirm_read n).2.unread = b.unread.drop n ∧ (b.confirm_read n).2.sound ∧
      (b.confirm_read n).2.m_read_pos = b.m_read_pos + n := by
  have hnr := io_buffer.sound_non_read hb
  obtain ⟨⟨h1, h2, h3⟩, h4, h5⟩ := hb
  have hadd : size_add b.m_read_pos n = b.m_read_pos + n := size_add_of_lt (by omega)
  have hsub : size_sub b.m_write_pos (b.m_read_pos + n) = b.m_write_pos - (b.m_read_pos + n) :=
    size_sub_of_le (by omega) (by omega)
  refine ⟨?_, ⟨⟨?_, h2, h3⟩, h4, h5⟩, ?_⟩
  · simp only [io_buffer.confirm_read, io_buffer.unread, io_buffer.non_read, hadd, hsub]
    rw [show size_sub b.m_write_pos b.m_read_pos = b.m_write_pos - b.m_read_pos from hnr,
      List.drop_take, List.drop_drop]
    congr 1
    omega
  · show size_add b.m_read_pos n ≤ b.m_write_pos
    rw [hadd]; omega
  · exact hadd

section recv_trace

variable {σ : Type}

theorem liftOut_recv {α : Type} (m : M (Out σ) α) (st : io_buffer × Out σ) :
    (liftOut m st).state.1 = st.1 := by
  unfold liftOut
  cases m st.2 <;> rfl

theorem store_value_recv (cache : Cache σ) (cmd : Command) (h : StorageHeader)
    (st : io_buffer × Out σ) :
    match store_value cache cmd h st with
    | .ok _ st1 => ¬ st.1.non_read < h.datalen + CRLF.length ∧
        st1.1 = (st.1.confirm_read (h.datalen + CRLF.length)).2
    | .throw x st1 => x = .system_error .incomplete_request ∨ st1.1 = st.1 ∨
        (¬ st.1.non_read < h.datalen + CRLF.length ∧
          st1.1 = (st.1.confirm_read (h.datalen + CRLF.length)).2) := by
  unfold store_value
  by_cases c1 : st.1.non_read < h.datalen + CRLF.length
  · simp only [if_pos c1]
    cases (st.1.ensure_capacity (size_sub (h.datalen + CRLF.length) st.1.non_read) :
        Except (exn error) io_buffer) with
    | ok r1 => exact Or.inl rfl
    | error e => exact Or.inr (Or.inl rfl)
  · simp only [if_neg c1]
    by_cases c2 : endswith ((st.1.m_data.drop st.1.m_read_pos).take (h.datalen + CRLF.length))
        CRLF = true
    · simp only [c2, if_true]
      have key : ∀ (m : M (Out σ) ConversationReply) (s : io_buffer × Out σ)
          (res : Res (io_buffer × Out σ) ConversationReply),
          liftOut m s = res → res.state.1 = s.1 := fun m s res hh => hh ▸ liftOut_recv m s
      split
      · next a st1 heq => exact ⟨c1, key _ _ _ heq⟩
      · next e st1 heq => exact Or.inr (Or.inr ⟨c1, key _ _ _ heq⟩)
    · simp only [c2, if_false]
      exact Or.inr (Or.inl rfl)

theorem dispatch_lift (env : Env) (cache : Cache σ) (cmd : Command) (args : bytes)
    (handler : M (io_buffer × Out σ) ConversationReply) (hc : cmd.is_storage = false)
    (hd : dispatch env cache cmd args = some handler) :
    ∃ m : M (Out σ) ConversationReply, handler = liftOut m := by
  cases cmd <;> first
    | exact absurd hc (by decide)
    | (cases hd; done)
    | (cases hd; exact ⟨_, rfl⟩)

theorem run_command_recv_ok (env : Env) (cache : Cache σ) (line : bytes)
    (st st1 : io_buffer × Out σ) (reply : ConversationReply)
    (h : run_command env cache line st = .ok reply st1) (hq : reply ≠ .CLOSE_IMMEDIATELY) :
    ((parse_command_name (command_name line)).is_storage = false ∧ st1.1 = st.1.compact) ∨
    ((parse_command_name (command_name line)).is_storage = true ∧
      ∃ hd, parse_storage_header env (parse_command_name (command_name line))
          (command_args line) = .ok hd ∧
        hd.datalen + CRLF.length ≤ st.1.non_read ∧
        st1.1 = ((st.1.confirm_read (hd.datalen + CRLF.length)).2).compact) := by
  cases hc : (parse_command_name (command_name line)).is_storage with
  | true =>
    refine Or.inr ⟨rfl, ?_⟩
    cases hh : parse_storage_header env (parse_command_name (command_name line))
        (command_args line) with
    | error e =>
      rw [run_command_storage_error env cache line e st hc hh] at h
      cases h
    | ok hd =>
      rw [run_command_storage env cache line hd st hc hh] at h
      have hs := store_value_recv cache (parse_command_name (command_name line)) hd st
      cases hsv : store_value cache (parse_command_name (command_name line)) hd st with
      | throw e st2 => rw [hsv] at h; cases h
      | ok r st2 =>
        rw [hsv] at h hs
        simp only [Res.ok.injEq] at h
        obtain ⟨_, rfl⟩ := h
        exact ⟨hd, rfl, by have := hs.1; omega, by rw [hs.2]⟩
  | false =>
    refine Or.inl ⟨rfl, ?_⟩
    unfold run_command at h
    cases hd : dispatch env cache (parse_command_name (command_name line))
        (command_args line) with
    | none =>
      rw [hd] at h
      simp only at h
      split_ifs at h with cq
      simp only [Res.ok.injEq] at h
      exact absurd h.1.symm hq
    | some handler =>
      rw [hd] at h
      simp only at h
      obtain ⟨m, rfl⟩ := dispatch_lift env cache _ _ handler hc hd
      have hl := liftOut_recv m st
      cases hm : liftOut m st with
      | throw e st2 => rw [hm] at h; cases h
      | ok r st2 =>
        rw [hm] at h hl
        simp only [Res.ok.injEq] at h
        obtain ⟨_, rfl⟩ := h
        show st2.1.compact = st.1.compact
        rw [show st2.1 = st.1 from hl]

theorem run_command_recv_throw (env : Env) (cache : Cache σ) (line : bytes)
    (st st1 : io_buffer × Out σ) (x : exn error)
    (h : run_command env cache line st = .throw x st1)
    (hx : x ≠ .system_error .incomplete_request) :
    st1.1 = st.1 ∨
    ((parse_command_name (command_name line)).is_storage = true ∧
      ∃ hd, parse_storage_header env (parse_command_name (command_name line))
          (command_args line) = .ok hd ∧
        hd.datalen + CRLF.length ≤ st.1.non_read ∧
        st1.1 = (st.1.confirm_read (hd.datalen + CRLF.length)).2) := by
  cases hc : (parse_command_name (command_name line)).is_storage with
  | true =>
    cases hh : parse_storage_header env (parse_command_name (command_name line))
        (command_args line) with
    | error e =>
      rw [run_command_storage_error env cache line e st hc hh] at h
      simp only [Res.throw.injEq] at h
      exact Or.inl (by rw [← h.2])
    | ok hd =>
      rw [run_command_storage env cache line hd st hc hh] at h
      have hs := store_value_recv cache (parse_command_name (command_name line)) hd st
      cases hsv : store_value cache (parse_command_name (command_name line)) hd st with
      | ok r st2 => rw [hsv] at h; cases h
      | throw e st2 =>
        rw [hsv] at h hs
        simp only [Res.throw.injEq] at h
        obtain ⟨rfl, rfl⟩ := h
        rcases hs with hs | hs | hs
        · exact absurd hs hx
        · exact Or.inl hs
        · exact Or.inr ⟨rfl, hd, rfl, by have := hs.1; omega, hs.2⟩
  | false =>
    refine Or.inl ?_
    unfold run_command at h
    cases hd : dispatch env cache (parse_command_name (command_name line))
        (command_args line) with
    | none =>
      rw [hd] at h
      simp only at h
      split_ifs at h with cq
      simp only [Res.throw.injEq] at h
      rw [← h.2]
    | some handler =>
      rw [hd] at h
      simp only at h
      obtain ⟨m, rfl⟩ := dispatch_lift env cache _ _ handler hc hd
      have hl := liftOut_recv m st
      cases hm : liftOut m st with
      | ok r st2 => rw [hm] at h; cases h
      | throw e st2 =>
        rw [hm] at h hl
        simp only [Res.throw.injEq] at h
        obtain ⟨_, rfl⟩ := h
        exact hl

end recv_trace

theorem recv_after_error_eq (x : exn error) (r : io_buffer) :
    recv_after_error x r = if resets_recv x = true then r.reset else r := by
  cases x with
  | std_exception what => rfl
  | system_error code => cases code <;> rfl

/-- C28, counterexample: a server error can leave the read position of `recv`
past the payload and not just past the header line. With a cache whose
`do_storage` throws `out_of_memory`, `set foo 0 0 5\r\nhello\r\nget foo\r\n` is
answered with a `SERVER_ERROR` line, and `recv` is left with read position 22,
past the payload and its CRLF, while the header line and its CRLF end at 15;
the payload bytes `hello\r\n` are not among the unread bytes any more. -/
theorem server_error_after_payload_was_read :
    (handle_received_data example_env exhausted_cache
      (buffer_with 64 "set foo 0 0 5\r\nhello\r\nget foo\r\n".toList) (buffer_with 64 []) ()).map
      (fun o => (o.reply, o.recv.m_read_pos, o.recv.unread, o.send.written, o.calls)) =
    some (.SEND_REPLY_AND_READ, 22, "get foo\r\n".toList, "SERVER_ERROR Error\r\n".toList,
      [.create_item "foo".toList 5 0 0 0,
       .do_storage .SET ⟨"foo".toList, "hello".toList, 0, 0, 0⟩,
       .destroy_item ⟨"foo".toList, "hello".toList, 0, 0, 0⟩]) ∧
    (buffer_with 64 "set foo 0 0 5\r\nhello\r\nget foo\r\n".toList).m_read_pos +
      ("set foo 0 0 5".toList.length + CRLF.length) = 15 := by
  decide

/-- C28, amended: after a failed command, when the error is of the protocol
category or is `broken_request`, `recv` is reset and nothing is unread; for every
other error (numeric errors and server errors) `recv` is neither reset nor
rolled back: its read position is where the handler left it, which is just past
the CRLF of the header line with everything after it unread, or, for a storage
command whose payload had been read when the error arose, just past the CRLF of
the payload with everything after that unread. -/
theorem recv_after_failed_command {σ : Type} (env : Env) (cache : Cache σ)
    (recv_buf send_buf : io_buffer) (cache_state : σ) (line rest : bytes) (x : exn error)
    (st1 : io_buffer × Out σ) (out : Outcome σ)
    (hl : holds_line recv_buf line rest) (hr : recv_buf.sound)
    (hbody : handle_body env cache (recv_buf, ⟨send_buf, cache_state, []⟩) = .throw x st1)
    (hx : x ≠ .system_error .incomplete_request)
    (hret : handle_received_data env cache recv_buf send_buf cache_state = some out) :
    (resets_recv x = true →
      out.recv.m_read_pos = 0 ∧ out.recv.m_write_pos = 0 ∧ out.recv.unread = [] ∧
        out.recv.non_read = 0) ∧
    (resets_recv x = false →
      (out.recv.m_read_pos = recv_buf.m_read_pos + (line.length + 2) ∧
        out.recv.m_write_pos = recv_buf.m_write_pos ∧ out.recv.unread = rest) ∨
      ((parse_command_name (command_name line)).is_storage = true ∧
        ∃ hd, parse_storage_header env (parse_command_name (command_name line))
            (command_args line) = .ok hd ∧
          hd.datalen + 2 ≤ rest.length ∧
          out.recv.m_read_pos = recv_buf.m_read_pos + (line.length + 2) + (hd.datalen + 2) ∧
          out.recv.m_write_pos = recv_buf.m_write_pos ∧
          out.recv.unread = rest.drop (hd.datalen + 2))) := by
  have hinv := handle_received_data_inv env cache recv_buf send_buf cache_state out hret
  rw [hbody] at hinv
  simp only [outcome_of_body, if_neg hx] at hinv
  obtain ⟨_, _, _, hrecv, _⟩ := hinv
  rw [recv_after_error_eq] at hrecv
  have hC : CRLF.length = 2 := rfl
  constructor
  · intro hres
    rw [if_pos hres] at hrecv
    rw [hrecv]
    refine ⟨rfl, rfl, unread_reset _, ?_⟩
    simp [io_buffer.reset, io_buffer.non_read, size_sub]
  · intro hres
    rw [if_neg (by rw [hres]; decide)] at hrecv
    rw [handle_body_line env cache recv_buf _ line rest hl] at hbody
    obtain ⟨a1, a2, a3, a4⟩ := after_line_sound hr hl
    rcases run_command_recv_throw env cache line _ st1 x hbody hx with h1 | ⟨hc, hd, hp, hle, h1⟩
    · left
      simp only at h1
      rw [hrecv, h1]
      exact ⟨by rw [a4, hC], rfl, a2⟩
    · right
      simp only at h1 hle
      rw [a3, hC] at hle
      obtain ⟨u1, _, u3⟩ := unread_confirm_read (n := hd.datalen + CRLF.length) a1
        (by rw [a3, hC]; exact hle)
      refine ⟨hc, hd, hp, hle, ?_, ?_, ?_⟩
      · rw [hrecv, h1, u3, a4, hC]
      · rw [hrecv, h1]; rfl
      · rw [hrecv, h1, u1, a2, hC]

theorem recv_after_failed_command_witness :
    ∃ out, handle_received_data example_env (fixed_cache [])
        (buffer_with 64 "stats x\r\nget foo\r\n".toList) (buffer_with 64 []) () = some out ∧
      out.recv.m_read_pos = 9 ∧ out.recv.unread = "get foo\r\n".toList ∧
      out.send.written = "SERVER_ERROR Not implemented\r\n".toList := by
  have hv : (handle_received_data example_env (fixed_cache [])
      (buffer_with 64 "stats x\r\nget foo\r\n".toList) (buffer_with 64 []) ()).map
      (fun o => o.send.written) = some "SERVER_ERROR Not implemented\r\n".toList := by
    decide
  obtain ⟨out, hout, hw⟩ := Option.map_eq_some'.mp hv
  have hbody : handle_body example_env (fixed_cache [])
      (buffer_with 64 "stats x\r\nget foo\r\n".toList, ⟨buffer_with 64 [], (), []⟩) =
      .throw (.system_error .not_implemented)
        (handle_body example_env (fixed_cache [])
          (buffer_with 64 "stats x\r\nget foo\r\n".toList, ⟨buffer_with 64 [], (), []⟩)).state := by
    rfl
  have h := recv_after_failed_command example_env (fixed_cache [])
    (buffer_with 64 "stats x\r\nget foo\r\n".toList) (buffer_with 64 []) ()
    "stats x".toList "get foo\r\n".toList (.system_error .not_implemented) _ out
    ⟨by decide, by decide⟩ (by decide) hbody (by decide) hout
  refine ⟨out, hout, ?_, ?_, hw⟩
  · rcases h.2 rfl with h1 | ⟨hc, _⟩
    · exact h1.1
    · exact absurd hc (by decide)
  · rcases h.2 rfl with h1 | ⟨hc, _⟩
    · exact h1.2.2
    · exact absurd hc (by decide)

/-- C25: when `handle_received_data` handles a complete command other than
`quit` without an error, the bytes of `recv` that are unread on return are
exactly those that followed the frame of the command (the header line, its
CRLF and, for a storage command, the payload and its CRLF), and what `send`
held before is still there, followed by the reply; so two calls on
`set foo 0 0 5\r\nhello\r\nget foo\r\n` with a cache that stores and returns the
item leave `STORED\r\nVALUE foo 0 5\r\nhello\r\nEND\r\n` in `send` and nothing
unread in `recv`. -/
theorem pipelined_frames_in_order {σ : Type} (env : Env) (cache : Cache σ)
    (recv_buf send_buf : io_buffer) (cache_state : σ) (line rest : bytes)
    (reply : ConversationReply) (st1 : io_buffer × Out σ) :
    (holds_line recv_buf line rest → recv_buf.sound →
      handle_body env cache (recv_buf, ⟨send_buf, cache_state, []⟩) = .ok reply st1 →
      reply ≠ .CLOSE_IMMEDIATELY →
      ∃ out, handle_received_data env cache recv_buf send_buf cache_state = some out ∧
        payload_size env line ≤ rest.length ∧
        out.recv.unread = rest.drop (payload_size env line) ∧
        out.recv.sound ∧
        (send_buf.sound → env.small → cache.small →
          ∃ v, out.send.written = send_buf.written ++ v)) ∧
    (handle_twice example_env storing_cache
        (buffer_with 64 "set foo 0 0 5\r\nhello\r\nget foo\r\n".toList) (buffer_with 64 []) []).map
      (fun o => (o.reply, o.send.written, o.recv.unread)) =
      some (.SEND_REPLY_AND_READ, "STORED\r\nVALUE foo 0 5\r\nhello\r\nEND\r\n".toList, []) := by
  refine ⟨?_, by decide⟩
  intro hl hr hbody hq
  have hC : CRLF.length = 2 := rfl
  have hret := handle_received_data_ok env cache recv_buf send_buf cache_state reply st1 hbody
  have hb := hbody
  rw [handle_body_line env cache recv_buf _ line rest hl] at hb
  obtain ⟨a1, a2, a3, a4⟩ := after_line_sound hr hl
  refine ⟨_, hret, ?_⟩
  have hsend : send_buf.sound → env.small → cache.small →
      ∃ v, st1.2.send.written = send_buf.written ++ v := by
    intro hs he hc
    have hk := keeps_handle_body env he cache hc (recv_buf, ⟨send_buf, cache_state, []⟩)
    rw [hbody] at hk
    exact (hk.1 hs).2.2.2
  rcases run_command_recv_ok env cache line _ st1 reply hb hq with ⟨hc, h1⟩ | ⟨hc, hd, hp, hle, h1⟩
  · have hps : payload_size env line = 0 := by
      simp only [payload_size, hc, Bool.false_eq_true, if_false]
    obtain ⟨u1, u2, _⟩ := unread_compact a1
    simp only at h1
    rw [hps]
    exact ⟨Nat.zero_le _, by rw [h1, u1, a2, List.drop_zero], by rw [h1]; exact u2, hsend⟩
  · have hps := payload_size_storage env line hd hc hp
    simp only at h1 hle
    obtain ⟨u1, u2, _⟩ := unread_confirm_read (n := hd.datalen + CRLF.length) a1 hle
    obtain ⟨v1, v2, _⟩ := unread_compact u2
    rw [hps]
    exact ⟨by rw [← a3]; exact hle, by rw [h1, v1, u1, a2], by rw [h1]; exact v2, hsend⟩

theorem pipelined_frames_in_order_witness :
    ∃ out, handle_received_data example_env storing_cache
        (buffer_with 64 "set foo 0 0 5\r\nhello\r\nget foo\r\n".toList) (buffer_with 64 []) [] =
        some out ∧
      payload_size example_env "set foo 0 0 5".toList ≤ "hello\r\nget foo\r\n".toList.length ∧
      out.recv.unread = "get foo\r\n".toList :=
  Exists.imp (fun _ h => ⟨h.1, h.2.1, h.2.2.1⟩)
    ((pipelined_frames_in_order example_env storing_cache
      (buffer_with 64 "set foo 0 0 5\r\nhello\r\nget foo\r\n".toList) (buffer_with 64 []) []
      "set foo 0 0 5".toList "hello\r\nget foo\r\n".toList .SEND_REPLY_AND_READ
      (handle_body example_env storing_cache
        (buffer_with 64 "set foo 0 0 5\r\nhello\r\nget foo\r\n".toList,
          ⟨buffer_with 64 [], [], []⟩)).state).1
      ⟨by decide, by decide⟩ (by decide) (by rfl) (by decide))

/-! ## Lines with and without `noreply` -/

section twins

variable {σ : Type}

end twins

section twin_top

variable {σ : Type}

end twin_top

section block_list_lemmas

theorem set_link_same (m : link_memory) (i : Nat) (v : link) : set_link m i v i = v := by
  simp [set_link]

theorem set_link_other (m : link_memory) (i j : Nat) (v : link) (h : j ≠ i) :
    set_link m i v j = m j := by
  simp [set_link, h]

theorem set_next_next (m : link_memory) (i v j : Nat) :
    (set_next m i v j).next = if j = i then v else (m j).next := by
  unfold set_next set_link
  split <;> rfl

theorem set_next_prev (m : link_memory) (i v j : Nat) :
    (set_next m i v j).prev = (m j).prev := by
  unfold set_next set_link
  split
  · next h => subst h; rfl
  · rfl

theorem set_prev_prev (m : link_memory) (i v j : Nat) :
    (set_prev m i v j).prev = if j = i then v else (m j).prev := by
  unfold set_prev set_link
  split <;> rfl

theorem set_prev_next (m : link_memory) (i v j : Nat) :
    (set_prev m i v j).next = (m j).next := by
  unfold set_prev set_link
  split
  · next h => subst h; rfl
  · rfl

/-- A chain depends on the forward links of its blocks but the last, and on
the backward links of its blocks but the first. -/
theorem chain_frame (m m2 : link_memory) : ∀ (l : List Nat) (x z : Nat),
    chain m x l z →
    (∀ u ∈ x :: l, (m2 u).next = (m u).next) →
    (∀ u ∈ l ++ [z], (m2 u).prev = (m u).prev) → chain m2 x l z
  | [], x, z, h, hn, hp => by
    unfold chain linked at *
    rw [hn x (by simp), hp z (by simp)]
    exact h
  | y :: l, x, z, h, hn, hp => by
    unfold chain at h ⊢
    refine ⟨?_, chain_frame m m2 l y z h.2 (fun u hu => hn u (List.mem_cons_of_mem _ hu))
      (fun u hu => hp u (by simp at hu ⊢; tauto))⟩
    unfold linked at *
    rw [hn x (by simp), hp y (by simp)]
    exact h.1

theorem chain_append (m : link_memory) : ∀ (l1 : List Nat) (x y : Nat) (l2 : List Nat) (z : Nat),
    chain m x (l1 ++ y :: l2) z ↔ chain m x l1 y ∧ chain m y l2 z
  | [], x, y, l2, z => by simp [chain]
  | w :: l1, x, y, l2, z => by
    show linked m x w ∧ chain m w (l1 ++ y :: l2) z ↔ _
    rw [chain_append m l1 w y l2 z]
    simp only [chain, and_assoc]

theorem chain_snoc (m : link_memory) : ∀ (l : List Nat) (x y z : Nat),
    chain m x (l ++ [y]) z ↔ chain m x l y ∧ linked m y z := fun l x y z => by
  rw [chain_append]; simp [chain]

/-- The forward link of the start of a chain. -/
theorem chain_next (m : link_memory) (l : List Nat) (x z : Nat) (h : chain m x l z) :
    (m x).next = (l ++ [z]).head (by simp) := by
  cases l with
  | nil => exact h.1
  | cons y l => exact h.1.1

/-- The backward link of the end of a chain. -/
theorem chain_prev (m : link_memory) : ∀ (l : List Nat) (x z : Nat), chain m x l z →
    (m z).prev = (x :: l).getLast (by simp)
  | [], x, z, h => h.2
  | y :: l, x, z, h => by
    rw [List.getLast_cons (by simp)]
    exact chain_prev m l y z h.2

end block_list_lemmas

section block_list_operations

theorem chain_retarget_end (m m2 : link_memory) (b : Nat) : ∀ (l : List Nat) (x z : Nat),
    chain m x l z → (x :: l).Nodup →
    (∀ u ∈ x :: l, u ≠ (x :: l).getLast (by simp) → (m2 u).next = (m u).next) →
    (m2 ((x :: l).getLast (by simp))).next = b →
    (∀ u ∈ l, (m2 u).prev = (m u).prev) →
    (m2 b).prev = (x :: l).getLast (by simp) → chain m2 x l b
  | [], x, z, _, _, _, hl, _, hb => ⟨hl, hb⟩
  | y :: l, x, z, h, hnd, hn, hl, hp, hb => by
    have hlast : (x :: y :: l).getLast (by simp) = (y :: l).getLast (by simp) :=
      List.getLast_cons (by simp)
    have hx : x ≠ (y :: l).getLast (by simp) := by
      intro e
      have := List.getLast_mem (l := y :: l) (by simp)
      rw [← e] at this
      exact (List.nodup_cons.mp hnd).1 this
    refine ⟨⟨?_, ?_⟩, chain_retarget_end m m2 b l y z h.2 (List.nodup_cons.mp hnd).2 ?_ ?_ ?_ ?_⟩
    · rw [hn x (by simp) (by rw [hlast]; exact hx)]; exact h.1.1
    · rw [hp y (by simp)]; exact h.1.2
    · intro u hu hne
      exact hn u (List.mem_cons_of_mem _ hu) (by rw [hlast]; exact hne)
    · rw [← hlast]; exact hl
    · intro u hu
      exact hp u (List.mem_cons_of_mem _ hu)
    · rw [← hlast]; exact hb

theorem push_front_next (m : link_memory) (a b u : Nat) :
    (block_list.push_front m a b u).next =
      if u = a then b else if u = b then (m a).next else (m u).next := by
  simp only [block_list.push_front, set_next_next, set_prev_next]

theorem push_front_prev (m : link_memory) (a b u : Nat) :
    (block_list.push_front m a b u).prev =
      if u = b then a else if u = (m a).next then b else (m u).prev := by
  simp only [block_list.push_front, set_next_next, set_prev_next, set_next_prev, set_prev_prev,
    if_true]

theorem push_back_prev (m : link_memory) (a b u : Nat) :
    (block_list.push_back m a b u).prev =
      if u = a then b else if u = b then (m a).prev else (m u).prev := by
  simp only [block_list.push_back, set_prev_prev, set_next_prev]

theorem push_back_next (m : link_memory) (a b u : Nat) :
    (block_list.push_back m a b u).next =
      if u = b then a else if u = (m a).prev then b else (m u).next := by
  simp only [block_list.push_back, set_next_next, set_prev_next, set_next_prev, set_prev_prev,
    if_true]

theorem unlink_next (m : link_memory) (b u : Nat) (hu : u ≠ b) :
    (block_list.unlink m b u).next = if u = (m b).prev then (m b).next else (m u).next := by
  simp only [block_list.unlink]
  rw [set_link_other _ _ _ _ hu, set_prev_next, set_next_next]

theorem unlink_prev (m : link_memory) (b u : Nat) (hu : u ≠ b) (hp : (m b).prev ≠ b) :
    (block_list.unlink m b u).prev = if u = (m b).next then (m b).prev else (m u).prev := by
  simp only [block_list.unlink]
  rw [set_link_other _ _ _ _ hu, set_prev_prev, set_next_next, set_next_prev, set_next_prev,
    if_neg (Ne.symm hp)]

theorem holds_init (m : link_memory) (a : Nat) :
    block_list.holds (block_list.init m a) a [] := by
  refine ⟨by simp, ?_⟩
  simp [chain, linked, block_list.init, set_link_same]

theorem holds_front (m : link_memory) (a : Nat) (l : List Nat) (h : block_list.holds m a l) :
    block_list.front m a = (l ++ [a]).head (by simp) := chain_next m l a a h.2

theorem holds_back (m : link_memory) (a : Nat) (l : List Nat) (h : block_list.holds m a l) :
    block_list.back m a = (a :: l).getLast (by simp) := chain_prev m l a a h.2

theorem holds_empty (m : link_memory) (a : Nat) (l : List Nat) (h : block_list.holds m a l) :
    block_list.empty m a = true ↔ l = [] := by
  have hf := holds_front m a l h
  unfold block_list.front at hf
  unfold block_list.empty
  rw [beq_iff_eq, hf]
  cases l with
  | nil => simp
  | cons y l =>
    have := h.1
    simp only [List.nodup_cons, List.mem_cons, not_or] at this
    simp only [List.cons_append, List.head_cons, reduceCtorEq, iff_false]
    exact fun e => this.1.1 e.symm

theorem holds_push_front (m : link_memory) (a b : Nat) (l : List Nat)
    (h : block_list.holds m a l) (hb : b ∉ a :: l) :
    block_list.holds (block_list.push_front m a b) a (b :: l) := by
  obtain ⟨hnd, hc⟩ := h
  have hba : b ≠ a := fun e => hb (by simp [e])
  have hbl : b ∉ l := fun e => hb (List.mem_cons_of_mem _ e)
  have hal : a ∉ l := (List.nodup_cons.mp hnd).1
  refine ⟨?_, ?_⟩
  · simp only [List.nodup_cons, List.mem_cons, not_or]
    exact ⟨⟨Ne.symm hba, hal⟩, hbl, (List.nodup_cons.mp hnd).2⟩
  · cases l with
    | nil =>
      have hn : (m a).next = a := hc.1
      simp only [chain, linked, push_front_next, push_front_prev, hn, if_true, if_neg hba,
        if_neg (Ne.symm hba), and_self]
    | cons y l =>
      have hn : (m a).next = y := hc.1.1
      have hya : y ≠ a := fun e => hal (by simp [e])
      have hyb : y ≠ b := fun e => hbl (by simp [e])
      have hyl : y ∉ l := (List.nodup_cons.mp (List.nodup_cons.mp hnd).2).1
      refine ⟨?_, ?_, ?_⟩
      · simp only [linked, push_front_next, push_front_prev, if_true, and_self]
      · simp only [linked, push_front_next, push_front_prev, hn, if_true, if_neg hba,
          if_neg hyb, and_self]
      · refine chain_frame m _ l y a hc.2 ?_ ?_
        · intro u hu
          have hua : u ≠ a := fun e => hal (e ▸ hu)
          have hub : u ≠ b := fun e => hbl (e ▸ hu)
          rw [push_front_next, if_neg hua, if_neg hub]
        · intro u hu
          have hub : u ≠ b := by
            intro e
            rcases List.mem_append.mp hu with h1 | h1
            · exact hbl (e ▸ List.mem_cons_of_mem _ h1)
            · exact hba (by rw [← e]; simpa using h1)
          have huy : u ≠ y := by
            intro e
            rcases List.mem_append.mp hu with h1 | h1
            · exact hyl (e ▸ h1)
            · exact hya (by rw [← e]; simpa using h1)
          rw [push_front_prev, if_neg hub, hn, if_neg huy]

theorem holds_push_back (m : link_memory) (a b : Nat) (l : List Nat)
    (h : block_list.holds m a l) (hb : b ∉ a :: l) :
    block_list.holds (block_list.push_back m a b) a (l ++ [b]) := by
  obtain ⟨hnd, hc⟩ := h
  have hba : b ≠ a := fun e => hb (by simp [e])
  have hbl : b ∉ l := fun e => hb (List.mem_cons_of_mem _ e)
  have hal : a ∉ l := (List.nodup_cons.mp hnd).1
  have ht := chain_prev m l a a hc
  have htm : (a :: l).getLast (by simp) ∈ a :: l := List.getLast_mem _
  refine ⟨?_, ?_⟩
  · rw [← List.cons_append]
    refine List.Nodup.append hnd (by simp) ?_
    intro u hu hu2
    simp only [List.mem_singleton] at hu2
    exact hb (hu2 ▸ hu)
  · rw [chain_snoc]
    refine ⟨chain_retarget_end m _ b l a a hc hnd ?_ ?_ ?_ ?_, ?_⟩
    · intro u hu hne
      have hub : u ≠ b := fun e => hb (e ▸ hu)
      rw [push_back_next, if_neg hub, ht, if_neg hne]
    · have : (a :: l).getLast (by simp) ≠ b := fun e => hb (e ▸ htm)
      rw [push_back_next, if_neg this, ht, if_pos rfl]
    · intro u hu
      have hua : u ≠ a := fun e => hal (e ▸ hu)
      have hub : u ≠ b := fun e => hbl (e ▸ hu)
      rw [push_back_prev, if_neg hua, if_neg hub]
    · rw [push_back_prev, if_neg hba, if_pos rfl, ht]
    · simp only [linked, push_back_next, push_back_prev, if_true, and_self]

theorem holds_unlink (m : link_memory) (a b : Nat) (l1 l2 : List Nat)
    (h : block_list.holds m a (l1 ++ b :: l2)) :
    block_list.holds (block_list.unlink m b) a (l1 ++ l2) := by
  obtain ⟨hnd, hc⟩ := h
  rw [chain_append] at hc
  obtain ⟨hc1, hc2⟩ := hc
  have hp := chain_prev m l1 a b hc1
  have hn := chain_next m l2 b a hc2
  rw [← List.cons_append] at hnd
  have hnd1 : (a :: l1).Nodup := (List.nodup_append.mp hnd).1
  have hnd2 : (b :: l2).Nodup := (List.nodup_append.mp hnd).2.1
  have hdis : ∀ u, u ∈ a :: l1 → u ∈ b :: l2 → False := fun u h1 h2 =>
    (List.nodup_append.mp hnd).2.2 h1 h2
  have hpm : (a :: l1).getLast (by simp) ∈ a :: l1 := List.getLast_mem _
  have hpb : (m b).prev ≠ b := by
    rw [hp]; intro e
    exact hdis _ hpm (by rw [e]; simp)
  have hbl2 : b ∉ l2 := (List.nodup_cons.mp hnd2).1
  have hndo : (a :: (l1 ++ l2)).Nodup := by
    rw [← List.cons_append]
    exact List.Nodup.append hnd1 (List.nodup_cons.mp hnd2).2
      (fun u h1 h2 => hdis u h1 (List.mem_cons_of_mem _ h2))
  refine ⟨hndo, ?_⟩
  have hend : ∀ z, (m b).next = z → z ∉ l1 → z ≠ b →
      chain (block_list.unlink m b) a l1 z := by
    intro z hz hzl hzb
    refine chain_retarget_end m _ z l1 a b hc1 hnd1 ?_ ?_ ?_ ?_
    · intro u hu hne
      have hub : u ≠ b := fun e => hdis u hu (by rw [e]; simp)
      rw [unlink_next m b u hub, hp, if_neg hne]
    · have hub : (a :: l1).getLast (by simp) ≠ b := fun e => hdis _ hpm (by rw [e]; simp)
      rw [unlink_next m b _ hub, hp, if_pos rfl, hz]
    · intro u hu
      have hub : u ≠ b := fun e => hdis u (List.mem_cons_of_mem _ hu) (by rw [e]; simp)
      have huz : u ≠ z := fun e => hzl (e ▸ hu)
      rw [unlink_prev m b u hub hpb, hz, if_neg huz]
    · rw [unlink_prev m b z hzb hpb, hz, if_pos rfl, hp]
  cases l2 with
  | nil =>
    rw [List.append_nil]
    have hab : a ≠ b := fun e => hdis a (by simp) (by rw [e]; simp)
    exact hend a (by simpa using hn) (List.nodup_cons.mp hnd1).1 hab
  | cons y l2 =>
    have hny : (m b).next = y := by simpa using hn
    have hyb : y ≠ b := fun e => hbl2 (by rw [← e]; simp)
    have hyl1 : y ∉ l1 := fun e => hdis y (List.mem_cons_of_mem _ e) (by simp)
    have hya : y ≠ a := fun e => hdis a (by simp) (by rw [← e]; simp)
    have hyl2 : y ∉ l2 := (List.nodup_cons.mp (List.nodup_cons.mp hnd2).2).1
    rw [chain_append]
    refine ⟨hend y hny hyl1 hyb, chain_frame m _ l2 y a hc2.2 ?_ ?_⟩
    · intro u hu
      have hub : u ≠ b := fun e => hbl2 (by rw [← e]; exact hu)
      have hup : u ≠ (a :: l1).getLast (by simp) := fun e =>
        hdis u (e ▸ hpm) (List.mem_cons_of_mem _ hu)
      rw [unlink_next m b u hub, hp, if_neg hup]
    · intro u hu
      have hub : u ≠ b := by
        intro e
        rcases List.mem_append.mp hu with h1 | h1
        · exact hbl2 (List.mem_cons_of_mem _ (e ▸ h1))
        · exact hdis a (by simp) (by rw [← e]; simp at h1; rw [h1]; simp)
      have huy : u ≠ y := by
        intro e
        rcases List.mem_append.mp hu with h1 | h1
        · exact hyl2 (e ▸ h1)
        · exact hya (by rw [← e]; simpa using h1)
      rw [unlink_prev m b u hub hpb, hny, if_neg huy]

theorem test_block_list_passes : test_block_list =
    ([true, true, true, true, true, true, true, true, true, true, true, true, true, true, true,
      true, true, true], [1, 1, 1, 1, 1, 1, 2, 3, 2, 3, 2, 3, 3]) := by decide

end block_list_operations

theorem getLast_cons_snoc (a x : Nat) (l : List Nat) :
    (a :: (l ++ [x])).getLast (by simp) = x := by
  rw [List.getLast_cons (by simp)]
  exact List.getLast_append_singleton l

theorem holds_back_snoc (m : link_memory) (a x : Nat) (l : List Nat)
    (h : block_list.holds m a (l ++ [x])) : block_list.back m a = x := by
  rw [holds_back m a _ h]
  exact getLast_cons_snoc a x l

/-- C29: `block_list` behaves as a double-ended queue of blocks. A new list
holds nothing; on a list that holds the blocks `l`, front first:
`empty()` holds exactly when `l` is empty; after `push_front(b)` the list holds
`b :: l`, `front() = b` and `is_head(b)`; after `push_back(b)` it holds
`l ++ [b]`, `back() = b` and `is_tail(b)`; `pop_front` and `pop_back` return the
current front and back and leave the rest; `unlink(b)` removes exactly `b` and
keeps the order of the others, with `front()` and `back()` unchanged when `b`
was not the front, respectively not the back. -/
theorem block_list_is_deque (m : link_memory) (anchor : Nat) (l : List Nat)
    (h : block_list.holds m anchor l) :
    block_list.holds (block_list.init m anchor) anchor [] ∧
    (block_list.empty m anchor = true ↔ l = []) ∧
    (∀ b, b ∉ anchor :: l →
      block_list.holds (block_list.push_front m anchor b) anchor (b :: l) ∧
      block_list.front (block_list.push_front m anchor b) anchor = b ∧
      block_list.is_head (block_list.push_front m anchor b) anchor b = true) ∧
    (∀ b, b ∉ anchor :: l →
      block_list.holds (block_list.push_back m anchor b) anchor (l ++ [b]) ∧
      block_list.back (block_list.push_back m anchor b) anchor = b ∧
      block_list.is_tail (block_list.push_back m anchor b) anchor b = true) ∧
    (∀ x rest, l = x :: rest →
      block_list.front m anchor = x ∧ (block_list.pop_front m anchor).1 = x ∧
      block_list.holds (block_list.pop_front m anchor).2 anchor rest) ∧
    (∀ x rest, l = rest ++ [x] →
      block_list.back m anchor = x ∧ (block_list.pop_back m anchor).1 = x ∧
      block_list.holds (block_list.pop_back m anchor).2 anchor rest) ∧
    (∀ b l1 l2, l = l1 ++ b :: l2 →
      block_list.holds (block_list.unlink m b) anchor (l1 ++ l2) ∧
      (l1 ≠ [] → block_list.front (block_list.unlink m b) anchor = block_list.front m anchor) ∧
      (l2 ≠ [] → block_list.back (block_list.unlink m b) anchor = block_list.back m anchor)) := by
  refine ⟨holds_init m anchor, holds_empty m anchor l h, ?_, ?_, ?_, ?_, ?_⟩
  · intro b hb
    have h2 := holds_push_front m anchor b l h hb
    have hf := holds_front _ anchor _ h2
    simp only [List.cons_append, List.head_cons] at hf
    refine ⟨h2, hf, ?_⟩
    unfold block_list.is_head
    unfold block_list.front at hf
    rw [hf, beq_self_eq_true]
  · intro b hb
    have h2 := holds_push_back m anchor b l h hb
    have hf := holds_back_snoc _ anchor _ _ h2
    refine ⟨h2, hf, ?_⟩
    unfold block_list.is_tail
    unfold block_list.back at hf
    rw [hf, beq_self_eq_true]
  · intro x rest hl
    subst hl
    have hf := holds_front m anchor _ h
    simp only [List.cons_append, List.head_cons] at hf
    refine ⟨hf, hf, ?_⟩
    show block_list.holds (block_list.unlink m (block_list.front m anchor)) anchor rest
    rw [hf]
    exact holds_unlink m anchor x [] rest h
  · intro x rest hl
    subst hl
    have hf := holds_back_snoc m anchor _ _ h
    refine ⟨hf, hf, ?_⟩
    show block_list.holds (block_list.unlink m (block_list.back m anchor)) anchor rest
    rw [hf]
    have := holds_unlink m anchor x rest [] h
    rwa [List.append_nil] at this
  · intro b l1 l2 hl
    subst hl
    have h2 := holds_unlink m anchor b l1 l2 h
    refine ⟨h2, ?_, ?_⟩
    · intro hne
      rw [holds_front _ anchor _ h2, holds_front m anchor _ h]
      cases l1 with
      | nil => exact absurd rfl hne
      | cons y l1 => rfl
    · intro hne
      rw [holds_back _ anchor _ h2, holds_back m anchor _ h]
      rcases List.eq_nil_or_concat l2 with e | ⟨l3, z, e⟩
      · exact absurd e hne
      · subst e
        have e1 := getLast_cons_snoc anchor z (l1 ++ l3)
        have e2 := getLast_cons_snoc anchor z (l1 ++ b :: l3)
        simp only [List.append_assoc, List.cons_append] at e1 e2
        simp only [List.concat_eq_append]
        rw [e1, e2]

/-- The list of blocks 2, 1, 3 that `test_block_list` builds with two
`push_front` and one `push_back`: it is not empty, `unlink` of block 1 leaves 2
and 3 with the same front and back, and `pop_front` returns block 2. -/
theorem block_list_is_deque_witness :
    block_list.holds (block_list.push_back (block_list.push_front (block_list.push_front
      (block_list.init (fun _ => ⟨0, 0⟩) 0) 0 1) 0 2) 0 3) 0 [2, 1, 3] ∧
    block_list.holds (block_list.unlink (block_list.push_back (block_list.push_front
      (block_list.push_front (block_list.init (fun _ => ⟨0, 0⟩) 0) 0 1) 0 2) 0 3) 1) 0 [2, 3] ∧
    (block_list.pop_front (block_list.push_back (block_list.push_front (block_list.push_front
      (block_list.init (fun _ => ⟨0, 0⟩) 0) 0 1) 0 2) 0 3) 0).1 = 2 :=
  ⟨by decide,
   ((block_list_is_deque _ 0 [2, 1, 3] (by decide)).2.2.2.2.2.2 1 [2] [3] rfl).1,
   ((block_list_is_deque _ 0 [2, 1, 3] (by decide)).2.2.2.2.1 2 [1, 3] rfl).2.1⟩

namespace memalloc

theorem neighbours_split (p : Nat) : ∀ (l : List block) (a b d : block),
    neighbours p l = some (a, b, d) →
    ∃ pre post, l = pre ++ a :: b :: d :: post ∧ b.addr = p ∧
      ∀ w, splice p w l = pre ++ w ++ post
  | [], a, b, d, h => by simp [neighbours] at h
  | [_], a, b, d, h => by simp [neighbours] at h
  | [_, _], a, b, d, h => by simp [neighbours] at h
  | x :: y :: z :: rest, a, b, d, h => by
    by_cases hy : y.addr = p
    · simp only [neighbours, if_pos hy, Option.some.injEq, Prod.mk.injEq] at h
      obtain ⟨rfl, rfl, rfl⟩ := h
      exact ⟨[], rest, rfl, hy, fun w => by simp [splice, hy]⟩
    · simp only [neighbours, if_neg hy] at h
      obtain ⟨pre, post, hl, hb, hs⟩ := neighbours_split p (y :: z :: rest) a b d h
      refine ⟨x :: pre, post, by rw [hl]; rfl, hb, fun w => ?_⟩
      simp only [splice, if_neg hy, hs w, List.cons_append]

theorem neighbours_find (p : Nat) : ∀ (pre : List block) (a b d : block) (post : List block),
    b.addr = p → (∀ x ∈ pre ++ [a], x.addr ≠ p) →
    neighbours p (pre ++ a :: b :: d :: post) = some (a, b, d)
  | [], a, b, d, post, hb, _ => by simp [neighbours, hb]
  | [x], a, b, d, post, hb, hne => by
    have ha : a.addr ≠ p := hne a (by simp)
    simp [neighbours, hb, ha]
  | x :: y :: pre, a, b, d, post, hb, hne => by
    have hy : y.addr ≠ p := hne y (by simp)
    have ih := neighbours_find p (y :: pre) a b d post hb
      (fun u hu => hne u (List.mem_cons_of_mem _ hu))
    obtain ⟨z, rest, hz⟩ : ∃ z rest, pre ++ a :: b :: d :: post = z :: rest := by
      cases pre with
      | nil => exact ⟨_, _, rfl⟩
      | cons z pre => exact ⟨_, _, rfl⟩
    simp only [List.cons_append] at ih ⊢
    rw [hz] at ih ⊢
    simp only [neighbours, if_neg hy]
    exact ih

/-- Along a well-formed arena the offsets grow. -/
theorem addr_increasing (c : settings) (hmeta : 0 < c.META_SIZE) (l : List block)
    (h : l.Chain' (adjacent c)) : l.Pairwise (fun x y => x.addr < y.addr) := by
  have h2 : l.Chain' (fun x y => x.addr < y.addr) := by
    refine h.imp ?_
    intro x y hxy
    unfold adjacent at hxy
    omega
  haveI : IsTrans block (fun x y => x.addr < y.addr) := ⟨fun _ _ _ h1 h2 => Nat.lt_trans h1 h2⟩
  exact List.chain'_iff_pairwise.mp h2

theorem mem_addrs_where (f : block → Bool) (l : List block) (q : Nat) :
    q ∈ addrs_where f l ↔ ∃ x ∈ l, f x = true ∧ x.addr = q := by
  simp [addrs_where, and_assoc]

theorem addrs_where_append (f : block → Bool) (l1 l2 : List block) :
    addrs_where f (l1 ++ l2) = addrs_where f l1 ++ addrs_where f l2 := by
  simp [addrs_where]

/-- A block between the sentinels has a block on each side. -/
theorem interior_split (l : List block) (first last x : block)
    (hf : l.head? = some first) (hl : l.getLast? = some last) (hx : x ∈ l)
    (h1 : x ≠ first) (h2 : x ≠ last) :
    ∃ pre a d post, l = pre ++ a :: x :: d :: post := by
  obtain ⟨s, t, rfl⟩ := List.append_of_mem hx
  rcases List.eq_nil_or_concat s with rfl | ⟨pre, a, rfl⟩
  · simp at hf; exact absurd hf h1
  · cases t with
    | nil =>
      rw [← List.concat_eq_append, List.concat_eq_append] at hl
      have : (pre.concat a ++ [x]).getLast? = some x := by simp
      rw [this] at hl
      simp at hl; exact absurd hl h2
    | cons d post =>
      exact ⟨pre, a, d, post, by simp⟩

end memalloc

namespace memalloc

theorem chain_splice {R : block → block → Prop} (pre post : List block) (a b d : block)
    (w : List block) (h : (pre ++ a :: b :: d :: post).Chain' R) (hne : w ≠ [])
    (hw : w.Chain' R) (hhead : ∀ x y, y ∈ w.head? → R x a → R x y)
    (hlast : ∀ z y, z ∈ w.getLast? → R d y → R z y) : (pre ++ w ++ post).Chain' R := by
  obtain ⟨c1, c2, c3⟩ := List.chain'_append.mp h
  have c4 : (d :: post).Chain' R := (List.chain'_cons.mp (List.chain'_cons.mp c2).2).2
  obtain ⟨c5, c6⟩ := List.chain'_cons'.mp c4
  refine List.chain'_append.mpr ⟨List.chain'_append.mpr ⟨c1, hw, ?_⟩, c6, ?_⟩
  · intro x hx y hy
    exact hhead x y hy (c3 x hx a (by simp))
  · intro z hz y hy
    rw [List.getLast?_append_of_ne_nil _ hne] at hz
    exact hlast z y hz (c5 y hy)

theorem arena_sound_splice (c : settings) (n : Nat) (pre post : List block) (a b d : block)
    (w : List block) (h : arena_sound c n (pre ++ a :: b :: d :: post))
    (hw : window_ok c a d w) : arena_sound c n (pre ++ w ++ post) := by
  obtain ⟨x, w1, rfl⟩ := List.exists_cons_of_ne_nil hw.ne_nil
  refine ⟨?_, ?_, ?_, ?_⟩
  · cases pre with
    | nil =>
      have ha : a = ⟨0, 0, true⟩ := by simpa using h.first
      have := (hw.head_addr x (by simp)).2 (by rw [ha])
      simp [this, ha]
    | cons y pre => simpa using h.first
  · have hl := h.last
    rcases List.eq_nil_or_concat post with rfl | ⟨post1, z, rfl⟩
    · have e : pre ++ [a, b, d] = (pre ++ [a, b]) ++ [d] := by simp
      rw [e, List.getLast?_append, List.getLast?_singleton] at hl
      have hd : d = ⟨n - c.META_SIZE, 0, true⟩ := by simpa using hl
      rw [List.append_nil, List.getLast?_append_of_ne_nil _ (List.cons_ne_nil _ _)]
      obtain ⟨z, hz⟩ : ∃ z, (x :: w1).getLast? = some z :=
        ⟨_, List.getLast?_eq_getLast _ (List.cons_ne_nil _ _)⟩
      have := (hw.last_end z (by rw [hz]; simp)).2 (by rw [hd])
      rw [hz, this, hd]
    · rw [List.concat_eq_append] at hl ⊢
      rw [← List.append_assoc, List.getLast?_append, List.getLast?_singleton]
      have e : pre ++ a :: b :: d :: (post1 ++ [z]) = (pre ++ a :: b :: d :: post1) ++ [z] := by
        simp
      rw [e, List.getLast?_append, List.getLast?_singleton] at hl
      simpa using hl
  · refine chain_splice pre post a b d _ h.cont hw.ne_nil hw.cont ?_ ?_
    · intro u y hy hu
      unfold adjacent at *
      rw [(hw.head_addr y hy).1]; exact hu
    · intro z y hz hd
      unfold adjacent at *
      rw [(hw.last_end z hz).1]; exact hd
  · refine chain_splice pre post a b d _ h.coalesced hw.ne_nil hw.coalesced ?_ ?_
    · intro u y hy hu
      unfold not_both_free at *
      rcases hu with hu | hu
      · exact Or.inl hu
      · rw [(hw.head_addr y hy).2 hu]; exact Or.inr hu
    · intro z y hz hd
      unfold not_both_free at *
      rcases hd with hd | hd
      · rw [(hw.last_end z hz).2 hd]; exact Or.inl hd
      · exact Or.inr hd

theorem addr_injective (l : List block) (h : l.Pairwise (fun x y => x.addr < y.addr))
    (x y : block) (hx : x ∈ l) (hy : y ∈ l) (e : x.addr = y.addr) : x = y := by
  have hnd : (l.map (fun b => b.addr)).Nodup := by
    rw [List.Nodup, List.pairwise_map]
    exact h.imp (fun hxy => Nat.ne_of_lt hxy)
  exact List.inj_on_of_nodup_map hnd hx hy e

theorem track_window (f : block → Bool) (E : Nat → Prop) (l : List block) (xs : List Nat)
    (hdist : l.Pairwise (fun x y => x.addr < y.addr))
    (hold : ∀ q, q ∈ xs ↔ q ∈ addrs_where f l ∧ E q) (x : block) (hx : x ∈ l) :
    x.addr ∈ xs ↔ f x = true ∧ E x.addr := by
  rw [hold, mem_addrs_where]
  constructor
  · rintro ⟨⟨y, hy, hfy, e⟩, he⟩
    have hyx := addr_injective l hdist y x hy hx e
    subst hyx
    exact ⟨hfy, he⟩
  · rintro ⟨h1, h2⟩
    exact ⟨⟨x, hx, h1, rfl⟩, h2⟩

theorem track_splice (f : block → Bool) (E : Nat → Prop) (pre post : List block)
    (a b d : block) (w : List block) (xs xs2 : List Nat)
    (hdist : (pre ++ a :: b :: d :: post).Pairwise (fun x y => x.addr < y.addr))
    (hold : ∀ q, q ∈ xs ↔ q ∈ addrs_where f (pre ++ a :: b :: d :: post) ∧ E q)
    (hnew : ∀ q, q ∈ xs2 ↔
      (q ∈ xs ∧ q ≠ a.addr ∧ q ≠ b.addr ∧ q ≠ d.addr) ∨ (q ∈ addrs_where f w ∧ E q)) :
    ∀ q, q ∈ xs2 ↔ q ∈ addrs_where f (pre ++ w ++ post) ∧ E q := by
  intro q
  rw [hnew, hold]
  simp only [addrs_where_append, List.mem_append]
  have hpre : q ∈ addrs_where f pre → q ≠ a.addr ∧ q ≠ b.addr ∧ q ≠ d.addr := by
    intro h
    obtain ⟨x, hx, -, rfl⟩ := (mem_addrs_where f pre q).mp h
    have := (List.pairwise_append.mp hdist).2.2 x hx
    have h1 := this a (by simp)
    have h2 := this b (by simp)
    have h3 := this d (by simp)
    omega
  have hpost : q ∈ addrs_where f post → q ≠ a.addr ∧ q ≠ b.addr ∧ q ≠ d.addr := by
    intro h
    obtain ⟨x, hx, -, rfl⟩ := (mem_addrs_where f post q).mp h
    have h0 := (List.pairwise_append.mp hdist).2.1
    simp only [List.pairwise_cons, List.mem_cons] at h0
    have h1 := h0.1 x (Or.inr (Or.inr hx))
    have h2 := h0.2.1 x (Or.inr hx)
    have h3 := h0.2.2.1 x hx
    omega
  have hwin : q ∈ addrs_where f (a :: b :: d :: post) →
      q ∈ addrs_where f post ∨ q = a.addr ∨ q = b.addr ∨ q = d.addr := by
    intro h
    obtain ⟨x, hx, hfx, rfl⟩ := (mem_addrs_where f _ _).mp h
    simp only [List.mem_cons] at hx
    rcases hx with rfl | rfl | rfl | hx
    · exact Or.inr (Or.inl rfl)
    · exact Or.inr (Or.inr (Or.inl rfl))
    · exact Or.inr (Or.inr (Or.inr rfl))
    · exact Or.inl ((mem_addrs_where f _ _).mpr ⟨x, hx, hfx, rfl⟩)
  have hpost2 : q ∈ addrs_where f post → q ∈ addrs_where f (a :: b :: d :: post) := by
    intro h
    obtain ⟨x, hx, hfx, rfl⟩ := (mem_addrs_where f _ _).mp h
    exact (mem_addrs_where f _ _).mpr ⟨x, by simp [hx], hfx, rfl⟩
  constructor
  · rintro (⟨⟨h1 | h1, he⟩, hne⟩ | ⟨hw, he⟩)
    · exact ⟨Or.inl (Or.inl h1), he⟩
    · rcases hwin h1 with h2 | h2 | h2 | h2
      · exact ⟨Or.inr h2, he⟩
      · exact absurd h2 hne.1
      · exact absurd h2 hne.2.1
      · exact absurd h2 hne.2.2
    · exact ⟨Or.inl (Or.inr hw), he⟩
  · rintro ⟨(h1 | h1) | h1, he⟩
    · exact Or.inl ⟨⟨Or.inl h1, he⟩, hpre h1⟩
    · exact Or.inr ⟨h1, he⟩
    · exact Or.inl ⟨⟨Or.inr (hpost2 h1), he⟩, hpost h1⟩

end memalloc

namespace memalloc

theorem neighbours_of_mem (c : settings) (n : Nat) (hmeta : 0 < c.META_SIZE) (l : List block)
    (h : arena_sound c n l) (x : block) (hx : x ∈ l)
    (h1 : x ≠ ⟨0, 0, true⟩) (h2 : x ≠ ⟨n - c.META_SIZE, 0, true⟩) :
    ∃ a d, neighbours x.addr l = some (a, x, d) := by
  obtain ⟨pre, a, d, post, hl⟩ := interior_split l _ _ x h.first h.last hx h1 h2
  refine ⟨a, d, ?_⟩
  rw [hl]
  refine neighbours_find x.addr pre a x d post rfl ?_
  intro u hu
  have hinc := addr_increasing c hmeta l h.cont
  rw [hl] at hinc
  have e : pre ++ a :: x :: d :: post = (pre ++ [a]) ++ x :: d :: post := by simp
  rw [e] at hinc
  have := (List.pairwise_append.mp hinc).2.2 u hu x (by simp)
  omega

theorem neighbours_of_live (c : settings) (n : Nat) (hmeta : 0 < c.META_SIZE) (m : memalloc)
    (live : List Nat) (h : sound c n m live) (p : Nat) (hp : p ∈ live) :
    ∃ a b d, neighbours p m.arena = some (a, b, d) := by
  obtain ⟨h1, h2, h3⟩ := (h.live_mem p).mp hp
  obtain ⟨x, hx, -, rfl⟩ := (mem_addrs_where _ _ _).mp h1
  obtain ⟨a, d, hn⟩ := neighbours_of_mem c n hmeta m.arena h.arena x hx
    (fun e => h2 (by rw [e])) (fun e => h3 (by rw [e]))
  exact ⟨a, x, d, hn⟩

theorem neighbours_of_free (c : settings) (n : Nat) (hmeta : 0 < c.META_SIZE) (m : memalloc)
    (live : List Nat) (h : sound c n m live) (p : Nat) (hp : p ∈ m.free_list) :
    ∃ a b d, neighbours p m.arena = some (a, b, d) := by
  obtain ⟨h1, -⟩ := (h.free_mem p).mp hp
  obtain ⟨x, hx, hu, rfl⟩ := (mem_addrs_where _ _ _).mp h1
  obtain ⟨a, d, hn⟩ := neighbours_of_mem c n hmeta m.arena h.arena x hx
    (fun e => by rw [e] at hu; simp at hu) (fun e => by rw [e] at hu; simp at hu)
  exact ⟨a, x, d, hn⟩

theorem window_facts_of_sound (c : settings) (n : Nat) (hmeta : 0 < c.META_SIZE) (m : memalloc)
    (live : List Nat) (h : sound c n m live) (pre post : List block) (a b d : block)
    (hl : m.arena = pre ++ a :: b :: d :: post) : window_facts c n m live a b d := by
  have hc := h.arena.cont
  have hf := h.arena.coalesced
  have hinc := addr_increasing c hmeta m.arena hc
  rw [hl] at hc hf hinc
  have hc2 := (List.chain'_append.mp hc).2.1
  have hf2 := (List.chain'_append.mp hf).2.1
  have hi2 := (List.pairwise_append.mp hinc).2.1
  simp only [List.chain'_cons] at hc2 hf2
  have hab : a.addr < b.addr := (List.pairwise_cons.mp hi2).1 b (by simp)
  have had : a.addr < d.addr := (List.pairwise_cons.mp hi2).1 d (by simp)
  have hbd : b.addr < d.addr := (List.pairwise_cons.mp (List.pairwise_cons.mp hi2).2).1 d (by simp)
  have ha : a ∈ m.arena := by rw [hl]; simp
  have hb : b ∈ m.arena := by rw [hl]; simp
  have hd : d ∈ m.arena := by rw [hl]; simp
  rw [← hl] at hinc
  have hlast : ∃ z ∈ d :: post, z.addr = n - c.META_SIZE := by
    have := h.arena.last
    rw [hl] at this
    have e : pre ++ a :: b :: d :: post = (pre ++ [a, b]) ++ (d :: post) := by simp
    rw [e, List.getLast?_append_of_ne_nil _ (List.cons_ne_nil _ _)] at this
    exact ⟨_, List.mem_of_getLast?_eq_some this, rfl⟩
  have hbn : b.addr < n - c.META_SIZE := by
    obtain ⟨z, hz, e⟩ := hlast
    have := (List.pairwise_cons.mp (List.pairwise_cons.mp hi2).2).1 z hz
    omega
  have han : a.addr ≠ n - c.META_SIZE := by omega
  have hd0 : d.addr ≠ 0 := by omega
  have tf := fun x hx => track_window (fun b => !b.used) (fun _ => True) m.arena m.free_list hinc
    h.free_mem x hx
  have tl := fun x hx => track_window (fun b => b.used)
    (fun p => p ≠ 0 ∧ p ≠ n - c.META_SIZE) m.arena live hinc h.live_mem x hx
  have hbetween : ∀ q, q ∈ m.free_list → q ≤ b.addr ∨ d.addr ≤ q := by
    intro q hq
    obtain ⟨x, hx, -, rfl⟩ := (mem_addrs_where _ _ _).mp ((h.free_mem q).mp hq).1
    rw [hl] at hinc hx
    rcases List.mem_append.mp hx with hx | hx
    · have := (List.pairwise_append.mp hinc).2.2 x hx b (by simp)
      omega
    · simp only [List.mem_cons] at hx
      rcases hx with rfl | rfl | rfl | hx
      · omega
      · omega
      · omega
      · have := (List.pairwise_cons.mp (List.pairwise_cons.mp (List.pairwise_cons.mp hi2).2).2).1
          x hx
        omega
  refine ⟨hc2.1, hc2.2.1, hf2.1, hf2.2.1, by omega, by omega, han, hd0, hbetween,
    ?_, ?_, ?_, ?_, ?_, ?_⟩
  · rw [tf a ha]; simp
  · rw [tf b hb]; simp
  · rw [tf d hd]; simp
  · rw [tl a ha]; simp only [ne_eq, and_congr_right_iff]; intro _; tauto
  · rw [tl b hb]; simp only [ne_eq, and_iff_left_iff_imp]; intro _; exact ⟨by omega, by omega⟩
  · rw [tl d hd]; simp only [ne_eq, and_congr_right_iff]; intro _; tauto

theorem sound_splice (c : settings) (n : Nat) (hmeta : 0 < c.META_SIZE) (m : memalloc)
    (live : List Nat) (h : sound c n m live) (pre post : List block) (a b d : block)
    (hl : m.arena = pre ++ a :: b :: d :: post) (w : List block) (fl lru2 live2 : List Nat)
    (hw : window_ok c a d w) (hfl : fl.Nodup)
    (hflm : ∀ q, q ∈ fl ↔
      (q ∈ m.free_list ∧ q ≠ a.addr ∧ q ≠ b.addr ∧ q ≠ d.addr) ∨
        (q ∈ addrs_where (fun b => !b.used) w ∧ True))
    (hlive : live2.Nodup)
    (hlivem : ∀ q, q ∈ live2 ↔
      (q ∈ live ∧ q ≠ a.addr ∧ q ≠ b.addr ∧ q ≠ d.addr) ∨
        (q ∈ addrs_where (fun b => b.used) w ∧ (q ≠ 0 ∧ q ≠ n - c.META_SIZE)))
    (hlru : lru2.Nodup) (hlrum : ∀ q, q ∈ lru2 ↔ q ∈ live2) :
    sound c n ⟨pre ++ w ++ post, fl, lru2⟩ live2 := by
  have ha := h.arena
  have hinc := addr_increasing c hmeta m.arena ha.cont
  have hfm := h.free_mem
  have hlm := h.live_mem
  rw [hl] at ha hinc hfm hlm
  exact ⟨arena_sound_splice c n pre post a b d w ha hw, hfl,
    track_splice _ _ pre post a b d w _ _ hinc hfm hflm, hlive,
    track_splice _ _ pre post a b d w _ _ hinc hlm hlivem, hlru, hlrum⟩

end memalloc

namespace memalloc

theorem window_ok_free (c : settings) (n : Nat) (m : memalloc) (live : List Nat) (a b d : block)
    (wf : window_facts c n m live a b d) : window_ok c a d (free_window c a b d) := by
  have hab := wf.ab
  have hbd := wf.bd
  unfold adjacent at hab hbd
  cases ha : a.used <;> cases hd : d.used <;>
    refine ⟨by simp [free_window, ha, hd], ?_, ?_, ?_, ?_⟩ <;>
    simp [free_window, ha, hd, adjacent, not_both_free] <;> omega

end memalloc

namespace memalloc

theorem mem_unlink_free (fl : List Nat) (hfl : fl.Nodup) (x : block) (q : Nat) :
    q ∈ unlink_free fl x ↔ q ∈ fl ∧ (x.used = true ∨ q ≠ x.addr) := by
  unfold unlink_free
  split
  · next h => simp [h]
  · next h => rw [hfl.mem_erase_iff]; simp [h]; tauto

theorem nodup_unlink_free (fl : List Nat) (hfl : fl.Nodup) (x : block) :
    (unlink_free fl x).Nodup := by
  unfold unlink_free
  split
  · exact hfl
  · exact hfl.erase _

theorem pointwise_free (c : settings) (n : Nat) (hmeta : 0 < c.META_SIZE) (m : memalloc)
    (live : List Nat) (a b d : block) (wf : window_facts c n m live a b d) (q : Nat) :
    (q = a.addr → (q ∈ m.free_list ↔ a.used = false) ∧ q ≠ b.addr ∧ q ≠ d.addr) ∧
    (q = b.addr → (q ∈ m.free_list ↔ b.used = false) ∧ q ≠ a.addr ∧ q ≠ d.addr) ∧
    (q = d.addr → (q ∈ m.free_list ↔ d.used = false) ∧ q ≠ a.addr ∧ q ≠ b.addr) := by
  have hab := wf.ab
  have hbd := wf.bd
  unfold adjacent at hab hbd
  refine ⟨?_, ?_, ?_⟩
  · rintro rfl
    exact ⟨wf.free_a, by omega, by omega⟩
  · rintro rfl
    exact ⟨wf.free_b, by omega, by omega⟩
  · rintro rfl
    exact ⟨wf.free_d, by omega, by omega⟩

theorem pointwise_live (c : settings) (n : Nat) (hmeta : 0 < c.META_SIZE) (m : memalloc)
    (live : List Nat) (a b d : block) (wf : window_facts c n m live a b d) (q : Nat) :
    (q = a.addr → (q ∈ live ↔ a.used = true ∧ q ≠ 0) ∧ q ≠ b.addr ∧ q ≠ d.addr ∧
      q ≠ n - c.META_SIZE) ∧
    (q = b.addr → (q ∈ live ↔ b.used = true) ∧ q ≠ a.addr ∧ q ≠ d.addr ∧ q ≠ 0 ∧
      q ≠ n - c.META_SIZE) ∧
    (q = d.addr → (q ∈ live ↔ d.used = true ∧ q ≠ n - c.META_SIZE) ∧ q ≠ a.addr ∧
      q ≠ b.addr ∧ q ≠ 0) := by
  have hab := wf.ab
  have hbd := wf.bd
  have hb0 := wf.b0
  have hbn := wf.bn
  have han := wf.an
  unfold adjacent at hab hbd
  refine ⟨?_, ?_, ?_⟩
  · rintro rfl
    exact ⟨wf.live_a, by omega, by omega, han⟩
  · rintro rfl
    exact ⟨wf.live_b, by omega, by omega, hb0, hbn⟩
  · rintro rfl
    exact ⟨wf.live_d, by omega, by omega, by omega⟩

theorem sound_free (c : settings) (n : Nat) (hmeta : 0 < c.META_SIZE) (m : memalloc)
    (live : List Nat) (h : sound c n m live) (p : Nat) (hp : p ∈ live) :
    sound c n (free c m p) (live.erase p) := by
  obtain ⟨a, b, d, hn⟩ := neighbours_of_live c n hmeta m live h p hp
  obtain ⟨pre, post, hl, hb, hs⟩ := neighbours_split p _ a b d hn
  have wf := window_facts_of_sound c n hmeta m live h pre post a b d hl
  subst hb
  have hbu : b.used = true := wf.live_b.mp hp
  have h1 := nodup_unlink_free _ h.free_nodup a
  have h2 := nodup_unlink_free _ h1 d
  unfold free
  rw [hn]
  simp only [hs]
  refine sound_splice c n hmeta m live h pre post a b d hl _ _ _ _
    (window_ok_free c n m live a b d wf) ?_ ?_ (h.live_nodup.erase _) ?_ (h.lru_nodup.erase _) ?_
  · rw [List.nodup_cons]
    refine ⟨?_, h2⟩
    rw [mem_unlink_free _ h1, mem_unlink_free _ h.free_nodup]
    have ha := (pointwise_free c n hmeta m live a b d wf a.addr).1 rfl
    have hb := (pointwise_free c n hmeta m live a b d wf b.addr).2.1 rfl
    cases hau : a.used
    · simp [hau]
    · simp only [hau, hbu] at ha hb
      simp only [if_true]
      intro hx
      exact absurd hx.1.1 (by simpa using hb.1)
  · intro q
    rw [List.mem_cons, mem_unlink_free _ h1, mem_unlink_free _ h.free_nodup]
    have hq := pointwise_free c n hmeta m live a b d wf q
    cases ha : a.used <;> cases hd : d.used <;>
      simp [ha, hd, hbu, free_window, addrs_where] at hq ⊢ <;> tauto
  · intro q
    rw [h.live_nodup.mem_erase_iff]
    have hq := pointwise_live c n hmeta m live a b d wf q
    cases ha : a.used <;> cases hd : d.used <;>
      simp only [ha, hd, hbu, free_window, addrs_where, List.filter, List.map, List.mem_cons,
        List.mem_nil_iff, or_false, false_or, and_true, true_and, Bool.false_eq_true,
        false_and, ne_eq] at hq ⊢ <;>
      by_cases e1 : q = a.addr <;> by_cases e2 : q = b.addr <;> by_cases e3 : q = d.addr <;>
      simp only [e1, e2, e3, true_implies, false_implies, not_true_eq_false, not_false_eq_true,
        and_true, true_and, and_false, false_and, or_false, false_or, false_iff, true_iff,
        iff_false, iff_true, and_self, not_and, not_not] at hq ⊢ <;>
      tauto
  · intro q
    rw [h.lru_nodup.mem_erase_iff, h.live_nodup.mem_erase_iff, h.lru_mem]

end memalloc

namespace memalloc

theorem find_free_mem (c : settings) (arena : List block) (fl : List Nat) (need p : Nat)
    (h : find_free c arena fl need = some p) : p ∈ fl := by
  unfold find_free at h
  split at h
  · cases h
  · next p0 ps heq =>
    have h1 := List.mem_of_find?_eq_some h
    rw [← heq] at h1
    exact (List.mem_filter.mp h1).1

theorem sound_alloc (c : settings) (n : Nat) (hmeta : 0 < c.META_SIZE) (m : memalloc)
    (live : List Nat) (h : sound c n m live) (size : Nat) :
    ((alloc c m size).1 = none → (alloc c m size).2 = m) ∧
    ∀ p, (alloc c m size).1 = some p →
      p ∉ live ∧ sound c n (alloc c m size).2 (live ++ [p]) := by
  unfold alloc
  cases hf : find_free c m.arena m.free_list (round_size c size) with
  | none => simp
  | some p =>
    have hp := find_free_mem c _ _ _ _ hf
    obtain ⟨a, b, d, hn⟩ := neighbours_of_free c n hmeta m live h p hp
    obtain ⟨pre, post, hl, hb, hs⟩ := neighbours_split p _ a b d hn
    have wf := window_facts_of_sound c n hmeta m live h pre post a b d hl
    subst hb
    have hbu : b.used = false := wf.free_b.mp hp
    have hau : a.used = true := by
      have := wf.fab; unfold not_both_free at this; simpa [hbu] using this
    have hdu : d.used = true := by
      have := wf.fbd; unfold not_both_free at this; simpa [hbu] using this
    have hpl : b.addr ∉ live := fun e => by
      have := wf.live_b.mp e; rw [hbu] at this; cases this
    have hab := wf.ab
    have hbd := wf.bd
    unfold adjacent at hab hbd
    simp only [hn, reduceCtorEq, false_implies, Option.some.injEq, true_and]
    rintro _ rfl
    refine ⟨hpl, ?_⟩
    simp only [hs]
    have hlive : (live ++ [b.addr]).Nodup :=
      List.Nodup.append h.live_nodup (by simp) (by
        intro u hu hu2
        simp only [List.mem_singleton] at hu2
        exact hpl (hu2 ▸ hu))
    have hlru : (b.addr :: m.lru).Nodup :=
      List.nodup_cons.mpr ⟨fun e => hpl ((h.lru_mem _).mp e), h.lru_nodup⟩
    have hlrum : ∀ q, q ∈ b.addr :: m.lru ↔ q ∈ live ++ [b.addr] := by
      intro q
      simp only [List.mem_cons, List.mem_append, List.mem_singleton, List.mem_nil_iff, or_false,
        h.lru_mem]
      tauto
    refine sound_splice c n hmeta m live h pre post a b d hl _ _ _ _ ?_ ?_ ?_ hlive ?_ hlru hlrum
    · unfold alloc_window
      split <;> refine ⟨by simp, ?_, ?_, ?_, ?_⟩ <;>
        simp [adjacent, not_both_free, hau, hdu] <;> omega
    · split
      · rw [List.nodup_cons]
        refine ⟨fun e => ?_, h.free_nodup.erase _⟩
        have := wf.between _ (List.mem_of_mem_erase e)
        omega
      · exact h.free_nodup.erase _
    · intro q
      have hq := pointwise_free c n hmeta m live a b d wf q
      unfold alloc_window
      split <;>
        simp only [List.mem_cons, h.free_nodup.mem_erase_iff, hau, hdu, hbu, addrs_where,
          List.filter, List.map, List.mem_nil_iff, or_false, false_or, and_true, true_and,
          Bool.false_eq_true, false_and, ne_eq, Bool.not_true, Bool.not_false,
          reduceCtorEq] at hq ⊢ <;>
        generalize (q = a.addr) = A at hq ⊢ <;> generalize (q = b.addr) = B at hq ⊢ <;>
        generalize (q = d.addr) = D at hq ⊢ <;>
        by_cases e1 : A <;> by_cases e2 : B <;> by_cases e3 : D <;>
        simp only [e1, e2, e3, true_implies, false_implies, not_true_eq_false,
          not_false_eq_true, and_true, true_and, and_false, false_and, or_false, false_or,
          false_iff, true_iff, iff_false, iff_true, and_self, not_and, not_not] at hq ⊢ <;>
        tauto
    · intro q
      have hq := pointwise_live c n hmeta m live a b d wf q
      unfold alloc_window
      split <;>
        simp only [List.mem_append, List.mem_singleton, List.mem_cons, hau, hdu, hbu,
          addrs_where, List.filter, List.map, List.mem_nil_iff, or_false, false_or, and_true,
          true_and, Bool.false_eq_true, false_and, ne_eq, reduceCtorEq] at hq ⊢ <;>
        generalize (q = a.addr) = A at hq ⊢ <;> generalize (q = b.addr) = B at hq ⊢ <;>
        generalize (q = d.addr) = D at hq ⊢ <;>
        by_cases e1 : A <;> by_cases e2 : B <;> by_cases e3 : D <;>
        simp only [e1, e2, e3, true_implies, false_implies, not_true_eq_false,
          not_false_eq_true, and_true, true_and, and_false, false_and, or_false, false_or,
          false_iff, true_iff, iff_false, iff_true, and_self, not_and, not_not] at hq ⊢ <;>
        tauto

end memalloc

namespace memalloc

theorem sound_realloc_inplace (c : settings) (n : Nat) (hmeta : 0 < c.META_SIZE) (m : memalloc)
    (live : List Nat) (h : sound c n m live) (p : Nat) (hp : p ∈ live) (new_size : Nat) :
    sound c n (realloc_inplace c m p new_size).2 live := by
  obtain ⟨a, b, d, hn⟩ := neighbours_of_live c n hmeta m live h p hp
  obtain ⟨pre, post, hl, hb, hs⟩ := neighbours_split p _ a b d hn
  have wf := window_facts_of_sound c n hmeta m live h pre post a b d hl
  subst hb
  have hbu : b.used = true := wf.live_b.mp hp
  have hab := wf.ab
  have hbd := wf.bd
  unfold adjacent at hab hbd
  have h1 := nodup_unlink_free _ h.free_nodup d
  unfold realloc_inplace
  simp only [hn]
  split
  · split
    · next hle hsplit =>
      simp only [hs]
      refine sound_splice c n hmeta m live h pre post a b d hl _ _ _ _ ?_ ?_ ?_ h.live_nodup ?_
        h.lru_nodup h.lru_mem
      · split <;> refine ⟨by simp, ?_, ?_, ?_, ?_⟩ <;>
          simp_all [adjacent, not_both_free] <;> omega
      · rw [List.nodup_cons]
        refine ⟨fun e => ?_, h1⟩
        have := wf.between _ ((mem_unlink_free _ h.free_nodup _ _).mp e).1
        omega
      · intro q
        have hq := pointwise_free c n hmeta m live a b d wf q
        rw [List.mem_cons, mem_unlink_free _ h.free_nodup]
        cases ha : a.used <;> cases hd : d.used <;>
          simp only [ha, hd, hbu, addrs_where, List.filter, List.map, List.mem_cons,
            List.mem_nil_iff, or_false, false_or, and_true, true_and, Bool.false_eq_true,
            false_and, ne_eq, Bool.not_true, Bool.not_false, reduceCtorEq, if_true,
            if_false] at hq ⊢ <;>
          generalize (q = a.addr) = A at hq ⊢ <;> generalize (q = b.addr) = B at hq ⊢ <;>
          generalize (q = d.addr) = D at hq ⊢ <;>
          by_cases e1 : A <;> by_cases e2 : B <;> by_cases e3 : D <;>
          simp only [e1, e2, e3, true_implies, false_implies, not_true_eq_false,
            not_false_eq_true, and_true, true_and, and_false, false_and, or_false, false_or,
            false_iff, true_iff, iff_false, iff_true, and_self, not_and, not_not] at hq ⊢ <;>
          tauto
      · intro q
        have hq := pointwise_live c n hmeta m live a b d wf q
        cases ha : a.used <;> cases hd : d.used <;>
          simp only [ha, hd, hbu, addrs_where, List.filter, List.map, List.mem_cons,
            List.mem_nil_iff, or_false, false_or, and_true, true_and, Bool.false_eq_true,
            false_and, ne_eq, reduceCtorEq, if_true, if_false] at hq ⊢ <;>
          generalize (q = a.addr) = A at hq ⊢ <;> generalize (q = b.addr) = B at hq ⊢ <;>
          generalize (q = d.addr) = D at hq ⊢ <;>
          by_cases e1 : A <;> by_cases e2 : B <;> by_cases e3 : D <;>
          simp only [e1, e2, e3, true_implies, false_implies, not_true_eq_false,
            not_false_eq_true, and_true, true_and, and_false, false_and, or_false, false_or,
            false_iff, true_iff, iff_false, iff_true, and_self, not_and, not_not] at hq ⊢ <;>
          tauto
    · exact h
  · split
    · next hgt hgrow =>
      simp only [Bool.and_eq_true, Bool.not_eq_true', decide_eq_true_eq] at hgrow
      obtain ⟨hdu, hfit⟩ := hgrow
      simp only [hs]
      refine sound_splice c n hmeta m live h pre post a b d hl _ _ _ _ ?_ (h.free_nodup.erase _)
        ?_ h.live_nodup ?_ h.lru_nodup h.lru_mem
      · refine ⟨by simp, ?_, ?_, ?_, ?_⟩
        all_goals simp_all [adjacent, not_both_free]
        all_goals omega
      · intro q
        have hq := pointwise_free c n hmeta m live a b d wf q
        rw [h.free_nodup.mem_erase_iff]
        cases ha : a.used <;>
          simp only [ha, hdu, hbu, addrs_where, List.filter, List.map, List.mem_cons,
            List.mem_nil_iff, or_false, false_or, and_true, true_and, Bool.false_eq_true,
            false_and, ne_eq, Bool.not_true, Bool.not_false, reduceCtorEq] at hq ⊢ <;>
          generalize (q = a.addr) = A at hq ⊢ <;> generalize (q = b.addr) = B at hq ⊢ <;>
          generalize (q = d.addr) = D at hq ⊢ <;>
          by_cases e1 : A <;> by_cases e2 : B <;> by_cases e3 : D <;>
          simp only [e1, e2, e3, true_implies, false_implies, not_true_eq_false,
            not_false_eq_true, and_true, true_and, and_false, false_and, or_false, false_or,
            false_iff, true_iff, iff_false, iff_true, and_self, not_and, not_not] at hq ⊢ <;>
          tauto
      · intro q
        have hq := pointwise_live c n hmeta m live a b d wf q
        cases ha : a.used <;>
          simp only [ha, hdu, hbu, addrs_where, List.filter, List.map, List.mem_cons,
            List.mem_nil_iff, or_false, false_or, and_true, true_and, Bool.false_eq_true,
            false_and, ne_eq, reduceCtorEq] at hq ⊢ <;>
          generalize (q = a.addr) = A at hq ⊢ <;> generalize (q = b.addr) = B at hq ⊢ <;>
          generalize (q = d.addr) = D at hq ⊢ <;>
          by_cases e1 : A <;> by_cases e2 : B <;> by_cases e3 : D <;>
          simp only [e1, e2, e3, true_implies, false_implies, not_true_eq_false,
            not_false_eq_true, and_true, true_and, and_false, false_and, or_false, false_or,
            false_iff, true_iff, iff_false, iff_true, and_self, not_and, not_not] at hq ⊢ <;>
          tauto
    · exact h

end memalloc

namespace memalloc

theorem sound_evict (c : settings) (n : Nat) (hmeta : 0 < c.META_SIZE) (size : Nat) :
    ∀ (vs : List Nat) (m : memalloc) (live : List Nat), sound c n m live →
      (∀ v ∈ vs, v ∈ live) → vs.Nodup →
      sound c n (evict c size vs m).2.2
        ((evict c size vs m).2.1.foldl List.erase live ++ (evict c size vs m).1.toList)
  | [], m, live, h, _, _ => by simpa [evict] using h
  | v :: vs, m, live, h, hv, hnd => by
    have hsame := sound_evict c n hmeta size vs m live h
      (fun u hu => hv u (List.mem_cons_of_mem _ hu)) (List.nodup_cons.mp hnd).2
    unfold evict
    split
    · exact hsame
    · split
      · have hf := sound_free c n hmeta m live h v (hv v (by simp))
        have ha := sound_alloc c n hmeta (free c m v) (live.erase v) hf size
        split
        · next p m2 heq =>
          have := (ha.2 p (by rw [heq])).2
          rw [heq] at this
          simpa using this
        · next heq =>
          have ih := sound_evict c n hmeta size vs (free c m v) (live.erase v) hf
            (fun u hu => (h.live_nodup.mem_erase_iff).mpr
              ⟨fun e => (List.nodup_cons.mp hnd).1 (e ▸ hu), hv u (List.mem_cons_of_mem _ hu)⟩)
            (List.nodup_cons.mp hnd).2
          simpa using ih
      · exact hsame

theorem sound_alloc_or_evict (c : settings) (n : Nat) (hmeta : 0 < c.META_SIZE) (m : memalloc)
    (live : List Nat) (h : sound c n m live) (size : Nat) (may_evict : Bool) :
    sound c n (alloc_or_evict c m size may_evict).2.2
      ((alloc_or_evict c m size may_evict).2.1.foldl List.erase live ++
        (alloc_or_evict c m size may_evict).1.toList) := by
  have ha := sound_alloc c n hmeta m live h size
  unfold alloc_or_evict
  split
  · next p m2 heq =>
    have := (ha.2 p (by rw [heq])).2
    rw [heq] at this
    simpa using this
  · split
    · exact sound_evict c n hmeta size m.lru.reverse m live h
        (fun v hv => (h.lru_mem v).mp (List.mem_reverse.mp hv))
        (List.nodup_reverse.mpr h.lru_nodup)
    · simpa using h

theorem sound_create (c : settings) (n : Nat) (hmeta : 0 < c.META_SIZE)
    (hsize : 3 * c.META_SIZE ≤ n) : sound c n (create c n) [] := by
  refine ⟨⟨rfl, rfl, ?_, ?_⟩, by simp [create], ?_, by simp, ?_, by simp [create], ?_⟩
  · simp only [create, List.chain'_cons, adjacent, List.chain'_singleton, and_true]
    omega
  · simp [create, not_both_free]
  · intro p
    simp [create, addrs_where]
  · intro p
    simp only [create, addrs_where, List.not_mem_nil, false_iff, not_and]
    simp
    omega
  · intro p
    simp [create]

theorem sound_unique (c : settings) (n : Nat) (hmeta : 0 < c.META_SIZE)
    (hsize : 3 * c.META_SIZE ≤ n) (m : memalloc) (h : sound c n m []) : m = create c n := by
  obtain ⟨arena, fl, lru⟩ := m
  have hlru : lru = [] := List.eq_nil_iff_forall_not_mem.mpr (fun q hq => by
    have := (h.lru_mem q).mp hq
    simp at this)
  have hinc := addr_increasing c hmeta arena h.arena.cont
  have hused : ∀ x ∈ arena, x.used = true → x.addr = 0 ∨ x.addr = n - c.META_SIZE := by
    intro x hx hu
    by_contra hne
    have := (h.live_mem x.addr).mpr
      ⟨(mem_addrs_where _ _ _).mpr ⟨x, hx, hu, rfl⟩, by omega, by omega⟩
    simp at this
  have hfirst := h.arena.first
  have hlast := h.arena.last
  have hcont := h.arena.cont
  have hco := h.arena.coalesced
  simp only at hfirst hlast hcont hco hinc hused
  have harena : arena = (create c n).arena := by
    cases arena with
    | nil => simp at hfirst
    | cons x0 rest =>
      simp only [List.head?_cons, Option.some.injEq] at hfirst
      subst hfirst
      rcases List.eq_nil_or_concat rest with rfl | ⟨mid, z, rfl⟩
      · simp at hlast; omega
      · rw [List.concat_eq_append] at *
        rw [← List.cons_append, List.getLast?_append, List.getLast?_singleton] at hlast
        have hz : z = ⟨n - c.META_SIZE, 0, true⟩ := by simpa using hlast
        clear hlast
        subst hz
        have hmid : ∀ x ∈ mid, x.used = false := by
          intro x hx
          by_contra hu
          have hu2 : x.used = true := by simpa using hu
          have h1 := hused x (by simp [hx]) hu2
          have h2 := (List.pairwise_cons.mp hinc).1 x (by simp [hx])
          have h3 := (List.pairwise_append.mp (List.pairwise_cons.mp hinc).2).2.2 x hx _
            (List.mem_singleton_self _)
          simp only at h2 h3
          omega
        cases mid with
        | nil =>
          simp only [List.nil_append, List.chain'_cons, adjacent, List.chain'_singleton,
            and_true] at hcont
          omega
        | cons x mid =>
          cases mid with
          | nil =>
            simp only [List.cons_append, List.nil_append, List.chain'_cons, adjacent,
              List.chain'_singleton, and_true] at hcont
            have hxu := hmid x (by simp)
            obtain ⟨xa, xs, xu⟩ := x
            simp only at hcont hxu
            subst hxu
            simp only [create, List.cons_append, List.nil_append, List.cons.injEq,
              block.mk.injEq, and_true, true_and]
            omega
          | cons y mid =>
            have hx := hmid x (by simp)
            have hy := hmid y (by simp)
            simp only [List.cons_append, List.chain'_cons, not_both_free] at hco
            rw [hx, hy] at hco
            simp at hco
  have hfl : fl = [c.META_SIZE] := by
    have hm := h.free_mem
    have hnd := h.free_nodup
    simp only [harena, create, addrs_where] at hm hnd
    have hm2 : ∀ p, p ∈ fl ↔ p = c.META_SIZE := by
      intro p; rw [hm p]; simp
    cases fl with
    | nil => exact absurd ((hm2 c.META_SIZE).mpr rfl) (by simp)
    | cons x fl =>
      have hx := (hm2 x).mp (by simp)
      subst hx
      cases fl with
      | nil => rfl
      | cons y fl =>
        have hy := (hm2 y).mp (by simp)
        subst hy
        simp at hnd
  rw [harena, hfl, hlru]
  rfl

end memalloc

theorem swap_remove_perm (l : List Nat) (hl : l.Nodup) (p : Nat) :
    (swap_remove l p).Perm (l.erase p) := by
  unfold swap_remove
  split
  · next hp =>
    obtain ⟨s, t, rfl⟩ := List.append_of_mem hp
    have hs : p ∉ s := fun e => (List.nodup_append.mp hl).2.2 e (by simp)
    have hi : List.indexOf p (s ++ p :: t) = s.length := by
      rw [List.indexOf_append_of_not_mem hs, List.indexOf_cons_self, Nat.add_zero]
    rw [hi, List.erase_append_right _ hs, List.erase_cons_head]
    rcases List.eq_nil_or_concat t with rfl | ⟨t1, z, rfl⟩
    · simp [List.set_append, List.getLastD]
    · rw [List.concat_eq_append]
      have e1 : (s ++ p :: (t1 ++ [z])).getLastD 0 = z := by
        have : s ++ p :: (t1 ++ [z]) = (s ++ p :: t1) ++ [z] := by simp
        rw [this, List.getLastD_concat]
      rw [e1]
      have e2 : (s ++ p :: (t1 ++ [z])).set s.length z = (s ++ z :: t1) ++ [z] := by
        simp [List.set_append]
      rw [e2, List.dropLast_concat]
      refine List.Perm.append_left s ?_
      exact (List.perm_append_singleton z t1).symm
  · next hp => rw [List.erase_of_not_mem hp]

theorem foldl_swap_remove_perm : ∀ (vs l l2 : List Nat), l.Perm l2 → l.Nodup →
    (vs.foldl swap_remove l).Perm (vs.foldl List.erase l2)
  | [], _, _, h, _ => h
  | v :: vs, l, l2, h, hnd => by
    have h1 := (swap_remove_perm l hnd v).trans (h.erase v)
    exact foldl_swap_remove_perm vs _ _ h1 ((swap_remove_perm l hnd v).nodup_iff.mpr (hnd.erase v))

/-- The order of the live pointers does not matter. -/
theorem sound_perm (c : memalloc.settings) (n : Nat) (m : memalloc) (live live2 : List Nat)
    (h : memalloc.sound c n m live) (hp : live2.Perm live) : memalloc.sound c n m live2 :=
  ⟨h.arena, h.free_nodup, h.free_mem, hp.nodup_iff.mpr h.live_nodup,
    fun p => by rw [hp.mem_iff, h.live_mem], h.lru_nodup, fun p => by rw [hp.mem_iff, h.lru_mem]⟩

theorem sound_stress_step (c : memalloc.settings) (n : Nat) (hmeta : 0 < c.META_SIZE)
    (s : memalloc × List Nat) (h : memalloc.sound c n s.1 s.2) (op : stress_op) :
    memalloc.sound c n (stress_step c s op).1 (stress_step c s op).2 := by
  cases op with
  | alloc size =>
    refine sound_perm c n _ _ _ (memalloc.sound_alloc_or_evict c n hmeta s.1 s.2 h size true) ?_
    exact List.Perm.append_right _
      (foldl_swap_remove_perm _ s.2 s.2 (List.Perm.refl _) h.live_nodup)
  | free p =>
    simp only [stress_step]
    split
    · next hp =>
      exact sound_perm c n _ _ _ (memalloc.sound_free c n hmeta s.1 s.2 h p hp)
        (swap_remove_perm s.2 h.live_nodup p)
    · exact h
  | realloc p size =>
    simp only [stress_step]
    split
    · next hp => exact memalloc.sound_realloc_inplace c n hmeta s.1 s.2 h p hp size
    · exact h

theorem sound_stress_run (c : memalloc.settings) (n : Nat) (hmeta : 0 < c.META_SIZE) :
    ∀ (ops : List stress_op) (s : memalloc × List Nat), memalloc.sound c n s.1 s.2 →
      memalloc.sound c n (stress_run c s ops).1 (stress_run c s ops).2
  | [], _, h => h
  | op :: ops, s, h =>
    sound_stress_run c n hmeta ops (stress_step c s op) (sound_stress_step c n hmeta s h op)

theorem sound_free_all (c : memalloc.settings) (n : Nat) (hmeta : 0 < c.META_SIZE)
    (m : memalloc) : ∀ (l keep : List Nat), memalloc.sound c n m (keep ++ l) →
      memalloc.sound c n (free_all c (m, l)) keep
  | [], keep, h => by simpa [free_all] using h
  | p :: l, keep, h => by
    have ih := sound_free_all c n hmeta m l (keep ++ [p]) (by simpa using h)
    have hnd := ih.live_nodup
    have hp : p ∉ keep := by
      intro e
      have := (List.nodup_append.mp hnd).2.2 e (List.mem_singleton_self p)
      exact this
    have := memalloc.sound_free c n hmeta _ _ ih p (by simp)
    rw [List.erase_append_right _ hp] at this
    simpa [free_all] using this

/-- The example run ends with one live pointer between two free blocks, after
two evictions. -/
theorem example_stress_run :
    stress_run example_settings (memalloc.create example_settings 256, []) example_stress =
      (⟨[⟨0, 0, true⟩, ⟨16, 96, false⟩, ⟨128, 16, true⟩, ⟨160, 64, false⟩, ⟨240, 0, true⟩],
        [16, 160], [128]⟩, [128]) := by decide

/-- C26: for every sequence of `alloc_or_evict` (with eviction allowed), `free`
and `realloc_inplace` calls on a freshly constructed memalloc, in which only
live pointers are freed or resized and the evicted pointers are dropped by the
callback, once every live pointer has been freed the allocator is again in its
construction state: one free block covering the whole interior between the two
sentinel blocks, the only entry of the free list, and an empty LRU index. The
arena holds at least the two sentinels and the metadata of one block. -/
theorem stress_restores_construction_state (c : memalloc.settings) (arena_size : Nat)
    (ops : List stress_op) (hmeta : 0 < c.META_SIZE) (hsize : 3 * c.META_SIZE ≤ arena_size) :
    free_all c (stress_run c (memalloc.create c arena_size, []) ops) =
      memalloc.create c arena_size := by
  have h0 := memalloc.sound_create c arena_size hmeta hsize
  have h1 := sound_stress_run c arena_size hmeta ops (memalloc.create c arena_size, []) h0
  have h2 := sound_free_all c arena_size hmeta (stress_run c (memalloc.create c arena_size, []) ops).1
    (stress_run c (memalloc.create c arena_size, []) ops).2 [] (by simpa using h1)
  exact memalloc.sound_unique c arena_size hmeta hsize _ h2

/-- The run of `example_stress` on an arena of 256 bytes, with metadata of 16
bytes: freeing what is live after it gives back the construction state. -/
theorem stress_restores_construction_state_witness :
    0 < example_settings.META_SIZE ∧ 3 * example_settings.META_SIZE ≤ 256 ∧
    free_all example_settings
      (stress_run example_settings (memalloc.create example_settings 256, []) example_stress) =
      memalloc.create example_settings 256 :=
  ⟨by decide, by decide,
   stress_restores_construction_state example_settings 256 example_stress (by decide)
     (by decide)⟩

/-- The model follows `std::realloc` where it is asked for 0 bytes: on the full
buffer `io_buffer(8, 8)`, `ensure_capacity(2 ^ 64 - 8)` computes a new capacity
of 0, and `std::bad_alloc` is thrown. -/
theorem ensure_capacity_bad_alloc :
    (full8.ensure_capacity (2 ^ 64 - 8) : Except (exn Unit) io_buffer) =
      .error (.std_exception bad_alloc_what) ∧
    (io_op.step full8 (.ensure_capacity (2 ^ 64 - 8))).m_data = [] :=
  ⟨rfl, by decide⟩

theorem store_value_no_room {σ : Type} (cache : Cache σ) (cmd : Command) (h : StorageHeader)
    (r : io_buffer) (o : Out σ) (hs : r.sound)
    (hlt : r.non_read < h.datalen + CRLF.length)
    (hsmall : h.datalen + CRLF.length ≤ 2 ^ 62)
    (hroom : r.m_max_size < r.m_write_pos + (h.datalen + CRLF.length - r.non_read)) :
    store_value cache cmd h (r, o) = .throw (.std_exception length_error_what) (r, o) := by
  have hn := io_buffer.sound_non_read hs
  have hsub : size_sub (h.datalen + CRLF.length) r.non_read =
      h.datalen + CRLF.length - r.non_read :=
    size_sub_of_le (le_of_lt hlt) (by have := hs.1.1; have := hs.1.2.1; have := hs.1.2.2; have := hs.2.2; omega)
  have hf := ((ensure_capacity_fails_iff (ε := error) hs
    (a := h.datalen + CRLF.length - r.non_read) (by omega)).1).mpr hroom
  simp only [store_value, if_pos hlt, hsub, hf]

/-- C9, counterexample: room in `recv` for the whole frame is not enough. In
`pipelined_recv`, an `io_buffer(64, 64)`, the first call answers the `incr` with
a `CLIENT_ERROR` line and leaves the read position at 14; the unread bytes are
then a proper prefix of a frame of 58 bytes, but only 31 bytes are free after
the write position and 39 are missing, so the second call fails to grow `recv`:
it replies `SERVER_ERROR` and returns `SEND_REPLY_AND_READ` with the read
position at 30, and not `READ_MORE` with the read position as at entry. -/
theorem incomplete_frame_without_room :
    is_frame example_env long_set_frame ∧
    "set foo 0 0 40\r\nhel".toList <+: long_set_frame ∧
    "set foo 0 0 40\r\nhel".toList ≠ long_set_frame ∧
    long_set_frame.length ≤ pipelined_recv.m_max_size ∧
    (handle_received_data example_env (fixed_cache []) pipelined_recv (buffer_with 256 []) ()).map
      (fun o => (o.reply, o.recv, o.send.written)) =
      some (.SEND_REPLY_AND_READ, { pipelined_recv with m_read_pos := 14 },
        "CLIENT_ERROR Not a number\r\n".toList) ∧
    io_buffer.sound { pipelined_recv with m_read_pos := 14 } ∧
    io_buffer.unread { pipelined_recv with m_read_pos := 14 } = "set foo 0 0 40\r\nhel".toList ∧
    (handle_twice example_env (fixed_cache []) pipelined_recv (buffer_with 256 []) ()).map
      (fun o => (o.reply, o.recv.m_read_pos, o.recv.unread, o.send.written, o.calls)) =
      some (.SEND_REPLY_AND_READ, 30, "hel".toList,
        ("CLIENT_ERROR Not a number\r\n" ++
          "SERVER_ERROR maximal IO buffer capacity exceeded\r\n").toList, []) :=
  ⟨⟨"set foo 0 0 40".toList, "hel".toList ++ List.replicate 37 'l' ++ "\r\n".toList,
    by decide, by decide, by decide⟩, by decide, by decide, by decide, by decide, by decide,
    by decide, by decide⟩

/-- C9, amended: for every request frame and every proper prefix of it held as
the unread data of a well-formed `recv`: if the prefix holds no complete header
line, or the maximal size of `recv` leaves room for the missing bytes after the
write position, `handle_received_data` returns `READ_MORE`, leaves `send` and
the cache untouched, and leaves the read position and the unread bytes of
`recv` as at entry, and when the header line is complete `recv` has afterwards
at least the missing number of bytes available. If the header line is complete
and that room is missing, growing `recv` fails: the call makes no cache call,
appends the `SERVER_ERROR` line of `std::length_error` to a `send` that has room
for it, returns `SEND_REPLY_AND_READ` and leaves the read position of `recv`
just past the header line. -/
theorem incomplete_frame_read_more {σ : Type} (env : Env) (cache : Cache σ)
    (recv_buf send_buf : io_buffer) (cache_state : σ) (frame chunk : bytes)
    (hf : is_frame env frame) (hp : chunk <+: frame) (hne : chunk ≠ frame)
    (hu : recv_buf.unread = chunk) (hs : recv_buf.sound) :
    ((CRLF <:+: chunk →
        recv_buf.m_write_pos + (frame.length - chunk.length) ≤ recv_buf.m_max_size) →
      ∃ out, handle_received_data env cache recv_buf send_buf cache_state = some out ∧
        out.reply = .READ_MORE ∧ out.send = send_buf ∧ out.cache = cache_state ∧
        out.calls = [] ∧ out.recv.m_read_pos = recv_buf.m_read_pos ∧
        out.recv.unread = recv_buf.unread ∧
        (CRLF <:+: chunk → frame.length - chunk.length ≤ out.recv.available)) ∧
    (CRLF <:+: chunk →
      recv_buf.m_max_size < recv_buf.m_write_pos + (frame.length - chunk.length) →
      frame.length ≤ 2 ^ 62 → send_buf.sound →
      send_buf.m_write_pos +
        "SERVER_ERROR maximal IO buffer capacity exceeded\r\n".toList.length ≤
          send_buf.m_max_size →
      ∃ out line part, handle_received_data env cache recv_buf send_buf cache_state = some out ∧
        chunk = line ++ CRLF ++ part ∧ ¬ CRLF <:+: line ∧
        out.reply = .SEND_REPLY_AND_READ ∧
        out.send.written = send_buf.written ++
          "SERVER_ERROR maximal IO buffer capacity exceeded\r\n".toList ∧
        out.cache = cache_state ∧ out.calls = [] ∧
        out.recv.m_read_pos = recv_buf.m_read_pos + (line.length + 2) ∧
        out.recv.m_write_pos = recv_buf.m_write_pos ∧ out.recv.unread = part) := by
  constructor
  · intro hroom
    by_cases hin : CRLF <:+: chunk
    · obtain ⟨out, h1, h2, h3, h4, h5, h6, h7, h8, _⟩ :=
        incomplete_frame_outcome env cache recv_buf send_buf cache_state frame chunk hf hp hne hu
          hs (hroom hin)
      exact ⟨out, h1, h2, h3, h4, h5, h6, h7, h8⟩
    · have hb := handle_body_incomplete env cache recv_buf ⟨send_buf, cache_state, []⟩
        (by rw [hu]; exact hin)
      refine ⟨⟨.READ_MORE, recv_buf, send_buf, cache_state, []⟩, ?_, rfl, rfl, rfl, rfl, rfl, rfl,
        fun h => absurd h hin⟩
      simp only [handle_received_data, hb, io_buffer.read_savepoint, io_buffer.write_savepoint,
        error.is_protocol, Bool.false_eq_true, if_false, rollback_write_self, rollback_read_self]
  · intro hin hroom hsmall hss hsroom
    obtain ⟨line, body, hframe, hno, hbody⟩ := hf
    rw [hframe] at hp
    obtain ⟨part, hchunk, hpart⟩ := chunk_with_line line body chunk hno hp hin
    have hl : holds_line recv_buf line part := ⟨by rw [hu, hchunk], hno⟩
    have hplen : part.length < body.length := by
      rcases Nat.lt_or_ge part.length body.length with h | h
      · exact h
      · exfalso
        apply hne
        rw [hframe, hchunk, List.IsPrefix.eq_of_length_le hpart h]
    obtain ⟨hst, h, hh, hps⟩ := payload_size_pos env line (by omega)
    obtain ⟨s1, u1, n1, p1⟩ := after_line_sound hs hl
    have hC : CRLF.length = 2 := rfl
    have hflen : frame.length = line.length + 2 + body.length := by
      rw [hframe]; simp only [List.length_append, hC]
    have hmiss : frame.length - chunk.length = h.datalen + CRLF.length - part.length := by
      rw [hframe, hchunk]
      simp only [List.length_append]
      omega
    have hr := store_value_no_room cache (parse_command_name (command_name line)) h
      (recv_buf.after_line line.length) ⟨send_buf, cache_state, []⟩ s1 (by rw [n1]; omega)
      (by omega) (by rw [n1, ← hmiss]; exact hroom)
    have hrun : run_command env cache line
        (recv_buf.after_line line.length, ⟨send_buf, cache_state, []⟩) =
        .throw (.std_exception length_error_what)
          (recv_buf.after_line line.length, ⟨send_buf, cache_state, []⟩) := by
      rw [run_command_storage env cache line h _ hst hh, hr]
    obtain ⟨out, e1, e2, e3, e4, _, _, e5, e6⟩ := rejected_line env cache recv_buf send_buf
      cache_state line part (.std_exception length_error_what) hl hrun (by simp) hss hsroom
    refine ⟨out, line, part, e1, hchunk, hno, e2, e4, e5, e6, ?_, ?_, ?_⟩
    · rw [e3]; simp only [recv_after_error]; rw [p1, hC]
    · rw [e3]; rfl
    · rw [e3]; simp only [recv_after_error]; exact u1

/-- C9 at concrete inputs: `set foo 0 0 5\r\nhel` in a buffer with room gives
`READ_MORE` with nothing written and nothing consumed, and room for the four
missing bytes; the second call on `pipelined_recv`, where the room is missing,
gives the `SERVER_ERROR` line. -/
theorem incomplete_frame_read_more_witness :
    (∃ out, handle_received_data example_env (fixed_cache [])
        (buffer_with 64 "set foo 0 0 5\r\nhel".toList) (buffer_with 64 "abc".toList) () =
          some out ∧
      out.reply = .READ_MORE ∧ out.send = buffer_with 64 "abc".toList ∧ out.cache = () ∧
      out.calls = [] ∧
      out.recv.m_read_pos = (buffer_with 64 "set foo 0 0 5\r\nhel".toList).m_read_pos ∧
      out.recv.unread = (buffer_with 64 "set foo 0 0 5\r\nhel".toList).unread ∧
      (CRLF <:+: "set foo 0 0 5\r\nhel".toList →
        "set foo 0 0 5\r\nhello\r\n".toList.length - "set foo 0 0 5\r\nhel".toList.length ≤
          out.recv.available)) ∧
    (∃ out line part, handle_received_data example_env (fixed_cache [])
        { pipelined_recv with m_read_pos := 14 } (buffer_with 256 []) () = some out ∧
      "set foo 0 0 40\r\nhel".toList = line ++ CRLF ++ part ∧ ¬ CRLF <:+: line ∧
      out.reply = .SEND_REPLY_AND_READ ∧
      out.send.written = (buffer_with 256 []).written ++
        "SERVER_ERROR maximal IO buffer capacity exceeded\r\n".toList ∧
      out.cache = () ∧ out.calls = [] ∧
      out.recv.m_read_pos = 14 + (line.length + 2) ∧
      out.recv.m_write_pos = 33 ∧ out.recv.unread = part) :=
  ⟨(incomplete_frame_read_more example_env (fixed_cache [])
      (buffer_with 64 "set foo 0 0 5\r\nhel".toList) (buffer_with 64 "abc".toList) ()
      "set foo 0 0 5\r\nhello\r\n".toList "set foo 0 0 5\r\nhel".toList
      ⟨"set foo 0 0 5".toList, "hello\r\n".toList, by decide, by decide, by decide⟩
      (by decide) (by decide) (by decide) (by decide)).1 (fun _ => by decide),
   (incomplete_frame_read_more example_env (fixed_cache [])
      { pipelined_recv with m_read_pos := 14 } (buffer_with 256 []) ()
      long_set_frame "set foo 0 0 40\r\nhel".toList
      ⟨"set foo 0 0 40".toList, "hel".toList ++ List.replicate 37 'l' ++ "\r\n".toList,
        by decide, by decide, by decide⟩
      (by decide) (by decide) (by decide) (by decide)).2 (by decide) (by decide) (by decide)
      (by decide) (by decide)⟩

/-! ## Lines that end in a space -/

end cachelot
